import Mathlib

/-!
# History-table dominance tests and graph transformations of OptSched

A shallow embedding of `lib/OptSched/hist_table.cpp` (class `HistEnumTreeNode`
and its cost-aware subclass `CostHistEnumTreeNode`), of `graph_trans.cpp` (the
transformations `EquivDectTrans` and `RPOnlyNodeSupTrans`), of
`LLVMDataDepGraph::ConvertLLVMNodes_`, `CountDefs` and `AddDefsAndUses` from
`OptSchedDagWrapper.cpp` and of `LLVMMachineModel` from `OptSchedMachineWrapper.cpp`,
together with theorems about the dominance test, the transformations, the created nodes
and edges, the register types and the register counts.

Modelling conventions.

* `InstCount`, `UDT_GLABEL` and `int` are C++ `int`; they are embedded as `Int`
  (signed overflow is undefined behaviour in C++ and is outside the model).
* Pointers to history records are addresses into a `HistArena`; pointers to
  instructions are instruction handles resolved by the data-dependence graph.
  `NULL` is `none`.
* A function that dereferences `NULL`, follows a dangling address or indexes an
  array outside the part the code allocates or initialises has no defined
  result; such a run is `none`.  A defined run returning `b` is `some b`.
* `assert`s are compiled out (release build); they are stated as hypotheses or
  conclusions of theorems where they matter.
* Scratch arrays owned by the enumerator (`lastInsts_`, `tmpLwrBounds_`,
  `histInstsPerType_`, `histNxtAvlblCycles_`) are allocated outside these sources;
  they are taken to be large enough for what a call writes, and a call yields the
  part of the array it has initialised.
* Statistics counters and logging are not part of the state.
* A `std::list` is a list, its iterators are positions in it and `end()` is its
  length; a loop without a bound known beforehand takes fuel, and the theorems
  show that the fuel given is enough.
* The graph transformations and `ConvertLLVMNodes_` return, next to the graph,
  the calls of `CreateEdge` they made, in order.
-/

namespace OptSched

/-! ## Data model -/

/-- Dependence kinds of a DDG edge. -/
inductive DependenceType where
  | DEP_DATA
  | DEP_ANTI
  | DEP_OUTPUT
  | DEP_OTHER
  deriving DecidableEq, Repr

/-- Mode of the candidate in `DoesDominate_`: an active tree node or a history record. -/
inductive ENUMTREE_NODEMODE where
  | ETN_ACTIVE
  | ETN_HISTORY
  deriving DecidableEq, Repr

/-- Modelled from the spec: the enumeration `SPILL_COST_FUNCTION` is declared in a header
that is not part of the sources; the spec lists the spill-cost functions
`PERP`, `SUM`, `PEAK`, `PEAK_PLUS_AVG`. -/
inductive SPILL_COST_FUNCTION where
  | SCF_PERP
  | SCF_SUM
  | SCF_PEAK
  | SCF_PEAK_PLUS_AVG
  deriving DecidableEq, Repr

/-- A reserved slot: the cycle range blocked by an unpipelined instruction. -/
structure ReserveSlot where
  strtCycle : Int
  endCycle : Int
  deriving DecidableEq, Repr

/-- Modelled from the spec: the class `BitVector` is not part of the sources; it is a
vector of bits over `[0, N)`.  `GetSize` is the length, `GetBit(i)` the entry `i`. -/
abbrev BitVector := List Bool

/-- Modelled from the spec: a register is identified by its type and its index within the
type; `Register*` values are compared by this identity and `GetType` returns the type. -/
structure Register where
  type : Nat
  num : Nat
  deriving DecidableEq, Repr

/-- The part of `SchedInstruction` (and of its base class `GraphNode`) read by the history
table and by the graph transformations.  `scsrs` is the successor list traversed by
`GetFrstScsr`/`GetNxtScsr` (successor handle, latency, dependence kind) and `prdcsrs` the
predecessor list; `isSchduld` is the mutable scheduled flag at the moment of the query;
`rcrsvPrdcsrs` and `rcrsvScsrs` are the bit vectors returned by
`GetRcrsvNghbrBitVector(DIR_BKWRD)` and `GetRcrsvNghbrBitVector(DIR_FRWRD)`, indexed by
instruction index; `uses` and `defs` are the arrays returned by `GetUses` and `GetDefs`. -/
structure SchedInstruction where
  num : Nat
  issuType : Nat
  frwrdLwrBound : Int
  scsrs : List (Nat × Int × DependenceType)
  isSchduld : Bool
  prdcsrs : List (Nat × Int × DependenceType) := []
  rcrsvPrdcsrs : BitVector := []
  rcrsvScsrs : BitVector := []
  uses : List Register := []
  defs : List Register := []

/-- One issue type of the machine model. -/
structure IssueTypeInfo where
  slotsCount : Int
  deriving DecidableEq, Repr

/-- The part of `MachineModel` read by the history table.  The accessors `GetIssueRate`,
`GetIssueTypeCnt` and `GetSlotsPerCycle(t)` have their bodies outside the sources; they are
taken to return the members `issueRate_`, `issueTypes_.size()` and
`issueTypes_[t].slotsCount`. -/
structure MachineModel where
  issueRate_ : Int
  issueTypes_ : List IssueTypeInfo

/-- The part of `DataDepGraph` read by the history table and by the graph transformations:
the instruction behind each instruction handle (`GetInstByIndx`), the maximum edge latency
(`GetMaxLtncy`), the instruction count (`GetInstCnt`) and the number of register types
(`GetRegTypeCnt`). -/
structure DataDepGraph where
  insts : Nat → SchedInstruction
  maxLtncy : Int
  instCnt : Int := 0
  regTypeCnt : Int := 0

/-- The part of `Enumerator` read by the history table.  `GetCycleNumFrmTime_` is a member
function whose body is outside the sources and `INVALID_VALUE` a header constant whose
value is outside the sources; both are carried as parameters.  `spillCostFunc` is what
`LengthCostEnumerator::GetSpillCostFunc` returns. -/
structure Enumerator where
  issuRate_ : Int
  totInstCnt_ : Int
  machMdl_ : MachineModel
  dataDepGraph_ : DataDepGraph
  GetCycleNumFrmTime_ : Int → Int
  INVALID_VALUE : Int
  spillCostFunc : SPILL_COST_FUNCTION

/-- Fields of `HistEnumTreeNode`. -/
structure HistEnumTreeNode where
  time_ : Int
  inst_ : Option Nat
  prevNode_ : Option Nat
  crntCycleBlkd_ : Bool
  rsrvSlots_ : Option (List ReserveSlot)

/-- Fields of `CostHistEnumTreeNode`, a subclass of `HistEnumTreeNode`. -/
structure CostHistEnumTreeNode extends HistEnumTreeNode where
  cost_ : Int
  peakSpillCost_ : Int
  spillCostSum_ : Int
  isLngthFsbl_ : Bool

/-- The arena of history records; a record pointer is an index into it.  The arena stores
the fields of the subclass; a plain `HistEnumTreeNode` is a record whose cost fields are
never read. -/
abbrev HistArena := List CostHistEnumTreeNode

/-- The part of `EnumTreeNode` read by the history table. -/
structure EnumTreeNode where
  time_ : Int
  inst_ : Option Nat
  prevNode_ : Option Nat
  crntCycleBlkd_ : Bool
  rsrvSlots_ : Option (List ReserveSlot)
  frwrdLwrBounds_ : List Int
  cost_ : Int
  peakSpillCost_ : Int
  spillCostSum_ : Int
  isLngthFsbl_ : Bool
  hstry_ : Option Nat
  enumrtr_ : Enumerator

/-! ## `HistEnumTreeNode` -/

/-- Embedding of `HistEnumTreeNode::GetMinTimeToExmn_`. -/
def GetMinTimeToExmn_ (nodeTime : Int) (enumrtr : Enumerator) : Int :=
  let issuRate := enumrtr.issuRate_
  let maxLtncy := enumrtr.dataDepGraph_.maxLtncy
  let crntCycleNum := enumrtr.GetCycleNumFrmTime_ nodeTime
  let nxtCycleNum := crntCycleNum + 1
  let minCycleNumToExmn := max (nxtCycleNum - maxLtncy) 0
  let minTimeToExmn := minCycleNumToExmn * issuRate + 1
  minTimeToExmn

/-- The loop of `SetLastInsts_`: `cnt` iterations remain and `crntNode` is the cursor.
Each iteration reads `crntNode->inst_` and moves to `crntNode->prevNode_`. -/
def SetLastInsts_loop (arena : HistArena) : Nat → Option Nat → Option (List (Option Nat))
  | 0, _ => some []
  | _ + 1, none => none
  | cnt + 1, some p =>
    match arena[p]? with
    | none => none
    | some c =>
      match SetLastInsts_loop arena cnt c.prevNode_ with
      | none => none
      | some rest => some (c.inst_ :: rest)

/-- Embedding of `HistEnumTreeNode::SetLastInsts_`: the loop runs while
`time >= minTimeToExmn`, with `time` counting down from `thisTime`.  The result is the
filled part of `lastInsts`; its length is the returned entry count. -/
def SetLastInsts_ (arena : HistArena) (this : Nat) (thisTime minTimeToExmn : Int) :
    Option (List (Option Nat)) :=
  SetLastInsts_loop arena (thisTime - minTimeToExmn + 1).toNat (some this)

/-- The successor loop of `SetLwrBounds_` for one instruction issued in cycle `cycleNum`. -/
def SetLwrBounds_scsrLoop (ddg : DataDepGraph) (cycleNum : Int) :
    List (Nat × Int × DependenceType) → List Int → Option (List Int)
  | [], lwrBounds => some lwrBounds
  | (s, ltncy, _) :: rest, lwrBounds =>
    let scsr := ddg.insts s
    if scsr.isSchduld = false then
      let num := scsr.num
      let thisBound := cycleNum + ltncy
      match lwrBounds[num]? with
      | none => none
      | some old =>
        if thisBound > old then
          SetLwrBounds_scsrLoop ddg cycleNum rest (lwrBounds.set num thisBound)
        else SetLwrBounds_scsrLoop ddg cycleNum rest lwrBounds
    else SetLwrBounds_scsrLoop ddg cycleNum rest lwrBounds

/-- The entry loop of `SetLwrBounds_`; `time` is `thisTime - indx`. -/
def SetLwrBounds_loop (enumrtr : Enumerator) :
    Int → List (Option Nat) → List Int → Option (List Int)
  | _, [], lwrBounds => some lwrBounds
  | time, inst :: rest, lwrBounds =>
    let cycleNum := enumrtr.GetCycleNumFrmTime_ time
    match inst with
    | none => SetLwrBounds_loop enumrtr (time - 1) rest lwrBounds
    | some i =>
      let ins := enumrtr.dataDepGraph_.insts i
      if cycleNum > ins.frwrdLwrBound then
        match SetLwrBounds_scsrLoop enumrtr.dataDepGraph_ cycleNum ins.scsrs lwrBounds with
        | none => none
        | some lwrBounds1 => SetLwrBounds_loop enumrtr (time - 1) rest lwrBounds1
      else SetLwrBounds_loop enumrtr (time - 1) rest lwrBounds

/-- Embedding of `HistEnumTreeNode::SetLwrBounds_`: the lower bounds that the examined part
of the record's partial schedule imposes on unscheduled successors (entries
`0 .. totInstCnt_-1`). -/
def SetLwrBounds_ (arena : HistArena) (this : Nat) (thisTime minTimeToExmn : Int)
    (enumrtr : Enumerator) : Option (List Int) :=
  let instCnt := enumrtr.totInstCnt_
  let lwrBounds := List.replicate instCnt.toNat (0 : Int)
  match SetLastInsts_ arena this thisTime minTimeToExmn with
  | none => none
  | some lastInsts => SetLwrBounds_loop enumrtr thisTime lastInsts lwrBounds

/-- The walk of `CmputNxtAvlblCycles_`.  The loop test is
`crntNode != NULL && cycleNum == crntCycle`; the body reads `crntNode->inst_`, sets
`cycleNum` to the cycle of `time`, and counts the instruction.  `fuel` bounds the number of
body executions. -/
def CmputNxtAvlblCycles_loop (arena : HistArena) (enumrtr : Enumerator) (crntCycle : Int) :
    Nat → Option Nat → Int → Int → List Int → List Int → Option (List Int × List Int)
  | _, none, _, _, instsPerType, nxtAvlblCycles => some (instsPerType, nxtAvlblCycles)
  | fuel, some p, time, cycleNum, instsPerType, nxtAvlblCycles =>
    if cycleNum ≠ crntCycle then some (instsPerType, nxtAvlblCycles)
    else
      match fuel with
      | 0 => none
      | fuel1 + 1 =>
        match arena[p]? with
        | none => none
        | some c =>
          let cycleNum1 := enumrtr.GetCycleNumFrmTime_ time
          match c.inst_ with
          | none =>
            CmputNxtAvlblCycles_loop arena enumrtr crntCycle fuel1 c.prevNode_ (time - 1)
              cycleNum1 instsPerType nxtAvlblCycles
          | some i =>
            let issuType := (enumrtr.dataDepGraph_.insts i).issuType
            match instsPerType[issuType]?, enumrtr.machMdl_.issueTypes_[issuType]? with
            | some cnt, some info =>
              let instsPerType1 := instsPerType.set issuType (cnt + 1)
              let nxtAvlblCycles1 :=
                if cnt + 1 = info.slotsCount then nxtAvlblCycles.set issuType (crntCycle + 1)
                else nxtAvlblCycles
              CmputNxtAvlblCycles_loop arena enumrtr crntCycle fuel1 c.prevNode_ (time - 1)
                cycleNum1 instsPerType1 nxtAvlblCycles1
            | _, _ => none

/-- Embedding of `HistEnumTreeNode::CmputNxtAvlblCycles_`: returns
`(instsPerType, nxtAvlblCycles)`.  The walk follows `prevNode_` links through the arena, so
`arena.length` body executions suffice on every chain that does not loop. -/
def CmputNxtAvlblCycles_ (arena : HistArena) (this : Nat) (enumrtr : Enumerator) :
    Option (List Int × List Int) :=
  match arena[this]? with
  | none => none
  | some self =>
    let thisTime := self.time_
    let crntCycle := enumrtr.GetCycleNumFrmTime_ thisTime
    let issuTypeCnt := enumrtr.machMdl_.issueTypes_.length
    CmputNxtAvlblCycles_loop arena enumrtr crntCycle arena.length (some this) thisTime crntCycle
      (List.replicate issuTypeCnt 0) (List.replicate issuTypeCnt crntCycle)

/-- The reserved-slot loop of `DoesDominate_` over the slot indices `0 .. issuRate-1`:
`some false` is `return false`, `some true` is falling out of the loop. -/
def DoesDominate_rsrvLoop (INVALID_VALUE : Int) (hs ns : List ReserveSlot) :
    List Nat → Option Bool
  | [] => some true
  | i :: rest =>
    match hs[i]? with
    | none => none
    | some h =>
      if h.strtCycle ≠ INVALID_VALUE then
        match ns[i]? with
        | none => none
        | some n =>
          if n.strtCycle = INVALID_VALUE ∨ h.endCycle > n.endCycle then some false
          else DoesDominate_rsrvLoop INVALID_VALUE hs ns rest
      else DoesDominate_rsrvLoop INVALID_VALUE hs ns rest

/-- The reserved-slot test of `DoesDominate_` (the block guarded by `rsrvSlots_ != NULL`).
It reads `node->rsrvSlots_` whatever the mode is. -/
def DoesDominate_rsrvSlots (self : HistEnumTreeNode) (node : Option EnumTreeNode)
    (enumrtr : Enumerator) : Option Bool :=
  match self.rsrvSlots_ with
  | none => some true
  | some hs =>
    match node with
    | none => none
    | some n =>
      match n.rsrvSlots_ with
      | none => some false
      | some ns =>
        let issuRate := n.enumrtr_.machMdl_.issueRate_
        DoesDominate_rsrvLoop enumrtr.INVALID_VALUE hs ns (List.range issuRate.toNat)

/-- The successor loop of `DoesDominate_` for one instruction issued in cycle `cycleNum`:
`some false` is `return false`, `some true` is falling out of the loop. -/
def DoesDominate_scsrLoop (ddg : DataDepGraph) (nxtAvlblCycles othrLwrBounds : List Int)
    (cycleNum shft : Int) : List (Nat × Int × DependenceType) → Option Bool
  | [] => some true
  | (s, ltncy, _) :: rest =>
    let scsr := ddg.insts s
    if scsr.isSchduld = false then
      match nxtAvlblCycles[scsr.issuType]? with
      | none => none
      | some nxtAvlblCycle =>
        let num := scsr.num
        let thisBound := max (cycleNum + ltncy) nxtAvlblCycle
        let sttcBound := scsr.frwrdLwrBound
        let normBound := max sttcBound nxtAvlblCycle
        if thisBound > normBound ∨ shft > 0 then
          match othrLwrBounds[num]? with
          | none => none
          | some othrBound =>
            if thisBound + shft > othrBound then some false
            else DoesDominate_scsrLoop ddg nxtAvlblCycles othrLwrBounds cycleNum shft rest
        else DoesDominate_scsrLoop ddg nxtAvlblCycles othrLwrBounds cycleNum shft rest
    else DoesDominate_scsrLoop ddg nxtAvlblCycles othrLwrBounds cycleNum shft rest

/-- The entry loop of `DoesDominate_`; `time` is `thisTime - indx`. -/
def DoesDominate_loop (enumrtr : Enumerator) (nxtAvlblCycles othrLwrBounds : List Int)
    (shft : Int) : Int → List (Option Nat) → Option Bool
  | _, [] => some true
  | time, inst :: rest =>
    let cycleNum := enumrtr.GetCycleNumFrmTime_ time
    match inst with
    | none => DoesDominate_loop enumrtr nxtAvlblCycles othrLwrBounds shft (time - 1) rest
    | some i =>
      let ins := enumrtr.dataDepGraph_.insts i
      if cycleNum > ins.frwrdLwrBound ∨ shft > 0 then
        match DoesDominate_scsrLoop enumrtr.dataDepGraph_ nxtAvlblCycles othrLwrBounds
            cycleNum shft ins.scsrs with
        | none => none
        | some false => some false
        | some true =>
          DoesDominate_loop enumrtr nxtAvlblCycles othrLwrBounds shft (time - 1) rest
      else DoesDominate_loop enumrtr nxtAvlblCycles othrLwrBounds shft (time - 1) rest

/-- The last part of `DoesDominate_` (from `GetMinTimeToExmn_` to the final `return true`):
the lower-bound test over the examined part of the record's partial schedule. -/
def DoesDominate_lwrBounds (arena : HistArena) (this : Nat) (node : Option EnumTreeNode)
    (othrHstry : Option Nat) (enumrtr : Enumerator) (shft thisTime othrTime : Int) :
    Option Bool :=
  let minTimeToExmn := GetMinTimeToExmn_ thisTime enumrtr
  match SetLastInsts_ arena this thisTime minTimeToExmn with
  | none => none
  | some lastInsts =>
    let othrLwrBounds : Option (List Int) :=
      match othrHstry with
      | some o => SetLwrBounds_ arena o othrTime minTimeToExmn enumrtr
      | none => node.map fun n => n.frwrdLwrBounds_
    match othrLwrBounds with
    | none => none
    | some othrLwrBounds =>
      match CmputNxtAvlblCycles_ arena this enumrtr with
      | none => none
      | some (_, nxtAvlblCycles) =>
        DoesDominate_loop enumrtr nxtAvlblCycles othrLwrBounds shft thisTime lastInsts

/-- Embedding of `HistEnumTreeNode::DoesDominate_`.  `this` is the address of the history
record that is the candidate dominant; the other node is `node` (mode `ETN_ACTIVE`) or the
record at `othrHstry` (mode `ETN_HISTORY`). -/
def DoesDominate_ (arena : HistArena) (this : Nat) (node : Option EnumTreeNode)
    (othrHstry : Option Nat) (mode : ENUMTREE_NODEMODE) (enumrtr : Enumerator)
    (shft : Int) : Option Bool :=
  match arena[this]? with
  | none => none
  | some self =>
    let thisTime := self.time_
    let othr : Option (Int × Bool) :=
      match mode with
      | .ETN_ACTIVE => node.map fun n => (n.time_, n.crntCycleBlkd_)
      | .ETN_HISTORY =>
        (othrHstry.bind fun o => arena[o]?).map fun o => (o.time_, o.crntCycleBlkd_)
    match othr with
    | none => none
    | some (othrTime, othrCrntCycleBlkd) =>
      if thisTime > othrTime then some false
      else if othrCrntCycleBlkd ≠ self.crntCycleBlkd_ then some false
      else
        match DoesDominate_rsrvSlots self.toHistEnumTreeNode node enumrtr with
        | none => none
        | some false => some false
        | some true =>
          DoesDominate_lwrBounds arena this node othrHstry enumrtr shft thisTime othrTime

/-- Embedding of `HistEnumTreeNode::DoesDominate`. -/
def DoesDominate (arena : HistArena) (this : Nat) (node : EnumTreeNode)
    (enumrtr : Enumerator) : Option Bool :=
  let shft : Int := 0
  DoesDominate_ arena this (some node) none .ETN_ACTIVE enumrtr shft

/-- Embedding of `HistEnumTreeNode::IsDominated`: `this` is the record asked about and the
candidate dominant is the history record of `node`. -/
def IsDominated (arena : HistArena) (this : Nat) (node : EnumTreeNode)
    (enumrtr : Enumerator) : Option Bool :=
  let shft : Int := 0
  match node.hstry_ with
  | none => none
  | some h => DoesDominate_ arena h none (some this) .ETN_HISTORY enumrtr shft

/-! ## `CostHistEnumTreeNode` -/

/-- Embedding of `CostHistEnumTreeNode::ChkCostDmntnForBBSpill_`.  `%` on `int` is the C++
remainder (truncating division, `Int.tmod`); a zero divisor has no defined result. -/
def ChkCostDmntnForBBSpill_ (self : CostHistEnumTreeNode) (node : EnumTreeNode)
    (en : Enumerator) : Option Bool :=
  if self.time_ > node.time_ then some false
  else if self.cost_ > node.cost_ then some false
  else
    let spillCostFunc := en.spillCostFunc
    let instCnt := en.totInstCnt_
    if spillCostFunc = .SCF_PEAK_PLUS_AVG ∧ self.cost_ = node.cost_ then
      if instCnt = 0 then none
      else if Int.tmod self.spillCostSum_ instCnt > Int.tmod node.spillCostSum_ instCnt then
        some false
      else some true
    else some true

/-- Embedding of `CostHistEnumTreeNode::ChkCostDmntn_`. -/
def ChkCostDmntn_ (self : CostHistEnumTreeNode) (node : EnumTreeNode) (enumrtr : Enumerator)
    (_maxShft : Int) : Option Bool :=
  ChkCostDmntnForBBSpill_ self node enumrtr

/-- Embedding of `CostHistEnumTreeNode::DoesDominate`. -/
def CostHistEnumTreeNode.DoesDominate (arena : HistArena) (this : Nat) (node : EnumTreeNode)
    (enumrtr : Enumerator) : Option Bool :=
  let shft : Int := 0
  match DoesDominate_ arena this (some node) none .ETN_ACTIVE enumrtr shft with
  | none => none
  | some false => some false
  | some true =>
    match arena[this]? with
    | none => none
    | some self =>
      if self.isLngthFsbl_ = false then some true
      else ChkCostDmntn_ self node enumrtr shft

/-! ## `HistEnumTreeNode`: matching and re-parenting -/

/-- The walk of `SetInstsSchduld_` down the `prevNode_` links until `NULL`; `fuel` bounds
the number of records visited.  `SetBit` outside the vector has no defined result. -/
def SetInstsSchduld_loop (arena : HistArena) (ddg : DataDepGraph) :
    Nat → Option Nat → BitVector → Option BitVector
  | _, none, instsSchduld => some instsSchduld
  | 0, some _, _ => none
  | fuel + 1, some p, instsSchduld =>
    match arena[p]? with
    | none => none
    | some c =>
      match c.inst_ with
      | none => SetInstsSchduld_loop arena ddg fuel c.prevNode_ instsSchduld
      | some i =>
        let num := (ddg.insts i).num
        if num < instsSchduld.length then
          SetInstsSchduld_loop arena ddg fuel c.prevNode_ (instsSchduld.set num true)
        else none

/-- Embedding of `HistEnumTreeNode::SetInstsSchduld_`: `Reset` clears the vector, then the
bit of every instruction on the chain is set.  The walk follows `prevNode_` links through
the arena, so `arena.length` records suffice on every chain that does not loop. -/
def SetInstsSchduld_ (arena : HistArena) (this : Nat) (ddg : DataDepGraph)
    (instsSchduld : BitVector) : Option BitVector :=
  SetInstsSchduld_loop arena ddg arena.length (some this)
    (List.replicate instsSchduld.length false)

/-- Embedding of `HistEnumTreeNode::DoesMatch`.  The scratch vectors `bitVctr1_` and
`bitVctr2_` of the enumerator are allocated outside the sources; they are taken to have
one bit per instruction (`totInstCnt_`). -/
def DoesMatch (arena : HistArena) (this : Nat) (node : EnumTreeNode) (enumrtr : Enumerator) :
    Option Bool :=
  let bitVctr1_ : BitVector := List.replicate enumrtr.totInstCnt_.toNat false
  let bitVctr2_ : BitVector := List.replicate enumrtr.totInstCnt_.toNat false
  match SetInstsSchduld_ arena this enumrtr.dataDepGraph_ bitVctr1_ with
  | none => none
  | some instsSchduld =>
    match node.hstry_ with
    | none => none
    | some h =>
      match SetInstsSchduld_ arena h enumrtr.dataDepGraph_ bitVctr2_ with
      | none => none
      | some othrInstsSchduld => some (decide (othrInstsSchduld = instsSchduld))

/-- Embedding of `HistEnumTreeNode::ReplaceParent`: the record at `this` gets the time of
the record at `newParent` plus one and `newParent` as its `prevNode_`; the result is the
arena after the call. -/
def ReplaceParent (arena : HistArena) (this newParent : Nat) : Option HistArena :=
  match arena[this]?, arena[newParent]? with
  | some self, some p =>
    some (arena.set this { self with time_ := p.time_ + 1, prevNode_ := some newParent })
  | _, _ => none

/-! ## `GraphTrans::CreateGraphTrans` -/

/-- The values of the enumeration `TRANS_TYPE`, whose declaration is outside the sources:
the two enumerators named in `CreateGraphTrans`, and `other id` for any value that is
neither of them. -/
inductive TRANS_TYPE where
  | TT_EQDECT
  | TT_RPONSP
  | other (id : Int)
  deriving DecidableEq, Repr

/-- The subclass of `GraphTrans` that a created transformation object has. -/
inductive GraphTransClass where
  | EquivDectTrans
  | RPOnlyNodeSupTrans
  deriving DecidableEq, Repr

/-- What a call that has to produce a transformation can do according to the spec: hand
back a transformation, or reject the request with an error kind. -/
inductive CreateOutcome where
  | created (t : GraphTransClass)
  | rejected (err : String)
  deriving DecidableEq, Repr

/-- Embedding of `GraphTrans::CreateGraphTrans`.  The `switch` has the two cases below and
no `default`; for any other value control reaches the end of the function without a
`return`, which has no defined result. -/
def CreateGraphTrans (type : TRANS_TYPE) : Option CreateOutcome :=
  match type with
  | .TT_EQDECT => some (.created .EquivDectTrans)
  | .TT_RPONSP => some (.created .RPOnlyNodeSupTrans)
  | .other _ => none

/-! ## Graph transformations (`graph_trans.cpp`) -/

/-- Modelled from the spec: `BitVector::GetBit` is not part of the sources; it reads bit
`i` of the vector (bits outside the vector read as unset). -/
def GetBit (v : BitVector) (i : Nat) : Bool := v.getD i false

/-- Modelled from the spec: `BitVector::IsSubVector` is not part of the sources;
`a->IsSubVector(b)` holds when every bit set in `a` is set in `b` (the set of `a` is a
subset of the set of `b`). -/
def IsSubVector (a b : BitVector) : Bool :=
  (List.range a.length).all fun i => !GetBit a i || GetBit b i

/-- Modelled from the spec: `GraphNode::IsRcrsvPrdcsr` is not part of the sources;
`inst->IsRcrsvPrdcsr(node)` tells whether `node` is a recursive predecessor of `inst`, read
from the recursive-predecessor bit vector of `inst`. -/
def IsRcrsvPrdcsr (g : DataDepGraph) (inst node : Nat) : Bool :=
  GetBit (g.insts inst).rcrsvPrdcsrs node

/-- Modelled from the spec: `GraphNode::IsRcrsvScsr` is not part of the sources;
`inst->IsRcrsvScsr(node)` tells whether `node` is a recursive successor of `inst`, read
from the recursive-successor bit vector of `inst`. -/
def IsRcrsvScsr (g : DataDepGraph) (inst node : Nat) : Bool :=
  GetBit (g.insts inst).rcrsvScsrs node

/-- Modelled from the spec: two neighbour lists are the same set by edge-equivalence when
every edge of one has an edge of the other with the same neighbour and the same latency. -/
def sameNghbrSet (l1 l2 : List (Nat × Int × DependenceType)) : Bool :=
  (l1.all fun e => l2.any fun f => decide (f.1 = e.1 ∧ f.2.1 = e.2.1)) &&
  (l2.all fun e => l1.any fun f => decide (f.1 = e.1 ∧ f.2.1 = e.2.1))

/-- Modelled from the spec: `GraphNode::IsScsrEquvlnt` is not part of the sources; two
instructions have the same successor set by edge-equivalence. -/
def IsScsrEquvlnt (g : DataDepGraph) (inst othr : Nat) : Bool :=
  sameNghbrSet (g.insts inst).scsrs (g.insts othr).scsrs

/-- Modelled from the spec: `GraphNode::IsPrdcsrEquvlnt` is not part of the sources; two
instructions have the same predecessor set by edge-equivalence. -/
def IsPrdcsrEquvlnt (g : DataDepGraph) (inst othr : Nat) : Bool :=
  sameNghbrSet (g.insts inst).prdcsrs (g.insts othr).prdcsrs

/-- Modelled from the spec: the update of a recursive-neighbour vector made by `CreateEdge`,
the vector `v` with the bit `extra` and the bits of `w` added. -/
def addNghbrs (v w : BitVector) (extra : Nat) : BitVector :=
  (List.range v.length).map fun y => GetBit v y || decide (y = extra) || GetBit w y

/-- Modelled from the spec: `DataDepGraph::CreateEdge` is not part of the sources.  It adds
the edge to the successor list of `frm` and to the predecessor list of `toNum`, and it keeps
the recursive bit vectors the transitive closure of the edges: `toNum` and its recursive
successors become recursive successors of `frm` and of every recursive predecessor of
`frm`, and `frm` and its recursive predecessors become recursive predecessors of `toNum` and
of every recursive successor of `toNum`.  Instruction counts, issue types and registers do
not change. -/
def CreateEdge (g : DataDepGraph) (frm toNum : Nat) (ltncy : Int) (depType : DependenceType) :
    DataDepGraph :=
  { g with
    insts := fun x =>
      { g.insts x with
        scsrs :=
          if x = frm then (g.insts x).scsrs ++ [(toNum, ltncy, depType)] else (g.insts x).scsrs
        prdcsrs :=
          if x = toNum then (g.insts x).prdcsrs ++ [(frm, ltncy, depType)]
          else (g.insts x).prdcsrs
        rcrsvScsrs :=
          if x = frm ∨ IsRcrsvPrdcsr g frm x = true then
            addNghbrs (g.insts x).rcrsvScsrs (g.insts toNum).rcrsvScsrs toNum
          else (g.insts x).rcrsvScsrs
        rcrsvPrdcsrs :=
          if x = toNum ∨ IsRcrsvScsr g toNum x = true then
            addNghbrs (g.insts x).rcrsvPrdcsrs (g.insts frm).rcrsvPrdcsrs frm
          else (g.insts x).rcrsvPrdcsrs } }

/-- Embedding of `GraphTrans::AreNodesIndep_`. -/
def AreNodesIndep_ (g : DataDepGraph) (inst1 inst2 : Nat) : Bool :=
  if !IsRcrsvPrdcsr g inst1 inst2 && !IsRcrsvScsr g inst1 inst2 then true else false

/-- Embedding of `EquivDectTrans::NodesAreEquiv_`. -/
def NodesAreEquiv_ (g : DataDepGraph) (srcInst dstInst : Nat) : Bool :=
  if (g.insts srcInst).issuType ≠ (g.insts dstInst).issuType then false
  else if !IsScsrEquvlnt g srcInst dstInst || !IsPrdcsrEquvlnt g srcInst dstInst then false
  else true

/-- The inner `while (next != nodes.end())` loop of `EquivDectTrans::ApplyTrans`.  The
`std::list` is a list, its iterators are positions and `end()` is the length.
`nodes.erase(start)` removes the element at `start`; the element `next` points to then sits
one position lower when it was behind `start`.  The result is the list, the position of
`start` and `edgesToAdd` when `next` reaches the end; `fuel` bounds the iterations. -/
def EquivDectTrans.scanLoop (g : DataDepGraph) :
    Nat → List Nat → Nat → Nat → List (Nat × Nat) →
      Option (List Nat × Nat × List (Nat × Nat))
  | 0, nodes, start, next, edgesToAdd =>
    if next = nodes.length then some (nodes, start, edgesToAdd) else none
  | fuel + 1, nodes, start, next, edgesToAdd =>
    if next = nodes.length then some (nodes, start, edgesToAdd)
    else
      match nodes[start]?, nodes[next]? with
      | some s, some d =>
        if NodesAreEquiv_ g s d then
          if start = next then none
          else
            let nextPos := if start < next then next - 1 else next
            EquivDectTrans.scanLoop g fuel (nodes.eraseIdx start) nextPos (nextPos + 1)
              (edgesToAdd ++ [(s, d)])
        else EquivDectTrans.scanLoop g fuel nodes start (next + 1) edgesToAdd
      | _, _ => none

/-- The `for` loop of `EquivDectTrans::ApplyTrans` that creates the edges of `edgesToAdd`. -/
def EquivDectTrans.addEdges (g : DataDepGraph) (edgesToAdd : List (Nat × Nat)) : DataDepGraph :=
  edgesToAdd.foldl (fun g1 e => CreateEdge g1 e.1 e.2 0 .DEP_OTHER) g

/-- The outer `while (start != nodes.end())` loop of `EquivDectTrans::ApplyTrans`.
`created` collects the pairs passed to `CreateEdge`, in order; `fuel` bounds the
iterations.  Incrementing an iterator that is at the end has no defined result. -/
def EquivDectTrans.mainLoop :
    Nat → DataDepGraph → List Nat → Nat → Nat → List (Nat × Nat) →
      Option (DataDepGraph × List (Nat × Nat))
  | 0, g, nodes, start, _, created =>
    if start = nodes.length then some (g, created) else none
  | fuel + 1, g, nodes, start, next, created =>
    if start = nodes.length then some (g, created)
    else if nodes.length ≤ next then none
    else
      match EquivDectTrans.scanLoop g nodes.length nodes start (next + 1) [] with
      | none => none
      | some (nodes1, start1, edgesToAdd) =>
        let g1 := EquivDectTrans.addEdges g edgesToAdd
        if nodes1.length ≤ start1 then none
        else
          EquivDectTrans.mainLoop fuel g1 nodes1 (start1 + 1) (start1 + 1)
            (created ++ edgesToAdd)

/-- Embedding of `EquivDectTrans::ApplyTrans`: the graph after the transformation and the
pairs `(from, to)` for which `CreateEdge(from, to, 0, DEP_OTHER)` was called, in order. -/
def EquivDectTrans.ApplyTrans (g : DataDepGraph) : Option (DataDepGraph × List (Nat × Nat)) :=
  let numNodes := g.instCnt.toNat
  let nodes := List.range numNodes
  EquivDectTrans.mainLoop (numNodes + 1) g nodes 0 0 []

/-- The first loop of `NodeIsSuperior_`: the registers of `usesB` that are not in `usesA`. -/
def RPOnlyNodeSupTrans.usesOnlyB (usesA usesB : List Register) : List Register :=
  usesB.filter fun useB => !(usesA.any fun useA => decide (useA = useB))

/-- The loop over the uses of one instruction `C` in `NodeIsSuperior_`: every register of
`usesOnlyB` that `C` uses is erased. -/
def RPOnlyNodeSupTrans.eraseUsedBy (usesC : List Register) (usesOnlyB : List Register) :
    List Register :=
  usesC.foldl (fun acc regC => acc.filter fun reg => !decide (reg = regC)) usesOnlyB

/-- The loop of `NodeIsSuperior_` over the bits `i` of `succsB`: it stops when `usesOnlyB`
is empty, and for every set bit erases the registers used by instruction `i`. -/
def RPOnlyNodeSupTrans.userLoop (g : DataDepGraph) (succsB : BitVector) :
    List Nat → List Register → List Register
  | [], usesOnlyB => usesOnlyB
  | i :: rest, usesOnlyB =>
    if usesOnlyB.length = 0 then usesOnlyB
    else if GetBit succsB i then
      RPOnlyNodeSupTrans.userLoop g succsB rest
        (RPOnlyNodeSupTrans.eraseUsedBy (g.insts i).uses usesOnlyB)
    else RPOnlyNodeSupTrans.userLoop g succsB rest usesOnlyB

/-- The counting loops of `NodeIsSuperior_`: `regTypeDefs[def->GetType()]++` for every
definition; a type outside the vector has no defined result. -/
def RPOnlyNodeSupTrans.countDefs : List Register → List Int → Option (List Int)
  | [], regTypeDefs => some regTypeDefs
  | d :: rest, regTypeDefs =>
    match regTypeDefs[d.type]? with
    | none => none
    | some c => RPOnlyNodeSupTrans.countDefs rest (regTypeDefs.set d.type (c + 1))

/-- The last loop of `NodeIsSuperior_`: false as soon as some register type has more
definitions in `A` than in `B`. -/
def RPOnlyNodeSupTrans.cmpDefs (regTypeDefsA regTypeDefsB : List Int) : List Nat → Bool
  | [] => true
  | i :: rest =>
    if regTypeDefsA.getD i 0 > regTypeDefsB.getD i 0 then false
    else RPOnlyNodeSupTrans.cmpDefs regTypeDefsA regTypeDefsB rest

/-- Embedding of `RPOnlyNodeSupTrans::NodeIsSuperior_`. -/
def RPOnlyNodeSupTrans.NodeIsSuperior_ (g : DataDepGraph) (nodeA nodeB : Nat) : Option Bool :=
  if (g.insts nodeA).issuType ≠ (g.insts nodeB).issuType then some false
  else if !AreNodesIndep_ g nodeA nodeB then some false
  else
    let predsA := (g.insts nodeA).rcrsvPrdcsrs
    let predsB := (g.insts nodeB).rcrsvPrdcsrs
    if !IsSubVector predsA predsB then some false
    else
      let succsA := (g.insts nodeA).rcrsvScsrs
      let succsB := (g.insts nodeB).rcrsvScsrs
      if !IsSubVector succsB succsA then some false
      else
        let usesOnlyB :=
          RPOnlyNodeSupTrans.usesOnlyB (g.insts nodeA).uses (g.insts nodeB).uses
        let usesOnlyB1 :=
          RPOnlyNodeSupTrans.userLoop g succsB (List.range succsB.length) usesOnlyB
        if usesOnlyB1.length ≠ 0 then some false
        else
          let regTypes := g.regTypeCnt.toNat
          match RPOnlyNodeSupTrans.countDefs (g.insts nodeA).defs (List.replicate regTypes 0),
              RPOnlyNodeSupTrans.countDefs (g.insts nodeB).defs (List.replicate regTypes 0) with
          | some regTypeDefsA, some regTypeDefsB =>
            some (RPOnlyNodeSupTrans.cmpDefs regTypeDefsA regTypeDefsB (List.range regTypes))
          | _, _ => none

/-- The body of the inner loop of `RPOnlyNodeSupTrans::ApplyTrans` for the pair `(i, j)`:
if `i` is superior to `j` the edge `i → j` is created, otherwise if `j` is superior to `i`
the edge `j → i`. -/
def RPOnlyNodeSupTrans.visit (i j : Nat) (g : DataDepGraph) (created : List (Nat × Nat)) :
    Option (DataDepGraph × List (Nat × Nat)) :=
  if i = j then some (g, created)
  else
    match RPOnlyNodeSupTrans.NodeIsSuperior_ g i j with
    | none => none
    | some true => some (CreateEdge g i j 0 .DEP_OTHER, created ++ [(i, j)])
    | some false =>
      match RPOnlyNodeSupTrans.NodeIsSuperior_ g j i with
      | none => none
      | some true => some (CreateEdge g j i 0 .DEP_OTHER, created ++ [(j, i)])
      | some false => some (g, created)

/-- The inner loop `for (j = i+1; j < numNodes; j++)` of `RPOnlyNodeSupTrans::ApplyTrans`;
`cnt` is the number of iterations left, `numNodes - j`. -/
def RPOnlyNodeSupTrans.innerLoop (i : Nat) :
    Nat → Nat → DataDepGraph → List (Nat × Nat) →
      Option (DataDepGraph × List (Nat × Nat))
  | 0, _, g, created => some (g, created)
  | cnt + 1, j, g, created =>
    match RPOnlyNodeSupTrans.visit i j g created with
    | none => none
    | some (g1, created1) => RPOnlyNodeSupTrans.innerLoop i cnt (j + 1) g1 created1

/-- The outer loop `for (i = 0; i < numNodes; i++)` of `RPOnlyNodeSupTrans::ApplyTrans`;
`cnt` is the number of iterations left, `numNodes - i`. -/
def RPOnlyNodeSupTrans.outerLoop (numNodes : Nat) :
    Nat → Nat → DataDepGraph → List (Nat × Nat) →
      Option (DataDepGraph × List (Nat × Nat))
  | 0, _, g, created => some (g, created)
  | cnt + 1, i, g, created =>
    match RPOnlyNodeSupTrans.innerLoop i (numNodes - (i + 1)) (i + 1) g created with
    | none => none
    | some (g1, created1) => RPOnlyNodeSupTrans.outerLoop numNodes cnt (i + 1) g1 created1

/-- Embedding of `RPOnlyNodeSupTrans::ApplyTrans`: the graph after the transformation and
the pairs `(from, to)` for which `CreateEdge(from, to, 0, DEP_OTHER)` was called, in
order. -/
def RPOnlyNodeSupTrans.ApplyTrans (g : DataDepGraph) :
    Option (DataDepGraph × List (Nat × Nat)) :=
  let numNodes := g.instCnt.toNat
  RPOnlyNodeSupTrans.outerLoop numNodes numNodes 0 g []

/-! ## `LLVMDataDepGraph::ConvertLLVMNodes_` (`OptSchedDagWrapper.cpp`) -/

/-- Embedding of the enumeration `LATENCY_PRECISION`; the sources name the values
`LTP_PRECISE` and `LTP_ROUGH`, every other value is `other`. -/
inductive LATENCY_PRECISION where
  | LTP_PRECISE
  | LTP_ROUGH
  | other (id : Int)
  deriving DecidableEq, Repr

/-- The kinds of a host dependence, `SDep::Kind`. -/
inductive SDepKind where
  | Data
  | Anti
  | Output
  | Order
  deriving DecidableEq, Repr

/-- What the code reads of the scheduling unit behind `SDep::getSUnit()`. -/
structure SUnitRef where
  NodeNum : Nat
  isBoundaryNode : Bool
  deriving DecidableEq, Repr

/-- A host dependence `SDep`: the unit at its other end, its kind and its latency. -/
structure SDep where
  getSUnit : SUnitRef
  getKind : SDepKind
  getLatency : Int
  deriving DecidableEq, Repr

/-- A host scheduling unit `SUnit`: `opcodeName` is `TII->getName(getInstr()->getOpcode())`,
which exists when `isInstr` holds. -/
structure SUnit where
  NodeNum : Nat
  isBoundaryNode : Bool
  isInstr : Bool
  isCall : Bool
  opcodeName : String
  Preds : List SDep
  Succs : List SDep
  deriving DecidableEq, Repr

/-- The members of `LLVMDataDepGraph` that `ConvertLLVMNodes_` reads.  The machine-model
functions `GetInstTypeByName` and `GetLatency` and the constant `INVALID_INST_TYPE` have
their bodies outside the sources and are members here. -/
structure LLVMDataDepGraph where
  llvmNodes_ : List SUnit
  ltncyPrcsn_ : LATENCY_PRECISION
  treatOrderDepsAsDataDeps_ : Bool
  maxDagSizeForPrcisLtncy_ : Int
  GetInstTypeByName : String → Int
  GetLatency : Int → DependenceType → Int
  INVALID_INST_TYPE : Int

/-- A node made by `CreateNode_`: its number, instruction name, instruction type and
opcode, and the edges attached to it by `CreateEdge_` (neighbour, latency, kind). -/
structure DagNode where
  num : Nat
  instName : String
  instType : Int
  opCode : String
  prdcsrs : List (Nat × Int × DependenceType)
  scsrs : List (Nat × Int × DependenceType)
  deriving DecidableEq, Repr

/-- The graph under construction: the array `insts_` allocated by `AllocArrays_(instCnt_)`,
`includesCall_`, the local vectors `roots` and `leaves`, `root_`, and the calls of
`CreateEdge_` in order (from, to, latency, kind). -/
structure DagState where
  insts_ : List (Option DagNode)
  includesCall_ : Bool
  roots : List Nat
  leaves : List Nat
  root_ : Option Nat
  edges : List (Nat × Nat × Int × DependenceType)
  deriving DecidableEq, Repr

/-- Embedding of `LLVMDataDepGraph::isRootNode`. -/
def isRootNode (unit : SUnit) : Bool :=
  unit.Preds.all fun I => I.getSUnit.isBoundaryNode

/-- Embedding of `LLVMDataDepGraph::isLeafNode`. -/
def isLeafNode (unit : SUnit) : Bool :=
  unit.Succs.all fun I => I.getSUnit.isBoundaryNode

/-- Modelled from the spec: `DataDepGraph::CreateNode_` is not part of the sources; it makes
the instruction `instNum` with the given name, type and opcode and stores it in
`insts_[instNum]`. -/
def CreateNode_ (st : DagState) (instNum : Nat) (instName : String) (instType : Int)
    (opCode : String) : Option DagState :=
  if instNum < st.insts_.length then
    some { st with
      insts_ := st.insts_.set instNum
        (some { num := instNum, instName := instName, instType := instType, opCode := opCode,
                prdcsrs := [], scsrs := [] }) }
  else none

/-- Modelled from the spec: `DataDepGraph::CreateEdge_` is not part of the sources; it adds
the edge to the successors of `insts_[frmNodeNum]` and to the predecessors of
`insts_[toNodeNum]`, both of which must exist. -/
def CreateEdge_ (st : DagState) (frmNodeNum toNodeNum : Nat) (ltncy : Int)
    (depType : DependenceType) : Option DagState :=
  match st.insts_[frmNodeNum]? with
  | some (some frmNode) =>
    let insts1 := st.insts_.set frmNodeNum
      (some { frmNode with scsrs := frmNode.scsrs ++ [(toNodeNum, ltncy, depType)] })
    match insts1[toNodeNum]? with
    | some (some toNode) =>
      some { st with
        insts_ := insts1.set toNodeNum
          (some { toNode with prdcsrs := toNode.prdcsrs ++ [(frmNodeNum, ltncy, depType)] })
        edges := st.edges ++ [(frmNodeNum, toNodeNum, ltncy, depType)] }
    | _ => none
  | _ => none

/-- The loop "Create nodes" of `ConvertLLVMNodes_` over the units.  The
`assert(unit.NodeNum == i)` is compiled out.  The option `GENERATE_MACHINE_MODEL` only
feeds the machine-model generator and is left out. -/
def ConvertLLVMNodes_.nodeLoop (this : LLVMDataDepGraph) :
    List SUnit → DagState → Option DagState
  | [], st => some st
  | unit :: rest, st =>
    if unit.isBoundaryNode || !unit.isInstr then
      ConvertLLVMNodes_.nodeLoop this rest st
    else
      let opCode := unit.opcodeName
      let instType := this.GetInstTypeByName unit.opcodeName
      let instName := if instType = this.INVALID_INST_TYPE then "Default" else unit.opcodeName
      let instType1 :=
        if instType = this.INVALID_INST_TYPE then this.GetInstTypeByName "Default"
        else instType
      match CreateNode_ st unit.NodeNum instName instType1 opCode with
      | none => none
      | some st1 =>
        let st2 := if unit.isCall then { st1 with includesCall_ := true } else st1
        let st3 :=
          if isRootNode unit then { st2 with roots := st2.roots ++ [unit.NodeNum] } else st2
        let st4 :=
          if isLeafNode unit then { st3 with leaves := st3.leaves ++ [unit.NodeNum] } else st3
        ConvertLLVMNodes_.nodeLoop this rest st4

/-- The kind of the created edge, from the `switch` on `it->getKind()`. -/
def ConvertLLVMNodes_.depTypeOf (this : LLVMDataDepGraph) (kind : SDepKind) : DependenceType :=
  match kind with
  | .Data => .DEP_DATA
  | .Anti => .DEP_ANTI
  | .Output => .DEP_OUTPUT
  | .Order => if this.treatOrderDepsAsDataDeps_ then .DEP_DATA else .DEP_OTHER

/-- The latency precision used for an edge: `PRECISE` becomes `ROUGH` when
`maxDagSizeForPrcisLtncy_` is positive and the region has more units than that. -/
def ConvertLLVMNodes_.prcsnOf (this : LLVMDataDepGraph) : LATENCY_PRECISION :=
  if this.ltncyPrcsn_ = .LTP_PRECISE ∧ this.maxDagSizeForPrcisLtncy_ > 0 ∧
      (this.llvmNodes_.length : Int) > this.maxDagSizeForPrcisLtncy_ then .LTP_ROUGH
  else this.ltncyPrcsn_

/-- The loop over `unit.Succs` inside the loop "Create edges" of `ConvertLLVMNodes_`.  The
precise latency reads the opcode of `unit.getInstr()`, which is null for a unit that is not
an instruction. -/
def ConvertLLVMNodes_.succLoop (this : LLVMDataDepGraph) (unit : SUnit) :
    List SDep → DagState → Option DagState
  | [], st => some st
  | it :: rest, st =>
    if it.getSUnit.isBoundaryNode then ConvertLLVMNodes_.succLoop this unit rest st
    else
      let depType := ConvertLLVMNodes_.depTypeOf this it.getKind
      let ltncy : Option Int :=
        match ConvertLLVMNodes_.prcsnOf this with
        | .LTP_PRECISE =>
          if unit.isInstr then
            some (this.GetLatency (this.GetInstTypeByName unit.opcodeName) depType)
          else none
        | .LTP_ROUGH => some it.getLatency
        | .other _ => some 1
      match ltncy with
      | none => none
      | some l =>
        match CreateEdge_ st unit.NodeNum it.getSUnit.NodeNum l depType with
        | none => none
        | some st1 => ConvertLLVMNodes_.succLoop this unit rest st1

/-- The loop "Create edges" of `ConvertLLVMNodes_`. -/
def ConvertLLVMNodes_.edgeLoop (this : LLVMDataDepGraph) :
    List SUnit → DagState → Option DagState
  | [], st => some st
  | unit :: rest, st =>
    match ConvertLLVMNodes_.succLoop this unit unit.Succs st with
    | none => none
    | some st1 => ConvertLLVMNodes_.edgeLoop this rest st1

/-- The loop that ties the artificial root to every instruction `i` with
`insts_[i]->GetPrdcsrCnt() == 0`. -/
def ConvertLLVMNodes_.rootLoop (rootNum : Nat) : List Nat → DagState → Option DagState
  | [], st => some st
  | i :: rest, st =>
    match st.insts_[i]? with
    | some (some inst) =>
      if inst.prdcsrs.length = 0 then
        match CreateEdge_ st rootNum i 0 .DEP_OTHER with
        | none => none
        | some st1 => ConvertLLVMNodes_.rootLoop rootNum rest st1
      else ConvertLLVMNodes_.rootLoop rootNum rest st
    | _ => none

/-- The loop that ties every instruction `i` with `insts_[i]->GetScsrCnt() == 0` to the
artificial leaf. -/
def ConvertLLVMNodes_.leafLoop (leafNum : Nat) : List Nat → DagState → Option DagState
  | [], st => some st
  | i :: rest, st =>
    match st.insts_[i]? with
    | some (some inst) =>
      if inst.scsrs.length = 0 then
        match CreateEdge_ st i leafNum 0 .DEP_OTHER with
        | none => none
        | some st1 => ConvertLLVMNodes_.leafLoop leafNum rest st1
      else ConvertLLVMNodes_.leafLoop leafNum rest st
    | _ => none

/-- Embedding of `LLVMDataDepGraph::ConvertLLVMNodes_`, started on the empty array of
`instCnt_ = llvmNodes_.size() + 2` instructions that the constructor allocates.  The
`assert` on `roots` and `leaves` is compiled out.  The calls `AdjstFileSchedCycles_` and
`PrintEdgeCntPerLtncyInfo` at its end have their bodies outside the sources and create
neither nodes nor edges. -/
def ConvertLLVMNodes_ (this : LLVMDataDepGraph) : Option DagState :=
  let size := this.llvmNodes_.length
  let st0 : DagState :=
    { insts_ := List.replicate (size + 2) none, includesCall_ := false, roots := [],
      leaves := [], root_ := none, edges := [] }
  match ConvertLLVMNodes_.nodeLoop this this.llvmNodes_ st0 with
  | none => none
  | some st1 =>
    match ConvertLLVMNodes_.edgeLoop this this.llvmNodes_ st1 with
    | none => none
    | some st2 =>
      let rootNum := size
      match CreateNode_ st2 rootNum "artificial" (this.GetInstTypeByName "artificial")
          "__optsched_entry" with
      | none => none
      | some st3 =>
        match ConvertLLVMNodes_.rootLoop rootNum (List.range size)
            { st3 with root_ := some rootNum } with
        | none => none
        | some st4 =>
          let leafNum := size + 1
          match CreateNode_ st4 leafNum "artificial" (this.GetInstTypeByName "artificial")
              "__optsched_exit" with
          | none => none
          | some st5 => ConvertLLVMNodes_.leafLoop leafNum (List.range size) st5

/-! ## `HistEnumTreeNode::Construct` -/

/-- Embedding of `HistEnumTreeNode::SetRsrvSlots_`: the new value of `rsrvSlots_`, a copy
of the first `issuRate` slots of the node (none if the node has no array).  A read outside
the node's array has no defined result. -/
def SetRsrvSlots_ (node : EnumTreeNode) : Option (Option (List ReserveSlot)) :=
  match node.rsrvSlots_ with
  | none => some none
  | some ns =>
    let issuRate := node.enumrtr_.machMdl_.issueRate_
    match (List.range issuRate.toNat).mapM fun i => ns[i]? with
    | none => none
    | some slots => some (some slots)

/-- Embedding of `HistEnumTreeNode::Construct`: the arena after the record at `this` is
constructed from the tree node `node`.  Tree nodes live in `tree` and `node->prevNode_` is
an address into it; the parent's history record becomes `prevNode_`.  The cost fields of
the record are left as they are. -/
def Construct (arena : HistArena) (tree : List EnumTreeNode) (this : Nat)
    (node : EnumTreeNode) : Option HistArena :=
  match arena[this]? with
  | none => none
  | some self =>
    let prevNode_ : Option (Option Nat) :=
      match node.prevNode_ with
      | none => some none
      | some q => (tree[q]?).map fun parent => parent.hstry_
    match prevNode_, SetRsrvSlots_ node with
    | some prev, some rsrv =>
      some (arena.set this
        { self with
          prevNode_ := prev, time_ := node.time_, inst_ := node.inst_,
          crntCycleBlkd_ := node.crntCycleBlkd_, rsrvSlots_ := rsrv })
    | _, _ => none

/-! ## `LLVMMachineModel` (`OptSchedMachineWrapper.cpp`) -/

/-- What the constructor reads of a target register class: `id` is the identity of the
class object (the pointer used as map key), `getRegPressureLimit` the `unsigned` value that
`regInfo->getRegPressureLimit(cls, MF)` returns for it. -/
structure TargetRegisterClass where
  id : Nat
  getName : String
  getRegPressureLimit : Nat
  deriving DecidableEq, Repr

/-- A register type of the machine model.  The structure is declared outside the sources;
`count` is an `int` (the log line of the constructor prints it with `%d`). -/
structure RegTypeInfo where
  name : String
  count : Int
  deriving DecidableEq, Repr

/-- An instruction type of the machine model. -/
structure InstTypeInfo where
  name : String
  isCntxtDep : Bool
  issuType : Int
  ltncy : Int
  pipelined : Bool
  sprtd : Bool
  blksCycle : Bool
  deriving DecidableEq, Repr

/-- The members of `LLVMMachineModel` that its constructor sets.  The two `std::map`s are
partial functions on their keys. -/
structure LLVMMachineModel where
  mdlName_ : String
  registerTypes_ : List RegTypeInfo
  instTypes_ : List InstTypeInfo
  regClassToType_ : Nat → Option Nat
  regTypeToClass_ : Nat → Option Nat

/-- The test `mdlName_.find("x86") == 0`: the model name starts with `x86`. -/
def LLVMMachineModel.isX86 (mdlName_ : String) : Bool :=
  List.isPrefixOf "x86".toList mdlName_.toList

/-- The value that an `unsigned` (32 bits) has once it is stored in an `int` (32 bits, two's
complement): values from `2^31` on wrap to negative numbers. -/
def unsignedToInt (u : Nat) : Int :=
  if u % 2 ^ 32 < 2 ^ 31 then ((u % 2 ^ 32 : Nat) : Int)
  else ((u % 2 ^ 32 : Nat) : Int) - 2 ^ 32

/-- The loop of the constructor over the register classes of the target.  The `unsigned`
result of `getRegPressureLimit` is stored in the `int` field `regType.count`. -/
def LLVMMachineModel.regClassLoop (mdlName_ : String) :
    List TargetRegisterClass → LLVMMachineModel → LLVMMachineModel
  | [], mm => mm
  | cls :: rest, mm =>
    let name := cls.getName
    let count0 : Int := unsignedToInt cls.getRegPressureLimit
    let count : Int :=
      if LLVMMachineModel.isX86 mdlName_ ∧ (name = "CCR" ∨ name = "FPCCR") then 1 else count0
    if count > 0 then
      let size := mm.registerTypes_.length
      LLVMMachineModel.regClassLoop mdlName_ rest
        { mm with
          regClassToType_ := fun k => if k = cls.id then some size else mm.regClassToType_ k
          regTypeToClass_ := fun t => if t = size then some cls.id else mm.regTypeToClass_ t
          registerTypes_ := mm.registerTypes_ ++ [{ name := name, count := count }] }
    else LLVMMachineModel.regClassLoop mdlName_ rest mm

/-- Embedding of the constructor `LLVMMachineModel::LLVMMachineModel`: `targetName` is
`target.getTarget().getName()`, `classes` the register classes from `regclass_begin()` to
`regclass_end()`, and `cfgInstTypes` the instruction types that the base-class constructor
`MachineModel(configFile)`, whose body is outside the sources, has read. -/
def LLVMMachineModel.ctor (targetName : String)
    (classes : List TargetRegisterClass) (cfgInstTypes : List InstTypeInfo) :
    LLVMMachineModel :=
  let mdlName_ := targetName
  let mm0 : LLVMMachineModel :=
    { mdlName_ := mdlName_, registerTypes_ := [], instTypes_ := cfgInstTypes,
      regClassToType_ := fun _ => none, regTypeToClass_ := fun _ => none }
  let mm1 := LLVMMachineModel.regClassLoop mdlName_ classes mm0
  let dflt : InstTypeInfo :=
    { name := "Default", isCntxtDep := false, issuType := 0, ltncy := 1, pipelined := true,
      sprtd := true, blksCycle := false }
  let artificial : InstTypeInfo :=
    { name := "artificial", isCntxtDep := false, issuType := 0, ltncy := 1,
      pipelined := true, sprtd := true, blksCycle := false }
  { mm1 with instTypes_ := mm1.instTypes_ ++ [dflt] ++ [artificial] }

/-- Embedding of `LLVMMachineModel::GetRegType`.  `GetRegTypeByName` belongs to the base
class, whose body is outside the sources, and is a parameter.  A class that is not a key of
`regClassToType_` has no defined result. -/
def LLVMMachineModel.GetRegType (mm : LLVMMachineModel) (GetRegTypeByName : String → Int)
    (cls : TargetRegisterClass) : Option Int :=
  if LLVMMachineModel.isX86 mm.mdlName_ ∧ cls.getName.toList.take 3 = "RFP".toList then
    some (GetRegTypeByName "VR128")
  else (mm.regClassToType_ cls.id).map fun t => (t : Int)

/-- Embedding of `LLVMMachineModel::GetRegClass`: the identity of the class of a register
type.  A type that is not a key of `regTypeToClass_` has no defined result. -/
def LLVMMachineModel.GetRegClass (mm : LLVMMachineModel) (type : Int) : Option Nat :=
  if type < 0 then none else mm.regTypeToClass_ type.toNat

/-! ## Register definitions and uses (`CountDefs`, `AddDefsAndUses`) -/

/-- The register units that `RegisterOperands::collect` finds for one machine instruction. -/
structure RegisterOperands where
  Uses : List Nat
  Defs : List Nat
  deriving DecidableEq, Repr

/-- The members of `LLVMDataDepGraph`, of the host DAG and of the scheduler options that
`CountDefs` and `AddDefsAndUses` read: the live-in and live-out register units of the
region, the units (`NodeNum` and collected operands), the names of the pressure sets of a
register unit in the order of `PSetIterator`, the register-type look-up and count of the
machine model, and the options named in the code. -/
structure LLVMRegInfo where
  LiveInRegs : List Nat
  LiveOutRegs : List Nat
  llvmNodes_ : List (Nat × RegisterOperands)
  pressureSets : Nat → List String
  GetRegTypeByName : String → Int
  GetRegTypeCnt : Int
  USE_SIMPLE_REGISTER_TYPES : Bool
  ShouldFilterRegisterTypes : Bool
  RTFilter : String → Bool
  ADD_USED_AND_NOT_DEFINED_REGS : Bool
  ADD_LIVE_OUT_AND_NOT_DEFINED_REGS : Bool
  ADD_DEFINED_AND_NOT_USED_REGS : Bool

/-- Embedding of `LLVMDataDepGraph::GetRegisterType_`.  With simple register types the code
dereferences the pressure-set iterator without testing it, so a register unit without
pressure sets has no defined result. -/
def GetRegisterType_ (this : LLVMRegInfo) (resNo : Nat) : Option (List Int) :=
  let useSimpleTypes := this.USE_SIMPLE_REGISTER_TYPES
  if useSimpleTypes then
    match this.pressureSets resNo with
    | [] => none
    | pSetName :: _ =>
      let FilterOutRegType := this.ShouldFilterRegisterTypes && this.RTFilter pSetName
      if !FilterOutRegType then some [this.GetRegTypeByName pSetName] else some []
  else
    some (((this.pressureSets resNo).filter fun pSetName =>
      !(this.ShouldFilterRegisterTypes && this.RTFilter pSetName)).map
        this.GetRegTypeByName)

/-- The loop `for (int regType : regTypes) regDefCounts[regType]++`; an index outside the
vector has no defined result. -/
def CountDefs.incr : List Int → List Int → Option (List Int)
  | [], regDefCounts => some regDefCounts
  | regType :: rest, regDefCounts =>
    if regType < 0 then none
    else
      match regDefCounts[regType.toNat]? with
      | none => none
      | some c => CountDefs.incr rest (regDefCounts.set regType.toNat (c + 1))

/-- The loops of `CountDefs` over the live-in registers and over the definitions of one
instruction: every register is counted and, with `ADD_USED_AND_NOT_DEFINED_REGS`, inserted
into the set `defs`. -/
def CountDefs.defLoop (this : LLVMRegInfo) :
    List Nat → List Int × List Nat → Option (List Int × List Nat)
  | [], st => some st
  | resNo :: rest, (regDefCounts, defs) =>
    match GetRegisterType_ this resNo with
    | none => none
    | some regTypes =>
      match CountDefs.incr regTypes regDefCounts with
      | none => none
      | some regDefCounts1 =>
        CountDefs.defLoop this rest
          (regDefCounts1, if this.ADD_USED_AND_NOT_DEFINED_REGS then resNo :: defs else defs)

/-- The loops of `CountDefs` over the uses of one instruction and over the live-out
registers: a register that is not in the set `defs` is counted. -/
def CountDefs.useLoop (this : LLVMRegInfo) (defs : List Nat) :
    List Nat → List Int → Option (List Int)
  | [], regDefCounts => some regDefCounts
  | resNo :: rest, regDefCounts =>
    if !defs.contains resNo then
      match GetRegisterType_ this resNo with
      | none => none
      | some regTypes =>
        match CountDefs.incr regTypes regDefCounts with
        | none => none
        | some regDefCounts1 => CountDefs.useLoop this defs rest regDefCounts1
    else CountDefs.useLoop this defs rest regDefCounts

/-- The loop of `CountDefs` over the units: first the definitions of the instruction, then,
with `ADD_USED_AND_NOT_DEFINED_REGS`, its uses. -/
def CountDefs.nodeLoop (this : LLVMRegInfo) :
    List (Nat × RegisterOperands) → List Int × List Nat → Option (List Int × List Nat)
  | [], st => some st
  | (_, RegOpers) :: rest, st =>
    match CountDefs.defLoop this RegOpers.Defs st with
    | none => none
    | some (regDefCounts1, defs1) =>
      if this.ADD_USED_AND_NOT_DEFINED_REGS then
        match CountDefs.useLoop this defs1 RegOpers.Uses regDefCounts1 with
        | none => none
        | some regDefCounts2 => CountDefs.nodeLoop this rest (regDefCounts2, defs1)
      else CountDefs.nodeLoop this rest (regDefCounts1, defs1)

/-- Embedding of `LLVMDataDepGraph::CountDefs`: the counts passed to
`regFiles[i].SetRegCnt`, one per register type. -/
def CountDefs (this : LLVMRegInfo) : Option (List Int) :=
  let regDefCounts : List Int := List.replicate this.GetRegTypeCnt.toNat 0
  match CountDefs.defLoop this this.LiveInRegs (regDefCounts, []) with
  | none => none
  | some st1 =>
    match CountDefs.nodeLoop this this.llvmNodes_ st1 with
    | none => none
    | some (regDefCounts2, defs2) =>
      if this.ADD_LIVE_OUT_AND_NOT_DEFINED_REGS then
        CountDefs.useLoop this defs2 this.LiveOutRegs regDefCounts2
      else some regDefCounts2

/-- The state of `AddDefsAndUses`: the index of the next register of each type
(`regIndices_`), the map `lastDef_`, and the definitions and uses added to instructions
(instruction index, register).  Register weights and live-in/live-out flags are not part
of the state. -/
structure DefUseState where
  regIndices_ : List Nat
  lastDef_ : Nat → Option (List Register)
  defs : List (Nat × Register)
  uses : List (Nat × Register)

/-- The loop `for (int regType : regTypes)` of `AddDef_` and `AddLiveInReg_`: the register
`regFiles[regType].GetReg(regIndices_[regType]++)` becomes a definition of the instruction
`nodeIndex`.  `regCnts` holds the register count of each register file; `GetReg` with an
index that is not below the count, and a register type outside the arrays, have no defined
result. -/
def AddDefsAndUses.takeRegs (regCnts : List Int) (nodeIndex : Nat) :
    List Int → DefUseState → List Register → Option (DefUseState × List Register)
  | [], st, regs => some (st, regs)
  | regType :: rest, st, regs =>
    if regType < 0 then none
    else
      match st.regIndices_[regType.toNat]?, regCnts[regType.toNat]? with
      | some idx, some cnt =>
        if (idx : Int) < cnt then
          let reg : Register := { type := regType.toNat, num := idx }
          AddDefsAndUses.takeRegs regCnts nodeIndex rest
            { st with
              regIndices_ := st.regIndices_.set regType.toNat (idx + 1)
              defs := st.defs ++ [(nodeIndex, reg)] }
            (regs ++ [reg])
        else none
      | _, _ => none

/-- Embedding of `LLVMDataDepGraph::AddDef_`. -/
def AddDef_ (this : LLVMRegInfo) (regCnts : List Int) (resNo nodeIndex : Nat)
    (st : DefUseState) : Option DefUseState :=
  match GetRegisterType_ this resNo with
  | none => none
  | some regTypes =>
    match AddDefsAndUses.takeRegs regCnts nodeIndex regTypes st [] with
    | none => none
    | some (st1, regs) =>
      some { st1 with lastDef_ := fun r => if r = resNo then some regs else st1.lastDef_ r }

/-- Embedding of `LLVMDataDepGraph::AddLiveInReg_`: the definitions go to the artificial
root, whose index is `llvmNodes_.size()`. -/
def AddLiveInReg_ (this : LLVMRegInfo) (regCnts : List Int) (resNo : Nat)
    (st : DefUseState) : Option DefUseState :=
  let rootIndex := this.llvmNodes_.length
  AddDef_ this regCnts resNo rootIndex st

/-- The loop `for (Register *reg : regs)` of `AddUse_` and `AddLiveOutReg_`: a register
that is not yet a use of the instruction becomes one. -/
def AddDefsAndUses.addUses (nodeIndex : Nat) : List Register → DefUseState → DefUseState
  | [], st => st
  | reg :: rest, st =>
    if !st.uses.contains (nodeIndex, reg) then
      AddDefsAndUses.addUses nodeIndex rest { st with uses := st.uses ++ [(nodeIndex, reg)] }
    else AddDefsAndUses.addUses nodeIndex rest st

/-- The common body of `AddUse_` and `AddLiveOutReg_`: with the option set, a register
without an entry in `lastDef_` is first added as a live-in register; then the registers
of `lastDef_[resNo]` (an empty entry is made if there is none) become uses of the
instruction. -/
def AddDefsAndUses.useBody (this : LLVMRegInfo) (regCnts : List Int) (addNotDefined : Bool)
    (resNo nodeIndex : Nat) (st : DefUseState) : Option DefUseState :=
  match GetRegisterType_ this resNo with
  | none => none
  | some _ =>
    let st1 : Option DefUseState :=
      if addNotDefined ∧ st.lastDef_ resNo = none then AddLiveInReg_ this regCnts resNo st
      else some st
    match st1 with
    | none => none
    | some st2 =>
      let regs := (st2.lastDef_ resNo).getD []
      some (AddDefsAndUses.addUses nodeIndex regs
        { st2 with lastDef_ := fun r => if r = resNo then some regs else st2.lastDef_ r })

/-- Embedding of `LLVMDataDepGraph::AddUse_`. -/
def AddUse_ (this : LLVMRegInfo) (regCnts : List Int) (resNo nodeIndex : Nat)
    (st : DefUseState) : Option DefUseState :=
  AddDefsAndUses.useBody this regCnts this.ADD_USED_AND_NOT_DEFINED_REGS resNo nodeIndex st

/-- Embedding of `LLVMDataDepGraph::AddLiveOutReg_`: the uses go to the artificial leaf,
whose index is `llvmNodes_.size() + 1`. -/
def AddLiveOutReg_ (this : LLVMRegInfo) (regCnts : List Int) (resNo : Nat)
    (st : DefUseState) : Option DefUseState :=
  let leafIndex := this.llvmNodes_.length + 1
  AddDefsAndUses.useBody this regCnts this.ADD_LIVE_OUT_AND_NOT_DEFINED_REGS resNo leafIndex st

/-- A loop of `AddDefsAndUses` that applies `f` to every register unit of a list. -/
def AddDefsAndUses.forEach (f : Nat → DefUseState → Option DefUseState) :
    List Nat → DefUseState → Option DefUseState
  | [], st => some st
  | resNo :: rest, st =>
    match f resNo st with
    | none => none
    | some st1 => AddDefsAndUses.forEach f rest st1

/-- The loop of `AddDefsAndUses` over the units: first the uses of the instruction, then
its definitions. -/
def AddDefsAndUses.nodeLoop (this : LLVMRegInfo) (regCnts : List Int) :
    List (Nat × RegisterOperands) → DefUseState → Option DefUseState
  | [], st => some st
  | (NodeNum, RegOpers) :: rest, st =>
    match AddDefsAndUses.forEach (fun r s => AddUse_ this regCnts r NodeNum s)
        RegOpers.Uses st with
    | none => none
    | some st1 =>
      match AddDefsAndUses.forEach (fun r s => AddDef_ this regCnts r NodeNum s)
          RegOpers.Defs st1 with
      | none => none
      | some st2 => AddDefsAndUses.nodeLoop this regCnts rest st2

/-- Embedding of `LLVMDataDepGraph::AddDefAndNotUsed_`. -/
def AddDefAndNotUsed_ (this : LLVMRegInfo) (reg : Register) (st : DefUseState) :
    DefUseState :=
  let leafIndex := this.llvmNodes_.length + 1
  AddDefsAndUses.addUses leafIndex [reg] st

/-- The loop of `AddDefsAndUses` under `ADD_DEFINED_AND_NOT_USED_REGS` over the registers
`(i, j)` with `j` below the count of register file `i`: a register without a use becomes a
use of the artificial leaf. -/
def AddDefsAndUses.notUsedLoop (this : LLVMRegInfo) : List Register → DefUseState → DefUseState
  | [], st => st
  | reg :: rest, st =>
    if st.uses.all fun u => !decide (u.2 = reg) then
      AddDefsAndUses.notUsedLoop this rest (AddDefAndNotUsed_ this reg st)
    else AddDefsAndUses.notUsedLoop this rest st

/-- Embedding of `LLVMDataDepGraph::AddDefsAndUses`, called on a graph whose `regIndices_`
and `lastDef_` are empty, with register files whose counts are `regCnts`. -/
def AddDefsAndUses (this : LLVMRegInfo) (regCnts : List Int) : Option DefUseState :=
  let st0 : DefUseState :=
    { regIndices_ := List.replicate this.GetRegTypeCnt.toNat 0, lastDef_ := fun _ => none,
      defs := [], uses := [] }
  match AddDefsAndUses.forEach (fun r s => AddLiveInReg_ this regCnts r s)
      this.LiveInRegs st0 with
  | none => none
  | some st1 =>
    match AddDefsAndUses.nodeLoop this regCnts this.llvmNodes_ st1 with
    | none => none
    | some st2 =>
      match AddDefsAndUses.forEach (fun r s => AddLiveOutReg_ this regCnts r s)
          this.LiveOutRegs st2 with
      | none => none
      | some st3 =>
        if this.ADD_DEFINED_AND_NOT_USED_REGS then
          some (AddDefsAndUses.notUsedLoop this
            ((List.range this.GetRegTypeCnt.toNat).flatMap fun i =>
              (List.range (regCnts.getD i 0).toNat).map fun j => { type := i, num := j })
            st3)
        else some st3

/-! ## Specification-side notions -/

/-- Modelled from the spec: `Enumerator::GetCycleNumFrmTime_` is not part of the sources;
the spec gives `cycle(t) = ⌊t/R⌋` for issue rate `R`. -/
def cycleOfTime (R : Int) (t : Int) : Int := t / R

/-- The record `k` links down the `prevNode_` chain that starts at address `p`. -/
def chainAt (arena : HistArena) : Nat → Option Nat → Option CostHistEnumTreeNode
  | 0, p => p.bind fun a => arena[a]?
  | k + 1, p => (p.bind fun a => arena[a]?).bind fun c => chainAt arena k c.prevNode_

/-- The chain of the record at `this` is in time order from `T` downwards (the record `k`
links down has time `T - k`) and has a record for every time from `T` down to `lo`. -/
def ChainTimed (arena : HistArena) (this : Nat) (T lo : Int) : Prop :=
  (∀ (k : Nat) (c : CostHistEnumTreeNode),
      chainAt arena k (some this) = some c → c.time_ = T - k) ∧
  (∀ k : Nat, (k : Int) ≤ T - lo → ∃ c, chainAt arena k (some this) = some c)

/-- Every successor in the DDG has an issue type of the machine model and an instruction
number below `N`. -/
def ScsrsInRange (enumrtr : Enumerator) (N : Nat) : Prop :=
  ∀ (i : Nat) (e : Nat × Int × DependenceType),
    e ∈ (enumrtr.dataDepGraph_.insts i).scsrs →
      (enumrtr.dataDepGraph_.insts e.1).issuType < enumrtr.machMdl_.issueTypes_.length ∧
      (enumrtr.dataDepGraph_.insts e.1).num < N

/-- Dominance rule 3 for a record `h` and an active node `n`: if `h` holds a
reserved-slot array then so does `n`, and in every slot of the cycle where `h` reserves a
range, `n` reserves a range that ends no earlier. -/
def Rule3 (h : HistEnumTreeNode) (n : EnumTreeNode) (INVALID_VALUE : Int) : Prop :=
  ∀ hs, h.rsrvSlots_ = some hs →
    ∃ ns, n.rsrvSlots_ = some ns ∧
      ∀ i : Nat, i < n.enumrtr_.machMdl_.issueRate_.toNat →
        ∃ hslot, hs[i]? = some hslot ∧
          (hslot.strtCycle ≠ INVALID_VALUE →
            ∃ nslot, ns[i]? = some nslot ∧ nslot.strtCycle ≠ INVALID_VALUE ∧
              hslot.endCycle ≤ nslot.endCycle)

/-- The requirement of dominance rule 4 on one successor edge `e` of an instruction issued
in cycle `cyc`: if the successor is unscheduled and is pushed below its normal bound
(`thisBound > normBound`), the pushed bound plus `shft` is within the other node's bound. -/
def EdgeBounded (enumrtr : Enumerator) (nxtAvlblCycles othrLwrBounds : List Int)
    (shft cyc : Int) (e : Nat × Int × DependenceType) : Prop :=
  (enumrtr.dataDepGraph_.insts e.1).isSchduld = false →
    ∀ nxt othrBound : Int,
      nxtAvlblCycles[(enumrtr.dataDepGraph_.insts e.1).issuType]? = some nxt →
      othrLwrBounds[(enumrtr.dataDepGraph_.insts e.1).num]? = some othrBound →
      max (cyc + e.2.1) nxt > max (enumrtr.dataDepGraph_.insts e.1).frwrdLwrBound nxt →
      max (cyc + e.2.1) nxt + shft ≤ othrBound

/-- What the successor loop of `DoesDominate_` checks on one successor edge `e` of an
instruction issued in cycle `cyc`, for an arbitrary shift: an unscheduled successor that is
pushed below its normal bound, or any unscheduled successor when `shft > 0`, must have its
pushed bound plus `shft` within the other node's bound. -/
def EdgePasses (enumrtr : Enumerator) (nxtAvlblCycles othrLwrBounds : List Int)
    (shft cyc : Int) (e : Nat × Int × DependenceType) : Prop :=
  (enumrtr.dataDepGraph_.insts e.1).isSchduld = false →
    ∀ nxt othrBound : Int,
      nxtAvlblCycles[(enumrtr.dataDepGraph_.insts e.1).issuType]? = some nxt →
      othrLwrBounds[(enumrtr.dataDepGraph_.insts e.1).num]? = some othrBound →
      (max (cyc + e.2.1) nxt > max (enumrtr.dataDepGraph_.insts e.1).frwrdLwrBound nxt
        ∨ shft > 0) →
      max (cyc + e.2.1) nxt + shft ≤ othrBound

/-- Dominance rule 4 with shift 0 over the examined part of the partial schedule of the
record at `this` (time `T`): every instruction on the chain at a time in
`[minTimeToExmn, T]` bounds its unscheduled successors as `EdgeBounded` says.  With
`guarded = true` only the instructions issued in a cycle after their static forward lower
bound are considered. -/
def Rule4 (guarded : Bool) (arena : HistArena) (this : Nat) (T : Int) (enumrtr : Enumerator)
    (nxtAvlblCycles othrLwrBounds : List Int) : Prop :=
  ∀ (k : Nat) (c : CostHistEnumTreeNode) (i : Nat),
    chainAt arena k (some this) = some c →
    GetMinTimeToExmn_ T enumrtr ≤ c.time_ → c.time_ ≤ T →
    c.inst_ = some i →
    (guarded = true →
      enumrtr.GetCycleNumFrmTime_ c.time_ > (enumrtr.dataDepGraph_.insts i).frwrdLwrBound) →
    ∀ e ∈ (enumrtr.dataDepGraph_.insts i).scsrs,
      EdgeBounded enumrtr nxtAvlblCycles othrLwrBounds 0
        (enumrtr.GetCycleNumFrmTime_ c.time_) e

/-- The records on the chain of `this` whose time lies in the current cycle of the record
at `this`. -/
def crntCycleEntries (arena : HistArena) (this : Nat) (enumrtr : Enumerator) :
    List CostHistEnumTreeNode :=
  match arena[this]? with
  | none => []
  | some self =>
    ((List.range arena.length).filterMap fun k => chainAt arena k (some this)).filter fun c =>
      decide (enumrtr.GetCycleNumFrmTime_ c.time_ = enumrtr.GetCycleNumFrmTime_ self.time_)

/-- The next available cycle of issue type `it` as the spec words it: count the
instructions of issue type `it` among the entries of the current cycle (stalls and entries
of earlier cycles are not counted); the result is `currentCycle + 1` if the count reaches
`slotsPerCycle`, and `currentCycle` otherwise. -/
def nxtAvlblCycleSpec (arena : HistArena) (this : Nat) (enumrtr : Enumerator) (it : Nat) :
    Option Int :=
  match arena[this]?, enumrtr.machMdl_.issueTypes_[it]? with
  | some self, some info =>
    let cnt := ((crntCycleEntries arena this enumrtr).filter fun c =>
      match c.inst_ with
      | none => false
      | some i => decide ((enumrtr.dataDepGraph_.insts i).issuType = it)).length
    if info.slotsCount ≤ (cnt : Int) then some (enumrtr.GetCycleNumFrmTime_ self.time_ + 1)
    else some (enumrtr.GetCycleNumFrmTime_ self.time_)
  | _, _ => none

/-- The static forward lower bounds are edge-consistent: along every edge `i → s` with
latency `L`, `lowerBound(s) ≥ lowerBound(i) + L`. -/
def EdgeConsistent (enumrtr : Enumerator) : Prop :=
  ∀ (i : Nat) (e : Nat × Int × DependenceType),
    e ∈ (enumrtr.dataDepGraph_.insts i).scsrs →
      (enumrtr.dataDepGraph_.insts i).frwrdLwrBound + e.2.1
        ≤ (enumrtr.dataDepGraph_.insts e.1).frwrdLwrBound

/-- The chain that starts at pointer `p` reaches `NULL` within `n` links, and every
address on the way is allocated. -/
def ChainEndsWithin (arena : HistArena) : Nat → Option Nat → Prop
  | _, none => True
  | 0, some _ => False
  | n + 1, some a => ∃ c, arena[a]? = some c ∧ ChainEndsWithin arena n c.prevNode_

/-- The instruction number `m` belongs to an instruction of a record on the chain that
starts at pointer `p` (stalls carry no instruction). -/
def OnChain (arena : HistArena) (ddg : DataDepGraph) (p : Option Nat) (m : Nat) : Prop :=
  ∃ (k : Nat) (c : CostHistEnumTreeNode) (i : Nat),
    chainAt arena k p = some c ∧ c.inst_ = some i ∧ (ddg.insts i).num = m

/-- No examined instruction of the record at `this` (time `T`) pushes an unscheduled
successor below its normal bound: for every instruction on the chain at a time in
`[minTimeToExmn, T]` that was issued after its static lower bound, and every unscheduled
successor, `thisBound ≤ normBound`. -/
def NoPushDown (arena : HistArena) (this : Nat) (T : Int) (enumrtr : Enumerator)
    (nxtAvlblCycles : List Int) : Prop :=
  ∀ (k : Nat) (c : CostHistEnumTreeNode) (i : Nat),
    chainAt arena k (some this) = some c →
    GetMinTimeToExmn_ T enumrtr ≤ c.time_ → c.time_ ≤ T →
    c.inst_ = some i →
    enumrtr.GetCycleNumFrmTime_ c.time_ > (enumrtr.dataDepGraph_.insts i).frwrdLwrBound →
    ∀ e ∈ (enumrtr.dataDepGraph_.insts i).scsrs,
      (enumrtr.dataDepGraph_.insts e.1).isSchduld = false →
      ∀ nxt : Int,
        nxtAvlblCycles[(enumrtr.dataDepGraph_.insts e.1).issuType]? = some nxt →
        max (enumrtr.GetCycleNumFrmTime_ c.time_ + e.2.1) nxt
          ≤ max (enumrtr.dataDepGraph_.insts e.1).frwrdLwrBound nxt

/-- The graph has the edge `a → b`: `b` is on the successor list of `a`. -/
def Edge (g : DataDepGraph) (a b : Nat) : Prop :=
  ∃ l d, (b, l, d) ∈ (g.insts a).scsrs

/-- There is a path of one or more edges from `a` to `b`. -/
def Reach (g : DataDepGraph) : Nat → Nat → Prop :=
  Relation.TransGen (Edge g)

/-- The edge relation has no cycle. -/
def Acyclic (g : DataDepGraph) : Prop :=
  ∀ a, ¬ Reach g a a

/-- The recursive bit vectors have `N` bits each and are the transitive closure of the
edges: bit `b` of the recursive successors of `a` is set exactly when there is a path from
`a` to `b`, and bit `b` of the recursive predecessors of `a` exactly when there is a path
from `b` to `a`. -/
def ClosureOK (g : DataDepGraph) (N : Nat) : Prop :=
  (∀ x, (g.insts x).rcrsvScsrs.length = N ∧ (g.insts x).rcrsvPrdcsrs.length = N) ∧
  ∀ a b, (GetBit (g.insts a).rcrsvScsrs b = true ↔ Reach g a b) ∧
    (GetBit (g.insts a).rcrsvPrdcsrs b = true ↔ Reach g b a)

/-- Every definition of every instruction has a register type below `GetRegTypeCnt()`. -/
def DefTypesInRange (g : DataDepGraph) : Prop :=
  ∀ x, ∀ r ∈ (g.insts x).defs, r.type < g.regTypeCnt.toNat

/-- The superiority of `A` over `B` in the words of the specification: same issue type;
neither is a recursive predecessor or successor of the other; the recursive predecessors of
`A` are among those of `B`; the recursive successors of `B` are among those of `A`; every
register used by `B` and not by `A` is used by a third instruction among the recursive
successors of `B`; and `A` defines at most as many registers of every type as `B`. -/
def IsSuperior (g : DataDepGraph) (A B : Nat) : Prop :=
  (g.insts A).issuType = (g.insts B).issuType ∧
  (GetBit (g.insts A).rcrsvPrdcsrs B = false ∧ GetBit (g.insts A).rcrsvScsrs B = false ∧
    GetBit (g.insts B).rcrsvPrdcsrs A = false ∧ GetBit (g.insts B).rcrsvScsrs A = false) ∧
  (∀ x, GetBit (g.insts A).rcrsvPrdcsrs x = true → GetBit (g.insts B).rcrsvPrdcsrs x = true) ∧
  (∀ x, GetBit (g.insts B).rcrsvScsrs x = true → GetBit (g.insts A).rcrsvScsrs x = true) ∧
  (∀ r ∈ (g.insts B).uses, r ∉ (g.insts A).uses →
    ∃ C, GetBit (g.insts B).rcrsvScsrs C = true ∧ C ≠ A ∧ C ≠ B ∧
      r ∈ (g.insts C).uses) ∧
  (∀ t, ((g.insts A).defs.filter fun r => decide (r.type = t)).length ≤
    ((g.insts B).defs.filter fun r => decide (r.type = t)).length)

/-- The pairs `(i, j)` with `i < j < n`, in the order `i` ascending, then `j` ascending. -/
def upperPairs (n : Nat) : List (Nat × Nat) :=
  (List.range n).flatMap fun i => (List.range' (i + 1) (n - (i + 1))).map fun j => (i, j)

/-- The visit of the pair `(i, j)` in the words of the specification: the edge `i → j` if
`i` is superior to `j` on the graph as it is at the visit, otherwise the edge `j → i` if `j`
is superior to `i`, otherwise nothing. -/
def visitSpec (st : DataDepGraph × List (Nat × Nat)) (p : Nat × Nat) :
    Option (DataDepGraph × List (Nat × Nat)) :=
  match RPOnlyNodeSupTrans.NodeIsSuperior_ st.1 p.1 p.2 with
  | none => none
  | some true => some (CreateEdge st.1 p.1 p.2 0 .DEP_OTHER, st.2 ++ [(p.1, p.2)])
  | some false =>
    match RPOnlyNodeSupTrans.NodeIsSuperior_ st.1 p.2 p.1 with
    | none => none
    | some true => some (CreateEdge st.1 p.2 p.1 0 .DEP_OTHER, st.2 ++ [(p.2, p.1)])
    | some false => some (st.1, st.2)

/-- The unordered pair behind an ordered one: smaller number first. -/
def unorderedPair (p : Nat × Nat) : Nat × Nat := (min p.1 p.2, max p.1 p.2)

/-- Every edge of the host DAG that does not end in a boundary node goes from a unit with a
smaller number to one with a larger number. -/
def HostAscending (this : LLVMDataDepGraph) : Prop :=
  ∀ unit ∈ this.llvmNodes_, ∀ it ∈ unit.Succs, it.getSUnit.isBoundaryNode = false →
    unit.NodeNum < it.getSUnit.NodeNum

/-- The instructions `a` and `b` have the same direct successors. -/
def SameScsrs (g : DataDepGraph) (a b : Nat) : Prop :=
  ∀ v, Edge g a v ↔ Edge g b v

/-- No instruction has an edge to itself. -/
def NoSelfLoop (g : DataDepGraph) : Prop :=
  ∀ a, ¬ Edge g a a

/-- Every recursive bit vector has a bit for each of the first `N` instructions. -/
def BitsCover (g : DataDepGraph) (N : Nat) : Prop :=
  ∀ x, N ≤ (g.insts x).rcrsvScsrs.length ∧ N ≤ (g.insts x).rcrsvPrdcsrs.length

/-- The chain-time invariant of the table: every record with a non-null `prevNode_` has
the time of the record it points to plus one. -/
def ChainTimeInv (arena : HistArena) : Prop :=
  ∀ (a : Nat) (h : CostHistEnumTreeNode) (p : Nat),
    arena[a]? = some h → h.prevNode_ = some p →
      ∃ q, arena[p]? = some q ∧ h.time_ = q.time_ + 1

/-- The chain-time equation for the record at address `a` alone. -/
def TimeOKAt (arena : HistArena) (a : Nat) : Prop :=
  ∀ (h : CostHistEnumTreeNode) (p : Nat),
    arena[a]? = some h → h.prevNode_ = some p →
      ∃ q, arena[p]? = some q ∧ h.time_ = q.time_ + 1

/-- The entry loop of the dominance test without the static-lower-bound shortcut, in the
words of the specification: rule 4 with shift 0 is applied to every instruction of the
examined window. -/
def DoesDominate_loop_noSkip (enumrtr : Enumerator) (nxtAvlblCycles othrLwrBounds : List Int) :
    Int → List (Option Nat) → Option Bool
  | _, [] => some true
  | time, inst :: rest =>
    let cycleNum := enumrtr.GetCycleNumFrmTime_ time
    match inst with
    | none => DoesDominate_loop_noSkip enumrtr nxtAvlblCycles othrLwrBounds (time - 1) rest
    | some i =>
      let ins := enumrtr.dataDepGraph_.insts i
      match DoesDominate_scsrLoop enumrtr.dataDepGraph_ nxtAvlblCycles othrLwrBounds
          cycleNum 0 ins.scsrs with
      | none => none
      | some false => some false
      | some true =>
        DoesDominate_loop_noSkip enumrtr nxtAvlblCycles othrLwrBounds (time - 1) rest

/-- The lower-bound test of the dominance test with shift 0 and without the shortcut. -/
def DoesDominate_lwrBounds_noSkip (arena : HistArena) (this : Nat)
    (node : Option EnumTreeNode) (othrHstry : Option Nat) (enumrtr : Enumerator)
    (thisTime othrTime : Int) : Option Bool :=
  let minTimeToExmn := GetMinTimeToExmn_ thisTime enumrtr
  match SetLastInsts_ arena this thisTime minTimeToExmn with
  | none => none
  | some lastInsts =>
    let othrLwrBounds : Option (List Int) :=
      match othrHstry with
      | some o => SetLwrBounds_ arena o othrTime minTimeToExmn enumrtr
      | none => node.map fun n => n.frwrdLwrBounds_
    match othrLwrBounds with
    | none => none
    | some othrLwrBounds =>
      match CmputNxtAvlblCycles_ arena this enumrtr with
      | none => none
      | some (_, nxtAvlblCycles) =>
        DoesDominate_loop_noSkip enumrtr nxtAvlblCycles othrLwrBounds thisTime lastInsts

/-- The dominance test with shift 0 and without the static-lower-bound shortcut: rules 1
to 3 as in the code, rule 4 applied to every instruction of the examined window. -/
def DoesDominate__noSkip (arena : HistArena) (this : Nat) (node : Option EnumTreeNode)
    (othrHstry : Option Nat) (mode : ENUMTREE_NODEMODE) (enumrtr : Enumerator) :
    Option Bool :=
  match arena[this]? with
  | none => none
  | some self =>
    let thisTime := self.time_
    let othr : Option (Int × Bool) :=
      match mode with
      | .ETN_ACTIVE => node.map fun n => (n.time_, n.crntCycleBlkd_)
      | .ETN_HISTORY =>
        (othrHstry.bind fun o => arena[o]?).map fun o => (o.time_, o.crntCycleBlkd_)
    match othr with
    | none => none
    | some (othrTime, othrCrntCycleBlkd) =>
      if thisTime > othrTime then some false
      else if othrCrntCycleBlkd ≠ self.crntCycleBlkd_ then some false
      else
        match DoesDominate_rsrvSlots self.toHistEnumTreeNode node enumrtr with
        | none => none
        | some false => some false
        | some true =>
          DoesDominate_lwrBounds_noSkip arena this node othrHstry enumrtr thisTime othrTime

/-- Every successor in the DDG has an issue type of the machine model. -/
def ScsrIssuTypesInRange (enumrtr : Enumerator) : Prop :=
  ∀ (i : Nat) (e : Nat × Int × DependenceType),
    e ∈ (enumrtr.dataDepGraph_.insts i).scsrs →
      (enumrtr.dataDepGraph_.insts e.1).issuType < enumrtr.machMdl_.issueTypes_.length

/-- The pressure limit of a register class after the x86 flags special case: 1 for the
classes `CCR` and `FPCCR` of a target whose name starts with `x86`, the limit reported by
the target otherwise. -/
def effectiveLimit (targetName : String) (cls : TargetRegisterClass) : Int :=
  if LLVMMachineModel.isX86 targetName ∧ (cls.getName = "CCR" ∨ cls.getName = "FPCCR") then 1
  else (cls.getRegPressureLimit : Int)

/-- The register classes of the target that the model keeps: those whose pressure limit
after the special case is greater than 0, in class order. -/
def keptClasses (targetName : String) (classes : List TargetRegisterClass) :
    List TargetRegisterClass :=
  classes.filter fun cls => decide (effectiveLimit targetName cls > 0)

/-- The count that the constructor holds for a register class: 1 for the classes `CCR` and
`FPCCR` of a target whose name starts with `x86`, otherwise the pressure limit as the `int`
field `count` holds it. -/
def storedCount (targetName : String) (cls : TargetRegisterClass) : Int :=
  if LLVMMachineModel.isX86 targetName ∧ (cls.getName = "CCR" ∨ cls.getName = "FPCCR") then 1
  else unsignedToInt cls.getRegPressureLimit

/-- The register classes whose count, as the `int` field holds it, is greater than 0, in
class order. -/
def storedClasses (targetName : String) (classes : List TargetRegisterClass) :
    List TargetRegisterClass :=
  classes.filter fun cls => decide (storedCount targetName cls > 0)

/-- The latency that the loop "Create edges" computes for the host dependence `it` of an
instruction `unit`: under `PRECISE` the machine-model latency for the type that the model
has for the opcode name of `unit` and for the kind of the edge, under `ROUGH` the latency
of the host dependence, and 1 otherwise.  The precision is the one in effect for the region
(`prcsnOf`). -/
def edgeLatencySpec (this : LLVMDataDepGraph) (unit : SUnit) (it : SDep) : Int :=
  match ConvertLLVMNodes_.prcsnOf this with
  | .LTP_PRECISE =>
    this.GetLatency (this.GetInstTypeByName unit.opcodeName)
      (ConvertLLVMNodes_.depTypeOf this it.getKind)
  | .LTP_ROUGH => it.getLatency
  | .other _ => 1

/-- The edges that the specification asks for the host dependences of one unit: one per
dependence that does not end in a boundary node, in order. -/
def hostEdgesOf (this : LLVMDataDepGraph) (unit : SUnit) :
    List (Nat × Nat × Int × DependenceType) :=
  (unit.Succs.filter fun it => !it.getSUnit.isBoundaryNode).map fun it =>
    (unit.NodeNum, it.getSUnit.NodeNum, edgeLatencySpec this unit it,
      ConvertLLVMNodes_.depTypeOf this it.getKind)

/-- The edges that the specification asks for the host dependences of the region. -/
def hostEdges (this : LLVMDataDepGraph) : List (Nat × Nat × Int × DependenceType) :=
  this.llvmNodes_.flatMap (hostEdgesOf this)

/-- The host DAG has a dependence from unit number `a` to unit number `b` that does not end
in a boundary node. -/
def HostEdge (this : LLVMDataDepGraph) (a b : Nat) : Prop :=
  ∃ unit ∈ this.llvmNodes_, ∃ it ∈ unit.Succs,
    it.getSUnit.isBoundaryNode = false ∧ unit.NodeNum = a ∧ it.getSUnit.NodeNum = b

/-- The host dependences have no cycle. -/
def HostAcyclic (this : LLVMDataDepGraph) : Prop :=
  ∀ a, ¬ Relation.TransGen (HostEdge this) a a

/-- The host region is a list of real instructions: unit `i` has number `i`, is an
instruction and not a boundary node, and every dependence that does not end in a boundary
node ends in a unit of the region. -/
def HostWF (this : LLVMDataDepGraph) : Prop :=
  (∀ (i : Nat) (unit : SUnit), this.llvmNodes_[i]? = some unit →
    unit.NodeNum = i ∧ unit.isInstr = true ∧ unit.isBoundaryNode = false) ∧
  ∀ unit ∈ this.llvmNodes_, ∀ it ∈ unit.Succs, it.getSUnit.isBoundaryNode = false →
    it.getSUnit.NodeNum < this.llvmNodes_.length

/-- The successor list that the logged edges give to instruction `k`. -/
def succsOf (edges : List (Nat × Nat × Int × DependenceType)) (k : Nat) :
    List (Nat × Int × DependenceType) :=
  (edges.filter fun e => decide (e.1 = k)).map fun e => e.2

/-- The predecessor list that the logged edges give to instruction `k`. -/
def predsOf (edges : List (Nat × Nat × Int × DependenceType)) (k : Nat) :
    List (Nat × Int × DependenceType) :=
  (edges.filter fun e => decide (e.2.1 = k)).map fun e => (e.1, e.2.2)

/-- The instruction `k` of the graph under construction exists. -/
def Allocated (st : DagState) (k : Nat) : Prop :=
  ∃ node, st.insts_[k]? = some (some node)

/-- Every instruction of the graph under construction carries its index as number and the
successor and predecessor lists that the logged edges give it. -/
def NodesMatchEdges (st : DagState) : Prop :=
  ∀ (k : Nat) (node : DagNode), st.insts_[k]? = some (some node) →
    node.num = k ∧ node.scsrs = succsOf st.edges k ∧ node.prdcsrs = predsOf st.edges k

/-- The instruction name that the specification asks for the node of a unit: the opcode
name, or "Default" when the machine model has no instruction type of that name. -/
def nodeNameSpec (this : LLVMDataDepGraph) (unit : SUnit) : String :=
  if this.GetInstTypeByName unit.opcodeName = this.INVALID_INST_TYPE then "Default"
  else unit.opcodeName

/-- The instruction type that the specification asks for the node of a unit: the type of
the opcode name, or the type of "Default" when the machine model has no instruction type of
that name. -/
def nodeTypeSpec (this : LLVMDataDepGraph) (unit : SUnit) : Int :=
  if this.GetInstTypeByName unit.opcodeName = this.INVALID_INST_TYPE then
    this.GetInstTypeByName "Default"
  else this.GetInstTypeByName unit.opcodeName

/-- The edges from the artificial root `rootNum` that the specification asks for: one
0-latency `OTHER` edge to every instruction of `idxs` that has no predecessor among
`edges`. -/
def rootEdgesSpec (edges : List (Nat × Nat × Int × DependenceType)) (rootNum : Nat)
    (idxs : List Nat) : List (Nat × Nat × Int × DependenceType) :=
  (idxs.filter fun i => (predsOf edges i).isEmpty).map fun i =>
    (rootNum, i, 0, DependenceType.DEP_OTHER)

/-- The edges to the artificial leaf `leafNum` that the specification asks for: one
0-latency `OTHER` edge from every instruction of `idxs` that has no successor among
`edges`. -/
def leafEdgesSpec (edges : List (Nat × Nat × Int × DependenceType)) (leafNum : Nat)
    (idxs : List Nat) : List (Nat × Nat × Int × DependenceType) :=
  (idxs.filter fun i => (succsOf edges i).isEmpty).map fun i =>
    (i, leafNum, 0, DependenceType.DEP_OTHER)

/-- The state `st1` has the instructions of `st`: the same array length and `root_`, the
same empty entries, and for every instruction of `st` an instruction with the same name,
type and opcode. -/
def SameNodes (st st1 : DagState) : Prop :=
  st1.insts_.length = st.insts_.length ∧ st1.root_ = st.root_ ∧
  (∀ k : Nat, st.insts_[k]? = some none → st1.insts_[k]? = some none) ∧
  ∀ (k : Nat) (node : DagNode), st.insts_[k]? = some (some node) →
    ∃ node1, st1.insts_[k]? = some (some node1) ∧ node1.instName = node.instName ∧
      node1.instType = node.instType ∧ node1.opCode = node.opCode

/-- The instruction `k` of the graph under construction exists and has the given name, type
and opcode. -/
def HasNode (st : DagState) (k : Nat) (instName : String) (instType : Int)
    (opCode : String) : Prop :=
  ∃ node, st.insts_[k]? = some (some node) ∧ node.instName = instName ∧
    node.instType = instType ∧ node.opCode = opCode

/-- The latency that the specification asks for an edge of kind `d` created for the host
dependence `it` whose source instruction has the type `instType`: under `PRECISE` the
machine-model latency `GetLatency(instType, d)`, under `ROUGH` the latency of the host
dependence, otherwise 1.  A configured `PRECISE` counts as `ROUGH` when the configured
maximum is positive and the region has more units than that. -/
def latencyByNodeType (this : LLVMDataDepGraph) (instType : Int) (it : SDep)
    (d : DependenceType) : Int :=
  match this.ltncyPrcsn_ with
  | .LTP_PRECISE =>
    if 0 < this.maxDagSizeForPrcisLtncy_ ∧
        this.maxDagSizeForPrcisLtncy_ < (this.llvmNodes_.length : Int) then it.getLatency
    else this.GetLatency instType d
  | .LTP_ROUGH => it.getLatency
  | .other _ => 1

/-- A check of `HostWF` that can be evaluated. -/
def HostWFCheck (this : LLVMDataDepGraph) : Bool :=
  (this.llvmNodes_.enum.all fun p =>
    decide (p.2.NodeNum = p.1) && p.2.isInstr && !p.2.isBoundaryNode) &&
  this.llvmNodes_.all fun unit => unit.Succs.all fun it =>
    it.getSUnit.isBoundaryNode || decide (it.getSUnit.NodeNum < this.llvmNodes_.length)

/-- The latency of the edge created for the host dependence `it` of `unit`, by the
configured precision `ltncyPrcsn_`: `PRECISE` counts as `ROUGH` when the configured maximum
`maxDagSizeForPrcisLtncy_` is positive and the region has more units than that, and stays
`PRECISE` otherwise; `ROUGH` and the other settings are taken as they are. -/
def edgeLatencyByConfig (this : LLVMDataDepGraph) (unit : SUnit) (it : SDep) : Int :=
  match this.ltncyPrcsn_ with
  | .LTP_PRECISE =>
    if 0 < this.maxDagSizeForPrcisLtncy_ ∧
        this.maxDagSizeForPrcisLtncy_ < (this.llvmNodes_.length : Int) then it.getLatency
    else
      this.GetLatency (this.GetInstTypeByName unit.opcodeName)
        (ConvertLLVMNodes_.depTypeOf this it.getKind)
  | .LTP_ROUGH => it.getLatency
  | .other _ => 1

/-! ## Sample inputs -/

/-- A history record without reserved slots and with zero cost information. -/
def mkRec (time : Int) (inst prev : Option Nat) : CostHistEnumTreeNode :=
  { time_ := time, inst_ := inst, prevNode_ := prev, crntCycleBlkd_ := false,
    rsrvSlots_ := none, cost_ := 0, peakSpillCost_ := 0, spillCostSum_ := 0,
    isLngthFsbl_ := true }

/-- An instruction record. -/
def mkInst (num issuType : Nat) (lwrBound : Int) (scsrs : List (Nat × Int × DependenceType))
    (schduld : Bool) : SchedInstruction :=
  { num := num, issuType := issuType, frwrdLwrBound := lwrBound, scsrs := scsrs,
    isSchduld := schduld }

/-- A three-instruction DDG: instruction 0 (issue type 0) and instruction 1 (issue type 1)
are scheduled, instruction 2 is not; the edge `0 → 2` has latency 2.  `lb0` and `lb2` are
the static forward lower bounds of instructions 0 and 2. -/
def sampleInsts (lb0 lb2 : Int) : Nat → SchedInstruction
  | 0 => mkInst 0 0 lb0 [(2, 2, .DEP_DATA)] true
  | 1 => mkInst 1 1 0 [] true
  | 2 => mkInst 2 0 lb2 [] false
  | n + 3 => mkInst (n + 3) 0 0 [] true

/-- An enumerator over `sampleInsts lb0 lb2`: issue rate `R`, two issue types with one slot
each, maximum latency `maxL`, the cycle numbering `cycle`. -/
def sampleEnum (R lb0 lb2 maxL : Int) (cycle : Int → Int) (scf : SPILL_COST_FUNCTION) :
    Enumerator :=
  { issuRate_ := R, totInstCnt_ := 3,
    machMdl_ := { issueRate_ := R, issueTypes_ := [⟨1⟩, ⟨1⟩] },
    dataDepGraph_ := { insts := sampleInsts lb0 lb2, maxLtncy := maxL },
    GetCycleNumFrmTime_ := cycle, INVALID_VALUE := -1, spillCostFunc := scf }

/-- A tree node at time `time` with forward lower bounds `lbs`, cost `cost`, spill-cost
sum `sum`, reserved slots `rsrv` and history record `hstry`, owned by enumerator `en`. -/
def mkNode (time : Int) (lbs : List Int) (cost sum : Int) (rsrv : Option (List ReserveSlot))
    (hstry : Option Nat) (en : Enumerator) : EnumTreeNode :=
  { time_ := time, inst_ := none, prevNode_ := none, crntCycleBlkd_ := false,
    rsrvSlots_ := rsrv, frwrdLwrBounds_ := lbs, cost_ := cost, peakSpillCost_ := 0,
    spillCostSum_ := sum, isLngthFsbl_ := true, hstry_ := hstry, enumrtr_ := en }

/-- An arena holding the root record (time 0), a record that issues instruction 1 at
time 1, a record that issues instruction 0 at time 2 and a record that stalls at time 3. -/
def sampleArena : HistArena :=
  [mkRec 0 none none, mkRec 1 (some 1) (some 0), mkRec 2 (some 0) (some 1),
   mkRec 3 none (some 2)]

/-- The enumerator of the samples: issue rate 1, static lower bound 0 for instructions 0
and 2, maximum latency 2, the cycle numbering of the spec. -/
def sampleEnum1 : Enumerator := sampleEnum 1 0 0 2 (cycleOfTime 1) .SCF_PERP

/-- An arena whose record at address 1 reserves slot 0 for the cycles 1 to 3. -/
def rsrvArena : HistArena :=
  [mkRec 0 none none, { mkRec 1 (some 1) (some 0) with rsrvSlots_ := some [⟨1, 3⟩] }]

/-- An arena with two chains that schedule the instructions 0 and 1: the record at address 2
issues instruction 1 at time 1 and instruction 0 at time 2; the record at address 5 issues
instruction 0 at time 1, stalls at time 2 and issues instruction 1 at time 3. -/
def matchArena : HistArena :=
  [mkRec 0 none none, mkRec 1 (some 1) (some 0), mkRec 2 (some 0) (some 1),
   mkRec 1 (some 0) (some 0), mkRec 2 none (some 3), mkRec 3 (some 1) (some 4)]

/-- An instruction of a transformation graph over `n` instructions: issue type, uses,
definitions, direct predecessors and successors (0-latency `OTHER` edges) and the indices
of its recursive predecessors and successors. -/
def mkGInst (n num issuType : Nat) (uses defs : List Register) (prd scs rprd rscs : List Nat) :
    SchedInstruction :=
  { num := num, issuType := issuType, frwrdLwrBound := 0,
    scsrs := scs.map fun s => (s, 0, .DEP_OTHER), isSchduld := false,
    prdcsrs := prd.map fun s => (s, 0, .DEP_OTHER),
    rcrsvPrdcsrs := (List.range n).map fun y => decide (y ∈ rprd),
    rcrsvScsrs := (List.range n).map fun y => decide (y ∈ rscs),
    uses := uses, defs := defs }

/-- Four independent instructions between the artificial root (index 4) and leaf (index 5):
the instructions 0 and 2 have issue type 1, the instructions 1 and 3 have issue type 2, so
the equivalent groups `{0, 2}` and `{1, 3}` are interleaved. -/
def interleavedGraph : DataDepGraph :=
  { insts := fun x =>
      match x with
      | 0 => mkGInst 6 0 1 [] [] [4] [5] [4] [5]
      | 1 => mkGInst 6 1 2 [] [] [4] [5] [4] [5]
      | 2 => mkGInst 6 2 1 [] [] [4] [5] [4] [5]
      | 3 => mkGInst 6 3 2 [] [] [4] [5] [4] [5]
      | 4 => mkGInst 6 4 0 [] [] [] [0, 1, 2, 3] [] [0, 1, 2, 3, 5]
      | 5 => mkGInst 6 5 0 [] [] [0, 1, 2, 3] [] [0, 1, 2, 3, 4] []
      | n + 6 => mkGInst 6 (n + 6) 0 [] [] [] [] [] []
    maxLtncy := 0, instCnt := 6, regTypeCnt := 1 }

/-- Three instructions of issue type 1 between the artificial root (index 3) and leaf
(index 4), with the edge `0 → 2`; the instructions 1 and 2 use the register `(0, 0)`. -/
def rpGraph : DataDepGraph :=
  { insts := fun x =>
      match x with
      | 0 => mkGInst 5 0 1 [] [] [3] [2] [3] [2, 4]
      | 1 => mkGInst 5 1 1 [⟨0, 0⟩] [] [3] [4] [3] [4]
      | 2 => mkGInst 5 2 1 [⟨0, 0⟩] [] [0] [4] [0, 3] [4]
      | 3 => mkGInst 5 3 0 [] [] [] [0, 1] [] [0, 1, 2, 4]
      | 4 => mkGInst 5 4 0 [] [] [1, 2] [] [0, 1, 2, 3] []
      | n + 5 => mkGInst 5 (n + 5) 0 [] [] [] [] [] []
    maxLtncy := 0, instCnt := 5, regTypeCnt := 1 }

/-- A host region of one instruction `ADD` without dependences, under the latency
precision `ROUGH`; the machine model knows no instruction type by name (every look-up
gives type 0). -/
def singleUnitRegion : LLVMDataDepGraph :=
  { llvmNodes_ :=
      [{ NodeNum := 0, isBoundaryNode := false, isInstr := true, isCall := false,
         opcodeName := "ADD", Preds := [], Succs := [] }]
    ltncyPrcsn_ := .LTP_ROUGH, treatOrderDepsAsDataDeps_ := false,
    maxDagSizeForPrcisLtncy_ := 0, GetInstTypeByName := fun _ => 0,
    GetLatency := fun _ _ => 1, INVALID_INST_TYPE := -1 }

/-- A host region of two instructions with the data dependence `0 → 1` of latency 3. -/
def twoUnitRegion : LLVMDataDepGraph :=
  { llvmNodes_ :=
      [{ NodeNum := 0, isBoundaryNode := false, isInstr := true, isCall := false,
         opcodeName := "LOAD", Preds := [],
         Succs := [{ getSUnit := ⟨1, false⟩, getKind := .Data, getLatency := 3 }] },
       { NodeNum := 1, isBoundaryNode := false, isInstr := true, isCall := false,
         opcodeName := "ADD",
         Preds := [{ getSUnit := ⟨0, false⟩, getKind := .Data, getLatency := 3 }],
         Succs := [] }]
    ltncyPrcsn_ := .LTP_ROUGH, treatOrderDepsAsDataDeps_ := false,
    maxDagSizeForPrcisLtncy_ := 0, GetInstTypeByName := fun _ => 0,
    GetLatency := fun _ _ => 1, INVALID_INST_TYPE := -1 }

/-- Two independent instructions of issue type 1 between the artificial root (index 2)
and leaf (index 3); only instruction 1 uses the register `(0, 0)`. -/
def descGraph : DataDepGraph :=
  { insts := fun x =>
      match x with
      | 0 => mkGInst 4 0 1 [] [] [2] [3] [2] [3]
      | 1 => mkGInst 4 1 1 [⟨0, 0⟩] [] [2] [3] [2] [3]
      | 2 => mkGInst 4 2 0 [] [] [] [0, 1] [] [0, 1, 3]
      | 3 => mkGInst 4 3 0 [] [] [0, 1] [] [0, 1, 2] []
      | n + 4 => mkGInst 4 (n + 4) 0 [] [] [] [] [] []
    maxLtncy := 0, instCnt := 4, regTypeCnt := 1 }

/-- Two instructions of issue type 1 without any edge, with recursive vectors of two
unset bits. -/
def isolatedGraph : DataDepGraph :=
  { insts := fun x => mkGInst 2 x 1 [] [] [] [] [] []
    maxLtncy := 0, instCnt := 2, regTypeCnt := 1 }

/-- An arena with the root record, a record at address 1 that issues instruction 1 at
time 1 and reserves slot 0 for the cycles 1 to 3, and a record at address 2 that issues
instruction 0 at time 1 and reserves nothing. -/
def histPairArena : HistArena :=
  [mkRec 0 none none, { mkRec 1 (some 1) (some 0) with rsrvSlots_ := some [⟨1, 3⟩] },
   mkRec 1 (some 0) (some 0)]

/-- The sample arena with one more record at address 4 that no record points to. -/
def freshArena : HistArena := sampleArena ++ [mkRec 0 none none]

/-- A tree with one node: the node of time 3 whose history record is at address 3. -/
def sampleTree : List EnumTreeNode := [mkNode 3 [] 0 0 none (some 3) sampleEnum1]

/-- A tree node of time 4 whose parent is the node at address 0 of the sample tree. -/
def childNode : EnumTreeNode :=
  { mkNode 4 [] 0 0 none none sampleEnum1 with prevNode_ := some 0 }

/-- A region of one instruction that uses and defines the register unit 5, which is
neither live-in nor defined earlier; one register type, to which every pressure set
belongs; `ADD_USED_AND_NOT_DEFINED_REGS` as given, the other options off. -/
def useDefRegion (addUsedAndNotDefined : Bool) : LLVMRegInfo :=
  { LiveInRegs := [], LiveOutRegs := [], llvmNodes_ := [(0, { Uses := [5], Defs := [5] })],
    pressureSets := fun _ => ["GPR"], GetRegTypeByName := fun _ => 0, GetRegTypeCnt := 1,
    USE_SIMPLE_REGISTER_TYPES := false, ShouldFilterRegisterTypes := false,
    RTFilter := fun _ => false, ADD_USED_AND_NOT_DEFINED_REGS := addUsedAndNotDefined,
    ADD_LIVE_OUT_AND_NOT_DEFINED_REGS := false, ADD_DEFINED_AND_NOT_USED_REGS := false }

/-- A sample latency table: 7 for the instruction type 2 and 1 for any other. -/
def sampleLatency : Int → DependenceType → Int :=
  fun t _ => if t = 2 then 7 else 1

/-- A host region of two instructions with the data dependence `0 → 1` of host latency 3;
the first instruction has the opcode name `opcode0`, the second `ADD`.  The machine model
has the instruction types "Default" (0), "artificial" (1), "LOAD" (2) and "ADD" (3); any
other name gets `INVALID_INST_TYPE`, which is -1. -/
def modelRegion (opcode0 : String) (prcsn : LATENCY_PRECISION) (maxSize : Int)
    (GetLatency : Int → DependenceType → Int) : LLVMDataDepGraph :=
  { llvmNodes_ :=
      [{ NodeNum := 0, isBoundaryNode := false, isInstr := true, isCall := false,
         opcodeName := opcode0, Preds := [],
         Succs := [{ getSUnit := ⟨1, false⟩, getKind := .Data, getLatency := 3 }] },
       { NodeNum := 1, isBoundaryNode := false, isInstr := true, isCall := false,
         opcodeName := "ADD",
         Preds := [{ getSUnit := ⟨0, false⟩, getKind := .Data, getLatency := 3 }],
         Succs := [] }]
    ltncyPrcsn_ := prcsn, treatOrderDepsAsDataDeps_ := false,
    maxDagSizeForPrcisLtncy_ := maxSize,
    GetInstTypeByName := fun s =>
      if s = "Default" then 0 else if s = "artificial" then 1
      else if s = "LOAD" then 2 else if s = "ADD" then 3 else -1
    GetLatency := GetLatency, INVALID_INST_TYPE := -1 }

end OptSched


/-! # Theorems -/

namespace OptSched

/-! ## `GetMinTimeToExmn_` -/

/-- C7 (as stated, refuted): at node time 1 with issue rate 1 and maximum latency 3 the
function returns 1, whereas `max(0, (cycle(t) + 1 - maxLatency) * R + 1)` is 0.  This holds
for the cycle numbering of the spec and for the numbering in which times `1..R` form
cycle 0. -/
theorem GetMinTimeToExmn__ne_spec_formula :
    GetMinTimeToExmn_ 1 (sampleEnum 1 0 0 3 (cycleOfTime 1) .SCF_PERP) ≠
      max 0 (((sampleEnum 1 0 0 3 (cycleOfTime 1) .SCF_PERP).GetCycleNumFrmTime_ 1 + 1
        - (sampleEnum 1 0 0 3 (cycleOfTime 1) .SCF_PERP).dataDepGraph_.maxLtncy)
        * (sampleEnum 1 0 0 3 (cycleOfTime 1) .SCF_PERP).issuRate_ + 1) ∧
    GetMinTimeToExmn_ 1 (sampleEnum 1 0 0 3 (fun t => Int.tdiv (t - 1) 1) .SCF_PERP) ≠
      max 0 ((Int.tdiv (1 - 1) 1 + 1 - 3) * 1 + 1) := by
  decide

/-- C7 (amended): for issue rate `R ≥ 1`, `GetMinTimeToExmn_(t)` equals
`max(1, (cycle(t) + 1 - maxLatency) * R + 1)`; the clamp is at time 1, not 0. -/
theorem GetMinTimeToExmn__eq (nodeTime : Int) (enumrtr : Enumerator)
    (hR : 1 ≤ enumrtr.issuRate_) :
    GetMinTimeToExmn_ nodeTime enumrtr =
      max 1 ((enumrtr.GetCycleNumFrmTime_ nodeTime + 1 - enumrtr.dataDepGraph_.maxLtncy)
        * enumrtr.issuRate_ + 1) := by
  unfold GetMinTimeToExmn_
  simp only
  rcases le_total (enumrtr.GetCycleNumFrmTime_ nodeTime + 1 - enumrtr.dataDepGraph_.maxLtncy) 0
    with h | h
  · rw [max_eq_right h, max_eq_left]
    · simp
    · nlinarith
  · rw [max_eq_left h, max_eq_right]
    nlinarith

/-- Witness of `GetMinTimeToExmn__eq`: issue rate 2, maximum latency 2, node time 5. -/
theorem GetMinTimeToExmn__eq_witness :
    1 ≤ (sampleEnum 2 0 0 2 (cycleOfTime 2) .SCF_PERP).issuRate_ ∧
    GetMinTimeToExmn_ 5 (sampleEnum 2 0 0 2 (cycleOfTime 2) .SCF_PERP) =
      max 1 (((sampleEnum 2 0 0 2 (cycleOfTime 2) .SCF_PERP).GetCycleNumFrmTime_ 5 + 1
        - (sampleEnum 2 0 0 2 (cycleOfTime 2) .SCF_PERP).dataDepGraph_.maxLtncy)
        * (sampleEnum 2 0 0 2 (cycleOfTime 2) .SCF_PERP).issuRate_ + 1) :=
  ⟨by decide, GetMinTimeToExmn__eq 5 _ (by decide)⟩

/-! ## Rules 1 and 2 of the dominance test -/

/-- C2: `DoesDominate_` returns false whenever the record is deeper in time than the
candidate and whenever the blocked-cycle flags differ, for an active node (mode
`ETN_ACTIVE`) and for another history record (mode `ETN_HISTORY`); so a successful
dominance has `h.time ≤ n.time` and equal flags. -/
theorem DoesDominate__time_and_blkd (arena : HistArena) (this : Nat)
    (self : CostHistEnumTreeNode) (enumrtr : Enumerator) (shft : Int)
    (hself : arena[this]? = some self) :
    (∀ (n : EnumTreeNode) (othrHstry : Option Nat),
      (self.time_ > n.time_ →
        DoesDominate_ arena this (some n) othrHstry .ETN_ACTIVE enumrtr shft = some false) ∧
      (self.crntCycleBlkd_ ≠ n.crntCycleBlkd_ →
        DoesDominate_ arena this (some n) othrHstry .ETN_ACTIVE enumrtr shft = some false) ∧
      (DoesDominate_ arena this (some n) othrHstry .ETN_ACTIVE enumrtr shft = some true →
        self.time_ ≤ n.time_ ∧ self.crntCycleBlkd_ = n.crntCycleBlkd_)) ∧
    (∀ (o : Nat) (othr : CostHistEnumTreeNode) (node : Option EnumTreeNode),
      arena[o]? = some othr →
      (self.time_ > othr.time_ →
        DoesDominate_ arena this node (some o) .ETN_HISTORY enumrtr shft = some false) ∧
      (self.crntCycleBlkd_ ≠ othr.crntCycleBlkd_ →
        DoesDominate_ arena this node (some o) .ETN_HISTORY enumrtr shft = some false) ∧
      (DoesDominate_ arena this node (some o) .ETN_HISTORY enumrtr shft = some true →
        self.time_ ≤ othr.time_ ∧ self.crntCycleBlkd_ = othr.crntCycleBlkd_)) := by
  constructor
  · intro n othrHstry
    refine ⟨?_, ?_, ?_⟩
    · intro h
      simp [DoesDominate_, hself, h]
    · intro h
      have h2 : ¬ n.crntCycleBlkd_ = self.crntCycleBlkd_ := fun e => h e.symm
      simp [DoesDominate_, hself, h2]
    · intro h
      by_cases ht : self.time_ > n.time_
      · simp [DoesDominate_, hself, ht] at h
      · by_cases hb : n.crntCycleBlkd_ = self.crntCycleBlkd_
        · exact ⟨not_lt.mp ht, hb.symm⟩
        · simp [DoesDominate_, hself, hb] at h
  · intro o othr node ho
    refine ⟨?_, ?_, ?_⟩
    · intro h
      simp [DoesDominate_, hself, ho, h]
    · intro h
      have h2 : ¬ othr.crntCycleBlkd_ = self.crntCycleBlkd_ := fun e => h e.symm
      simp [DoesDominate_, hself, ho, h2]
    · intro h
      by_cases ht : self.time_ > othr.time_
      · simp [DoesDominate_, hself, ho, ht] at h
      · by_cases hb : othr.crntCycleBlkd_ = self.crntCycleBlkd_
        · exact ⟨not_lt.mp ht, hb.symm⟩
        · simp [DoesDominate_, hself, ho, hb] at h

/-- Witness of `DoesDominate__time_and_blkd`: the record at address 2 of `sampleArena`
(time 2) against a node at time 1. -/
theorem DoesDominate__time_and_blkd_witness :
    sampleArena[2]? = some (mkRec 2 (some 0) (some 1)) ∧
    (mkRec 2 (some 0) (some 1)).time_ > (mkNode 1 [0, 0, 4] 0 0 none none sampleEnum1).time_ ∧
    DoesDominate_ sampleArena 2 (some (mkNode 1 [0, 0, 4] 0 0 none none sampleEnum1)) none
      .ETN_ACTIVE sampleEnum1 0 = some false :=
  ⟨rfl, by decide,
    ((DoesDominate__time_and_blkd sampleArena 2 (mkRec 2 (some 0) (some 1)) sampleEnum1 0
      rfl).1 (mkNode 1 [0, 0, 4] 0 0 none none sampleEnum1) none).1 (by decide)⟩

/-! ## The cost test -/

/-- C4: with a non-zero instruction count `N`, `ChkCostDmntnForBBSpill_` returns a Boolean,
and it returns true exactly when `h.time ≤ n.time`, `h.cost ≤ n.cost` and, if the
spill-cost function is `PEAK_PLUS_AVG` and the costs are equal,
`h.spillCostSum mod N ≤ n.spillCostSum mod N`; for the other spill-cost functions the
tie-breaker is not applied.  `mod` is the remainder of C++ (`Int.tmod`), which for
non-negative sums and positive `N` is the mathematical remainder. -/
theorem ChkCostDmntnForBBSpill__iff (self : CostHistEnumTreeNode) (node : EnumTreeNode)
    (en : Enumerator) (hN : en.totInstCnt_ ≠ 0) :
    (∃ b, ChkCostDmntnForBBSpill_ self node en = some b) ∧
    (ChkCostDmntnForBBSpill_ self node en = some true ↔
      self.time_ ≤ node.time_ ∧ self.cost_ ≤ node.cost_ ∧
      (en.spillCostFunc = .SCF_PEAK_PLUS_AVG → self.cost_ = node.cost_ →
        Int.tmod self.spillCostSum_ en.totInstCnt_
          ≤ Int.tmod node.spillCostSum_ en.totInstCnt_)) ∧
    (en.spillCostFunc ≠ .SCF_PEAK_PLUS_AVG →
      (ChkCostDmntnForBBSpill_ self node en = some true ↔
        self.time_ ≤ node.time_ ∧ self.cost_ ≤ node.cost_)) ∧
    (0 ≤ self.spillCostSum_ → 0 ≤ node.spillCostSum_ → 0 < en.totInstCnt_ →
      Int.tmod self.spillCostSum_ en.totInstCnt_ = self.spillCostSum_ % en.totInstCnt_ ∧
      Int.tmod node.spillCostSum_ en.totInstCnt_ = node.spillCostSum_ % en.totInstCnt_) := by
  have key : ChkCostDmntnForBBSpill_ self node en = some (decide
      (self.time_ ≤ node.time_ ∧ self.cost_ ≤ node.cost_ ∧
      (en.spillCostFunc = .SCF_PEAK_PLUS_AVG → self.cost_ = node.cost_ →
        Int.tmod self.spillCostSum_ en.totInstCnt_
          ≤ Int.tmod node.spillCostSum_ en.totInstCnt_))) := by
    unfold ChkCostDmntnForBBSpill_
    by_cases h1 : self.time_ > node.time_
    · have : ¬ self.time_ ≤ node.time_ := not_le.mpr h1
      simp [h1, this]
    · by_cases h2 : self.cost_ > node.cost_
      · have : ¬ self.cost_ ≤ node.cost_ := not_le.mpr h2
        simp [h1, h2, this]
      · have h1' : self.time_ ≤ node.time_ := not_lt.mp h1
        have h2' : self.cost_ ≤ node.cost_ := not_lt.mp h2
        by_cases h3 : en.spillCostFunc = .SCF_PEAK_PLUS_AVG
        · by_cases h4 : self.cost_ = node.cost_
          · by_cases h5 : Int.tmod self.spillCostSum_ en.totInstCnt_
                > Int.tmod node.spillCostSum_ en.totInstCnt_
            · have : ¬ Int.tmod self.spillCostSum_ en.totInstCnt_
                  ≤ Int.tmod node.spillCostSum_ en.totInstCnt_ := not_le.mpr h5
              simp [h1, h3, h4, hN, h5, this]
            · have : Int.tmod self.spillCostSum_ en.totInstCnt_
                  ≤ Int.tmod node.spillCostSum_ en.totInstCnt_ := not_lt.mp h5
              simp [h1, h3, h4, hN, h5, this, h1']
          · simp [h1, h2, h1', h2', h3, h4]
        · simp [h1, h2, h1', h2', h3]
  refine ⟨⟨_, key⟩, ?_, ?_, ?_⟩
  · rw [key]
    simp only [Option.some.injEq, decide_eq_true_eq]
  · intro hf
    rw [key]
    simp only [Option.some.injEq, decide_eq_true_eq]
    constructor
    · exact fun h => ⟨h.1, h.2.1⟩
    · exact fun h => ⟨h.1, h.2, fun h3 => absurd h3 hf⟩
  · intro h1 h2 h3
    exact ⟨Int.tmod_eq_emod h1 (le_of_lt h3), Int.tmod_eq_emod h2 (le_of_lt h3)⟩

/-- Witness of `ChkCostDmntnForBBSpill__iff`: three instructions, `PEAK_PLUS_AVG`. -/
theorem ChkCostDmntnForBBSpill__iff_witness :
    (sampleEnum 1 0 0 2 (cycleOfTime 1) .SCF_PEAK_PLUS_AVG).totInstCnt_ ≠ 0 ∧
    ∃ b, ChkCostDmntnForBBSpill_ (mkRec 2 (some 0) (some 1))
      (mkNode 2 [0, 0, 4] 0 0 none none sampleEnum1)
      (sampleEnum 1 0 0 2 (cycleOfTime 1) .SCF_PEAK_PLUS_AVG) = some b :=
  ⟨by decide, (ChkCostDmntnForBBSpill__iff (mkRec 2 (some 0) (some 1))
    (mkNode 2 [0, 0, 4] 0 0 none none sampleEnum1)
    (sampleEnum 1 0 0 2 (cycleOfTime 1) .SCF_PEAK_PLUS_AVG) (by decide)).1⟩

/-! ## `CostHistEnumTreeNode::DoesDominate` -/

/-- C5: for a cost history record with `isLngthFsbl_ = false`,
`CostHistEnumTreeNode::DoesDominate` returns true whenever the structural test
`DoesDominate_` succeeds, whatever the costs are, and it returns false whenever
`DoesDominate_` fails. -/
theorem CostDoesDominate_of_infeasible (arena : HistArena) (this : Nat)
    (self : CostHistEnumTreeNode) (node : EnumTreeNode) (enumrtr : Enumerator)
    (hself : arena[this]? = some self) (hinf : self.isLngthFsbl_ = false) :
    (DoesDominate_ arena this (some node) none .ETN_ACTIVE enumrtr 0 = some true →
      CostHistEnumTreeNode.DoesDominate arena this node enumrtr = some true) ∧
    (DoesDominate_ arena this (some node) none .ETN_ACTIVE enumrtr 0 = some false →
      CostHistEnumTreeNode.DoesDominate arena this node enumrtr = some false) := by
  constructor
  · intro h
    simp [CostHistEnumTreeNode.DoesDominate, h, hself, hinf]
  · intro h
    simp [CostHistEnumTreeNode.DoesDominate, h]

/-- Witness of `CostDoesDominate_of_infeasible`: a length-infeasible record at time 1 with
cost 9 prunes a node of cost 0. -/
theorem CostDoesDominate_of_infeasible_witness :
    [mkRec 0 none none, { mkRec 1 (some 1) (some 0) with isLngthFsbl_ := false, cost_ := 9 }][1]?
      = some { mkRec 1 (some 1) (some 0) with isLngthFsbl_ := false, cost_ := 9 } ∧
    DoesDominate_
      [mkRec 0 none none, { mkRec 1 (some 1) (some 0) with isLngthFsbl_ := false, cost_ := 9 }]
      1 (some (mkNode 1 [0, 0, 0] 0 0 none none sampleEnum1)) none .ETN_ACTIVE sampleEnum1 0
      = some true ∧
    CostHistEnumTreeNode.DoesDominate
      [mkRec 0 none none, { mkRec 1 (some 1) (some 0) with isLngthFsbl_ := false, cost_ := 9 }]
      1 (mkNode 1 [0, 0, 0] 0 0 none none sampleEnum1) sampleEnum1 = some true :=
  ⟨rfl, by decide,
    (CostDoesDominate_of_infeasible _ 1 _ (mkNode 1 [0, 0, 0] 0 0 none none sampleEnum1)
      sampleEnum1 rfl rfl).1 (by decide)⟩

/-- C6 (as stated, refuted): the record at address 2 of `sampleArena` is length-feasible
and passes the structural test against a node of the same cost, and
`CostHistEnumTreeNode::DoesDominate` returns true although `h.cost < n.cost` fails. -/
theorem CostDoesDominate_true_with_equal_cost :
    sampleArena[2]? = some (mkRec 2 (some 0) (some 1)) ∧
    (mkRec 2 (some 0) (some 1)).isLngthFsbl_ = true ∧
    DoesDominate_ sampleArena 2 (some (mkNode 2 [0, 0, 4] 0 0 none none sampleEnum1)) none
      .ETN_ACTIVE sampleEnum1 0 = some true ∧
    CostHistEnumTreeNode.DoesDominate sampleArena 2
      (mkNode 2 [0, 0, 4] 0 0 none none sampleEnum1) sampleEnum1 = some true ∧
    ¬ (mkRec 2 (some 0) (some 1)).cost_ < (mkNode 2 [0, 0, 4] 0 0 none none sampleEnum1).cost_ :=
  ⟨rfl, rfl, by decide, by decide, by decide⟩

/-- C6 (amended): for a length-feasible cost history record that passes the structural
test, `CostHistEnumTreeNode::DoesDominate` returns what the cost test
`ChkCostDmntnForBBSpill_` returns; so it returns true only when `h.cost ≤ n.cost`
(equal costs included) and, for `PEAK_PLUS_AVG` with equal costs, the remainders of the
spill-cost sums are ordered. -/
theorem CostDoesDominate_of_feasible (arena : HistArena) (this : Nat)
    (self : CostHistEnumTreeNode) (node : EnumTreeNode) (enumrtr : Enumerator)
    (hself : arena[this]? = some self) (hfsbl : self.isLngthFsbl_ = true)
    (hdom : DoesDominate_ arena this (some node) none .ETN_ACTIVE enumrtr 0 = some true) :
    CostHistEnumTreeNode.DoesDominate arena this node enumrtr
      = ChkCostDmntnForBBSpill_ self node enumrtr ∧
    (CostHistEnumTreeNode.DoesDominate arena this node enumrtr = some true →
      self.cost_ ≤ node.cost_ ∧
      (enumrtr.spillCostFunc = .SCF_PEAK_PLUS_AVG → self.cost_ = node.cost_ →
        Int.tmod self.spillCostSum_ enumrtr.totInstCnt_
          ≤ Int.tmod node.spillCostSum_ enumrtr.totInstCnt_)) := by
  have e : CostHistEnumTreeNode.DoesDominate arena this node enumrtr
      = ChkCostDmntnForBBSpill_ self node enumrtr := by
    simp [CostHistEnumTreeNode.DoesDominate, hdom, hself, hfsbl, ChkCostDmntn_]
  refine ⟨e, ?_⟩
  rw [e]
  intro h
  unfold ChkCostDmntnForBBSpill_ at h
  by_cases h1 : self.time_ > node.time_
  · simp [h1] at h
  · by_cases h2 : self.cost_ > node.cost_
    · simp [h1, h2] at h
    · refine ⟨not_lt.mp h2, fun h3 h4 => ?_⟩
      by_cases hN : enumrtr.totInstCnt_ = 0
      · simp [h1, h2, h3, h4, hN] at h
      · by_cases h5 : Int.tmod self.spillCostSum_ enumrtr.totInstCnt_
            > Int.tmod node.spillCostSum_ enumrtr.totInstCnt_
        · simp [h1, h3, h4, hN, h5] at h
        · exact not_lt.mp h5

/-- Witness of `CostDoesDominate_of_feasible`: the record at address 2 of `sampleArena`
against a node of equal cost. -/
theorem CostDoesDominate_of_feasible_witness :
    sampleArena[2]? = some (mkRec 2 (some 0) (some 1)) ∧
    (mkRec 2 (some 0) (some 1)).isLngthFsbl_ = true ∧
    DoesDominate_ sampleArena 2 (some (mkNode 2 [0, 0, 4] 0 0 none none sampleEnum1)) none
      .ETN_ACTIVE sampleEnum1 0 = some true ∧
    CostHistEnumTreeNode.DoesDominate sampleArena 2
        (mkNode 2 [0, 0, 4] 0 0 none none sampleEnum1) sampleEnum1
      = ChkCostDmntnForBBSpill_ (mkRec 2 (some 0) (some 1))
        (mkNode 2 [0, 0, 4] 0 0 none none sampleEnum1) sampleEnum1 :=
  ⟨rfl, rfl, by decide,
    (CostDoesDominate_of_feasible sampleArena 2 (mkRec 2 (some 0) (some 1))
      (mkNode 2 [0, 0, 4] 0 0 none none sampleEnum1) sampleEnum1 rfl rfl (by decide)).1⟩

/-! ## The shift of the public entry points -/

/-- C9 (as stated, refuted): the record at address 2 of `sampleArena` has time 2 and the
candidate has time 3.  Each public entry point answers true, whereas `DoesDominate_` run
with the shift `n.time - h.time = 1` answers false; so the shift used is not
`n.time - h.time`. -/
theorem entry_points_do_not_shift :
    (DoesDominate sampleArena 2 (mkNode 3 [0, 0, 4] 0 0 none none sampleEnum1) sampleEnum1
        = some true ∧
      DoesDominate_ sampleArena 2 (some (mkNode 3 [0, 0, 4] 0 0 none none sampleEnum1)) none
        .ETN_ACTIVE sampleEnum1 (3 - 2) = some false) ∧
    (CostHistEnumTreeNode.DoesDominate sampleArena 2
        (mkNode 3 [0, 0, 4] 0 0 none none sampleEnum1) sampleEnum1 = some true) ∧
    (IsDominated sampleArena 3 (mkNode 2 [0, 0, 4] 0 0 none (some 2) sampleEnum1) sampleEnum1
        = some true ∧
      DoesDominate_ sampleArena 2 none (some 3) .ETN_HISTORY sampleEnum1 (3 - 2)
        = some false) := by
  decide

/-- C9 (amended): every dominance query through the public entry points runs
`DoesDominate_` with shift 0, whatever the times of the record and of the candidate are:
`HistEnumTreeNode::DoesDominate` and `IsDominated` return what `DoesDominate_` returns for
shift 0, and `CostHistEnumTreeNode::DoesDominate` returns true only if `DoesDominate_`
returns true for shift 0. -/
theorem entry_points_shift_zero (arena : HistArena) (this : Nat) (node : EnumTreeNode)
    (enumrtr : Enumerator) :
    DoesDominate arena this node enumrtr
      = DoesDominate_ arena this (some node) none .ETN_ACTIVE enumrtr 0 ∧
    (CostHistEnumTreeNode.DoesDominate arena this node enumrtr = some true →
      DoesDominate_ arena this (some node) none .ETN_ACTIVE enumrtr 0 = some true) ∧
    (∀ h, node.hstry_ = some h →
      IsDominated arena this node enumrtr
        = DoesDominate_ arena h none (some this) .ETN_HISTORY enumrtr 0) := by
  refine ⟨rfl, ?_, ?_⟩
  · intro h
    unfold CostHistEnumTreeNode.DoesDominate at h
    simp only at h
    match hd : DoesDominate_ arena this (some node) none .ETN_ACTIVE enumrtr 0 with
    | none => simp [hd] at h
    | some false => simp [hd] at h
    | some true => rfl
  · intro h hh
    simp [IsDominated, hh]

/-! ## Rule 3: reserved slots -/

/-- The reserved-slot loop falls through exactly when every visited slot index is readable
in the record's array and, where the record reserves the slot, the node reserves it too
with an end cycle that is no earlier. -/
theorem DoesDominate_rsrvLoop_true_iff (INV : Int) (hs ns : List ReserveSlot) (l : List Nat) :
    DoesDominate_rsrvLoop INV hs ns l = some true ↔
      ∀ i ∈ l, ∃ hslot, hs[i]? = some hslot ∧
        (hslot.strtCycle ≠ INV →
          ∃ nslot, ns[i]? = some nslot ∧ nslot.strtCycle ≠ INV ∧
            hslot.endCycle ≤ nslot.endCycle) := by
  induction l with
  | nil => simp [DoesDominate_rsrvLoop]
  | cons j t ih =>
    simp only [List.mem_cons, forall_eq_or_imp]
    rw [← ih]
    simp only [DoesDominate_rsrvLoop]
    cases hj : hs[j]? with
    | none => simp
    | some hslot =>
      by_cases hres : hslot.strtCycle = INV
      · simp [hres]
      · cases hn : ns[j]? with
        | none => simp [hres]
        | some nslot =>
          by_cases hbad : nslot.strtCycle = INV ∨ hslot.endCycle > nslot.endCycle
          · simp only [ne_eq, hres, not_false_eq_true, if_true, hbad, Option.some.injEq,
              exists_eq_left', forall_true_left]
            constructor
            · intro h; cases h
            · rintro ⟨⟨h1, h2⟩, _⟩
              rcases hbad with hb | hb
              · exact absurd hb h1
              · omega
          · have hb1 : nslot.strtCycle ≠ INV := fun e => hbad (Or.inl e)
            have hb2 : hslot.endCycle ≤ nslot.endCycle := by
              by_contra hc
              exact hbad (Or.inr (not_le.mp hc))
            have hb3 : ¬ nslot.endCycle < hslot.endCycle := not_lt.mpr hb2
            simp [hres, hb1, hb2, hb3]

/-- The reserved-slot loop over ascending slot indices returns false as soon as one slot
reserved by the record is unreserved in the node or ends earlier there. -/
theorem DoesDominate_rsrvLoop_false (INV : Int) (hs ns : List ReserveSlot) (i : Nat)
    (hslot nslot : ReserveSlot) (hh : hs[i]? = some hslot) (hn : ns[i]? = some nslot)
    (hres : hslot.strtCycle ≠ INV)
    (hbad : nslot.strtCycle = INV ∨ nslot.endCycle < hslot.endCycle) :
    ∀ l : List Nat, l.Pairwise (· < ·) → i ∈ l →
      DoesDominate_rsrvLoop INV hs ns l = some false := by
  have hilen : i < hs.length := (List.getElem?_eq_some.mp hh).1
  have hinlen : i < ns.length := (List.getElem?_eq_some.mp hn).1
  intro l
  induction l with
  | nil => intro _ h; cases h
  | cons j t ih =>
    intro hp hmem
    rw [List.pairwise_cons] at hp
    unfold DoesDominate_rsrvLoop
    rcases List.mem_cons.mp hmem with hij | hit
    · subst hij
      have hbad2 : nslot.strtCycle = INV ∨ hslot.endCycle > nslot.endCycle := by
        rcases hbad with h | h
        · exact Or.inl h
        · exact Or.inr h
      simp [hh, hn, hres, hbad2]
    · have hji : j < i := hp.1 i hit
      have h1 : j < hs.length := lt_trans hji hilen
      have h2 : j < ns.length := lt_trans hji hinlen
      rw [List.getElem?_eq_getElem h1]
      simp only
      by_cases hr : hs[j].strtCycle = INV
      · simp only [ne_eq, hr, not_true_eq_false, if_false]
        exact ih hp.2 hit
      · rw [List.getElem?_eq_getElem h2]
        simp only [ne_eq, hr, not_false_eq_true, if_true]
        split_ifs
        · rfl
        · exact ih hp.2 hit

/-- The reserved-slot test against an active node succeeds exactly when rule 3 holds. -/
theorem DoesDominate_rsrvSlots_true_iff (self : HistEnumTreeNode) (n : EnumTreeNode)
    (enumrtr : Enumerator) :
    DoesDominate_rsrvSlots self (some n) enumrtr = some true ↔
      Rule3 self n enumrtr.INVALID_VALUE := by
  unfold DoesDominate_rsrvSlots Rule3
  cases hs : self.rsrvSlots_ with
  | none => simp
  | some hsl =>
    cases hn : n.rsrvSlots_ with
    | none => simp [hn]
    | some nsl =>
      simp only [hn, Option.some.injEq, forall_eq', exists_eq_left']
      rw [DoesDominate_rsrvLoop_true_iff]
      simp only [List.mem_range]

/-- Unfolding of `DoesDominate_` against an active node, with the record at `this` looked up. -/
theorem DoesDominate__active_eq (arena : HistArena) (this : Nat) (self : CostHistEnumTreeNode)
    (n : EnumTreeNode) (othrHstry : Option Nat) (enumrtr : Enumerator) (shft : Int)
    (hself : arena[this]? = some self) :
    DoesDominate_ arena this (some n) othrHstry .ETN_ACTIVE enumrtr shft =
      if self.time_ > n.time_ then some false
      else if n.crntCycleBlkd_ ≠ self.crntCycleBlkd_ then some false
      else
        match DoesDominate_rsrvSlots self.toHistEnumTreeNode (some n) enumrtr with
        | none => none
        | some false => some false
        | some true =>
          DoesDominate_lwrBounds arena this (some n) othrHstry enumrtr shft self.time_
            n.time_ := by
  simp [DoesDominate_, hself]

/-- C3: for a record that holds a reserved-slot array `hs` and an active node `n`,
`DoesDominate_` can return true only if `n` holds a reserved-slot array `ns` and, for
every slot index below the issue rate where the record reserves a range, `n` reserves a
range in that slot that ends no earlier; if `n` has no array, or some such slot of `n` is
unreserved or ends earlier, the result is false. -/
theorem DoesDominate__rsrvSlots (arena : HistArena) (this : Nat)
    (self : CostHistEnumTreeNode) (n : EnumTreeNode) (othrHstry : Option Nat)
    (enumrtr : Enumerator) (shft : Int) (hs : List ReserveSlot)
    (hself : arena[this]? = some self) (hhs : self.rsrvSlots_ = some hs) :
    (DoesDominate_ arena this (some n) othrHstry .ETN_ACTIVE enumrtr shft = some true →
      ∃ ns, n.rsrvSlots_ = some ns ∧
        ∀ i : Nat, i < n.enumrtr_.machMdl_.issueRate_.toNat →
          ∃ hslot, hs[i]? = some hslot ∧
            (hslot.strtCycle ≠ enumrtr.INVALID_VALUE →
              ∃ nslot, ns[i]? = some nslot ∧ nslot.strtCycle ≠ enumrtr.INVALID_VALUE ∧
                hslot.endCycle ≤ nslot.endCycle)) ∧
    (n.rsrvSlots_ = none →
      DoesDominate_ arena this (some n) othrHstry .ETN_ACTIVE enumrtr shft = some false) ∧
    (∀ (ns : List ReserveSlot) (i : Nat) (hslot nslot : ReserveSlot),
      n.rsrvSlots_ = some ns → i < n.enumrtr_.machMdl_.issueRate_.toNat →
      hs[i]? = some hslot → ns[i]? = some nslot →
      hslot.strtCycle ≠ enumrtr.INVALID_VALUE →
      (nslot.strtCycle = enumrtr.INVALID_VALUE ∨ nslot.endCycle < hslot.endCycle) →
      DoesDominate_ arena this (some n) othrHstry .ETN_ACTIVE enumrtr shft = some false) := by
  rw [DoesDominate__active_eq arena this self n othrHstry enumrtr shft hself]
  refine ⟨?_, ?_, ?_⟩
  · intro h
    have h3 : DoesDominate_rsrvSlots self.toHistEnumTreeNode (some n) enumrtr = some true := by
      by_cases h1 : self.time_ > n.time_
      · simp [h1] at h
      · by_cases h2 : n.crntCycleBlkd_ ≠ self.crntCycleBlkd_
        · simp [h1, h2] at h
        · rw [if_neg h1, if_neg h2] at h
          match hr : DoesDominate_rsrvSlots self.toHistEnumTreeNode (some n) enumrtr with
          | none => simp [hr] at h
          | some false => simp [hr] at h
          | some true => rfl
    exact (DoesDominate_rsrvSlots_true_iff _ n enumrtr).mp h3 hs hhs
  · intro hn
    have h3 : DoesDominate_rsrvSlots self.toHistEnumTreeNode (some n) enumrtr = some false := by
      simp [DoesDominate_rsrvSlots, hhs, hn]
    rw [h3]
    split_ifs <;> rfl
  · intro ns i hslot nslot hn hi hh hnn hres hbad
    have hloop := DoesDominate_rsrvLoop_false enumrtr.INVALID_VALUE hs ns i hslot nslot hh hnn
      hres hbad (List.range n.enumrtr_.machMdl_.issueRate_.toNat)
      (List.pairwise_lt_range _) (List.mem_range.mpr hi)
    have h3 : DoesDominate_rsrvSlots self.toHistEnumTreeNode (some n) enumrtr = some false := by
      simp [DoesDominate_rsrvSlots, hhs, hn, hloop]
    rw [h3]
    split_ifs <;> rfl

/-- Witness of `DoesDominate__rsrvSlots`: the record at address 1 of `rsrvArena` reserves
slot 0 and the node has no reserved-slot array. -/
theorem DoesDominate__rsrvSlots_witness :
    rsrvArena[1]? = some { mkRec 1 (some 1) (some 0) with rsrvSlots_ := some [⟨1, 3⟩] } ∧
    (mkNode 1 [0, 0, 0] 0 0 none none sampleEnum1).rsrvSlots_ = none ∧
    DoesDominate_ rsrvArena 1 (some (mkNode 1 [0, 0, 0] 0 0 none none sampleEnum1)) none
      .ETN_ACTIVE sampleEnum1 0 = some false :=
  ⟨rfl, rfl, (DoesDominate__rsrvSlots rsrvArena 1 _
    (mkNode 1 [0, 0, 0] 0 0 none none sampleEnum1) none sampleEnum1 0 [⟨1, 3⟩] rfl
    rfl).2.1 rfl⟩

/-! ## Rule 4: the lower-bound test -/

/-- One link further down the chain: `chainAt` steps through the looked-up record. -/
theorem chainAt_succ_of_lookup (arena : HistArena) (k a : Nat) (c : CostHistEnumTreeNode)
    (h : arena[a]? = some c) :
    chainAt arena (k + 1) (some a) = chainAt arena k c.prevNode_ := by
  simp [chainAt, h]

/-- On a chain that has a record for each of the first `cnt` links, the loop of
`SetLastInsts_` is defined and collects the instructions of these records in order. -/
theorem SetLastInsts_loop_spec (arena : HistArena) :
    ∀ (cnt : Nat) (p : Option Nat),
      (∀ k : Nat, k < cnt → ∃ c, chainAt arena k p = some c) →
      ∃ L, SetLastInsts_loop arena cnt p = some L ∧ L.length = cnt ∧
        ∀ k : Nat, k < cnt → ∃ c, chainAt arena k p = some c ∧ L[k]? = some c.inst_ := by
  intro cnt
  induction cnt with
  | zero =>
    intro p _
    exact ⟨[], by simp [SetLastInsts_loop], rfl, fun k hk => absurd hk (Nat.not_lt_zero k)⟩
  | succ cnt ih =>
    intro p hex
    obtain ⟨c0, hc0⟩ := hex 0 (Nat.succ_pos cnt)
    cases p with
    | none => simp [chainAt] at hc0
    | some a =>
      have ha : arena[a]? = some c0 := by simpa [chainAt] using hc0
      have hex' : ∀ k : Nat, k < cnt → ∃ c, chainAt arena k c0.prevNode_ = some c := by
        intro k hk
        obtain ⟨c, hc⟩ := hex (k + 1) (Nat.succ_lt_succ hk)
        rw [chainAt_succ_of_lookup arena k a c0 ha] at hc
        exact ⟨c, hc⟩
      obtain ⟨L, hL, hlen, hget⟩ := ih c0.prevNode_ hex'
      refine ⟨c0.inst_ :: L, by simp [SetLastInsts_loop, ha, hL], by simp [hlen], ?_⟩
      intro k hk
      cases k with
      | zero => exact ⟨c0, hc0, by simp⟩
      | succ k =>
        obtain ⟨c, hc, hg⟩ := hget k (Nat.lt_of_succ_lt_succ hk)
        refine ⟨c, ?_, by simpa using hg⟩
        rw [chainAt_succ_of_lookup arena k a c0 ha]
        exact hc

/-- The walk of `CmputNxtAvlblCycles_` keeps the length of `nxtAvlblCycles`. -/
theorem CmputNxtAvlblCycles_loop_length (arena : HistArena) (enumrtr : Enumerator)
    (crntCycle : Int) :
    ∀ (fuel : Nat) (p : Option Nat) (time cycleNum : Int) (ipt nxt ipt1 nxt1 : List Int),
      CmputNxtAvlblCycles_loop arena enumrtr crntCycle fuel p time cycleNum ipt nxt
        = some (ipt1, nxt1) → nxt1.length = nxt.length := by
  intro fuel
  induction fuel with
  | zero =>
    intro p time cycleNum ipt nxt ipt1 nxt1 h
    cases p with
    | none =>
      simp only [CmputNxtAvlblCycles_loop, Option.some.injEq, Prod.mk.injEq] at h
      rw [← h.2]
    | some a =>
      simp only [CmputNxtAvlblCycles_loop] at h
      split_ifs at h
      simp only [Option.some.injEq, Prod.mk.injEq] at h
      rw [← h.2]
  | succ fuel ih =>
    intro p time cycleNum ipt nxt ipt1 nxt1 h
    cases p with
    | none =>
      simp only [CmputNxtAvlblCycles_loop, Option.some.injEq, Prod.mk.injEq] at h
      rw [← h.2]
    | some a =>
      simp only [CmputNxtAvlblCycles_loop] at h
      split_ifs at h with hcyc
      · simp only [Option.some.injEq, Prod.mk.injEq] at h
        rw [← h.2]
      · cases hc : arena[a]? with
        | none => simp [hc] at h
        | some c =>
          simp only [hc] at h
          cases hi : c.inst_ with
          | none =>
            simp only [hi] at h
            exact ih _ _ _ _ _ _ _ h
          | some i =>
            simp only [hi] at h
            cases h1 : ipt[(enumrtr.dataDepGraph_.insts i).issuType]? with
            | none => simp [h1] at h
            | some cnt =>
              cases h2 : enumrtr.machMdl_.issueTypes_[(enumrtr.dataDepGraph_.insts i).issuType]?
                with
              | none => simp [h1, h2] at h
              | some info =>
                simp only [h1, h2] at h
                have := ih _ _ _ _ _ _ _ h
                rw [this]
                split_ifs <;> simp

/-- The array `nxtAvlblCycles` computed by `CmputNxtAvlblCycles_` has one entry per issue
type. -/
theorem CmputNxtAvlblCycles__length (arena : HistArena) (this : Nat) (enumrtr : Enumerator)
    (ipt nxt : List Int) (h : CmputNxtAvlblCycles_ arena this enumrtr = some (ipt, nxt)) :
    nxt.length = enumrtr.machMdl_.issueTypes_.length := by
  unfold CmputNxtAvlblCycles_ at h
  cases hs : arena[this]? with
  | none => simp [hs] at h
  | some self =>
    simp only [hs] at h
    have := CmputNxtAvlblCycles_loop_length arena enumrtr _ _ _ _ _ _ _ _ _ h
    simpa using this

/-- With shift 0 the check of the successor loop is the requirement of rule 4. -/
theorem EdgePasses_zero_iff (enumrtr : Enumerator) (nxt othr : List Int) (cyc : Int)
    (e : Nat × Int × DependenceType) :
    EdgePasses enumrtr nxt othr 0 cyc e ↔ EdgeBounded enumrtr nxt othr 0 cyc e := by
  unfold EdgePasses EdgeBounded
  simp

/-- The successor loop of `DoesDominate_` on successors whose issue type and number are
within the arrays: it is defined, and it falls through exactly when every edge passes. -/
theorem DoesDominate_scsrLoop_spec (enumrtr : Enumerator) (nxt othr : List Int)
    (cyc shft : Int) :
    ∀ l : List (Nat × Int × DependenceType),
      (∀ e ∈ l, (enumrtr.dataDepGraph_.insts e.1).issuType < nxt.length ∧
        (enumrtr.dataDepGraph_.insts e.1).num < othr.length) →
      (∃ b, DoesDominate_scsrLoop enumrtr.dataDepGraph_ nxt othr cyc shft l = some b) ∧
      (DoesDominate_scsrLoop enumrtr.dataDepGraph_ nxt othr cyc shft l = some true ↔
        ∀ e ∈ l, EdgePasses enumrtr nxt othr shft cyc e) := by
  intro l
  induction l with
  | nil => intro _; simp [DoesDominate_scsrLoop]
  | cons e t ih =>
    intro hr
    obtain ⟨s, ltncy, d⟩ := e
    have hr0 := hr (s, ltncy, d) (List.mem_cons_self _ _)
    have iht := ih (fun e he => hr e (List.mem_cons_of_mem _ he))
    simp only [List.mem_cons, forall_eq_or_imp]
    simp only [DoesDominate_scsrLoop]
    obtain ⟨nx0, hnx0⟩ : ∃ v, nxt[(enumrtr.dataDepGraph_.insts s).issuType]? = some v :=
      ⟨_, List.getElem?_eq_getElem hr0.1⟩
    obtain ⟨ob0, hob0⟩ : ∃ v, othr[(enumrtr.dataDepGraph_.insts s).num]? = some v :=
      ⟨_, List.getElem?_eq_getElem hr0.2⟩
    by_cases hsch : (enumrtr.dataDepGraph_.insts s).isSchduld = false
    · rw [if_pos hsch]
      rw [hnx0]
      simp only
      by_cases hpush : max (cyc + ltncy) nx0
          > max (enumrtr.dataDepGraph_.insts s).frwrdLwrBound nx0 ∨ shft > 0
      · rw [if_pos hpush]
        rw [hob0]
        simp only
        by_cases hbad : max (cyc + ltncy) nx0 + shft > ob0
        · rw [if_pos hbad]
          refine ⟨⟨false, rfl⟩, ?_⟩
          constructor
          · intro h; cases h
          · rintro ⟨h, _⟩
            exact absurd (h hsch _ _ hnx0 hob0 hpush) (not_le.mpr hbad)
        · rw [if_neg hbad]
          refine ⟨iht.1, ?_⟩
          rw [iht.2]
          constructor
          · intro h
            refine ⟨?_, h⟩
            intro _ nx ob hnx hob _
            rw [hnx0] at hnx
            rw [hob0] at hob
            simp only [Option.some.injEq] at hnx hob
            subst hnx; subst hob
            exact not_lt.mp hbad
          · exact fun h => h.2
      · rw [if_neg hpush]
        refine ⟨iht.1, ?_⟩
        rw [iht.2]
        constructor
        · intro h
          refine ⟨?_, h⟩
          intro _ nx ob hnx hob hp
          rw [hnx0] at hnx
          simp only [Option.some.injEq] at hnx
          subst hnx
          exact absurd hp hpush
        · exact fun h => h.2
    · rw [if_neg hsch]
      refine ⟨iht.1, ?_⟩
      rw [iht.2]
      constructor
      · intro h
        exact ⟨fun hs => absurd hs hsch, h⟩
      · exact fun h => h.2

/-- The entry loop of `DoesDominate_` on a DDG whose successors are within the arrays: it
is defined, and it returns true exactly when, for every entry `k` that holds an
instruction issued after its static lower bound (or any instruction when `shft > 0`),
every successor edge passes; entry `k` has time `time - k`. -/
theorem DoesDominate_loop_spec (enumrtr : Enumerator) (nxt othr : List Int) (shft : Int)
    (hr : ∀ (i : Nat) (e : Nat × Int × DependenceType),
      e ∈ (enumrtr.dataDepGraph_.insts i).scsrs →
        (enumrtr.dataDepGraph_.insts e.1).issuType < nxt.length ∧
        (enumrtr.dataDepGraph_.insts e.1).num < othr.length) :
    ∀ (L : List (Option Nat)) (time : Int),
      (∃ b, DoesDominate_loop enumrtr nxt othr shft time L = some b) ∧
      (DoesDominate_loop enumrtr nxt othr shft time L = some true ↔
        ∀ (k i : Nat), L[k]? = some (some i) →
          (enumrtr.GetCycleNumFrmTime_ (time - k)
              > (enumrtr.dataDepGraph_.insts i).frwrdLwrBound ∨ shft > 0) →
          ∀ e ∈ (enumrtr.dataDepGraph_.insts i).scsrs,
            EdgePasses enumrtr nxt othr shft (enumrtr.GetCycleNumFrmTime_ (time - k)) e) := by
  intro L
  induction L with
  | nil => intro time; simp [DoesDominate_loop]
  | cons inst rest ih =>
    intro time
    have iht := ih (time - 1)
    have shiftk : ∀ k : Nat, time - 1 - (k : Int) = time - ((k + 1 : Nat) : Int) := by
      intro k; push_cast; ring
    have tail_iff :
        (∀ (k i : Nat), rest[k]? = some (some i) →
          (enumrtr.GetCycleNumFrmTime_ (time - 1 - k)
              > (enumrtr.dataDepGraph_.insts i).frwrdLwrBound ∨ shft > 0) →
          ∀ e ∈ (enumrtr.dataDepGraph_.insts i).scsrs,
            EdgePasses enumrtr nxt othr shft (enumrtr.GetCycleNumFrmTime_ (time - 1 - k)) e) ↔
        (∀ (k i : Nat), (inst :: rest)[k + 1]? = some (some i) →
          (enumrtr.GetCycleNumFrmTime_ (time - ((k + 1 : Nat) : Int))
              > (enumrtr.dataDepGraph_.insts i).frwrdLwrBound ∨ shft > 0) →
          ∀ e ∈ (enumrtr.dataDepGraph_.insts i).scsrs,
            EdgePasses enumrtr nxt othr shft
              (enumrtr.GetCycleNumFrmTime_ (time - ((k + 1 : Nat) : Int))) e) := by
      constructor
      · intro h k i hk
        rw [← shiftk k]
        exact h k i (by simpa using hk)
      · intro h k i hk
        rw [shiftk k]
        exact h k i (by simpa using hk)
    have split_all : ∀ P : Nat → Prop, (∀ k, P k) ↔ (P 0 ∧ ∀ k, P (k + 1)) := by
      intro P
      constructor
      · exact fun h => ⟨h 0, fun k => h (k + 1)⟩
      · rintro ⟨h0, hs⟩ k
        cases k with
        | zero => exact h0
        | succ k => exact hs k
    rw [split_all]
    rw [← tail_iff, ← iht.2]
    simp only [DoesDominate_loop]
    cases inst with
    | none =>
      simp only
      refine ⟨iht.1, ?_⟩
      constructor
      · intro h
        refine ⟨?_, h⟩
        intro i hi
        simp at hi
      · exact fun h => h.2
    | some i0 =>
      simp only
      have hs := DoesDominate_scsrLoop_spec enumrtr nxt othr
        (enumrtr.GetCycleNumFrmTime_ time) shft (enumrtr.dataDepGraph_.insts i0).scsrs
        (fun e he => hr i0 e he)
      have t0 : time - ((0 : Nat) : Int) = time := by simp
      by_cases hg : enumrtr.GetCycleNumFrmTime_ time
          > (enumrtr.dataDepGraph_.insts i0).frwrdLwrBound ∨ shft > 0
      · rw [if_pos hg]
        obtain ⟨b, hb⟩ := hs.1
        cases b with
        | false =>
          rw [hb]
          simp only
          refine ⟨⟨false, rfl⟩, ?_⟩
          constructor
          · intro h; cases h
          · rintro ⟨h, _⟩
            have h0 := h i0 (by simp) (by rw [t0]; exact hg)
            rw [t0] at h0
            have := hs.2.mpr h0
            rw [hb] at this
            cases this
        | true =>
          rw [hb]
          simp only
          refine ⟨iht.1, ?_⟩
          constructor
          · intro h
            refine ⟨?_, h⟩
            intro i hi _
            simp only [List.getElem?_cons_zero, Option.some.injEq] at hi
            subst hi
            rw [t0]
            exact hs.2.mp hb
          · exact fun h => h.2
      · rw [if_neg hg]
        refine ⟨iht.1, ?_⟩
        constructor
        · intro h
          refine ⟨?_, h⟩
          intro i hi hgi
          simp only [List.getElem?_cons_zero, Option.some.injEq] at hi
          subst hi
          rw [t0] at hgi
          exact absurd hgi hg
        · exact fun h => h.2

/-- With edge-consistent static lower bounds, rule 4 over the instructions issued after
their static lower bound is rule 4 over every examined instruction: an instruction issued
no later than its static lower bound pushes no successor below its normal bound. -/
theorem Rule4_guarded_iff_of_edgeConsistent (arena : HistArena) (this : Nat) (T : Int)
    (enumrtr : Enumerator) (nxt othr : List Int) (hcons : EdgeConsistent enumrtr) :
    Rule4 true arena this T enumrtr nxt othr ↔ Rule4 false arena this T enumrtr nxt othr := by
  unfold Rule4
  constructor
  · intro h k c i hc hlo hhi hi _ e he
    by_cases hg : enumrtr.GetCycleNumFrmTime_ c.time_
        > (enumrtr.dataDepGraph_.insts i).frwrdLwrBound
    · exact h k c i hc hlo hhi hi (fun _ => hg) e he
    · intro _ nx ob _ _ hpush
      have h1 := hcons i e he
      have h2 : enumrtr.GetCycleNumFrmTime_ c.time_ + e.2.1
          ≤ (enumrtr.dataDepGraph_.insts e.1).frwrdLwrBound := by
        have := not_lt.mp hg
        omega
      exact absurd hpush (not_lt.mpr (max_le_max h2 (le_refl nx)))
  · intro h k c i hc hlo hhi hi _ e he
    exact h k c i hc hlo hhi hi (fun hf => by cases hf) e he

/-- C1 (amended): for a record `h` and an active node `n` that satisfy rules 1-3, on a
time-ordered chain and a DDG whose successors have issue types and numbers within the
arrays, `DoesDominate_` in mode `ETN_ACTIVE` with shift 0 returns a Boolean, and it returns
true exactly when rule 4 holds for the instructions of `h`'s partial schedule at a time in
`[minTimeToExmn, h.time]` that were issued in a cycle after their static forward lower
bound: for each unscheduled successor `s` of such an instruction,
`thisBound > normBound` implies `thisBound ≤ n.frwrdLwrBounds[s]`.  If the static forward
lower bounds are edge-consistent, this is rule 4 over every instruction at a time in
`[minTimeToExmn, h.time]`. -/
theorem DoesDominate__active_iff_rule4 (arena : HistArena) (this : Nat)
    (self : CostHistEnumTreeNode) (n : EnumTreeNode) (enumrtr : Enumerator)
    (instsPerType nxtAvlblCycles : List Int)
    (hself : arena[this]? = some self)
    (hrule1 : self.time_ ≤ n.time_)
    (hrule2 : self.crntCycleBlkd_ = n.crntCycleBlkd_)
    (hrule3 : Rule3 self.toHistEnumTreeNode n enumrtr.INVALID_VALUE)
    (hchain : ChainTimed arena this self.time_ (GetMinTimeToExmn_ self.time_ enumrtr))
    (hnxt : CmputNxtAvlblCycles_ arena this enumrtr = some (instsPerType, nxtAvlblCycles))
    (hrange : ScsrsInRange enumrtr n.frwrdLwrBounds_.length) :
    (∃ b, DoesDominate_ arena this (some n) none .ETN_ACTIVE enumrtr 0 = some b) ∧
    (DoesDominate_ arena this (some n) none .ETN_ACTIVE enumrtr 0 = some true ↔
      Rule4 true arena this self.time_ enumrtr nxtAvlblCycles n.frwrdLwrBounds_) ∧
    (EdgeConsistent enumrtr →
      (DoesDominate_ arena this (some n) none .ETN_ACTIVE enumrtr 0 = some true ↔
        Rule4 false arena this self.time_ enumrtr nxtAvlblCycles n.frwrdLwrBounds_)) := by
  suffices hmain :
      (∃ b, DoesDominate_ arena this (some n) none .ETN_ACTIVE enumrtr 0 = some b) ∧
      (DoesDominate_ arena this (some n) none .ETN_ACTIVE enumrtr 0 = some true ↔
        Rule4 true arena this self.time_ enumrtr nxtAvlblCycles n.frwrdLwrBounds_) from
    ⟨hmain.1, hmain.2, fun hcons =>
      hmain.2.trans (Rule4_guarded_iff_of_edgeConsistent _ _ _ _ _ _ hcons)⟩
  rw [DoesDominate__active_eq arena this self n none enumrtr 0 hself]
  rw [if_neg (not_lt.mpr hrule1), if_neg (not_not.mpr hrule2.symm)]
  rw [(DoesDominate_rsrvSlots_true_iff _ n enumrtr).mpr hrule3]
  simp only
  have hcnt : ∀ k : Nat,
      k < (self.time_ - GetMinTimeToExmn_ self.time_ enumrtr + 1).toNat ↔
        (k : Int) ≤ self.time_ - GetMinTimeToExmn_ self.time_ enumrtr := by
    intro k; omega
  obtain ⟨L, hL, hlen, hget⟩ := SetLastInsts_loop_spec arena
    (self.time_ - GetMinTimeToExmn_ self.time_ enumrtr + 1).toNat (some this)
    (fun k hk => hchain.2 k ((hcnt k).mp hk))
  have hr : ∀ (i : Nat) (e : Nat × Int × DependenceType),
      e ∈ (enumrtr.dataDepGraph_.insts i).scsrs →
        (enumrtr.dataDepGraph_.insts e.1).issuType < nxtAvlblCycles.length ∧
        (enumrtr.dataDepGraph_.insts e.1).num < n.frwrdLwrBounds_.length := by
    intro i e he
    rw [CmputNxtAvlblCycles__length arena this enumrtr _ _ hnxt]
    exact hrange i e he
  obtain ⟨hdef, hiff⟩ :=
    DoesDominate_loop_spec enumrtr nxtAvlblCycles n.frwrdLwrBounds_ 0 hr L self.time_
  have hrun : DoesDominate_lwrBounds arena this (some n) none enumrtr 0 self.time_ n.time_
      = DoesDominate_loop enumrtr nxtAvlblCycles n.frwrdLwrBounds_ 0 self.time_ L := by
    simp [DoesDominate_lwrBounds, SetLastInsts_, hL, hnxt]
  rw [hrun]
  refine ⟨hdef, hiff.trans ?_⟩
  unfold Rule4
  constructor
  · intro h k c i hc hlo _ hi hguard e he
    have htime : c.time_ = self.time_ - k := hchain.1 k c hc
    have hk : k < (self.time_ - GetMinTimeToExmn_ self.time_ enumrtr + 1).toNat := by
      rw [hcnt]; rw [htime] at hlo; omega
    obtain ⟨c', hc', hLk⟩ := hget k hk
    rw [hc] at hc'
    simp only [Option.some.injEq] at hc'
    subst hc'
    rw [hi] at hLk
    rw [htime]
    rw [htime] at hguard
    exact (EdgePasses_zero_iff _ _ _ _ _).mp (h k i hLk (Or.inl (hguard rfl)) e he)
  · intro h k i hLk hguard e he
    have hk : k < (self.time_ - GetMinTimeToExmn_ self.time_ enumrtr + 1).toNat := by
      have := (List.getElem?_eq_some.mp hLk).1
      rw [hlen] at this
      exact this
    obtain ⟨c, hc, hLk'⟩ := hget k hk
    rw [hLk] at hLk'
    simp only [Option.some.injEq] at hLk'
    have htime : c.time_ = self.time_ - k := hchain.1 k c hc
    have hkle := (hcnt k).mp hk
    have hg : enumrtr.GetCycleNumFrmTime_ (self.time_ - k)
        > (enumrtr.dataDepGraph_.insts i).frwrdLwrBound := by
      rcases hguard with hg | hg
      · exact hg
      · exact absurd hg (lt_irrefl 0)
    have := h k c i hc (by rw [htime]; omega) (by rw [htime]; omega) hLk'.symm
      (fun _ => by rw [htime]; exact hg) e he
    rw [htime] at this
    exact (EdgePasses_zero_iff _ _ _ _ _).mpr this

/-- The chain of the record at address 2 of `sampleArena` is in time order. -/
theorem sampleArena_chainTimed (lo : Int) (hlo : 0 ≤ lo) : ChainTimed sampleArena 2 2 lo := by
  constructor
  · intro k c h
    match k with
    | 0 =>
      simp only [chainAt, sampleArena, Option.bind] at h
      simp only [List.getElem?_cons_succ, List.getElem?_cons_zero, Option.some.injEq] at h
      subst h; rfl
    | 1 =>
      simp only [chainAt, sampleArena, Option.bind] at h
      simp only [List.getElem?_cons_succ, List.getElem?_cons_zero, mkRec,
        Option.some.injEq] at h
      subst h; rfl
    | 2 =>
      simp only [chainAt, sampleArena, Option.bind] at h
      simp only [List.getElem?_cons_succ, List.getElem?_cons_zero, mkRec,
        Option.some.injEq] at h
      subst h; rfl
    | k + 3 =>
      simp only [chainAt, sampleArena, Option.bind] at h
      simp only [List.getElem?_cons_succ, List.getElem?_cons_zero, mkRec] at h
      cases k <;> simp [chainAt] at h
  · intro k hk
    match k with
    | 0 => exact ⟨_, rfl⟩
    | 1 => exact ⟨_, rfl⟩
    | 2 => exact ⟨_, rfl⟩
    | k + 3 => push_cast at hk; omega

/-- The successors of the sample DDG have an issue type of the machine model and a number
below 3. -/
theorem sampleEnum_scsrsInRange (R lb0 lb2 maxL : Int) (cycle : Int → Int)
    (scf : SPILL_COST_FUNCTION) : ScsrsInRange (sampleEnum R lb0 lb2 maxL cycle scf) 3 := by
  intro i e he
  match i with
  | 0 =>
    simp only [sampleEnum, sampleInsts, mkInst, List.mem_singleton] at he
    subst he
    simp [sampleEnum, sampleInsts, mkInst]
  | 1 => simp [sampleEnum, sampleInsts, mkInst] at he
  | 2 => simp [sampleEnum, sampleInsts, mkInst] at he
  | k + 3 => simp [sampleEnum, sampleInsts, mkInst] at he

/-- C1 (as stated, refuted): in a DDG where instruction 0 has static lower bound 2 and its
successor 2 (latency 2) has static lower bound 0, the record at address 2 of `sampleArena`
(instruction 0 issued in cycle 2) and a node with `frwrdLwrBounds = [0, 0, 0]` satisfy
rules 1-3 and `DoesDominate_` returns true, although rule 4 taken over every examined
instruction fails: `thisBound = 4 > normBound = 3` and `4 > frwrdLwrBounds[2] = 0`. -/
theorem DoesDominate__true_without_rule4 :
    sampleArena[2]? = some (mkRec 2 (some 0) (some 1)) ∧
    (mkRec 2 (some 0) (some 1)).time_
      ≤ (mkNode 2 [0, 0, 0] 0 0 none none
          (sampleEnum 1 2 0 2 (cycleOfTime 1) .SCF_PERP)).time_ ∧
    (mkRec 2 (some 0) (some 1)).crntCycleBlkd_
      = (mkNode 2 [0, 0, 0] 0 0 none none
          (sampleEnum 1 2 0 2 (cycleOfTime 1) .SCF_PERP)).crntCycleBlkd_ ∧
    Rule3 (mkRec 2 (some 0) (some 1)).toHistEnumTreeNode
      (mkNode 2 [0, 0, 0] 0 0 none none (sampleEnum 1 2 0 2 (cycleOfTime 1) .SCF_PERP)) (-1) ∧
    CmputNxtAvlblCycles_ sampleArena 2 (sampleEnum 1 2 0 2 (cycleOfTime 1) .SCF_PERP)
      = some ([1, 1], [3, 3]) ∧
    DoesDominate_ sampleArena 2
      (some (mkNode 2 [0, 0, 0] 0 0 none none (sampleEnum 1 2 0 2 (cycleOfTime 1) .SCF_PERP)))
      none .ETN_ACTIVE (sampleEnum 1 2 0 2 (cycleOfTime 1) .SCF_PERP) 0 = some true ∧
    ¬ Rule4 false sampleArena 2 2 (sampleEnum 1 2 0 2 (cycleOfTime 1) .SCF_PERP)
      [3, 3] [0, 0, 0] := by
  refine ⟨rfl, by decide, rfl, ?_, by decide, by decide, ?_⟩
  · intro hs h
    cases h
  · intro h
    have hedge := h 0 (mkRec 2 (some 0) (some 1)) 0 rfl (by decide) (by decide) rfl
      (fun hf => by cases hf) (2, 2, .DEP_DATA) (by simp [sampleEnum, sampleInsts, mkInst])
    exact absurd (hedge rfl 3 0 rfl rfl (by decide)) (by decide)

/-- Witness of `DoesDominate__active_iff_rule4`: the record at address 2 of `sampleArena`
against a node at time 2 with `frwrdLwrBounds = [0, 0, 4]`. -/
theorem DoesDominate__active_iff_rule4_witness :
    sampleArena[2]? = some (mkRec 2 (some 0) (some 1)) ∧
    CmputNxtAvlblCycles_ sampleArena 2 sampleEnum1 = some ([1, 1], [3, 3]) ∧
    ((∃ b, DoesDominate_ sampleArena 2 (some (mkNode 2 [0, 0, 4] 0 0 none none sampleEnum1))
        none .ETN_ACTIVE sampleEnum1 0 = some b) ∧
      (DoesDominate_ sampleArena 2 (some (mkNode 2 [0, 0, 4] 0 0 none none sampleEnum1))
          none .ETN_ACTIVE sampleEnum1 0 = some true ↔
        Rule4 true sampleArena 2 2 sampleEnum1 [3, 3] [0, 0, 4])) :=
  ⟨rfl, by decide,
    (DoesDominate__active_iff_rule4 sampleArena 2 (mkRec 2 (some 0) (some 1))
      (mkNode 2 [0, 0, 4] 0 0 none none sampleEnum1) sampleEnum1 [1, 1] [3, 3] rfl
      (by decide) rfl (fun hs h => by cases h)
      (sampleArena_chainTimed _ (by decide)) (by decide)
      (sampleEnum_scsrsInRange 1 0 0 2 (cycleOfTime 1) .SCF_PERP)).1,
    (DoesDominate__active_iff_rule4 sampleArena 2 (mkRec 2 (some 0) (some 1))
      (mkNode 2 [0, 0, 4] 0 0 none none sampleEnum1) sampleEnum1 [1, 1] [3, 3] rfl
      (by decide) rfl (fun hs h => by cases h)
      (sampleArena_chainTimed _ (by decide)) (by decide)
      (sampleEnum_scsrsInRange 1 0 0 2 (cycleOfTime 1) .SCF_PERP)).2.1⟩

/-- Witness of `entry_points_shift_zero`: `IsDominated` asked about the record at address 3
of `sampleArena` for a node whose history record is at address 2. -/
theorem entry_points_shift_zero_witness :
    (mkNode 2 [0, 0, 4] 0 0 none (some 2) sampleEnum1).hstry_ = some 2 ∧
    IsDominated sampleArena 3 (mkNode 2 [0, 0, 4] 0 0 none (some 2) sampleEnum1) sampleEnum1
      = DoesDominate_ sampleArena 2 none (some 3) .ETN_HISTORY sampleEnum1 0 :=
  ⟨rfl, (entry_points_shift_zero sampleArena 3
    (mkNode 2 [0, 0, 4] 0 0 none (some 2) sampleEnum1) sampleEnum1).2.2 2 rfl⟩

/-! ## `CmputNxtAvlblCycles_` -/

/-- C8 (the code at the failing input): issue rate 2, two issue types with one slot each;
the record at address 3 of `sampleArena` stalls at time 3, its predecessors issue
instruction 0 (issue type 0) at time 2 and instruction 1 (issue type 1) at time 1.
With the cycle numbering of the spec the current cycle is 1 and holds the entries of times
3 and 2, so issue type 1 has no instruction in it and its next available cycle should be
1; the code also counts the entry of time 1 and yields 2.  With the numbering in which
times `1..R` form cycle 0 the current cycle holds only the stall, so issue type 0 should
get 1; the code also counts the entry of time 2 and yields 2. -/
theorem CmputNxtAvlblCycles__counts_previous_cycle :
    (CmputNxtAvlblCycles_ sampleArena 3 (sampleEnum 2 0 0 2 (cycleOfTime 2) .SCF_PERP)
        = some ([1, 1], [2, 2]) ∧
      nxtAvlblCycleSpec sampleArena 3 (sampleEnum 2 0 0 2 (cycleOfTime 2) .SCF_PERP) 1
        = some 1) ∧
    (CmputNxtAvlblCycles_ sampleArena 3
        (sampleEnum 2 0 0 2 (fun t => Int.tdiv (t - 1) 2) .SCF_PERP)
        = some ([1, 0], [2, 1]) ∧
      nxtAvlblCycleSpec sampleArena 3
        (sampleEnum 2 0 0 2 (fun t => Int.tdiv (t - 1) 2) .SCF_PERP) 0 = some 1) := by
  decide

/-! ## `DoesMatch` -/

/-- The chain from `NULL` has no record. -/
theorem chainAt_none (arena : HistArena) (k : Nat) : chainAt arena k none = none := by
  cases k <;> simp [chainAt]

/-- The instruction numbers on the chain of an allocated record are the number of its own
instruction, if it has one, and the numbers on the chain of its parent. -/
theorem OnChain_some_iff (arena : HistArena) (ddg : DataDepGraph) (a : Nat)
    (c : CostHistEnumTreeNode) (hc : arena[a]? = some c) (m : Nat) :
    OnChain arena ddg (some a) m ↔
      (∃ i, c.inst_ = some i ∧ (ddg.insts i).num = m) ∨ OnChain arena ddg c.prevNode_ m := by
  constructor
  · rintro ⟨k, c1, i, hk, hi, hm⟩
    cases k with
    | zero =>
      have : c1 = c := by
        simp only [chainAt, Option.bind, hc, Option.some.injEq] at hk
        exact hk.symm
      subst this
      exact Or.inl ⟨i, hi, hm⟩
    | succ k =>
      rw [chainAt_succ_of_lookup arena k a c hc] at hk
      exact Or.inr ⟨k, c1, i, hk, hi, hm⟩
  · rintro (⟨i, hi, hm⟩ | ⟨k, c1, i, hk, hi, hm⟩)
    · exact ⟨0, c, i, by simp [chainAt, hc], hi, hm⟩
    · exact ⟨k + 1, c1, i, by rw [chainAt_succ_of_lookup arena k a c hc]; exact hk, hi, hm⟩

/-- On a chain that ends within `fuel` links and whose instruction numbers are within the
vector, the walk of `SetInstsSchduld_` is defined and sets exactly the bits of the
instruction numbers on the chain. -/
theorem SetInstsSchduld_loop_spec (arena : HistArena) (ddg : DataDepGraph) :
    ∀ (fuel : Nat) (p : Option Nat) (bv : BitVector),
      ChainEndsWithin arena fuel p →
      (∀ m, OnChain arena ddg p m → m < bv.length) →
      ∃ bv1, SetInstsSchduld_loop arena ddg fuel p bv = some bv1 ∧ bv1.length = bv.length ∧
        ∀ m, (bv1.getD m false = true ↔ bv.getD m false = true ∨ OnChain arena ddg p m) := by
  intro fuel
  induction fuel with
  | zero =>
    intro p bv hend _
    cases p with
    | none =>
      refine ⟨bv, by simp [SetInstsSchduld_loop], rfl, fun m => ?_⟩
      constructor
      · exact fun h => Or.inl h
      · rintro (h | ⟨k, c, i, hk, _, _⟩)
        · exact h
        · rw [chainAt_none] at hk; cases hk
    | some a => exact absurd hend (by simp [ChainEndsWithin])
  | succ fuel ih =>
    intro p bv hend hr
    cases p with
    | none =>
      refine ⟨bv, by simp [SetInstsSchduld_loop], rfl, fun m => ?_⟩
      constructor
      · exact fun h => Or.inl h
      · rintro (h | ⟨k, c, i, hk, _, _⟩)
        · exact h
        · rw [chainAt_none] at hk; cases hk
    | some a =>
      obtain ⟨c, hc, hend1⟩ : ∃ c, arena[a]? = some c ∧
          ChainEndsWithin arena fuel c.prevNode_ := by
        simpa [ChainEndsWithin] using hend
      have hr1 : ∀ m, OnChain arena ddg c.prevNode_ m → m < bv.length :=
        fun m hm => hr m ((OnChain_some_iff arena ddg a c hc m).mpr (Or.inr hm))
      cases hi : c.inst_ with
      | none =>
        obtain ⟨bv1, h1, h2, h3⟩ := ih c.prevNode_ bv hend1 hr1
        refine ⟨bv1, by simp [SetInstsSchduld_loop, hc, hi, h1], h2, fun m => ?_⟩
        rw [h3 m, OnChain_some_iff arena ddg a c hc m]
        simp [hi]
      | some i =>
        have hnum : (ddg.insts i).num < bv.length :=
          hr _ ((OnChain_some_iff arena ddg a c hc _).mpr (Or.inl ⟨i, hi, rfl⟩))
        obtain ⟨bv1, h1, h2, h3⟩ := ih c.prevNode_ (bv.set (ddg.insts i).num true) hend1
          (by simpa using hr1)
        refine ⟨bv1, by simp [SetInstsSchduld_loop, hc, hi, hnum, h1], by simpa using h2,
          fun m => ?_⟩
        rw [h3 m, OnChain_some_iff arena ddg a c hc m]
        have hset : (bv.set (ddg.insts i).num true).getD m false = true ↔
            bv.getD m false = true ∨ (ddg.insts i).num = m := by
          simp only [List.getD_eq_getElem?_getD, List.getElem?_set]
          by_cases hm : (ddg.insts i).num = m
          · subst hm
            simp [hnum]
          · simp [hm]
        rw [hset]
        simp only [hi, Option.some.injEq, exists_eq_left']
        tauto

/-- Two bit vectors of the same length with the same set bits are equal. -/
theorem BitVector_eq_of_getD (a b : BitVector) (hlen : a.length = b.length)
    (h : ∀ m, (a.getD m false = true ↔ b.getD m false = true)) : a = b := by
  apply List.ext_getElem hlen
  intro m h1 h2
  have := h m
  simp only [List.getD_eq_getElem?_getD, List.getElem?_eq_getElem h1,
    List.getElem?_eq_getElem h2, Option.getD_some] at this
  cases ha : a[m] <;> cases hb : b[m] <;> simp_all

/-- C11: for a record `h` and a node `n` whose history record is allocated, on chains that
end at `NULL` and whose instruction numbers are below the instruction count, `DoesMatch`
returns a Boolean, and it returns true exactly when the set of instruction numbers on the
chain of `h` equals the set of instruction numbers on the chain of `n`'s history record.
The sets ignore the order of the records and the stalls. -/
theorem DoesMatch_iff_same_set (arena : HistArena) (this : Nat) (node : EnumTreeNode)
    (enumrtr : Enumerator) (h : Nat) (hh : node.hstry_ = some h)
    (hend1 : ChainEndsWithin arena arena.length (some this))
    (hend2 : ChainEndsWithin arena arena.length (some h))
    (hr1 : ∀ m, OnChain arena enumrtr.dataDepGraph_ (some this) m →
      m < enumrtr.totInstCnt_.toNat)
    (hr2 : ∀ m, OnChain arena enumrtr.dataDepGraph_ (some h) m →
      m < enumrtr.totInstCnt_.toNat) :
    ∃ b, DoesMatch arena this node enumrtr = some b ∧
      (b = true ↔
        ∀ m, OnChain arena enumrtr.dataDepGraph_ (some this) m ↔
          OnChain arena enumrtr.dataDepGraph_ (some h) m) := by
  obtain ⟨bv1, e1, l1, g1⟩ := SetInstsSchduld_loop_spec arena enumrtr.dataDepGraph_
    arena.length (some this) (List.replicate enumrtr.totInstCnt_.toNat false) hend1
    (by simpa using hr1)
  obtain ⟨bv2, e2, l2, g2⟩ := SetInstsSchduld_loop_spec arena enumrtr.dataDepGraph_
    arena.length (some h) (List.replicate enumrtr.totInstCnt_.toNat false) hend2
    (by simpa using hr2)
  have hrep : ∀ m, ¬ (List.replicate enumrtr.totInstCnt_.toNat false).getD m false = true := by
    intro m
    simp [List.getD_eq_getElem?_getD, List.getElem?_replicate]
    split_ifs <;> simp
  have g1' : ∀ m, bv1.getD m false = true ↔ OnChain arena enumrtr.dataDepGraph_ (some this) m :=
    fun m => (g1 m).trans (or_iff_right (hrep m))
  have g2' : ∀ m, bv2.getD m false = true ↔ OnChain arena enumrtr.dataDepGraph_ (some h) m :=
    fun m => (g2 m).trans (or_iff_right (hrep m))
  refine ⟨decide (bv2 = bv1), ?_, ?_⟩
  · simp [DoesMatch, SetInstsSchduld_, hh, e1, e2]
  · rw [decide_eq_true_eq]
    constructor
    · intro heq m
      rw [← g1' m, ← g2' m, heq]
    · intro hall
      apply BitVector_eq_of_getD
      · rw [l1, l2]
      · intro m
        rw [g1' m, g2' m]
        exact (hall m).symm
/-- The instruction numbers on the chain of address 2 of `matchArena` are 0 and 1. -/
theorem matchArena_onChain_2 (m : Nat) :
    OnChain matchArena sampleEnum1.dataDepGraph_ (some 2) m ↔ m = 0 ∨ m = 1 := by
  rw [OnChain_some_iff matchArena _ 2 (mkRec 2 (some 0) (some 1)) rfl,
    show (mkRec 2 (some 0) (some 1)).prevNode_ = some 1 from rfl,
    OnChain_some_iff matchArena _ 1 (mkRec 1 (some 1) (some 0)) rfl,
    show (mkRec 1 (some 1) (some 0)).prevNode_ = some 0 from rfl,
    OnChain_some_iff matchArena _ 0 (mkRec 0 none none) rfl]
  have hnone : ¬ OnChain matchArena sampleEnum1.dataDepGraph_ (mkRec 0 none none).prevNode_ m := by
    rintro ⟨k, c, i, hk, _, _⟩
    rw [show (mkRec 0 none none).prevNode_ = none from rfl, chainAt_none] at hk
    cases hk
  simp only [hnone, or_false]
  simp [mkRec, sampleEnum1, sampleEnum, sampleInsts, mkInst, eq_comm]

/-- The instruction numbers on the chain of address 5 of `matchArena` are 0 and 1. -/
theorem matchArena_onChain_5 (m : Nat) :
    OnChain matchArena sampleEnum1.dataDepGraph_ (some 5) m ↔ m = 0 ∨ m = 1 := by
  rw [OnChain_some_iff matchArena _ 5 (mkRec 3 (some 1) (some 4)) rfl,
    show (mkRec 3 (some 1) (some 4)).prevNode_ = some 4 from rfl,
    OnChain_some_iff matchArena _ 4 (mkRec 2 none (some 3)) rfl,
    show (mkRec 2 none (some 3)).prevNode_ = some 3 from rfl,
    OnChain_some_iff matchArena _ 3 (mkRec 1 (some 0) (some 0)) rfl,
    show (mkRec 1 (some 0) (some 0)).prevNode_ = some 0 from rfl,
    OnChain_some_iff matchArena _ 0 (mkRec 0 none none) rfl]
  have hnone : ¬ OnChain matchArena sampleEnum1.dataDepGraph_ (mkRec 0 none none).prevNode_ m := by
    rintro ⟨k, c, i, hk, _, _⟩
    rw [show (mkRec 0 none none).prevNode_ = none from rfl, chainAt_none] at hk
    cases hk
  simp only [hnone, or_false]
  simp [mkRec, sampleEnum1, sampleEnum, sampleInsts, mkInst, eq_comm]
  tauto

/-- Witness of `DoesMatch_iff_same_set`: in `matchArena` the record at address 2 and a node
whose history record is at address 5 scheduled the instructions 0 and 1 in different
orders and with a stall in between; `DoesMatch` returns true. -/
theorem DoesMatch_iff_same_set_witness :
    DoesMatch matchArena 2 (mkNode 3 [0, 0, 0] 0 0 none (some 5) sampleEnum1) sampleEnum1
      = some true ∧
    ∃ b, DoesMatch matchArena 2 (mkNode 3 [0, 0, 0] 0 0 none (some 5) sampleEnum1) sampleEnum1
        = some b ∧
      (b = true ↔
        ∀ m, OnChain matchArena sampleEnum1.dataDepGraph_ (some 2) m ↔
          OnChain matchArena sampleEnum1.dataDepGraph_ (some 5) m) :=
  ⟨by decide,
    DoesMatch_iff_same_set matchArena 2 (mkNode 3 [0, 0, 0] 0 0 none (some 5) sampleEnum1)
      sampleEnum1 5 rfl
      ⟨_, rfl, _, rfl, _, rfl, trivial⟩
      ⟨_, rfl, _, rfl, _, rfl, _, rfl, trivial⟩
      (fun m hm => by
        rcases (matchArena_onChain_2 m).mp hm with h | h <;> subst h <;> decide)
      (fun m hm => by
        rcases (matchArena_onChain_5 m).mp hm with h | h <;> subst h <;> decide)⟩

/-! ## Absolute dominance -/

/-- With shift 0 the successor loop falls through, whatever the other node's bounds are,
when no unscheduled successor is pushed below its normal bound. -/
theorem DoesDominate_scsrLoop_of_no_push (enumrtr : Enumerator) (nxt othr : List Int)
    (cyc : Int) :
    ∀ l : List (Nat × Int × DependenceType),
      (∀ e ∈ l, (enumrtr.dataDepGraph_.insts e.1).issuType < nxt.length) →
      (∀ e ∈ l, (enumrtr.dataDepGraph_.insts e.1).isSchduld = false →
        ∀ nx : Int, nxt[(enumrtr.dataDepGraph_.insts e.1).issuType]? = some nx →
          max (cyc + e.2.1) nx ≤ max (enumrtr.dataDepGraph_.insts e.1).frwrdLwrBound nx) →
      DoesDominate_scsrLoop enumrtr.dataDepGraph_ nxt othr cyc 0 l = some true := by
  intro l
  induction l with
  | nil => intro _ _; simp [DoesDominate_scsrLoop]
  | cons e t ih =>
    intro hr hnp
    obtain ⟨s, ltncy, d⟩ := e
    have iht := ih (fun e he => hr e (List.mem_cons_of_mem _ he))
      (fun e he => hnp e (List.mem_cons_of_mem _ he))
    obtain ⟨nx0, hnx0⟩ : ∃ v, nxt[(enumrtr.dataDepGraph_.insts s).issuType]? = some v :=
      ⟨_, List.getElem?_eq_getElem (hr (s, ltncy, d) (List.mem_cons_self _ _))⟩
    simp only [DoesDominate_scsrLoop]
    by_cases hsch : (enumrtr.dataDepGraph_.insts s).isSchduld = false
    · rw [if_pos hsch, hnx0]
      simp only
      have hle := hnp (s, ltncy, d) (List.mem_cons_self _ _) hsch nx0 hnx0
      have hno : ¬ (max (cyc + ltncy) nx0
          > max (enumrtr.dataDepGraph_.insts s).frwrdLwrBound nx0 ∨ (0 : Int) > 0) := by
        rintro (h | h)
        · exact absurd hle (not_le.mpr h)
        · exact absurd h (lt_irrefl 0)
      rw [if_neg hno]
      exact iht
    · rw [if_neg hsch]
      exact iht

/-- With shift 0 the entry loop returns true, whatever the other node's bounds are, when no
entry issued after its static lower bound pushes an unscheduled successor below its
normal bound. -/
theorem DoesDominate_loop_of_no_push (enumrtr : Enumerator) (nxt othr : List Int)
    (hr : ∀ (i : Nat) (e : Nat × Int × DependenceType),
      e ∈ (enumrtr.dataDepGraph_.insts i).scsrs →
        (enumrtr.dataDepGraph_.insts e.1).issuType < nxt.length) :
    ∀ (L : List (Option Nat)) (time : Int),
      (∀ (k i : Nat), L[k]? = some (some i) →
        enumrtr.GetCycleNumFrmTime_ (time - k)
          > (enumrtr.dataDepGraph_.insts i).frwrdLwrBound →
        ∀ e ∈ (enumrtr.dataDepGraph_.insts i).scsrs,
          (enumrtr.dataDepGraph_.insts e.1).isSchduld = false →
          ∀ nx : Int, nxt[(enumrtr.dataDepGraph_.insts e.1).issuType]? = some nx →
            max (enumrtr.GetCycleNumFrmTime_ (time - k) + e.2.1) nx
              ≤ max (enumrtr.dataDepGraph_.insts e.1).frwrdLwrBound nx) →
      DoesDominate_loop enumrtr nxt othr 0 time L = some true := by
  intro L
  induction L with
  | nil => intro time _; simp [DoesDominate_loop]
  | cons inst rest ih =>
    intro time hnp
    have shiftk : ∀ k : Nat, time - 1 - (k : Int) = time - ((k + 1 : Nat) : Int) := by
      intro k; push_cast; ring
    have iht := ih (time - 1) (fun k i hk hg => by
      rw [shiftk k] at hg ⊢
      exact hnp (k + 1) i (by simpa using hk) hg)
    simp only [DoesDominate_loop]
    cases inst with
    | none => exact iht
    | some i0 =>
      simp only
      have t0 : time - ((0 : Nat) : Int) = time := by simp
      by_cases hg : enumrtr.GetCycleNumFrmTime_ time
          > (enumrtr.dataDepGraph_.insts i0).frwrdLwrBound ∨ (0 : Int) > 0
      · rw [if_pos hg]
        have hg1 : enumrtr.GetCycleNumFrmTime_ time
            > (enumrtr.dataDepGraph_.insts i0).frwrdLwrBound := by
          rcases hg with h | h
          · exact h
          · exact absurd h (lt_irrefl 0)
        have h0 := hnp 0 i0 (by simp) (by rw [t0]; exact hg1)
        rw [t0] at h0
        rw [DoesDominate_scsrLoop_of_no_push enumrtr nxt othr _ _ (fun e he => hr i0 e he) h0]
        exact iht
      · rw [if_neg hg]
        exact iht

/-- C12 (amended): for a record `h` and an active node `n` that pass rules 1-3, if no
examined instruction of `h` pushes an unscheduled successor below its normal bound, then
`DoesDominate_` with shift 0 returns true for every value of the node's forward lower
bounds.  (With a positive shift the loop checks every unscheduled successor of every
examined instruction, so the result depends on the bounds.) -/
theorem DoesDominate__absolute_shift_zero (arena : HistArena) (this : Nat)
    (self : CostHistEnumTreeNode) (n : EnumTreeNode) (enumrtr : Enumerator)
    (instsPerType nxtAvlblCycles : List Int) (N : Nat)
    (hself : arena[this]? = some self)
    (hrule1 : self.time_ ≤ n.time_)
    (hrule2 : self.crntCycleBlkd_ = n.crntCycleBlkd_)
    (hrule3 : Rule3 self.toHistEnumTreeNode n enumrtr.INVALID_VALUE)
    (hchain : ChainTimed arena this self.time_ (GetMinTimeToExmn_ self.time_ enumrtr))
    (hnxt : CmputNxtAvlblCycles_ arena this enumrtr = some (instsPerType, nxtAvlblCycles))
    (hrange : ScsrsInRange enumrtr N)
    (hnp : NoPushDown arena this self.time_ enumrtr nxtAvlblCycles) :
    ∀ lbs : List Int,
      DoesDominate_ arena this (some { n with frwrdLwrBounds_ := lbs }) none .ETN_ACTIVE
        enumrtr 0 = some true := by
  intro lbs
  rw [DoesDominate__active_eq arena this self _ none enumrtr 0 hself]
  rw [if_neg (not_lt.mpr hrule1), if_neg (not_not.mpr hrule2.symm)]
  have h3 : DoesDominate_rsrvSlots self.toHistEnumTreeNode
      (some { n with frwrdLwrBounds_ := lbs }) enumrtr = some true :=
    (DoesDominate_rsrvSlots_true_iff _ _ enumrtr).mpr hrule3
  rw [h3]
  simp only
  have hcnt : ∀ k : Nat,
      k < (self.time_ - GetMinTimeToExmn_ self.time_ enumrtr + 1).toNat ↔
        (k : Int) ≤ self.time_ - GetMinTimeToExmn_ self.time_ enumrtr := by
    intro k; omega
  obtain ⟨L, hL, hlen, hget⟩ := SetLastInsts_loop_spec arena
    (self.time_ - GetMinTimeToExmn_ self.time_ enumrtr + 1).toNat (some this)
    (fun k hk => hchain.2 k ((hcnt k).mp hk))
  have hr : ∀ (i : Nat) (e : Nat × Int × DependenceType),
      e ∈ (enumrtr.dataDepGraph_.insts i).scsrs →
        (enumrtr.dataDepGraph_.insts e.1).issuType < nxtAvlblCycles.length := by
    intro i e he
    rw [CmputNxtAvlblCycles__length arena this enumrtr _ _ hnxt]
    exact (hrange i e he).1
  have hrun : DoesDominate_lwrBounds arena this (some { n with frwrdLwrBounds_ := lbs }) none
      enumrtr 0 self.time_ n.time_
      = DoesDominate_loop enumrtr nxtAvlblCycles lbs 0 self.time_ L := by
    simp [DoesDominate_lwrBounds, SetLastInsts_, hL, hnxt]
  rw [hrun]
  apply DoesDominate_loop_of_no_push enumrtr nxtAvlblCycles lbs hr L self.time_
  intro k i hLk hg e he hsch nx hnx
  have hk : k < (self.time_ - GetMinTimeToExmn_ self.time_ enumrtr + 1).toNat := by
    have := (List.getElem?_eq_some.mp hLk).1
    rw [hlen] at this
    exact this
  obtain ⟨c, hc, hLk1⟩ := hget k hk
  rw [hLk] at hLk1
  simp only [Option.some.injEq] at hLk1
  have htime : c.time_ = self.time_ - k := hchain.1 k c hc
  have hkle := (hcnt k).mp hk
  have := hnp k c i hc (by rw [htime]; omega) (by rw [htime]; omega) hLk1.symm
    (by rw [htime]; exact hg) e he hsch nx hnx
  rw [htime] at this
  exact this
/-- The chain of address 2 of `sampleArena` and the enumerator whose instruction 2 has
static lower bound 4: the only examined instruction (instruction 0, issued in cycle 2)
does not push its successor, since `thisBound = 4 ≤ normBound = 4`. -/
theorem sampleArena_noPushDown :
    NoPushDown sampleArena 2 2 (sampleEnum 1 0 4 2 (cycleOfTime 1) .SCF_PERP) [3, 3] := by
  intro k c i hc hlo _ hi _ e he _ nx hnx
  match k with
  | 0 =>
    simp only [chainAt, sampleArena, Option.bind] at hc
    simp only [List.getElem?_cons_succ, List.getElem?_cons_zero, Option.some.injEq] at hc
    subst hc
    simp only [mkRec, Option.some.injEq] at hi
    subst hi
    simp only [sampleEnum, sampleInsts, mkInst, List.mem_singleton] at he
    subst he
    simp only [sampleEnum, sampleInsts, mkInst] at hnx
    simp only [List.getElem?_cons_zero, Option.some.injEq] at hnx
    subst hnx
    decide
  | 1 =>
    simp only [chainAt, sampleArena, Option.bind] at hc
    simp only [List.getElem?_cons_succ, List.getElem?_cons_zero, mkRec,
      Option.some.injEq] at hc
    subst hc
    exact absurd hlo (by decide)
  | 2 =>
    simp only [chainAt, sampleArena, Option.bind] at hc
    simp only [List.getElem?_cons_succ, List.getElem?_cons_zero, mkRec,
      Option.some.injEq] at hc
    subst hc
    exact absurd hlo (by decide)
  | k + 3 =>
    simp only [chainAt, sampleArena, Option.bind] at hc
    simp only [List.getElem?_cons_succ, List.getElem?_cons_zero, mkRec] at hc
    cases k <;> simp [chainAt] at hc

/-- C12 (as stated, refuted): the record at address 2 of `sampleArena` and a node at time 2
with `frwrdLwrBounds = [0, 0, 0]` pass rules 1-3 and no examined instruction pushes a
successor (`sampleArena_noPushDown`), yet `DoesDominate_` returns false for shift 1: with
a positive shift the successor is checked and `thisBound + shift = 5 > 0`. -/
theorem DoesDominate__no_push_but_false_with_shift :
    sampleArena[2]? = some (mkRec 2 (some 0) (some 1)) ∧
    (mkRec 2 (some 0) (some 1)).time_
      ≤ (mkNode 2 [0, 0, 0] 0 0 none none
          (sampleEnum 1 0 4 2 (cycleOfTime 1) .SCF_PERP)).time_ ∧
    (mkRec 2 (some 0) (some 1)).crntCycleBlkd_
      = (mkNode 2 [0, 0, 0] 0 0 none none
          (sampleEnum 1 0 4 2 (cycleOfTime 1) .SCF_PERP)).crntCycleBlkd_ ∧
    Rule3 (mkRec 2 (some 0) (some 1)).toHistEnumTreeNode
      (mkNode 2 [0, 0, 0] 0 0 none none (sampleEnum 1 0 4 2 (cycleOfTime 1) .SCF_PERP)) (-1) ∧
    CmputNxtAvlblCycles_ sampleArena 2 (sampleEnum 1 0 4 2 (cycleOfTime 1) .SCF_PERP)
      = some ([1, 1], [3, 3]) ∧
    NoPushDown sampleArena 2 2 (sampleEnum 1 0 4 2 (cycleOfTime 1) .SCF_PERP) [3, 3] ∧
    (0 : Int) ≤ 1 ∧
    DoesDominate_ sampleArena 2
      (some (mkNode 2 [0, 0, 0] 0 0 none none (sampleEnum 1 0 4 2 (cycleOfTime 1) .SCF_PERP)))
      none .ETN_ACTIVE (sampleEnum 1 0 4 2 (cycleOfTime 1) .SCF_PERP) 1 = some false :=
  ⟨rfl, by decide, rfl, (fun _ h => by cases h), by decide, sampleArena_noPushDown,
    by decide, by decide⟩

/-- Witness of `DoesDominate__absolute_shift_zero`: the same record and enumerator; with
shift 0 the result is true for the bounds `[0, 0, 0]`. -/
theorem DoesDominate__absolute_shift_zero_witness :
    sampleArena[2]? = some (mkRec 2 (some 0) (some 1)) ∧
    DoesDominate_ sampleArena 2
      (some { mkNode 2 [7, 7, 7] 0 0 none none (sampleEnum 1 0 4 2 (cycleOfTime 1) .SCF_PERP)
        with frwrdLwrBounds_ := [0, 0, 0] })
      none .ETN_ACTIVE (sampleEnum 1 0 4 2 (cycleOfTime 1) .SCF_PERP) 0 = some true :=
  ⟨rfl,
    DoesDominate__absolute_shift_zero sampleArena 2 (mkRec 2 (some 0) (some 1))
      (mkNode 2 [7, 7, 7] 0 0 none none (sampleEnum 1 0 4 2 (cycleOfTime 1) .SCF_PERP))
      (sampleEnum 1 0 4 2 (cycleOfTime 1) .SCF_PERP) [1, 1] [3, 3] 3 rfl
      (by decide) rfl (fun _ h => by cases h)
      (sampleArena_chainTimed _ (by decide)) (by decide)
      (sampleEnum_scsrsInRange 1 0 4 2 (cycleOfTime 1) .SCF_PERP)
      sampleArena_noPushDown [0, 0, 0]⟩

/-! ## `ReplaceParent` -/

/-- C13: for allocated records `h` and `p`, `h.ReplaceParent(p)` is defined; afterwards the
record at `h` has `prevNode_ = p` and `time_ = p.time_ + 1` (the time of `p` before the
call), all its other fields are as before, and every other record of the arena is
unchanged. -/
theorem ReplaceParent_frame (arena : HistArena) (h p : Nat)
    (hrec prec : CostHistEnumTreeNode)
    (hh : arena[h]? = some hrec) (hp : arena[p]? = some prec) :
    ∃ arena1, ReplaceParent arena h p = some arena1 ∧
      arena1.length = arena.length ∧
      (∃ hrec1, arena1[h]? = some hrec1 ∧
        hrec1.prevNode_ = some p ∧ hrec1.time_ = prec.time_ + 1 ∧
        hrec1.inst_ = hrec.inst_ ∧ hrec1.crntCycleBlkd_ = hrec.crntCycleBlkd_ ∧
        hrec1.rsrvSlots_ = hrec.rsrvSlots_ ∧ hrec1.cost_ = hrec.cost_ ∧
        hrec1.peakSpillCost_ = hrec.peakSpillCost_ ∧
        hrec1.spillCostSum_ = hrec.spillCostSum_ ∧
        hrec1.isLngthFsbl_ = hrec.isLngthFsbl_) ∧
      (∀ a, a ≠ h → arena1[a]? = arena[a]?) := by
  have hlt : h < arena.length := (List.getElem?_eq_some.mp hh).1
  refine ⟨arena.set h { hrec with time_ := prec.time_ + 1, prevNode_ := some p },
    by simp [ReplaceParent, hh, hp], by simp, ?_, ?_⟩
  · refine ⟨{ hrec with time_ := prec.time_ + 1, prevNode_ := some p }, ?_, rfl, rfl, rfl,
      rfl, rfl, rfl, rfl, rfl, rfl⟩
    simp [List.getElem?_set, hlt]
  · intro a ha
    simp [List.getElem?_set, Ne.symm ha]

/-- Witness of `ReplaceParent_frame`: in `sampleArena` the record at address 3 (time 3,
parent 2) is re-parented to the record at address 1 (time 1). -/
theorem ReplaceParent_frame_witness :
    sampleArena[3]? = some (mkRec 3 none (some 2)) ∧
    sampleArena[1]? = some (mkRec 1 (some 1) (some 0)) ∧
    ReplaceParent sampleArena 3 1 = some
      [mkRec 0 none none, mkRec 1 (some 1) (some 0), mkRec 2 (some 0) (some 1),
       mkRec 2 none (some 1)] ∧
    ∃ arena1, ReplaceParent sampleArena 3 1 = some arena1 ∧
      arena1.length = sampleArena.length ∧
      (∀ a, a ≠ 3 → arena1[a]? = sampleArena[a]?) :=
  ⟨rfl, rfl, rfl,
    (ReplaceParent_frame sampleArena 3 1 _ _ rfl rfl).imp
      fun _ hp => ⟨hp.1, hp.2.1, hp.2.2.2⟩⟩

/-! ## `CreateGraphTrans` -/

/-- C20 (the code): `CreateGraphTrans` returns an `EquivDectTrans` for `TT_EQDECT` and an
`RPOnlyNodeSupTrans` for `TT_RPONSP`; for every other transformation id it has no defined
result, and in particular it does not reject the request with `INVALID_CONFIG`. -/
theorem CreateGraphTrans_cases :
    CreateGraphTrans .TT_EQDECT = some (.created .EquivDectTrans) ∧
    CreateGraphTrans .TT_RPONSP = some (.created .RPOnlyNodeSupTrans) ∧
    (∀ id : Int, CreateGraphTrans (.other id) = none) ∧
    CreateGraphTrans (.other 2) ≠ some (.rejected "INVALID_CONFIG") :=
  ⟨rfl, rfl, fun _ => rfl, by decide⟩

/-! ## `RPOnlyNodeSupTrans::NodeIsSuperior_` -/

/-- A set bit lies inside the vector. -/
theorem GetBit_lt (v : BitVector) (i : Nat) (h : GetBit v i = true) : i < v.length := by
  by_contra hlt
  simp [GetBit, List.getD, List.getElem?_eq_none (not_lt.mp hlt)] at h

/-- The sub-vector test is the inclusion of the sets of set bits. -/
theorem IsSubVector_iff (a b : BitVector) :
    IsSubVector a b = true ↔ ∀ x, GetBit a x = true → GetBit b x = true := by
  simp only [IsSubVector, List.all_eq_true, List.mem_range]
  constructor
  · intro h x hx
    have := h x (GetBit_lt a x hx)
    simpa [hx] using this
  · intro h x _
    cases hx : GetBit a x
    · simp
    · simp [h x hx]

/-- The registers of `usesOnlyB` are those of `usesB` that are not in `usesA`. -/
theorem mem_usesOnlyB (usesA usesB : List Register) (r : Register) :
    r ∈ RPOnlyNodeSupTrans.usesOnlyB usesA usesB ↔ r ∈ usesB ∧ r ∉ usesA := by
  simp only [RPOnlyNodeSupTrans.usesOnlyB, List.mem_filter, Bool.not_eq_true',
    List.any_eq_false, decide_eq_true_eq, and_congr_right_iff]
  intro _
  constructor
  · intro h hr
    exact h r hr rfl
  · intro h x hx hxr
    subst hxr
    exact h hx

/-- Erasing the registers used by `C` keeps the registers that `C` does not use. -/
theorem mem_eraseUsedBy (usesC : List Register) :
    ∀ (l : List Register) (r : Register),
      r ∈ RPOnlyNodeSupTrans.eraseUsedBy usesC l ↔ r ∈ l ∧ r ∉ usesC := by
  induction usesC with
  | nil => intro l r; simp [RPOnlyNodeSupTrans.eraseUsedBy]
  | cons c rest ih =>
    intro l r
    have h := ih (l.filter fun reg => !decide (reg = c)) r
    simp only [RPOnlyNodeSupTrans.eraseUsedBy, List.foldl_cons] at h ⊢
    rw [h]
    simp only [List.mem_filter, List.mem_cons, not_or]
    constructor
    · rintro ⟨⟨h1, h2⟩, h3⟩
      exact ⟨h1, by simpa using h2, h3⟩
    · rintro ⟨h1, h2, h3⟩
      exact ⟨⟨h1, by simpa using h2⟩, h3⟩

/-- The registers left by the loop over the recursive successors of `B` are those used by
none of the visited instructions whose bit is set. -/
theorem mem_userLoop (g : DataDepGraph) (succsB : BitVector) :
    ∀ (idxs : List Nat) (l : List Register) (r : Register),
      r ∈ RPOnlyNodeSupTrans.userLoop g succsB idxs l ↔
        r ∈ l ∧ ∀ i ∈ idxs, GetBit succsB i = true → r ∉ (g.insts i).uses := by
  intro idxs
  induction idxs with
  | nil => intro l r; simp [RPOnlyNodeSupTrans.userLoop]
  | cons i rest ih =>
    intro l r
    simp only [RPOnlyNodeSupTrans.userLoop]
    by_cases hl : l.length = 0
    · have : l = [] := List.length_eq_zero.mp hl
      subst this
      simp
    · rw [if_neg hl]
      by_cases hb : GetBit succsB i = true
      · rw [if_pos hb, ih, mem_eraseUsedBy]
        simp only [List.mem_cons, forall_eq_or_imp]
        constructor
        · rintro ⟨⟨h1, h2⟩, h3⟩
          exact ⟨h1, fun _ => h2, h3⟩
        · rintro ⟨h1, h2, h3⟩
          exact ⟨⟨h1, h2 hb⟩, h3⟩
      · rw [if_neg hb, ih]
        simp only [List.mem_cons, forall_eq_or_imp]
        constructor
        · rintro ⟨h1, h3⟩
          exact ⟨h1, fun h => absurd h hb, h3⟩
        · rintro ⟨h1, _, h3⟩
          exact ⟨h1, h3⟩

/-- The counting loop succeeds when every register type is inside the vector, and adds to
every entry the number of definitions of that type. -/
theorem countDefs_spec :
    ∀ (defs : List Register) (cnts : List Int), (∀ r ∈ defs, r.type < cnts.length) →
      ∃ res, RPOnlyNodeSupTrans.countDefs defs cnts = some res ∧ res.length = cnts.length ∧
        ∀ t, res.getD t 0 = cnts.getD t 0 +
          ((defs.filter fun r => decide (r.type = t)).length : Int) := by
  intro defs
  induction defs with
  | nil => intro cnts _; exact ⟨cnts, rfl, rfl, by simp⟩
  | cons d rest ih =>
    intro cnts h
    have hd : d.type < cnts.length := h d (List.mem_cons_self _ _)
    obtain ⟨c, hc⟩ : ∃ c, cnts[d.type]? = some c := ⟨_, List.getElem?_eq_getElem hd⟩
    have hrest : ∀ r ∈ rest, r.type < (cnts.set d.type (c + 1)).length := by
      intro r hr
      simpa using h r (List.mem_cons_of_mem _ hr)
    obtain ⟨res, h1, h2, h3⟩ := ih (cnts.set d.type (c + 1)) hrest
    refine ⟨res, ?_, by simpa using h2, ?_⟩
    · simp only [RPOnlyNodeSupTrans.countDefs, hc]
      exact h1
    · intro t
      rw [h3 t]
      by_cases ht : d.type = t
      · subst ht
        have : (cnts.set d.type (c + 1)).getD d.type 0 = c + 1 := by
          simp [List.getD, List.getElem?_set, hd]
        rw [this]
        have hc2 : cnts.getD d.type 0 = c := by simp [List.getD, hc]
        rw [hc2]
        simp [List.filter_cons]
        ring
      · have : (cnts.set d.type (c + 1)).getD t 0 = cnts.getD t 0 := by
          simp [List.getD, List.getElem?_set, ht]
        rw [this]
        simp [List.filter_cons, ht]

/-- The comparison loop is true exactly when no visited entry of `A` exceeds that of `B`. -/
theorem cmpDefs_iff (a b : List Int) :
    ∀ idxs : List Nat, RPOnlyNodeSupTrans.cmpDefs a b idxs = true ↔
      ∀ i ∈ idxs, a.getD i 0 ≤ b.getD i 0 := by
  intro idxs
  induction idxs with
  | nil => simp [RPOnlyNodeSupTrans.cmpDefs]
  | cons i rest ih =>
    simp only [RPOnlyNodeSupTrans.cmpDefs, List.mem_cons, forall_eq_or_imp]
    by_cases h : a.getD i 0 > b.getD i 0
    · rw [if_pos h]
      simp only [Bool.false_eq_true, false_iff, not_and]
      intro h2
      exact absurd h2 (not_le.mpr h)
    · rw [if_neg h, ih]
      exact ⟨fun h2 => ⟨not_lt.mp h, h2⟩, fun h2 => h2.2⟩

/-- The number of definitions of a type outside the range is zero. -/
theorem filter_type_length_zero (defs : List Register) (n t : Nat)
    (h : ∀ r ∈ defs, r.type < n) (ht : n ≤ t) :
    (defs.filter fun r => decide (r.type = t)).length = 0 := by
  rw [List.length_eq_zero, List.filter_eq_nil_iff]
  intro r hr
  have := h r hr
  simp
  omega

/-- Claim C16: for instructions `A` and `B` whose recursive vectors agree with each other
(`B` is a recursive predecessor of `A` exactly when `A` is a recursive successor of `B`,
and likewise with the roles swapped), with `B` not its own recursive successor and with
every defined register of a type below the register-type count, `NodeIsSuperior_(A, B)`
returns a value, and it returns true exactly when: the issue types are equal; neither is
a recursive predecessor or successor of the other; the recursive predecessors of `A` are
among those of `B`; the recursive successors of `B` are among those of `A`; every register
used by `B` and not by `A` is used by some instruction `C` among the recursive successors
of `B` that is neither `A` nor `B`; and for every register type `A` defines at most as
many registers of that type as `B`. -/
theorem NodeIsSuperior__iff_superior (g : DataDepGraph) (A B : Nat)
    (hcons1 : GetBit (g.insts B).rcrsvScsrs A = GetBit (g.insts A).rcrsvPrdcsrs B)
    (hcons2 : GetBit (g.insts B).rcrsvPrdcsrs A = GetBit (g.insts A).rcrsvScsrs B)
    (hB : GetBit (g.insts B).rcrsvScsrs B = false)
    (hdefsA : ∀ r ∈ (g.insts A).defs, r.type < g.regTypeCnt.toNat)
    (hdefsB : ∀ r ∈ (g.insts B).defs, r.type < g.regTypeCnt.toNat) :
    ∃ res, RPOnlyNodeSupTrans.NodeIsSuperior_ g A B = some res ∧
      (res = true ↔ IsSuperior g A B) := by
  obtain ⟨ca, hca, hla, hsa⟩ := countDefs_spec (g.insts A).defs
    (List.replicate g.regTypeCnt.toNat 0) (by simpa using hdefsA)
  obtain ⟨cb, hcb, hlb, hsb⟩ := countDefs_spec (g.insts B).defs
    (List.replicate g.regTypeCnt.toNat 0) (by simpa using hdefsB)
  have hrep : ∀ t, (List.replicate g.regTypeCnt.toNat (0 : Int)).getD t 0 = 0 := by
    intro t
    by_cases ht : t < g.regTypeCnt.toNat
    · simp [List.getD, List.getElem?_replicate, ht]
    · simp [List.getD, List.getElem?_replicate, ht]
  simp only [RPOnlyNodeSupTrans.NodeIsSuperior_, hca, hcb]
  unfold IsSuperior
  by_cases h1 : (g.insts A).issuType = (g.insts B).issuType
  swap
  · exact ⟨false, by simp [h1], by simp [h1]⟩
  by_cases h2 : AreNodesIndep_ g A B = true
  swap
  · refine ⟨false, by simp [h1, h2], ?_⟩
    simp only [Bool.false_eq_true, false_iff]
    rintro ⟨_, ⟨i1, i2, _, _⟩, _⟩
    apply h2
    simp [AreNodesIndep_, IsRcrsvPrdcsr, IsRcrsvScsr, i1, i2]
  have hind : GetBit (g.insts A).rcrsvPrdcsrs B = false ∧
      GetBit (g.insts A).rcrsvScsrs B = false := by
    simp only [AreNodesIndep_, IsRcrsvPrdcsr, IsRcrsvScsr] at h2
    cases hp : GetBit (g.insts A).rcrsvPrdcsrs B <;>
      cases hs : GetBit (g.insts A).rcrsvScsrs B <;> simp [hp, hs] at h2 ⊢
  by_cases h3 : IsSubVector (g.insts A).rcrsvPrdcsrs (g.insts B).rcrsvPrdcsrs = true
  swap
  · refine ⟨false, by simp [h1, h2, h3], ?_⟩
    simp only [Bool.false_eq_true, false_iff]
    rintro ⟨_, _, i3, _⟩
    exact h3 ((IsSubVector_iff _ _).mpr i3)
  by_cases h4 : IsSubVector (g.insts B).rcrsvScsrs (g.insts A).rcrsvScsrs = true
  swap
  · refine ⟨false, by simp [h1, h2, h3, h4], ?_⟩
    simp only [Bool.false_eq_true, false_iff]
    rintro ⟨_, _, _, i4, _⟩
    exact h4 ((IsSubVector_iff _ _).mpr i4)
  have huses : (RPOnlyNodeSupTrans.userLoop g (g.insts B).rcrsvScsrs
      (List.range (g.insts B).rcrsvScsrs.length)
      (RPOnlyNodeSupTrans.usesOnlyB (g.insts A).uses (g.insts B).uses)).length = 0 ↔
      ∀ r ∈ (g.insts B).uses, r ∉ (g.insts A).uses →
        ∃ C, GetBit (g.insts B).rcrsvScsrs C = true ∧ C ≠ A ∧ C ≠ B ∧
          r ∈ (g.insts C).uses := by
    rw [List.length_eq_zero, List.eq_nil_iff_forall_not_mem]
    simp only [mem_userLoop, mem_usesOnlyB, List.mem_range]
    constructor
    · intro h r hrB hrA
      have := h r
      simp only [not_and, not_forall] at this
      obtain ⟨C, _, hbit, hC⟩ := this ⟨hrB, hrA⟩
      have hCu : r ∈ (g.insts C).uses := by simpa using hC
      refine ⟨C, hbit, ?_, ?_, hCu⟩
      · rintro rfl
        exact hrA hCu
      · rintro rfl
        rw [hB] at hbit
        cases hbit
    · intro h r ⟨⟨hrB, hrA⟩, hall⟩
      obtain ⟨C, hbit, _, _, hCu⟩ := h r hrB hrA
      exact hall C (GetBit_lt _ _ hbit) hbit hCu
  have hdefs : RPOnlyNodeSupTrans.cmpDefs ca cb (List.range g.regTypeCnt.toNat) = true ↔
      ∀ t, ((g.insts A).defs.filter fun r => decide (r.type = t)).length ≤
        ((g.insts B).defs.filter fun r => decide (r.type = t)).length := by
    rw [cmpDefs_iff]
    constructor
    · intro h t
      by_cases ht : t < g.regTypeCnt.toNat
      · have := h t (List.mem_range.mpr ht)
        rw [hsa t, hsb t, hrep t] at this
        omega
      · rw [filter_type_length_zero _ _ t hdefsA (not_lt.mp ht)]
        exact Nat.zero_le _
    · intro h t _
      rw [hsa t, hsb t, hrep t]
      have := h t
      omega
  by_cases h5 : (RPOnlyNodeSupTrans.userLoop g (g.insts B).rcrsvScsrs
      (List.range (g.insts B).rcrsvScsrs.length)
      (RPOnlyNodeSupTrans.usesOnlyB (g.insts A).uses (g.insts B).uses)).length = 0
  swap
  · refine ⟨false, by simp [h1, h2, h3, h4, h5], ?_⟩
    simp only [Bool.false_eq_true, false_iff]
    rintro ⟨_, _, _, _, i5, _⟩
    exact h5 (huses.mpr i5)
  refine ⟨RPOnlyNodeSupTrans.cmpDefs ca cb (List.range g.regTypeCnt.toNat),
    by simp [h1, h2, h3, h4, h5], ?_⟩
  rw [hdefs]
  constructor
  · intro h6
    exact ⟨h1, ⟨hind.1, hind.2, by rw [hcons2]; exact hind.2, by rw [hcons1]; exact hind.1⟩,
      (IsSubVector_iff _ _).mp h3, (IsSubVector_iff _ _).mp h4, huses.mp h5, h6⟩
  · rintro ⟨_, _, _, _, _, i6⟩
    exact i6

/-- Witness for C16 on the sample graph: instruction 1 is superior to instruction 0. -/
theorem NodeIsSuperior__iff_superior_witness :
    ∃ res, RPOnlyNodeSupTrans.NodeIsSuperior_ descGraph 1 0 = some res ∧
      (res = true ↔ IsSuperior descGraph 1 0) :=
  NodeIsSuperior__iff_superior descGraph 1 0 (by decide) (by decide) (by decide)
    (by decide) (by decide)

/-! ## `RPOnlyNodeSupTrans::ApplyTrans`: the visits -/

/-- The loop body is the visit of the specification when the two numbers differ. -/
theorem visit_eq_visitSpec (i j : Nat) (g : DataDepGraph) (created : List (Nat × Nat))
    (hij : i ≠ j) :
    RPOnlyNodeSupTrans.visit i j g created = visitSpec (g, created) (i, j) := by
  simp only [RPOnlyNodeSupTrans.visit, visitSpec, if_neg hij]

/-- The inner loop visits the pairs `(i, j), (i, j + 1), …` in order. -/
theorem innerLoop_eq_foldlM (i : Nat) :
    ∀ (cnt j : Nat) (g : DataDepGraph) (created : List (Nat × Nat)), i < j →
      RPOnlyNodeSupTrans.innerLoop i cnt j g created =
        ((List.range' j cnt).map fun j => (i, j)).foldlM visitSpec (g, created) := by
  intro cnt
  induction cnt with
  | zero => intro j g created _; rfl
  | succ cnt ih =>
    intro j g created hij
    simp only [RPOnlyNodeSupTrans.innerLoop, List.range'_succ, List.map_cons,
      List.foldlM_cons]
    rw [visit_eq_visitSpec i j g created (Nat.ne_of_lt hij)]
    cases visitSpec (g, created) (i, j) with
    | none => rfl
    | some r =>
      obtain ⟨g1, c1⟩ := r
      exact ih (j + 1) g1 c1 (Nat.lt_succ_of_lt hij)

/-- The pairs visited by the outer loop from `i` on, for `cnt` values of `i`. -/
theorem outerLoop_eq_foldlM (numNodes : Nat) :
    ∀ (cnt i : Nat) (g : DataDepGraph) (created : List (Nat × Nat)),
      RPOnlyNodeSupTrans.outerLoop numNodes cnt i g created =
        ((List.range' i cnt).flatMap fun i =>
          (List.range' (i + 1) (numNodes - (i + 1))).map fun j => (i, j)).foldlM
          visitSpec (g, created) := by
  intro cnt
  induction cnt with
  | zero => intro i g created; rfl
  | succ cnt ih =>
    intro i g created
    simp only [RPOnlyNodeSupTrans.outerLoop, List.range'_succ, List.flatMap_cons,
      List.foldlM_append]
    rw [innerLoop_eq_foldlM i _ (i + 1) g created (Nat.lt_succ_self i)]
    cases List.foldlM visitSpec (g, created)
        ((List.range' (i + 1) (numNodes - (i + 1))).map fun j => (i, j)) with
    | none => rfl
    | some r =>
      obtain ⟨g1, c1⟩ := r
      exact ih (i + 1) g1 c1

/-- The list `upperPairs n` holds exactly the pairs `i < j < n`. -/
theorem mem_upperPairs (n i j : Nat) : (i, j) ∈ upperPairs n ↔ i < j ∧ j < n := by
  simp only [upperPairs, List.mem_flatMap, List.mem_range, List.mem_map, List.mem_range'_1,
    Prod.mk.injEq]
  constructor
  · rintro ⟨a, _, b, ⟨hb1, hb2⟩, rfl, rfl⟩
    omega
  · rintro ⟨h1, h2⟩
    exact ⟨i, by omega, j, ⟨by omega, by omega⟩, rfl, rfl⟩

/-- The list `upperPairs n` names every pair once. -/
theorem upperPairs_nodup (n : Nat) : (upperPairs n).Nodup := by
  unfold upperPairs
  rw [List.nodup_flatMap]
  constructor
  · intro i _
    exact (List.nodup_range' _ _).map (fun a b h => by simpa using h)
  · refine (List.nodup_range n).pairwise_of_forall_ne ?_
    intro a _ b _ hab
    simp only [Function.onFun, List.disjoint_left, List.mem_map, not_exists, not_and]
    rintro p ⟨x, _, rfl⟩ y _ h
    simp only [Prod.mk.injEq] at h
    exact hab h.1.symm

/-- A run of visits over pairs `i < j` appends to the log, for a part of the visited pairs
in their order, one ordered pair each. -/
theorem foldlM_visitSpec_log :
    ∀ (l : List (Nat × Nat)) (st st1 : DataDepGraph × List (Nat × Nat)),
      (∀ p ∈ l, p.1 < p.2) → l.foldlM visitSpec st = some st1 →
      ∃ extra, st1.2 = st.2 ++ extra ∧ (extra.map unorderedPair).Sublist l := by
  intro l
  induction l with
  | nil =>
    intro st st1 _ h
    simp only [List.foldlM_nil, pure, Option.some.injEq] at h
    subst h
    exact ⟨[], by simp, by simp⟩
  | cons p rest ih =>
    intro st st1 hp h
    rw [List.foldlM_cons] at h
    have hlt : p.1 < p.2 := hp p (List.mem_cons_self _ _)
    have hrest : ∀ q ∈ rest, q.1 < q.2 := fun q hq => hp q (List.mem_cons_of_mem _ hq)
    have h12 : unorderedPair (p.1, p.2) = p := by
      simp [unorderedPair, Nat.min_eq_left (Nat.le_of_lt hlt),
        Nat.max_eq_right (Nat.le_of_lt hlt)]
    have h21 : unorderedPair (p.2, p.1) = p := by
      simp [unorderedPair, Nat.min_eq_right (Nat.le_of_lt hlt),
        Nat.max_eq_left (Nat.le_of_lt hlt)]
    cases hv : visitSpec st p with
    | none => rw [hv] at h; cases h
    | some st2 =>
      rw [hv] at h
      obtain ⟨extra, he1, he2⟩ := ih st2 st1 hrest h
      simp only [visitSpec] at hv
      cases hs : RPOnlyNodeSupTrans.NodeIsSuperior_ st.1 p.1 p.2 with
      | none => rw [hs] at hv; cases hv
      | some b =>
        rw [hs] at hv
        cases b with
        | true =>
          simp only [Option.some.injEq] at hv
          subst hv
          refine ⟨(p.1, p.2) :: extra, by simpa using he1, ?_⟩
          rw [List.map_cons, h12]
          exact he2.cons₂ p
        | false =>
          cases hs2 : RPOnlyNodeSupTrans.NodeIsSuperior_ st.1 p.2 p.1 with
          | none => rw [hs2] at hv; cases hv
          | some c =>
            rw [hs2] at hv
            cases c with
            | true =>
              simp only [Option.some.injEq] at hv
              subst hv
              refine ⟨(p.2, p.1) :: extra, by simpa using he1, ?_⟩
              rw [List.map_cons, h21]
              exact he2.cons₂ p
            | false =>
              simp only [Option.some.injEq] at hv
              subst hv
              exact ⟨extra, he1, he2.cons p⟩

/-- Claim C17: `RPOnlyNodeSupTrans::ApplyTrans` is the visit of the pairs `(i, j)` with
`i < j < numNodes`, each once and in order, where the visit of `(i, j)` adds the edge
`i → j` if `i` is superior to `j` on the graph as it is then, otherwise the edge `j → i`
if `j` is superior to `i`, otherwise nothing; so the added edges, taken as unordered
pairs, are a part of the visited pairs without repetition, and never both `a → b` and
`b → a` are added. -/
theorem RPOnly_ApplyTrans_visits_each_pair_once (g : DataDepGraph) :
    RPOnlyNodeSupTrans.ApplyTrans g =
        (upperPairs g.instCnt.toNat).foldlM visitSpec (g, []) ∧
      (upperPairs g.instCnt.toNat).Nodup ∧
      (∀ i j, (i, j) ∈ upperPairs g.instCnt.toNat ↔ i < j ∧ j < g.instCnt.toNat) ∧
      ∀ g1 log, RPOnlyNodeSupTrans.ApplyTrans g = some (g1, log) →
        (log.map unorderedPair).Sublist (upperPairs g.instCnt.toNat) ∧
        (log.map unorderedPair).Nodup ∧
        ∀ a b, (a, b) ∈ log → (b, a) ∉ log := by
  have heq : RPOnlyNodeSupTrans.ApplyTrans g =
      (upperPairs g.instCnt.toNat).foldlM visitSpec (g, []) := by
    simp only [RPOnlyNodeSupTrans.ApplyTrans, outerLoop_eq_foldlM, upperPairs,
      List.range_eq_range']
  refine ⟨heq, upperPairs_nodup _, mem_upperPairs _, ?_⟩
  intro g1 log h
  rw [heq] at h
  obtain ⟨extra, he1, he2⟩ := foldlM_visitSpec_log _ (g, []) (g1, log)
    (fun p hp => ((mem_upperPairs _ p.1 p.2).mp hp).1) h
  simp only [List.nil_append] at he1
  subst he1
  have hnd : (log.map unorderedPair).Nodup := he2.nodup (upperPairs_nodup _)
  refine ⟨he2, hnd, ?_⟩
  intro a b hab hba
  have hne : a ≠ b := by
    rintro rfl
    have hm : unorderedPair (a, a) ∈ upperPairs g.instCnt.toNat :=
      he2.subset (List.mem_map_of_mem _ hab)
    have := (mem_upperPairs _ _ _).mp hm
    simp [unorderedPair] at this
  have hinj := List.inj_on_of_nodup_map hnd hab hba
    (by simp [unorderedPair, Nat.min_comm, Nat.max_comm])
  simp only [Prod.mk.injEq] at hinj
  exact hne hinj.1

/-- Witness for C17 on the sample graph: the run returns, and its added edges are a part
of the visited pairs. -/
theorem RPOnly_ApplyTrans_visits_each_pair_once_witness :
    ∃ g1 log, RPOnlyNodeSupTrans.ApplyTrans descGraph = some (g1, log) ∧
      (log.map unorderedPair).Sublist (upperPairs descGraph.instCnt.toNat) :=
  have hs : (RPOnlyNodeSupTrans.ApplyTrans descGraph).isSome = true := by decide
  match h : RPOnlyNodeSupTrans.ApplyTrans descGraph, hs with
  | some (g1, log), _ =>
    ⟨g1, log, rfl, by
      have := (RPOnly_ApplyTrans_visits_each_pair_once descGraph).2.2.2 g1 log h
      exact this.1⟩

/-! ## `CreateEdge` and the graph invariants -/

/-- The edges after `CreateEdge` are the old edges and the new one. -/
theorem Edge_CreateEdge (g : DataDepGraph) (a b : Nat) (l : Int) (d : DependenceType)
    (x y : Nat) :
    Edge (CreateEdge g a b l d) x y ↔ Edge g x y ∨ (x = a ∧ y = b) := by
  simp only [Edge, CreateEdge]
  by_cases hx : x = a
  · subst hx
    simp only [if_true, List.mem_append, List.mem_singleton, Prod.mk.injEq, true_and]
    constructor
    · rintro ⟨l1, d1, h | h⟩
      · exact Or.inl ⟨l1, d1, h⟩
      · exact Or.inr h.1
    · rintro (⟨l1, d1, h⟩ | h)
      · exact ⟨l1, d1, Or.inl h⟩
      · exact ⟨l, d, Or.inr ⟨h, rfl, rfl⟩⟩
  · simp [hx]

/-- The paths after `CreateEdge`: the old paths, and those through the new edge. -/
theorem Reach_CreateEdge (g : DataDepGraph) (a b : Nat) (l : Int) (d : DependenceType)
    (x y : Nat) :
    Reach (CreateEdge g a b l d) x y ↔
      Reach g x y ∨ ((x = a ∨ Reach g x a) ∧ (y = b ∨ Reach g b y)) := by
  constructor
  · intro h
    induction h with
    | single h =>
      rcases (Edge_CreateEdge g a b l d _ _).mp h with he | ⟨h1, h2⟩
      · exact Or.inl (Relation.TransGen.single he)
      · exact Or.inr ⟨Or.inl h1, Or.inl h2⟩
    | tail _ h ih =>
      rcases (Edge_CreateEdge g a b l d _ _).mp h with he | ⟨h1, h2⟩
      · rcases ih with ih | ⟨ih1, ih2⟩
        · exact Or.inl (ih.tail he)
        · refine Or.inr ⟨ih1, Or.inr ?_⟩
          rcases ih2 with ih2 | ih2
          · rw [ih2] at he
            exact Relation.TransGen.single he
          · exact ih2.tail he
      · rcases ih with ih | ⟨ih1, _⟩
        · exact Or.inr ⟨Or.inr (h1 ▸ ih), Or.inl h2⟩
        · exact Or.inr ⟨ih1, Or.inl h2⟩
  · have hmono : ∀ u v, Reach g u v → Reach (CreateEdge g a b l d) u v := by
      intro u v h
      exact Relation.TransGen.mono
        (fun p q hpq => (Edge_CreateEdge g a b l d p q).mpr (Or.inl hpq)) h
    have hab : Reach (CreateEdge g a b l d) a b :=
      Relation.TransGen.single ((Edge_CreateEdge g a b l d a b).mpr (Or.inr ⟨rfl, rfl⟩))
    rintro (h | ⟨h1, h2⟩)
    · exact hmono _ _ h
    · have hxb : Reach (CreateEdge g a b l d) x b := by
        rcases h1 with rfl | h1
        · exact hab
        · exact (hmono _ _ h1).trans hab
      rcases h2 with rfl | h2
      · exact hxb
      · exact hxb.trans (hmono _ _ h2)

/-- A new edge `a → b` between different instructions with no path from `b` to `a` keeps
the graph acyclic. -/
theorem Acyclic_CreateEdge (g : DataDepGraph) (a b : Nat) (l : Int) (d : DependenceType)
    (hg : Acyclic g) (hne : a ≠ b) (hba : ¬ Reach g b a) : Acyclic (CreateEdge g a b l d) := by
  intro x hx
  rcases (Reach_CreateEdge g a b l d x x).mp hx with h | ⟨h1, h2⟩
  · exact hg x h
  · rcases h1 with rfl | h1 <;> rcases h2 with h2 | h2
    · exact hne h2
    · exact hba h2
    · subst h2
      exact hba h1
    · exact hba (h2.trans h1)

/-- The bits of a vector extended by `addNghbrs`. -/
theorem GetBit_addNghbrs (v w : BitVector) (e y : Nat) :
    GetBit (addNghbrs v w e) y =
      (decide (y < v.length) && (GetBit v y || decide (y = e) || GetBit w y)) := by
  simp only [GetBit, addNghbrs, List.getD_eq_getElem?_getD, List.getElem?_map]
  by_cases hy : y < v.length
  · simp [List.getElem?_range hy, hy]
  · simp [List.getElem?_eq_none (by simpa using hy : (List.range v.length).length ≤ y), hy]

/-- The recursive vectors stay the transitive closure of the edges under `CreateEdge`
between instructions that have a bit. -/
theorem ClosureOK_CreateEdge (g : DataDepGraph) (N a b : Nat) (l : Int) (d : DependenceType)
    (hg : ClosureOK g N) (ha : a < N) (hb : b < N) : ClosureOK (CreateEdge g a b l d) N := by
  obtain ⟨hlen, hcl⟩ := hg
  have hlt : ∀ u v, Reach g u v → u < N ∧ v < N := by
    intro u v h
    constructor
    · have := GetBit_lt _ _ (((hcl v u).2).mpr h)
      rwa [(hlen v).2] at this
    · have := GetBit_lt _ _ (((hcl u v).1).mpr h)
      rwa [(hlen u).1] at this
  refine ⟨?_, ?_⟩
  · intro x
    simp only [CreateEdge]
    constructor
    · split
      · simp [addNghbrs, (hlen x).1]
      · exact (hlen x).1
    · split
      · simp [addNghbrs, (hlen x).2]
      · exact (hlen x).2
  · intro x y
    rw [Reach_CreateEdge, Reach_CreateEdge]
    constructor
    · have hS : ((CreateEdge g a b l d).insts x).rcrsvScsrs =
          if x = a ∨ IsRcrsvPrdcsr g a x = true then
            addNghbrs (g.insts x).rcrsvScsrs (g.insts b).rcrsvScsrs b
          else (g.insts x).rcrsvScsrs := rfl
      rw [hS]
      have hpa : IsRcrsvPrdcsr g a x = true ↔ Reach g x a := (hcl a x).2
      by_cases hc : x = a ∨ IsRcrsvPrdcsr g a x = true
      · rw [if_pos hc, GetBit_addNghbrs, (hlen x).1]
        have hc2 : x = a ∨ Reach g x a := hc.imp id hpa.mp
        simp only [Bool.and_eq_true, decide_eq_true_eq, Bool.or_eq_true, (hcl x y).1,
          (hcl b y).1]
        constructor
        · rintro ⟨_, (h | h) | h⟩
          · exact Or.inl h
          · exact Or.inr ⟨hc2, Or.inl h⟩
          · exact Or.inr ⟨hc2, Or.inr h⟩
        · rintro (h | ⟨_, h | h⟩)
          · exact ⟨(hlt _ _ h).2, Or.inl (Or.inl h)⟩
          · exact ⟨h ▸ hb, Or.inl (Or.inr h)⟩
          · exact ⟨(hlt _ _ h).2, Or.inr h⟩
      · rw [if_neg hc, (hcl x y).1]
        constructor
        · exact Or.inl
        · rintro (h | ⟨h1, _⟩)
          · exact h
          · exact absurd (h1.imp id hpa.mpr) hc
    · have hP : ((CreateEdge g a b l d).insts x).rcrsvPrdcsrs =
          if x = b ∨ IsRcrsvScsr g b x = true then
            addNghbrs (g.insts x).rcrsvPrdcsrs (g.insts a).rcrsvPrdcsrs a
          else (g.insts x).rcrsvPrdcsrs := rfl
      rw [hP]
      have hpb : IsRcrsvScsr g b x = true ↔ Reach g b x := (hcl b x).1
      by_cases hc : x = b ∨ IsRcrsvScsr g b x = true
      · rw [if_pos hc, GetBit_addNghbrs, (hlen x).2]
        have hc2 : x = b ∨ Reach g b x := hc.imp id hpb.mp
        simp only [Bool.and_eq_true, decide_eq_true_eq, Bool.or_eq_true, (hcl x y).2,
          (hcl a y).2]
        constructor
        · rintro ⟨_, (h | h) | h⟩
          · exact Or.inl h
          · exact Or.inr ⟨Or.inl h, hc2⟩
          · exact Or.inr ⟨Or.inr h, hc2⟩
        · rintro (h | ⟨h | h, _⟩)
          · exact ⟨(hlt _ _ h).1, Or.inl (Or.inl h)⟩
          · exact ⟨h ▸ ha, Or.inl (Or.inr h)⟩
          · exact ⟨(hlt _ _ h).1, Or.inr h⟩
      · rw [if_neg hc, (hcl x y).2]
        constructor
        · exact Or.inl
        · rintro (h | ⟨_, h2⟩)
          · exact h
          · exact absurd (h2.imp id hpb.mpr) hc

/-! ## The loops of the two transformations -/

/-- Adding two batches of edges one after the other adds their concatenation. -/
theorem addEdges_append (g : DataDepGraph) (es1 es2 : List (Nat × Nat)) :
    EquivDectTrans.addEdges (EquivDectTrans.addEdges g es1) es2 =
      EquivDectTrans.addEdges g (es1 ++ es2) := by
  simp [EquivDectTrans.addEdges, List.foldl_append]

/-- The edges after a batch of `CreateEdge` calls: the old ones and the batch. -/
theorem Edge_addEdges (es : List (Nat × Nat)) :
    ∀ (g : DataDepGraph) (x y : Nat),
      Edge (EquivDectTrans.addEdges g es) x y ↔ Edge g x y ∨ (x, y) ∈ es := by
  induction es with
  | nil => intro g x y; simp [EquivDectTrans.addEdges]
  | cons e rest ih =>
    intro g x y
    have h := ih (CreateEdge g e.1 e.2 0 .DEP_OTHER) x y
    simp only [EquivDectTrans.addEdges, List.foldl_cons] at h ⊢
    rw [h, Edge_CreateEdge, List.mem_cons]
    constructor
    · rintro ((h1 | ⟨h1, h2⟩) | h1)
      · exact Or.inl h1
      · exact Or.inr (Or.inl (by rw [h1, h2]))
      · exact Or.inr (Or.inr h1)
    · rintro (h1 | h1 | h1)
      · exact Or.inl (Or.inl h1)
      · exact Or.inl (Or.inr (by rw [← h1]; exact ⟨rfl, rfl⟩))
      · exact Or.inr h1

/-- A batch of `CreateEdge` calls changes neither the instruction count nor the number of
register types nor the definitions. -/
theorem addEdges_frame (es : List (Nat × Nat)) :
    ∀ g : DataDepGraph,
      (EquivDectTrans.addEdges g es).instCnt = g.instCnt ∧
      (EquivDectTrans.addEdges g es).regTypeCnt = g.regTypeCnt ∧
      ∀ x, ((EquivDectTrans.addEdges g es).insts x).defs = (g.insts x).defs := by
  induction es with
  | nil => intro g; exact ⟨rfl, rfl, fun _ => rfl⟩
  | cons e rest ih =>
    intro g
    have h := ih (CreateEdge g e.1 e.2 0 .DEP_OTHER)
    simp only [EquivDectTrans.addEdges, List.foldl_cons] at h ⊢
    exact ⟨h.1, h.2.1, fun x => (h.2.2 x).trans rfl⟩

/-- The neighbour test of the model compares the sets of (neighbour, latency) pairs. -/
theorem sameNghbrSet_iff (l1 l2 : List (Nat × Int × DependenceType)) :
    sameNghbrSet l1 l2 = true ↔
      ∀ n l, (∃ d, (n, l, d) ∈ l1) ↔ (∃ d, (n, l, d) ∈ l2) := by
  simp only [sameNghbrSet, Bool.and_eq_true, List.all_eq_true, List.any_eq_true,
    decide_eq_true_eq, Prod.forall, Prod.exists]
  constructor
  · rintro ⟨h1, h2⟩ n l
    constructor
    · rintro ⟨d, hd⟩
      obtain ⟨n1, l1, d1, hm, hn, hl⟩ := h1 n l d hd
      subst hn hl
      exact ⟨d1, hm⟩
    · rintro ⟨d, hd⟩
      obtain ⟨n1, l1, d1, hm, hn, hl⟩ := h2 n l d hd
      subst hn hl
      exact ⟨d1, hm⟩
  · intro h
    constructor
    · intro n l d hd
      obtain ⟨d1, hd1⟩ := (h n l).mp ⟨d, hd⟩
      exact ⟨n, l, d1, hd1, rfl, rfl⟩
    · intro n l d hd
      obtain ⟨d1, hd1⟩ := (h n l).mpr ⟨d, hd⟩
      exact ⟨n, l, d1, hd1, rfl, rfl⟩

/-- Equivalent instructions have the same direct successors. -/
theorem NodesAreEquiv__scsrs (g : DataDepGraph) (a b : Nat)
    (h : NodesAreEquiv_ g a b = true) : ∀ v, Edge g a v ↔ Edge g b v := by
  simp only [NodesAreEquiv_] at h
  split at h
  · cases h
  · split at h
    · cases h
    · rename_i _ h2
      simp only [Bool.or_eq_true, Bool.not_eq_true', not_or, Bool.not_eq_false] at h2
      have hs := (sameNghbrSet_iff _ _).mp h2.1
      intro v
      simp only [Edge]
      constructor
      · rintro ⟨l, d, hd⟩
        obtain ⟨d1, hd1⟩ := (hs v l).mp ⟨d, hd⟩
        exact ⟨l, d1, hd1⟩
      · rintro ⟨l, d, hd⟩
        obtain ⟨d1, hd1⟩ := (hs v l).mpr ⟨d, hd⟩
        exact ⟨l, d1, hd1⟩

/-- Edges between instructions with the same direct successors, each from a smaller to a
larger number, keep an acyclic graph acyclic. -/
theorem Acyclic_addEdges_of_sameScsrs (g : DataDepGraph) (es : List (Nat × Nat))
    (hg : Acyclic g) (hes : ∀ p ∈ es, p.1 < p.2 ∧ SameScsrs g p.1 p.2) :
    Acyclic (EquivDectTrans.addEdges g es) := by
  have key : ∀ x y, Reach (EquivDectTrans.addEdges g es) x y →
      (∃ z, SameScsrs g z y ∧ Reach g x z) ∨ (SameScsrs g x y ∧ x < y) := by
    intro x y h
    induction h with
    | single h =>
      rcases (Edge_addEdges es g _ _).mp h with he | he
      · exact Or.inl ⟨_, fun _ => Iff.rfl, Relation.TransGen.single he⟩
      · obtain ⟨h1, h2⟩ := hes _ he
        exact Or.inr ⟨h2, h1⟩
    | @tail y z _ h ih =>
      rcases (Edge_addEdges es g _ _).mp h with he | he
      · refine Or.inl ⟨z, fun _ => Iff.rfl, ?_⟩
        rcases ih with ⟨w, hw, hr⟩ | ⟨hs, _⟩
        · exact hr.tail ((hw z).mpr he)
        · exact Relation.TransGen.single ((hs z).mpr he)
      · obtain ⟨h1, h2⟩ := hes _ he
        rcases ih with ⟨w, hw, hr⟩ | ⟨hs, hlt⟩
        · exact Or.inl ⟨w, fun v => (hw v).trans (h2 v), hr⟩
        · exact Or.inr ⟨fun v => (hs v).trans (h2 v), Nat.lt_trans hlt h1⟩
  intro x hx
  rcases key x x hx with ⟨z, hz, hr⟩ | ⟨_, hlt⟩
  · rcases Relation.TransGen.head'_iff.mp hr with ⟨s, hxs, hsz⟩
    have hzs : Edge g z s := (hz s).mpr hxs
    exact hg s (Relation.TransGen.tail' hsz hzs)
  · exact Nat.lt_irrefl _ hlt

/-- The inner loop of `EquivDectTrans::ApplyTrans` on an ascending list returns; it appends
pairs of equivalent instructions, each from a smaller to a larger number; the list stays
ascending and `start` stays inside it, no farther from its end than before. -/
theorem scanLoop_spec (g : DataDepGraph) :
    ∀ (fuel : Nat) (nodes : List Nat) (start next : Nat) (es : List (Nat × Nat)),
      nodes.Pairwise (· < ·) → start < next → next ≤ nodes.length →
      nodes.length - next ≤ fuel →
      ∃ nodes1 start1 es1,
        EquivDectTrans.scanLoop g fuel nodes start next es = some (nodes1, start1, es ++ es1) ∧
        nodes1.Pairwise (· < ·) ∧ start1 < nodes1.length ∧
        nodes1.length - start1 ≤ nodes.length - start ∧
        ∀ p ∈ es1, p.1 < p.2 ∧ NodesAreEquiv_ g p.1 p.2 = true := by
  intro fuel
  induction fuel with
  | zero =>
    intro nodes start next es hs h1 h2 h3
    have : next = nodes.length := by omega
    refine ⟨nodes, start, [], by simp [EquivDectTrans.scanLoop, this], hs, by omega,
      le_refl _, by simp⟩
  | succ fuel ih =>
    intro nodes start next es hs h1 h2 h3
    by_cases hend : next = nodes.length
    · refine ⟨nodes, start, [], by simp [EquivDectTrans.scanLoop, hend], hs, by omega,
        le_refl _, by simp⟩
    · have hn : next < nodes.length := lt_of_le_of_ne h2 hend
      have hst : start < nodes.length := Nat.lt_trans h1 hn
      have hgs : nodes[start]? = some nodes[start] := List.getElem?_eq_getElem hst
      have hgn : nodes[next]? = some nodes[next] := List.getElem?_eq_getElem hn
      have hlt : nodes[start] < nodes[next] := List.pairwise_iff_getElem.mp hs _ _ hst hn h1
      simp only [EquivDectTrans.scanLoop, if_neg hend, hgs, hgn]
      by_cases heq : NodesAreEquiv_ g nodes[start] nodes[next] = true
      · rw [if_pos heq, if_neg (Nat.ne_of_lt h1), if_pos h1]
        have hlen : (nodes.eraseIdx start).length = nodes.length - 1 := by
          rw [List.length_eraseIdx, if_pos hst]
        obtain ⟨nodes1, start1, es1, e1, e2, e3, e4, e5⟩ :=
          ih (nodes.eraseIdx start) (next - 1) (next - 1 + 1)
            (es ++ [(nodes[start], nodes[next])])
            (hs.sublist (List.eraseIdx_sublist _ _)) (Nat.lt_succ_self _)
            (by rw [hlen]; omega) (by rw [hlen]; omega)
        refine ⟨nodes1, start1, (nodes[start], nodes[next]) :: es1, ?_, e2, e3, ?_, ?_⟩
        · rw [e1]
          simp
        · rw [hlen] at e4
          omega
        · intro p hp
          rcases List.mem_cons.mp hp with rfl | hp
          · exact ⟨hlt, heq⟩
          · exact e5 p hp
      · rw [if_neg heq]
        exact ih nodes start (next + 1) es hs (Nat.lt_succ_of_lt h1) hn (by omega)

/-- The outer loop of `EquivDectTrans::ApplyTrans` on an ascending list returns, and a
property of the graph that every batch of edges between equivalent instructions keeps is
kept.  The result is the graph with the logged edges added; every logged pair has the
property `P` that the batch gives it. -/
theorem mainLoop_inv (Inv : DataDepGraph → Prop) (P : Nat × Nat → Prop)
    (hstep : ∀ g es, Inv g → (∀ p ∈ es, p.1 < p.2 ∧ NodesAreEquiv_ g p.1 p.2 = true) →
      Inv (EquivDectTrans.addEdges g es) ∧ ∀ p ∈ es, P p) :
    ∀ (fuel : Nat) (g : DataDepGraph) (nodes : List Nat) (start : Nat)
      (created : List (Nat × Nat)),
      Inv g → nodes.Pairwise (· < ·) → start ≤ nodes.length →
      nodes.length - start ≤ fuel →
      ∃ extra,
        EquivDectTrans.mainLoop fuel g nodes start start created =
          some (EquivDectTrans.addEdges g extra, created ++ extra) ∧
        Inv (EquivDectTrans.addEdges g extra) ∧ ∀ p ∈ extra, P p := by
  intro fuel
  induction fuel with
  | zero =>
    intro g nodes start created hg _ h1 h2
    have : start = nodes.length := by omega
    exact ⟨[], by simp [EquivDectTrans.mainLoop, this, EquivDectTrans.addEdges], hg, by simp⟩
  | succ fuel ih =>
    intro g nodes start created hg hs h1 h2
    by_cases hend : start = nodes.length
    · exact ⟨[], by simp [EquivDectTrans.mainLoop, hend, EquivDectTrans.addEdges], hg,
        by simp⟩
    · have hlt : start < nodes.length := lt_of_le_of_ne h1 hend
      obtain ⟨nodes1, start1, es1, e1, e2, e3, e4, e5⟩ :=
        scanLoop_spec g nodes.length nodes start (start + 1) [] hs (Nat.lt_succ_self _) hlt
          (by omega)
      simp only [List.nil_append] at e1
      obtain ⟨hInv, hP⟩ := hstep g es1 hg e5
      obtain ⟨extra, f1, f2, f3⟩ := ih (EquivDectTrans.addEdges g es1) nodes1 (start1 + 1)
        (created ++ es1) hInv e2 e3 (by omega)
      refine ⟨es1 ++ extra, ?_, ?_, ?_⟩
      · simp only [EquivDectTrans.mainLoop, if_neg hend, if_neg (not_le.mpr hlt), e1,
          if_neg (not_le.mpr e3)]
        rw [f1, addEdges_append, List.append_assoc]
      · rw [← addEdges_append]
        exact f2
      · intro p hp
        rcases List.mem_append.mp hp with hp | hp
        · exact hP p hp
        · exact f3 p hp

/-- The transformation `EquivDectTrans::ApplyTrans` returns on every graph; a property kept
by every batch of edges between equivalent instructions holds of its result, which is the
input graph with the logged edges added. -/
theorem EquivDect_ApplyTrans_inv (Inv : DataDepGraph → Prop) (P : Nat × Nat → Prop)
    (hstep : ∀ g es, Inv g → (∀ p ∈ es, p.1 < p.2 ∧ NodesAreEquiv_ g p.1 p.2 = true) →
      Inv (EquivDectTrans.addEdges g es) ∧ ∀ p ∈ es, P p)
    (g : DataDepGraph) (hg : Inv g) :
    ∃ log, EquivDectTrans.ApplyTrans g = some (EquivDectTrans.addEdges g log, log) ∧
      Inv (EquivDectTrans.addEdges g log) ∧ ∀ p ∈ log, P p := by
  obtain ⟨extra, h1, h2, h3⟩ := mainLoop_inv Inv P hstep (g.instCnt.toNat + 1) g
    (List.range g.instCnt.toNat) 0 [] hg (List.pairwise_lt_range _) (Nat.zero_le _)
    (by simp)
  exact ⟨extra, by simpa [EquivDectTrans.ApplyTrans] using h1, h2, h3⟩

/-- The superiority test returns a value when the definitions of both instructions have
register types below the register-type count. -/
theorem NodeIsSuperior__defined (g : DataDepGraph) (A B : Nat)
    (hdefsA : ∀ r ∈ (g.insts A).defs, r.type < g.regTypeCnt.toNat)
    (hdefsB : ∀ r ∈ (g.insts B).defs, r.type < g.regTypeCnt.toNat) :
    ∃ res, RPOnlyNodeSupTrans.NodeIsSuperior_ g A B = some res := by
  obtain ⟨ca, hca, _, _⟩ := countDefs_spec (g.insts A).defs
    (List.replicate g.regTypeCnt.toNat 0) (by simpa using hdefsA)
  obtain ⟨cb, hcb, _, _⟩ := countDefs_spec (g.insts B).defs
    (List.replicate g.regTypeCnt.toNat 0) (by simpa using hdefsB)
  simp only [RPOnlyNodeSupTrans.NodeIsSuperior_, hca, hcb]
  split
  · exact ⟨_, rfl⟩
  · split
    · exact ⟨_, rfl⟩
    · split
      · exact ⟨_, rfl⟩
      · split
        · exact ⟨_, rfl⟩
        · split
          · exact ⟨_, rfl⟩
          · exact ⟨_, rfl⟩

/-- A superior instruction has the other one neither among its recursive predecessors
nor among its recursive successors. -/
theorem NodeIsSuperior__indep (g : DataDepGraph) (A B : Nat)
    (h : RPOnlyNodeSupTrans.NodeIsSuperior_ g A B = some true) :
    GetBit (g.insts A).rcrsvPrdcsrs B = false ∧ GetBit (g.insts A).rcrsvScsrs B = false := by
  simp only [RPOnlyNodeSupTrans.NodeIsSuperior_] at h
  split at h
  · cases h
  · split at h
    · cases h
    · rename_i _ h2
      simp only [AreNodesIndep_, IsRcrsvPrdcsr, IsRcrsvScsr] at h2
      cases hp : GetBit (g.insts A).rcrsvPrdcsrs B <;>
        cases hs : GetBit (g.insts A).rcrsvScsrs B <;> simp [hp, hs] at h2 ⊢

/-- The definitions keep their register types in range under a batch of edges. -/
theorem DefTypesInRange_addEdges (g : DataDepGraph) (es : List (Nat × Nat))
    (h : DefTypesInRange g) : DefTypesInRange (EquivDectTrans.addEdges g es) := by
  obtain ⟨_, h2, h3⟩ := addEdges_frame es g
  intro x r hr
  rw [h2]
  rw [h3 x] at hr
  exact h x r hr

/-- The loop body of `RPOnlyNodeSupTrans::ApplyTrans` returns when the superiority tests
do, and keeps a property of the graph that every edge from a superior instruction
keeps. -/
theorem visit_inv (Inv : DataDepGraph → Prop) (P : Nat × Nat → Prop) (n : Nat)
    (hdef : ∀ g a b, Inv g → ∃ r, RPOnlyNodeSupTrans.NodeIsSuperior_ g a b = some r)
    (hstep : ∀ g a b, Inv g → a < n → b < n → a ≠ b →
      RPOnlyNodeSupTrans.NodeIsSuperior_ g a b = some true →
      Inv (CreateEdge g a b 0 .DEP_OTHER) ∧ P (a, b))
    (i j : Nat) (hi : i < n) (hj : j < n) (g : DataDepGraph) (created : List (Nat × Nat))
    (hg : Inv g) :
    ∃ extra, RPOnlyNodeSupTrans.visit i j g created =
        some (EquivDectTrans.addEdges g extra, created ++ extra) ∧
      Inv (EquivDectTrans.addEdges g extra) ∧ ∀ p ∈ extra, P p := by
  by_cases hij : i = j
  · exact ⟨[], by simp [RPOnlyNodeSupTrans.visit, hij, EquivDectTrans.addEdges], hg, by simp⟩
  · simp only [RPOnlyNodeSupTrans.visit, if_neg hij]
    obtain ⟨r1, hr1⟩ := hdef g i j hg
    rw [hr1]
    cases r1 with
    | true =>
      obtain ⟨h1, h2⟩ := hstep g i j hg hi hj hij hr1
      exact ⟨[(i, j)], rfl, h1, by simpa using h2⟩
    | false =>
      obtain ⟨r2, hr2⟩ := hdef g j i hg
      rw [hr2]
      cases r2 with
      | true =>
        obtain ⟨h1, h2⟩ := hstep g j i hg hj hi (Ne.symm hij) hr2
        exact ⟨[(j, i)], rfl, h1, by simpa using h2⟩
      | false => exact ⟨[], by simp [EquivDectTrans.addEdges], hg, by simp⟩

/-- The inner loop of `RPOnlyNodeSupTrans::ApplyTrans` keeps such a property. -/
theorem innerLoop_inv (Inv : DataDepGraph → Prop) (P : Nat × Nat → Prop) (n : Nat)
    (hdef : ∀ g a b, Inv g → ∃ r, RPOnlyNodeSupTrans.NodeIsSuperior_ g a b = some r)
    (hstep : ∀ g a b, Inv g → a < n → b < n → a ≠ b →
      RPOnlyNodeSupTrans.NodeIsSuperior_ g a b = some true →
      Inv (CreateEdge g a b 0 .DEP_OTHER) ∧ P (a, b))
    (i : Nat) (hi : i < n) :
    ∀ (cnt j : Nat) (g : DataDepGraph) (created : List (Nat × Nat)), j + cnt ≤ n → Inv g →
      ∃ extra, RPOnlyNodeSupTrans.innerLoop i cnt j g created =
          some (EquivDectTrans.addEdges g extra, created ++ extra) ∧
        Inv (EquivDectTrans.addEdges g extra) ∧ ∀ p ∈ extra, P p := by
  intro cnt
  induction cnt with
  | zero =>
    intro j g created _ hg
    exact ⟨[], by simp [RPOnlyNodeSupTrans.innerLoop, EquivDectTrans.addEdges], hg, by simp⟩
  | succ cnt ih =>
    intro j g created hj hg
    obtain ⟨e1, h1, h2, h3⟩ := visit_inv Inv P n hdef hstep i j hi (by omega) g created hg
    obtain ⟨e2, k1, k2, k3⟩ := ih (j + 1) (EquivDectTrans.addEdges g e1) (created ++ e1)
      (by omega) h2
    refine ⟨e1 ++ e2, ?_, ?_, ?_⟩
    · simp only [RPOnlyNodeSupTrans.innerLoop, h1]
      rw [k1, addEdges_append, List.append_assoc]
    · rw [← addEdges_append]
      exact k2
    · intro p hp
      rcases List.mem_append.mp hp with hp | hp
      · exact h3 p hp
      · exact k3 p hp

/-- The outer loop of `RPOnlyNodeSupTrans::ApplyTrans` keeps such a property. -/
theorem outerLoop_inv (Inv : DataDepGraph → Prop) (P : Nat × Nat → Prop) (n : Nat)
    (hdef : ∀ g a b, Inv g → ∃ r, RPOnlyNodeSupTrans.NodeIsSuperior_ g a b = some r)
    (hstep : ∀ g a b, Inv g → a < n → b < n → a ≠ b →
      RPOnlyNodeSupTrans.NodeIsSuperior_ g a b = some true →
      Inv (CreateEdge g a b 0 .DEP_OTHER) ∧ P (a, b)) :
    ∀ (cnt i : Nat) (g : DataDepGraph) (created : List (Nat × Nat)), i + cnt ≤ n → Inv g →
      ∃ extra, RPOnlyNodeSupTrans.outerLoop n cnt i g created =
          some (EquivDectTrans.addEdges g extra, created ++ extra) ∧
        Inv (EquivDectTrans.addEdges g extra) ∧ ∀ p ∈ extra, P p := by
  intro cnt
  induction cnt with
  | zero =>
    intro i g created _ hg
    exact ⟨[], by simp [RPOnlyNodeSupTrans.outerLoop, EquivDectTrans.addEdges], hg, by simp⟩
  | succ cnt ih =>
    intro i g created hi hg
    obtain ⟨e1, h1, h2, h3⟩ := innerLoop_inv Inv P n hdef hstep i (by omega)
      (n - (i + 1)) (i + 1) g created (by omega) hg
    obtain ⟨e2, k1, k2, k3⟩ := ih (i + 1) (EquivDectTrans.addEdges g e1) (created ++ e1)
      (by omega) h2
    refine ⟨e1 ++ e2, ?_, ?_, ?_⟩
    · simp only [RPOnlyNodeSupTrans.outerLoop, h1]
      rw [k1, addEdges_append, List.append_assoc]
    · rw [← addEdges_append]
      exact k2
    · intro p hp
      rcases List.mem_append.mp hp with hp | hp
      · exact h3 p hp
      · exact k3 p hp

/-- The transformation `RPOnlyNodeSupTrans::ApplyTrans` returns when the superiority tests
do; a property kept by every edge from a superior instruction holds of its result, which
is the input graph with the logged edges added. -/
theorem RPOnly_ApplyTrans_inv (Inv : DataDepGraph → Prop) (P : Nat × Nat → Prop)
    (g : DataDepGraph)
    (hdef : ∀ h a b, Inv h → ∃ r, RPOnlyNodeSupTrans.NodeIsSuperior_ h a b = some r)
    (hstep : ∀ h a b, Inv h → a < g.instCnt.toNat → b < g.instCnt.toNat → a ≠ b →
      RPOnlyNodeSupTrans.NodeIsSuperior_ h a b = some true →
      Inv (CreateEdge h a b 0 .DEP_OTHER) ∧ P (a, b))
    (hg : Inv g) :
    ∃ log, RPOnlyNodeSupTrans.ApplyTrans g = some (EquivDectTrans.addEdges g log, log) ∧
      Inv (EquivDectTrans.addEdges g log) ∧ ∀ p ∈ log, P p := by
  obtain ⟨extra, h1, h2, h3⟩ := outerLoop_inv Inv P g.instCnt.toNat hdef hstep
    g.instCnt.toNat 0 g [] (by omega) hg
  exact ⟨extra, by simpa [RPOnlyNodeSupTrans.ApplyTrans] using h1, h2, h3⟩

/-! ## Acyclicity -/

/-- The transformation `RPOnlyNodeSupTrans::ApplyTrans` as a run of visits. -/
theorem RPOnly_ApplyTrans_eq_foldlM (g : DataDepGraph) :
    RPOnlyNodeSupTrans.ApplyTrans g =
      (upperPairs g.instCnt.toNat).foldlM visitSpec (g, []) := by
  simp only [RPOnlyNodeSupTrans.ApplyTrans, outerLoop_eq_foldlM, upperPairs,
    List.range_eq_range']

/-- A run of visits that returns keeps a property of the graph that every edge from a
superior instruction keeps. -/
theorem foldlM_visitSpec_inv (Inv : DataDepGraph → Prop) (n : Nat)
    (hstep : ∀ g a b, Inv g → a < n → b < n → a ≠ b →
      RPOnlyNodeSupTrans.NodeIsSuperior_ g a b = some true →
      Inv (CreateEdge g a b 0 .DEP_OTHER)) :
    ∀ (l : List (Nat × Nat)) (st st1 : DataDepGraph × List (Nat × Nat)),
      (∀ p ∈ l, p.1 < p.2 ∧ p.2 < n) → Inv st.1 → l.foldlM visitSpec st = some st1 →
      Inv st1.1 := by
  intro l
  induction l with
  | nil =>
    intro st st1 _ hInv h
    simp only [List.foldlM_nil, pure, Option.some.injEq] at h
    subst h
    exact hInv
  | cons p rest ih =>
    intro st st1 hp hInv h
    rw [List.foldlM_cons] at h
    obtain ⟨hlt, hn⟩ := hp p (List.mem_cons_self _ _)
    have hrest : ∀ q ∈ rest, q.1 < q.2 ∧ q.2 < n :=
      fun q hq => hp q (List.mem_cons_of_mem _ hq)
    cases hv : visitSpec st p with
    | none => rw [hv] at h; cases h
    | some st2 =>
      rw [hv] at h
      refine ih st2 st1 hrest ?_ h
      simp only [visitSpec] at hv
      cases hs : RPOnlyNodeSupTrans.NodeIsSuperior_ st.1 p.1 p.2 with
      | none => rw [hs] at hv; cases hv
      | some b =>
        rw [hs] at hv
        cases b with
        | true =>
          simp only [Option.some.injEq] at hv
          subst hv
          exact hstep _ _ _ hInv (Nat.lt_trans hlt hn) hn (Nat.ne_of_lt hlt) hs
        | false =>
          cases hs2 : RPOnlyNodeSupTrans.NodeIsSuperior_ st.1 p.2 p.1 with
          | none => rw [hs2] at hv; cases hv
          | some c =>
            rw [hs2] at hv
            cases c with
            | true =>
              simp only [Option.some.injEq] at hv
              subst hv
              exact hstep _ _ _ hInv hn (Nat.lt_trans hlt hn) (Nat.ne_of_gt hlt) hs2
            | false =>
              simp only [Option.some.injEq] at hv
              subst hv
              exact hInv

/-- Claim C18: for every acyclic graph whose recursive bit vectors (of `N` bits, one for
every instruction) are the transitive closure of its edges, `EquivDectTrans::ApplyTrans`
returns a graph without a cycle, every graph returned by `RPOnlyNodeSupTrans::ApplyTrans`
is without a cycle, and `RPOnlyNodeSupTrans::ApplyTrans` returns when the definitions have
register types below the register-type count. -/
theorem transformations_keep_acyclic (g : DataDepGraph) (N : Nat) (hacyc : Acyclic g)
    (hcl : ClosureOK g N) (hN : g.instCnt.toNat ≤ N) :
    (∃ g1 log, EquivDectTrans.ApplyTrans g = some (g1, log) ∧ Acyclic g1) ∧
    (∀ g1 log, RPOnlyNodeSupTrans.ApplyTrans g = some (g1, log) → Acyclic g1) ∧
    (DefTypesInRange g → ∃ g1 log, RPOnlyNodeSupTrans.ApplyTrans g = some (g1, log)) := by
  refine ⟨?_, ?_, ?_⟩
  · obtain ⟨log, h1, h2, _⟩ := EquivDect_ApplyTrans_inv Acyclic (fun _ => True)
      (fun h es hh hes => ⟨Acyclic_addEdges_of_sameScsrs h es hh
        (fun p hp => ⟨(hes p hp).1, NodesAreEquiv__scsrs h p.1 p.2 (hes p hp).2⟩),
        fun _ _ => trivial⟩) g hacyc
    exact ⟨_, log, h1, h2⟩
  · intro g1 log hrun
    rw [RPOnly_ApplyTrans_eq_foldlM] at hrun
    have := foldlM_visitSpec_inv (fun h => Acyclic h ∧ ClosureOK h N) g.instCnt.toNat
      (fun h a b hh ha hb hab hsup => by
        obtain ⟨hA, hC⟩ := hh
        have hbit := (NodeIsSuperior__indep h a b hsup).1
        have hnr : ¬ Reach h b a := by
          intro hr
          rw [((hC.2 a b).2).mpr hr] at hbit
          cases hbit
        exact ⟨Acyclic_CreateEdge h a b 0 .DEP_OTHER hA hab hnr,
          ClosureOK_CreateEdge h N a b 0 .DEP_OTHER hC (by omega) (by omega)⟩)
      (upperPairs g.instCnt.toNat) (g, []) (g1, log)
      (fun p hp => (mem_upperPairs _ p.1 p.2).mp hp) ⟨hacyc, hcl⟩ hrun
    exact this.1
  · intro hdefs
    obtain ⟨log, h1, _, _⟩ := RPOnly_ApplyTrans_inv DefTypesInRange (fun _ => True) g
      (fun h a b hh => NodeIsSuperior__defined h a b (hh a) (hh b))
      (fun h a b hh _ _ _ _ => ⟨fun x r hr => hh x r hr, trivial⟩) hdefs
    exact ⟨_, log, h1⟩

/-- The sample graph without edges has no path. -/
theorem isolatedGraph_no_reach (a b : Nat) : ¬ Reach isolatedGraph a b := by
  intro h
  rcases Relation.TransGen.head'_iff.mp h with ⟨c, ⟨l, d, hc⟩, _⟩
  simp [isolatedGraph, mkGInst] at hc

/-- The sample graph without edges has no bit set. -/
theorem isolatedGraph_bits (x b : Nat) :
    GetBit (isolatedGraph.insts x).rcrsvScsrs b = false ∧
      GetBit (isolatedGraph.insts x).rcrsvPrdcsrs b = false := by
  rcases b with _ | _ | b <;> simp [isolatedGraph, mkGInst, GetBit, List.getD]

/-- Witness for C18 on the sample graph of two instructions without edges: both
transformations return a graph without a cycle. -/
theorem transformations_keep_acyclic_witness :
    (∃ g1 log, EquivDectTrans.ApplyTrans isolatedGraph = some (g1, log) ∧ Acyclic g1) ∧
    (∃ g1 log, RPOnlyNodeSupTrans.ApplyTrans isolatedGraph = some (g1, log) ∧ Acyclic g1) :=
  have h := transformations_keep_acyclic isolatedGraph 2
    (fun a => isolatedGraph_no_reach a a)
    ⟨fun _ => ⟨by simp [isolatedGraph, mkGInst], by simp [isolatedGraph, mkGInst]⟩,
      fun a b =>
        ⟨⟨(fun h => by rw [(isolatedGraph_bits a b).1] at h; cases h),
          fun h => absurd h (isolatedGraph_no_reach a b)⟩,
        ⟨(fun h => by rw [(isolatedGraph_bits a b).2] at h; cases h),
          fun h => absurd h (isolatedGraph_no_reach b a)⟩⟩⟩
    (by decide)
  ⟨h.1, by
    obtain ⟨g1, log, hrun⟩ := h.2.2 (fun x r hr => by simp [isolatedGraph, mkGInst] at hr)
    exact ⟨g1, log, hrun, h.2.1 g1 log hrun⟩⟩

/-! ## The direction of the created edges -/

/-- The call `CreateNode_` logs no edge. -/
theorem CreateNode__edges (st st1 : DagState) (instNum : Nat) (instName : String)
    (instType : Int) (opCode : String)
    (h : CreateNode_ st instNum instName instType opCode = some st1) :
    st1.edges = st.edges := by
  simp only [CreateNode_] at h
  split at h
  · simp only [Option.some.injEq] at h
    subst h
    rfl
  · cases h

/-- The call `CreateEdge_` logs exactly its edge. -/
theorem CreateEdge__edges (st st1 : DagState) (frm toNum : Nat) (l : Int)
    (d : DependenceType) (h : CreateEdge_ st frm toNum l d = some st1) :
    st1.edges = st.edges ++ [(frm, toNum, l, d)] := by
  simp only [CreateEdge_] at h
  split at h
  · split at h
    · simp only [Option.some.injEq] at h
      subst h
      rfl
    · cases h
  · cases h

/-- The loop "Create nodes" logs no edge. -/
theorem nodeLoop_edges (this : LLVMDataDepGraph) :
    ∀ (units : List SUnit) (st st1 : DagState),
      ConvertLLVMNodes_.nodeLoop this units st = some st1 → st1.edges = st.edges := by
  intro units
  induction units with
  | nil =>
    intro st st1 h
    simp only [ConvertLLVMNodes_.nodeLoop, Option.some.injEq] at h
    subst h
    rfl
  | cons unit rest ih =>
    intro st st1 h
    simp only [ConvertLLVMNodes_.nodeLoop] at h
    split at h
    · exact ih _ _ h
    · split at h
      · cases h
      · rename_i st2 hc
        have h2 := ih _ _ h
        rw [h2]
        have h3 := CreateNode__edges _ _ _ _ _ _ hc
        rw [← h3]
        split <;> split <;> split <;> rfl

/-- The loop over the successors of a unit logs edges from the unit to its successors that
are not boundary nodes. -/
theorem succLoop_edges (this : LLVMDataDepGraph) (unit : SUnit) :
    ∀ (succs : List SDep) (st st1 : DagState),
      ConvertLLVMNodes_.succLoop this unit succs st = some st1 →
      ∃ extra, st1.edges = st.edges ++ extra ∧
        ∀ e ∈ extra, e.1 = unit.NodeNum ∧
          ∃ it ∈ succs, it.getSUnit.isBoundaryNode = false ∧
            e.2.1 = it.getSUnit.NodeNum := by
  intro succs
  induction succs with
  | nil =>
    intro st st1 h
    simp only [ConvertLLVMNodes_.succLoop, Option.some.injEq] at h
    subst h
    exact ⟨[], by simp, by simp⟩
  | cons it rest ih =>
    intro st st1 h
    simp only [ConvertLLVMNodes_.succLoop] at h
    by_cases hb : it.getSUnit.isBoundaryNode = true
    · rw [if_pos hb] at h
      obtain ⟨extra, h1, h2⟩ := ih _ _ h
      refine ⟨extra, h1, fun e he => ?_⟩
      obtain ⟨h3, it1, h4, h5⟩ := h2 e he
      exact ⟨h3, it1, List.mem_cons_of_mem _ h4, h5⟩
    · rw [if_neg hb] at h
      split at h
      · cases h
      · split at h
        · cases h
        · rename_i l _ st2 hc
          obtain ⟨extra, h1, h2⟩ := ih _ _ h
          have h3 := CreateEdge__edges _ _ _ _ _ _ hc
          refine ⟨_ :: extra, by rw [h1, h3, List.append_assoc]; rfl, fun e he => ?_⟩
          rcases List.mem_cons.mp he with rfl | he
          · exact ⟨rfl, it, List.mem_cons_self _ _, by simpa using hb, rfl⟩
          · obtain ⟨h4, it1, h5, h6⟩ := h2 e he
            exact ⟨h4, it1, List.mem_cons_of_mem _ h5, h6⟩

/-- The loop "Create edges" logs edges from units to their successors that are not
boundary nodes. -/
theorem edgeLoop_edges (this : LLVMDataDepGraph) :
    ∀ (units : List SUnit) (st st1 : DagState),
      ConvertLLVMNodes_.edgeLoop this units st = some st1 →
      ∃ extra, st1.edges = st.edges ++ extra ∧
        ∀ e ∈ extra, ∃ unit ∈ units, ∃ it ∈ unit.Succs,
          it.getSUnit.isBoundaryNode = false ∧
            e.1 = unit.NodeNum ∧ e.2.1 = it.getSUnit.NodeNum := by
  intro units
  induction units with
  | nil =>
    intro st st1 h
    simp only [ConvertLLVMNodes_.edgeLoop, Option.some.injEq] at h
    subst h
    exact ⟨[], by simp, by simp⟩
  | cons unit rest ih =>
    intro st st1 h
    simp only [ConvertLLVMNodes_.edgeLoop] at h
    split at h
    · cases h
    · rename_i st2 hc
      obtain ⟨e1, h1, h2⟩ := succLoop_edges this unit _ _ _ hc
      obtain ⟨e2, k1, k2⟩ := ih _ _ h
      refine ⟨e1 ++ e2, by rw [k1, h1, List.append_assoc], fun e he => ?_⟩
      rcases List.mem_append.mp he with he | he
      · obtain ⟨h3, it, h4, h5, h6⟩ := h2 e he
        exact ⟨unit, List.mem_cons_self _ _, it, h4, h5, h3, h6⟩
      · obtain ⟨u, hu, it, h4, h5⟩ := k2 e he
        exact ⟨u, List.mem_cons_of_mem _ hu, it, h4, h5⟩

/-- The root loop logs 0-latency `OTHER` edges from the root to visited instructions. -/
theorem rootLoop_edges (rootNum : Nat) :
    ∀ (idxs : List Nat) (st st1 : DagState),
      ConvertLLVMNodes_.rootLoop rootNum idxs st = some st1 →
      ∃ extra, st1.edges = st.edges ++ extra ∧
        ∀ e ∈ extra, ∃ i ∈ idxs, e = (rootNum, i, 0, DependenceType.DEP_OTHER) := by
  intro idxs
  induction idxs with
  | nil =>
    intro st st1 h
    simp only [ConvertLLVMNodes_.rootLoop, Option.some.injEq] at h
    subst h
    exact ⟨[], by simp, by simp⟩
  | cons i rest ih =>
    intro st st1 h
    simp only [ConvertLLVMNodes_.rootLoop] at h
    split at h
    · split at h
      · split at h
        · cases h
        · rename_i st2 hc
          obtain ⟨extra, h1, h2⟩ := ih _ _ h
          have h3 := CreateEdge__edges _ _ _ _ _ _ hc
          refine ⟨_ :: extra, by rw [h1, h3, List.append_assoc]; rfl, fun e he => ?_⟩
          rcases List.mem_cons.mp he with rfl | he
          · exact ⟨i, List.mem_cons_self _ _, rfl⟩
          · obtain ⟨k, hk, hk2⟩ := h2 e he
            exact ⟨k, List.mem_cons_of_mem _ hk, hk2⟩
      · obtain ⟨extra, h1, h2⟩ := ih _ _ h
        refine ⟨extra, h1, fun e he => ?_⟩
        obtain ⟨k, hk, hk2⟩ := h2 e he
        exact ⟨k, List.mem_cons_of_mem _ hk, hk2⟩
    · cases h

/-- The leaf loop logs 0-latency `OTHER` edges from visited instructions to the leaf. -/
theorem leafLoop_edges (leafNum : Nat) :
    ∀ (idxs : List Nat) (st st1 : DagState),
      ConvertLLVMNodes_.leafLoop leafNum idxs st = some st1 →
      ∃ extra, st1.edges = st.edges ++ extra ∧
        ∀ e ∈ extra, ∃ i ∈ idxs, e = (i, leafNum, 0, DependenceType.DEP_OTHER) := by
  intro idxs
  induction idxs with
  | nil =>
    intro st st1 h
    simp only [ConvertLLVMNodes_.leafLoop, Option.some.injEq] at h
    subst h
    exact ⟨[], by simp, by simp⟩
  | cons i rest ih =>
    intro st st1 h
    simp only [ConvertLLVMNodes_.leafLoop] at h
    split at h
    · split at h
      · split at h
        · cases h
        · rename_i st2 hc
          obtain ⟨extra, h1, h2⟩ := ih _ _ h
          have h3 := CreateEdge__edges _ _ _ _ _ _ hc
          refine ⟨_ :: extra, by rw [h1, h3, List.append_assoc]; rfl, fun e he => ?_⟩
          rcases List.mem_cons.mp he with rfl | he
          · exact ⟨i, List.mem_cons_self _ _, rfl⟩
          · obtain ⟨k, hk, hk2⟩ := h2 e he
            exact ⟨k, List.mem_cons_of_mem _ hk, hk2⟩
      · obtain ⟨extra, h1, h2⟩ := ih _ _ h
        refine ⟨extra, h1, fun e he => ?_⟩
        obtain ⟨k, hk, hk2⟩ := h2 e he
        exact ⟨k, List.mem_cons_of_mem _ hk, hk2⟩
    · cases h

/-- The edges logged by `ConvertLLVMNodes_`: host edges, then root edges, then leaf
edges. -/
theorem ConvertLLVMNodes__edges (this : LLVMDataDepGraph) (st : DagState)
    (h : ConvertLLVMNodes_ this = some st) :
    ∀ e ∈ st.edges,
      (∃ unit ∈ this.llvmNodes_, ∃ it ∈ unit.Succs,
        it.getSUnit.isBoundaryNode = false ∧
          e.1 = unit.NodeNum ∧ e.2.1 = it.getSUnit.NodeNum) ∨
      (∃ i, i < this.llvmNodes_.length ∧
        e = (this.llvmNodes_.length, i, 0, DependenceType.DEP_OTHER)) ∨
      (∃ i, i < this.llvmNodes_.length ∧
        e = (i, this.llvmNodes_.length + 1, 0, DependenceType.DEP_OTHER)) := by
  simp only [ConvertLLVMNodes_] at h
  split at h
  · cases h
  · rename_i st1 h1
    split at h
    · cases h
    · rename_i st2 h2
      split at h
      · cases h
      · rename_i st3 h3
        split at h
        · cases h
        · rename_i st4 h4
          split at h
          · cases h
          · rename_i st5 h5
            have e1 := nodeLoop_edges this _ _ _ h1
            obtain ⟨x2, e2, p2⟩ := edgeLoop_edges this _ _ _ h2
            have e3 := CreateNode__edges _ _ _ _ _ _ h3
            obtain ⟨x4, e4, p4⟩ := rootLoop_edges _ _ _ _ h4
            have e5 := CreateNode__edges _ _ _ _ _ _ h5
            obtain ⟨x6, e6, p6⟩ := leafLoop_edges _ _ _ _ h
            have hall : st.edges = x2 ++ x4 ++ x6 := by
              rw [e6, e5, e4]
              show (st3.edges ++ x4) ++ x6 = _
              rw [e3, e2, e1]
              simp
            intro e he
            rw [hall] at he
            rcases List.mem_append.mp he with he | he
            · rcases List.mem_append.mp he with he | he
              · exact Or.inl (p2 e he)
              · obtain ⟨i, hi, hi2⟩ := p4 e he
                exact Or.inr (Or.inl ⟨i, List.mem_range.mp hi, hi2⟩)
            · obtain ⟨i, hi, hi2⟩ := p6 e he
              exact Or.inr (Or.inr ⟨i, List.mem_range.mp hi, hi2⟩)

/-- Claim C19, counterexample: on a host region of one instruction `ConvertLLVMNodes_`
creates the root edge from number 1 to number 0, and on a sample graph
`RPOnlyNodeSupTrans::ApplyTrans` creates the edge from instruction 1 to instruction 0. -/
theorem created_edges_do_not_all_ascend :
    HostAscending singleUnitRegion ∧
    (ConvertLLVMNodes_ singleUnitRegion).map (fun st => st.edges) =
      some [(1, 0, 0, .DEP_OTHER), (0, 2, 0, .DEP_OTHER)] ∧
    (RPOnlyNodeSupTrans.ApplyTrans descGraph).map (fun r => r.2) = some [(1, 0)] := by
  refine ⟨?_, by decide, by decide⟩
  intro unit hu it hit _
  simp only [singleUnitRegion, List.mem_singleton] at hu
  subst hu
  cases hit

/-- Claim C19, amended: when the edges of the host DAG go from smaller to larger numbers,
every edge created by `ConvertLLVMNodes_` goes from a smaller to a larger number, except
the edges of the artificial root, which go from the root's number `n` (the number of host
units) to a smaller number with latency 0 and kind `OTHER`; and on every graph
`EquivDectTrans::ApplyTrans` returns and every edge it creates goes from a smaller to a
larger number. -/
theorem created_edges_ascend_except_root (this : LLVMDataDepGraph) (st : DagState)
    (g : DataDepGraph) (hhost : HostAscending this)
    (hrun : ConvertLLVMNodes_ this = some st) :
    (∀ e ∈ st.edges, e.1 < e.2.1 ∨
      (e.1 = this.llvmNodes_.length ∧ e.2.1 < this.llvmNodes_.length ∧
        e.2.2 = (0, DependenceType.DEP_OTHER))) ∧
    ∃ g1 log, EquivDectTrans.ApplyTrans g = some (g1, log) ∧ ∀ p ∈ log, p.1 < p.2 := by
  constructor
  · intro e he
    rcases ConvertLLVMNodes__edges this st hrun e he with
      ⟨unit, hu, it, hit, hnb, h1, h2⟩ | ⟨i, hi, rfl⟩ | ⟨i, hi, rfl⟩
    · left
      rw [h1, h2]
      exact hhost unit hu it hit hnb
    · right
      exact ⟨rfl, hi, rfl⟩
    · left
      exact Nat.lt_succ_of_lt hi
  · obtain ⟨log, h1, _, h3⟩ := EquivDect_ApplyTrans_inv (fun _ => True) (fun p => p.1 < p.2)
      (fun _ es _ hes => ⟨trivial, fun p hp => (hes p hp).1⟩) g trivial
    exact ⟨_, log, h1, h3⟩

/-- The host edge of the sample region of two units goes from 0 to 1. -/
theorem twoUnitRegion_hostAscending : HostAscending twoUnitRegion := by
  intro unit hu it hit _
  simp only [twoUnitRegion, List.mem_cons, List.mem_singleton, List.not_mem_nil,
    or_false] at hu
  rcases hu with rfl | rfl
  · simp only [List.mem_singleton] at hit
    subst hit
    decide
  · cases hit

/-- Witness for C19 (amended) on the sample region of two units and the sample graph with
interleaved groups. -/
theorem created_edges_ascend_except_root_witness :
    ∃ st, ConvertLLVMNodes_ twoUnitRegion = some st ∧
      (∀ e ∈ st.edges, e.1 < e.2.1 ∨
        (e.1 = twoUnitRegion.llvmNodes_.length ∧ e.2.1 < twoUnitRegion.llvmNodes_.length ∧
          e.2.2 = (0, DependenceType.DEP_OTHER))) ∧
      ∃ g1 log, EquivDectTrans.ApplyTrans interleavedGraph = some (g1, log) ∧
        ∀ p ∈ log, p.1 < p.2 :=
  have hs : (ConvertLLVMNodes_ twoUnitRegion).isSome = true := by decide
  match h : ConvertLLVMNodes_ twoUnitRegion, hs with
  | some st, _ =>
    ⟨st, rfl, created_edges_ascend_except_root twoUnitRegion st interleavedGraph
      twoUnitRegion_hostAscending h⟩

/-! ## `EquivDectTrans::ApplyTrans`: interleaved groups -/

/-- Claim C14, failing input: in the sample graph the instructions 0 and 2 are equivalent,
the instructions 1 and 3 are equivalent, and 0 and 1 are not, so `{0, 2}` and `{1, 3}` are
two maximal groups interleaved in number order; `EquivDectTrans::ApplyTrans` creates the
edge `0 → 2` only, and no edge between 1 and 3.  On the sample graph of two equivalent
instructions it creates the one edge `0 → 1`. -/
theorem EquivDect_skips_interleaved_group :
    NodesAreEquiv_ interleavedGraph 0 2 = true ∧
    NodesAreEquiv_ interleavedGraph 1 3 = true ∧
    NodesAreEquiv_ interleavedGraph 0 1 = false ∧
    NodesAreEquiv_ interleavedGraph 2 3 = false ∧
    (EquivDectTrans.ApplyTrans interleavedGraph).map (fun r => r.2) = some [(0, 2)] ∧
    (EquivDectTrans.ApplyTrans isolatedGraph).map (fun r => r.2) = some [(0, 1)] := by
  decide

/-! ## A second pass -/

/-- Set bits stay set under `CreateEdge`. -/
theorem GetBit_CreateEdge_mono (g : DataDepGraph) (a b : Nat) (l : Int) (d : DependenceType)
    (x y : Nat) :
    (GetBit (g.insts x).rcrsvScsrs y = true →
      GetBit ((CreateEdge g a b l d).insts x).rcrsvScsrs y = true) ∧
    (GetBit (g.insts x).rcrsvPrdcsrs y = true →
      GetBit ((CreateEdge g a b l d).insts x).rcrsvPrdcsrs y = true) := by
  have hS : ((CreateEdge g a b l d).insts x).rcrsvScsrs =
      if x = a ∨ IsRcrsvPrdcsr g a x = true then
        addNghbrs (g.insts x).rcrsvScsrs (g.insts b).rcrsvScsrs b
      else (g.insts x).rcrsvScsrs := rfl
  have hP : ((CreateEdge g a b l d).insts x).rcrsvPrdcsrs =
      if x = b ∨ IsRcrsvScsr g b x = true then
        addNghbrs (g.insts x).rcrsvPrdcsrs (g.insts a).rcrsvPrdcsrs a
      else (g.insts x).rcrsvPrdcsrs := rfl
  constructor
  · intro h
    rw [hS]
    split
    · rw [GetBit_addNghbrs]
      simp [h, GetBit_lt _ _ h]
    · exact h
  · intro h
    rw [hP]
    split
    · rw [GetBit_addNghbrs]
      simp [h, GetBit_lt _ _ h]
    · exact h

/-- The call `CreateEdge` sets the bit of `b` among the recursive successors of `a` and the
bit of `a` among the recursive predecessors of `b`, when the vectors have these bits. -/
theorem GetBit_CreateEdge_new (g : DataDepGraph) (a b : Nat) (l : Int) (d : DependenceType)
    (hb : b < (g.insts a).rcrsvScsrs.length) (ha : a < (g.insts b).rcrsvPrdcsrs.length) :
    GetBit ((CreateEdge g a b l d).insts a).rcrsvScsrs b = true ∧
      GetBit ((CreateEdge g a b l d).insts b).rcrsvPrdcsrs a = true := by
  have hS : ((CreateEdge g a b l d).insts a).rcrsvScsrs =
      if a = a ∨ IsRcrsvPrdcsr g a a = true then
        addNghbrs (g.insts a).rcrsvScsrs (g.insts b).rcrsvScsrs b
      else (g.insts a).rcrsvScsrs := rfl
  have hP : ((CreateEdge g a b l d).insts b).rcrsvPrdcsrs =
      if b = b ∨ IsRcrsvScsr g b b = true then
        addNghbrs (g.insts b).rcrsvPrdcsrs (g.insts a).rcrsvPrdcsrs a
      else (g.insts b).rcrsvPrdcsrs := rfl
  rw [hS, hP, if_pos (Or.inl rfl), if_pos (Or.inl rfl), GetBit_addNghbrs, GetBit_addNghbrs]
  simp [ha, hb]

/-- The vectors keep their bits for the first `N` instructions under `CreateEdge`. -/
theorem BitsCover_CreateEdge (g : DataDepGraph) (N a b : Nat) (l : Int) (d : DependenceType)
    (h : BitsCover g N) : BitsCover (CreateEdge g a b l d) N := by
  intro x
  have hS : ((CreateEdge g a b l d).insts x).rcrsvScsrs =
      if x = a ∨ IsRcrsvPrdcsr g a x = true then
        addNghbrs (g.insts x).rcrsvScsrs (g.insts b).rcrsvScsrs b
      else (g.insts x).rcrsvScsrs := rfl
  have hP : ((CreateEdge g a b l d).insts x).rcrsvPrdcsrs =
      if x = b ∨ IsRcrsvScsr g b x = true then
        addNghbrs (g.insts x).rcrsvPrdcsrs (g.insts a).rcrsvPrdcsrs a
      else (g.insts x).rcrsvPrdcsrs := rfl
  rw [hS, hP]
  constructor
  · split
    · simpa [addNghbrs] using (h x).1
    · exact (h x).1
  · split
    · simpa [addNghbrs] using (h x).2
    · exact (h x).2

/-- After a batch of edges between instructions that have a bit, the head of every edge
of the batch is a recursive successor of its tail and the tail a recursive predecessor of
its head. -/
theorem bits_addEdges (N : Nat) (es : List (Nat × Nat)) :
    ∀ g : DataDepGraph, BitsCover g N → (∀ p ∈ es, p.1 < N ∧ p.2 < N) →
      BitsCover (EquivDectTrans.addEdges g es) N ∧
      (∀ x y, (GetBit (g.insts x).rcrsvScsrs y = true →
          GetBit ((EquivDectTrans.addEdges g es).insts x).rcrsvScsrs y = true) ∧
        (GetBit (g.insts x).rcrsvPrdcsrs y = true →
          GetBit ((EquivDectTrans.addEdges g es).insts x).rcrsvPrdcsrs y = true)) ∧
      ∀ p ∈ es, GetBit ((EquivDectTrans.addEdges g es).insts p.1).rcrsvScsrs p.2 = true ∧
        GetBit ((EquivDectTrans.addEdges g es).insts p.2).rcrsvPrdcsrs p.1 = true := by
  induction es with
  | nil =>
    intro g h _
    exact ⟨h, fun _ _ => ⟨id, id⟩, by simp⟩
  | cons e rest ih =>
    intro g h hes
    have he := hes e (List.mem_cons_self _ _)
    obtain ⟨k1, k2, k3⟩ := ih (CreateEdge g e.1 e.2 0 .DEP_OTHER)
      (BitsCover_CreateEdge g N e.1 e.2 0 .DEP_OTHER h)
      (fun p hp => hes p (List.mem_cons_of_mem _ hp))
    have hadd : EquivDectTrans.addEdges g (e :: rest) =
        EquivDectTrans.addEdges (CreateEdge g e.1 e.2 0 .DEP_OTHER) rest := rfl
    rw [hadd]
    refine ⟨k1, fun x y => ?_, fun p hp => ?_⟩
    · have hm := GetBit_CreateEdge_mono g e.1 e.2 0 .DEP_OTHER x y
      exact ⟨fun hx => (k2 x y).1 (hm.1 hx), fun hx => (k2 x y).2 (hm.2 hx)⟩
    · rcases List.mem_cons.mp hp with rfl | hp
      · have hn := GetBit_CreateEdge_new g p.1 p.2 0 .DEP_OTHER
          (lt_of_lt_of_le he.2 (h p.1).1) (lt_of_lt_of_le he.1 (h p.2).2)
        exact ⟨(k2 _ _).1 hn.1, (k2 _ _).2 hn.2⟩
      · exact k3 p hp

/-- Claim C15, counterexample: on the sample graph with interleaved groups a second
`EquivDectTrans::ApplyTrans` adds the edge `1 → 3`, and on the sample graph of three
instructions a second `RPOnlyNodeSupTrans::ApplyTrans` adds the edge `0 → 1`. -/
theorem second_pass_adds_edges :
    ((EquivDectTrans.ApplyTrans interleavedGraph).bind fun r =>
        EquivDectTrans.ApplyTrans r.1).map (fun r => r.2) = some [(1, 3)] ∧
    ((RPOnlyNodeSupTrans.ApplyTrans rpGraph).bind fun r =>
        RPOnlyNodeSupTrans.ApplyTrans r.1).map (fun r => r.2) = some [(0, 1)] := by
  decide

/-- Claim C15, amended: on a graph without self-loops, whose recursive vectors have a bit
for every instruction and whose definitions have register types below the register-type
count, each transformation returns on the input and again on its own output, and the
second pass creates no edge between two instructions that the first pass joined by an
edge, in either direction. -/
theorem second_pass_repeats_no_edge (g : DataDepGraph) (hself : NoSelfLoop g)
    (hbits : BitsCover g g.instCnt.toNat) (hdefs : DefTypesInRange g) :
    (∃ g1 log1 g2 log2, EquivDectTrans.ApplyTrans g = some (g1, log1) ∧
      EquivDectTrans.ApplyTrans g1 = some (g2, log2) ∧
      ∀ a b, (a, b) ∈ log1 → (a, b) ∉ log2 ∧ (b, a) ∉ log2) ∧
    (∃ g1 log1 g2 log2, RPOnlyNodeSupTrans.ApplyTrans g = some (g1, log1) ∧
      RPOnlyNodeSupTrans.ApplyTrans g1 = some (g2, log2) ∧
      ∀ a b, (a, b) ∈ log1 → (a, b) ∉ log2 ∧ (b, a) ∉ log2) := by
  have hloop : ∀ (h : DataDepGraph) (es : List (Nat × Nat)), NoSelfLoop h →
      (∀ p ∈ es, p.1 < p.2) → NoSelfLoop (EquivDectTrans.addEdges h es) := by
    intro h es hh hes x hx
    rcases (Edge_addEdges es h x x).mp hx with hx | hx
    · exact hh x hx
    · exact Nat.lt_irrefl _ (hes _ hx)
  constructor
  · obtain ⟨log1, h1, h2, h3⟩ := EquivDect_ApplyTrans_inv NoSelfLoop (fun p => p.1 < p.2)
      (fun h es hh hes => ⟨hloop h es hh (fun p hp => (hes p hp).1),
        fun p hp => (hes p hp).1⟩) g hself
    obtain ⟨log2, k1, _, k3⟩ := EquivDect_ApplyTrans_inv
      (fun h => NoSelfLoop h ∧ ∀ p ∈ log1, Edge h p.1 p.2)
      (fun p => p ∉ log1 ∧ (p.2, p.1) ∉ log1)
      (fun h es hh hes => by
        refine ⟨⟨hloop h es hh.1 (fun p hp => (hes p hp).1),
          fun p hp => (Edge_addEdges es h _ _).mpr (Or.inl (hh.2 p hp))⟩, fun p hp => ?_⟩
        have hsucc := NodesAreEquiv__scsrs h p.1 p.2 (hes p hp).2
        constructor
        · intro hin
          exact hh.1 p.2 ((hsucc p.2).mp (hh.2 p hin))
        · intro hin
          exact hh.1 p.1 ((hsucc p.1).mpr (hh.2 (p.2, p.1) hin)))
      (EquivDectTrans.addEdges g log1)
      ⟨h2, fun p hp => (Edge_addEdges log1 g _ _).mpr (Or.inr hp)⟩
    refine ⟨_, log1, _, log2, h1, k1, fun a b hab => ⟨fun hin => ?_, fun hin => ?_⟩⟩
    · exact (k3 _ hin).1 hab
    · exact (k3 _ hin).2 hab
  · obtain ⟨log1, h1, h2, h3⟩ := RPOnly_ApplyTrans_inv
      (fun h => BitsCover h g.instCnt.toNat ∧ DefTypesInRange h)
      (fun p => p.1 < g.instCnt.toNat ∧ p.2 < g.instCnt.toNat) g
      (fun h a b hh => NodeIsSuperior__defined h a b (hh.2 a) (hh.2 b))
      (fun h a b hh ha hb _ _ =>
        ⟨⟨BitsCover_CreateEdge h _ a b 0 .DEP_OTHER hh.1, fun x r hr => hh.2 x r hr⟩,
          ha, hb⟩)
      ⟨hbits, hdefs⟩
    obtain ⟨_, _, hset⟩ := bits_addEdges g.instCnt.toNat log1 g hbits h3
    obtain ⟨log2, k1, _, k3⟩ := RPOnly_ApplyTrans_inv
      (fun h => DefTypesInRange h ∧
        ∀ p ∈ log1, GetBit (h.insts p.1).rcrsvScsrs p.2 = true ∧
          GetBit (h.insts p.2).rcrsvPrdcsrs p.1 = true)
      (fun p => p ∉ log1 ∧ (p.2, p.1) ∉ log1) (EquivDectTrans.addEdges g log1)
      (fun h a b hh => NodeIsSuperior__defined h a b (hh.1 a) (hh.1 b))
      (fun h a b hh _ _ _ hsup => by
        obtain ⟨i1, i2⟩ := NodeIsSuperior__indep h a b hsup
        refine ⟨⟨fun x r hr => hh.1 x r hr, fun p hp => ?_⟩, ?_, ?_⟩
        · obtain ⟨b1, b2⟩ := hh.2 p hp
          exact ⟨(GetBit_CreateEdge_mono h a b 0 .DEP_OTHER _ _).1 b1,
            (GetBit_CreateEdge_mono h a b 0 .DEP_OTHER _ _).2 b2⟩
        · intro hin
          have := (hh.2 _ hin).1
          simp only at this
          rw [i2] at this
          cases this
        · intro hin
          have := (hh.2 _ hin).2
          simp only at this
          rw [i1] at this
          cases this)
      ⟨h2.2, hset⟩
    refine ⟨_, log1, _, log2, h1, k1, fun a b hab => ⟨fun hin => ?_, fun hin => ?_⟩⟩
    · exact (k3 _ hin).1 hab
    · exact (k3 _ hin).2 hab

/-- Witness for C15 (amended) on the sample graph with interleaved groups. -/
theorem second_pass_repeats_no_edge_witness :
    (∃ g1 log1 g2 log2, EquivDectTrans.ApplyTrans interleavedGraph = some (g1, log1) ∧
      EquivDectTrans.ApplyTrans g1 = some (g2, log2) ∧
      ∀ a b, (a, b) ∈ log1 → (a, b) ∉ log2 ∧ (b, a) ∉ log2) ∧
    (∃ g1 log1 g2 log2, RPOnlyNodeSupTrans.ApplyTrans interleavedGraph = some (g1, log1) ∧
      RPOnlyNodeSupTrans.ApplyTrans g1 = some (g2, log2) ∧
      ∀ a b, (a, b) ∈ log1 → (a, b) ∉ log2 ∧ (b, a) ∉ log2) :=
  second_pass_repeats_no_edge interleavedGraph
    (fun a => by
      rcases a with _ | _ | _ | _ | _ | _ | a <;>
        simp [Edge, interleavedGraph, mkGInst])
    (fun x => by
      rcases x with _ | _ | _ | _ | _ | _ | x <;>
        simp [interleavedGraph, mkGInst])
    (fun x r hr => by
      rcases x with _ | _ | _ | _ | _ | _ | x <;>
        simp [interleavedGraph, mkGInst] at hr)

/-! ## `IsDominated` on a candidate with reserved slots -/

/-- Claim C27, failing input: the record at address 1 holds a reserved-slot array; asked
whether the record at address 2 (same time, same blocked flag) is dominated by it,
`IsDominated` calls `DoesDominate_` in mode `ETN_HISTORY` with a null tree node and reads
`node->rsrvSlots_`, so the call has no defined result.  With the roles swapped (the
candidate holds no reserved slots) the call returns a Boolean. -/
theorem IsDominated_reads_null_node :
    IsDominated histPairArena 2 (mkNode 1 [0, 0, 0] 0 0 none (some 1) sampleEnum1)
      sampleEnum1 = none ∧
    IsDominated histPairArena 1 (mkNode 1 [0, 0, 0] 0 0 none (some 2) sampleEnum1)
      sampleEnum1 = some false := by
  decide

/-! ## The assertions of the dominance walk -/

/-- For a maximum latency of at least 1, an issue rate of at least 1 and a cycle numbering
whose cycle `cycle(T)` starts no later than `T` (`cycle(T) * R ≤ T`), on a chain in time
order with a record for every time from `T ≥ 1` down to `minTimeToExmn`: `minTimeToExmn`
lies in `[1, T + 1]`, `SetLastInsts_` returns exactly `T - minTimeToExmn + 1` entries, the
entry `k` is the instruction of the record of time `T - k`, and that time is at least 1
(the root record, of time 0, is not visited). -/
theorem SetLastInsts__entries_of_pos_latency (arena : HistArena) (this : Nat) (T : Int)
    (enumrtr : Enumerator) (hT : 1 ≤ T) (hR : 1 ≤ enumrtr.issuRate_)
    (hL : 1 ≤ enumrtr.dataDepGraph_.maxLtncy)
    (hcyc : enumrtr.GetCycleNumFrmTime_ T * enumrtr.issuRate_ ≤ T)
    (hchain : ChainTimed arena this T (GetMinTimeToExmn_ T enumrtr)) :
    1 ≤ GetMinTimeToExmn_ T enumrtr ∧ GetMinTimeToExmn_ T enumrtr ≤ T + 1 ∧
    ∃ L, SetLastInsts_ arena this T (GetMinTimeToExmn_ T enumrtr) = some L ∧
      (L.length : Int) = T - GetMinTimeToExmn_ T enumrtr + 1 ∧
      ∀ k : Nat, k < L.length →
        ∃ c, chainAt arena k (some this) = some c ∧ c.time_ = T - k ∧
          L[k]? = some c.inst_ ∧ 1 ≤ c.time_ := by
  have hm1 : 1 ≤ GetMinTimeToExmn_ T enumrtr := by
    simp only [GetMinTimeToExmn_]
    have : 0 ≤ max (enumrtr.GetCycleNumFrmTime_ T + 1 - enumrtr.dataDepGraph_.maxLtncy) 0 *
        enumrtr.issuRate_ := mul_nonneg (le_max_right _ _) (by omega)
    omega
  have hm2 : GetMinTimeToExmn_ T enumrtr ≤ T + 1 := by
    simp only [GetMinTimeToExmn_]
    have : max (enumrtr.GetCycleNumFrmTime_ T + 1 - enumrtr.dataDepGraph_.maxLtncy) 0 *
        enumrtr.issuRate_ ≤ T := by
      rcases le_total (enumrtr.GetCycleNumFrmTime_ T + 1 - enumrtr.dataDepGraph_.maxLtncy) 0
        with h | h
      · rw [max_eq_right h]
        omega
      · rw [max_eq_left h]
        have h2 : (enumrtr.GetCycleNumFrmTime_ T + 1 - enumrtr.dataDepGraph_.maxLtncy) *
            enumrtr.issuRate_ ≤ enumrtr.GetCycleNumFrmTime_ T * enumrtr.issuRate_ :=
          mul_le_mul_of_nonneg_right (by omega) (by omega)
        omega
    omega
  refine ⟨hm1, hm2, ?_⟩
  obtain ⟨htimes, hex⟩ := hchain
  have hcnt : ((T - GetMinTimeToExmn_ T enumrtr + 1).toNat : Int) =
      T - GetMinTimeToExmn_ T enumrtr + 1 := Int.toNat_of_nonneg (by omega)
  obtain ⟨L, hL1, hL2, hL3⟩ := SetLastInsts_loop_spec arena
    (T - GetMinTimeToExmn_ T enumrtr + 1).toNat (some this)
    (fun k hk => hex k (by omega))
  refine ⟨L, hL1, by rw [hL2, hcnt], ?_⟩
  intro k hk
  rw [hL2] at hk
  obtain ⟨c, hc1, hc2⟩ := hL3 k hk
  have ht := htimes k c hc1
  exact ⟨c, hc1, ht, hc2, by omega⟩

/-- Claim C28, failing input: for the record of time 1 of the sample arena, issue rate 2
and maximum latency 0, under the cycle numbering `⌊t/R⌋` and under `⌊(t-1)/R⌋`:
`GetMinTimeToExmn_` gives 3, `SetLastInsts_` returns 0 entries, and the asserted count
`thisTime - minTimeToExmn + 1` is `-1`. -/
theorem SetLastInsts__count_differs_from_asserted :
    (SetLastInsts_ sampleArena 1 1
        (GetMinTimeToExmn_ 1 (sampleEnum 2 0 0 0 (cycleOfTime 2) .SCF_PERP))).map
      List.length = some 0 ∧
    1 - GetMinTimeToExmn_ 1 (sampleEnum 2 0 0 0 (cycleOfTime 2) .SCF_PERP) + 1 = -1 ∧
    (SetLastInsts_ sampleArena 1 1
        (GetMinTimeToExmn_ 1 (sampleEnum 2 0 0 0 (fun t => (t - 1) / 2) .SCF_PERP))).map
      List.length = some 0 ∧
    1 - GetMinTimeToExmn_ 1 (sampleEnum 2 0 0 0 (fun t => (t - 1) / 2) .SCF_PERP) + 1 = -1 := by
  decide

/-! ## The chain-time invariant -/

/-- An allocated address lies inside the arena. -/
theorem lt_length_of_getElem? {α : Type} (l : List α) (i : Nat) (x : α)
    (h : l[i]? = some x) : i < l.length := by
  by_contra hc
  rw [List.getElem?_eq_none (not_lt.mp hc)] at h
  cases h

/-- The sample arena satisfies the chain-time invariant. -/
theorem sampleArena_chainTimeInv : ChainTimeInv sampleArena := by
  intro a h p ha hp
  rcases a with _ | _ | _ | _ | a
  · simp [sampleArena, mkRec] at ha
    subst ha
    cases hp
  · simp [sampleArena, mkRec] at ha
    subst ha
    cases hp
    exact ⟨_, rfl, rfl⟩
  · simp [sampleArena, mkRec] at ha
    subst ha
    cases hp
    exact ⟨_, rfl, rfl⟩
  · simp [sampleArena, mkRec] at ha
    subst ha
    cases hp
    exact ⟨_, rfl, rfl⟩
  · simp [sampleArena] at ha

/-- Claim C29, counterexample: the sample arena satisfies the chain-time invariant and the
call `ReplaceParent` on the record of time 2 with the root record as new parent meets the
asserted precondition (root time 0 is at most the time 1 of the old parent); after the call
the record of time 3, whose `prevNode_` is the re-parented record, has time 3 while the
record it points to has time 1. -/
theorem ReplaceParent_breaks_child_time :
    ChainTimeInv sampleArena ∧
    (∃ r q p, sampleArena[2]? = some r ∧ r.prevNode_ = some 1 ∧ sampleArena[1]? = some q ∧
      sampleArena[0]? = some p ∧ p.time_ ≤ q.time_) ∧
    ∃ arena1, ReplaceParent sampleArena 2 0 = some arena1 ∧ ¬ ChainTimeInv arena1 := by
  refine ⟨sampleArena_chainTimeInv, ⟨_, _, _, rfl, rfl, rfl, rfl, by decide⟩,
    [mkRec 0 none none, mkRec 1 (some 1) (some 0), mkRec 1 (some 0) (some 0),
      mkRec 3 none (some 2)], rfl, ?_⟩
  intro hinv
  obtain ⟨q, hq, ht⟩ := hinv 3 (mkRec 3 none (some 2)) 2 rfl rfl
  have hq2 : q = mkRec 1 (some 0) (some 0) := (Option.some.inj hq).symm
  subst hq2
  simp [mkRec] at ht

/-- Claim C29, amended: in a table that satisfies the chain-time invariant, (1) `Construct`
on a record that no record points to, from a tree node whose parent's record is another
record that carries the parent's time, with `time = parent.time + 1`, gives a table that
satisfies the invariant; (2) after a call `ReplaceParent(p)` on a record `r` that meets the
asserted precondition `p.time ≤ prev.time`, the chain-time equation holds for every record
whose `prevNode_` was not `r` (the record `r` is one of them), and the whole invariant
holds when `p.time = prev.time`. -/
theorem chain_time_inv_preserved (arena : HistArena) (hinv : ChainTimeInv arena) :
    (∀ (tree : List EnumTreeNode) (this : Nat) (node : EnumTreeNode) (arena1 : HistArena),
      Construct arena tree this node = some arena1 →
      (∀ (a : Nat) (h : CostHistEnumTreeNode), arena[a]? = some h →
        h.prevNode_ ≠ some this) →
      (∀ (q : Nat) (parent : EnumTreeNode) (p : Nat), node.prevNode_ = some q →
        tree[q]? = some parent →
        parent.hstry_ = some p →
        p ≠ this ∧ node.time_ = parent.time_ + 1 ∧
          ∃ prec, arena[p]? = some prec ∧ prec.time_ = parent.time_) →
      ChainTimeInv arena1) ∧
    (∀ (r p q : Nat) (rrec qrec prec : CostHistEnumTreeNode) (arena1 : HistArena),
      arena[r]? = some rrec → rrec.prevNode_ = some q → arena[q]? = some qrec →
      arena[p]? = some prec → prec.time_ ≤ qrec.time_ →
      ReplaceParent arena r p = some arena1 →
      (∀ a : Nat, (∀ h : CostHistEnumTreeNode, arena[a]? = some h →
        h.prevNode_ ≠ some r) → TimeOKAt arena1 a) ∧
      TimeOKAt arena1 r ∧
      (prec.time_ = qrec.time_ → ChainTimeInv arena1)) := by
  constructor
  · intro tree this node arena1 hrun hfresh hparent
    simp only [Construct] at hrun
    cases hself : arena[this]? with
    | none => rw [hself] at hrun; cases hrun
    | some self =>
      rw [hself] at hrun
      simp only at hrun
      have hlt := lt_length_of_getElem? arena this self hself
      split at hrun
      · rename_i prev rsrv hprev hrsrv
        simp only [Option.some.injEq] at hrun
        subst hrun
        intro a h p ha hp
        by_cases hat : a = this
        · subst hat
          rw [List.getElem?_set_self hlt] at ha
          simp only [Option.some.injEq] at ha
          subst ha
          simp only at hp
          subst hp
          cases hq : node.prevNode_ with
          | none => rw [hq] at hprev; cases hprev
          | some q =>
            rw [hq] at hprev
            simp only [Option.map_eq_some'] at hprev
            obtain ⟨parent, hpar, hh⟩ := hprev
            obtain ⟨hne, htime, prec, hprec, hpt⟩ := hparent q parent p hq hpar hh
            refine ⟨prec, ?_, ?_⟩
            · rw [List.getElem?_set_ne (Ne.symm hne)]
              exact hprec
            · simp only
              omega
        · rw [List.getElem?_set_ne (Ne.symm hat)] at ha
          obtain ⟨q, hq, ht⟩ := hinv a h p ha hp
          have hpne : p ≠ this := by
            rintro rfl
            exact hfresh a h ha hp
          exact ⟨q, by rw [List.getElem?_set_ne (Ne.symm hpne)]; exact hq, ht⟩
      · cases hrun
  · intro r p q rrec qrec prec arena1 hr hrq hq hp hle hrun
    simp only [ReplaceParent, hr, hp, Option.some.injEq] at hrun
    subst hrun
    have hlt := lt_length_of_getElem? arena r rrec hr
    obtain ⟨q1, hq1, ht1⟩ := hinv r rrec q hr hrq
    rw [hq] at hq1
    simp only [Option.some.injEq] at hq1
    subst hq1
    have hpr : p ≠ r := by
      rintro rfl
      rw [hr] at hp
      simp only [Option.some.injEq] at hp
      subst hp
      omega
    have hself : TimeOKAt (arena.set r
        { rrec with time_ := prec.time_ + 1, prevNode_ := some p }) r := by
      intro h p1 ha hp1
      rw [List.getElem?_set_self hlt] at ha
      simp only [Option.some.injEq] at ha
      subst ha
      simp only [Option.some.injEq] at hp1
      subst hp1
      exact ⟨prec, by rw [List.getElem?_set_ne (Ne.symm hpr)]; exact hp, rfl⟩
    have hother : ∀ a : Nat, a ≠ r →
        (∀ h : CostHistEnumTreeNode, arena[a]? = some h → h.prevNode_ ≠ some r) →
        TimeOKAt (arena.set r
          { rrec with time_ := prec.time_ + 1, prevNode_ := some p }) a := by
      intro a har hno h p1 ha hp1
      rw [List.getElem?_set_ne (Ne.symm har)] at ha
      obtain ⟨q2, hq2, ht2⟩ := hinv a h p1 ha hp1
      have hp1r : p1 ≠ r := by
        rintro rfl
        exact hno h ha hp1
      exact ⟨q2, by rw [List.getElem?_set_ne (Ne.symm hp1r)]; exact hq2, ht2⟩
    refine ⟨?_, hself, ?_⟩
    · intro a hno
      by_cases har : a = r
      · subst har
        exact hself
      · exact hother a har hno
    · intro heq a h p1 ha hp1
      by_cases har : a = r
      · subst har
        exact hself h p1 ha hp1
      · rw [List.getElem?_set_ne (Ne.symm har)] at ha
        obtain ⟨q2, hq2, ht2⟩ := hinv a h p1 ha hp1
        by_cases hp1r : p1 = r
        · subst hp1r
          rw [hr] at hq2
          simp only [Option.some.injEq] at hq2
          subst hq2
          refine ⟨_, List.getElem?_set_self hlt, ?_⟩
          simp only
          omega
        · exact ⟨q2, by rw [List.getElem?_set_ne (Ne.symm hp1r)]; exact hq2, ht2⟩

/-- The sample arena with a fresh record satisfies the chain-time invariant. -/
theorem freshArena_chainTimeInv : ChainTimeInv freshArena := by
  intro a h p ha hp
  rcases a with _ | _ | _ | _ | _ | a
  · simp [freshArena, sampleArena, mkRec] at ha
    subst ha
    cases hp
  · simp [freshArena, sampleArena, mkRec] at ha
    subst ha
    cases hp
    exact ⟨_, rfl, rfl⟩
  · simp [freshArena, sampleArena, mkRec] at ha
    subst ha
    cases hp
    exact ⟨_, rfl, rfl⟩
  · simp [freshArena, sampleArena, mkRec] at ha
    subst ha
    cases hp
    exact ⟨_, rfl, rfl⟩
  · simp [freshArena, sampleArena, mkRec] at ha
    subst ha
    cases hp
  · simp [freshArena, sampleArena] at ha

/-- No record of the sample arena with a fresh record points to the fresh record. -/
theorem freshArena_fresh (a : Nat) (h : CostHistEnumTreeNode) (ha : freshArena[a]? = some h) :
    h.prevNode_ ≠ some 4 := by
  rcases a with _ | _ | _ | _ | _ | a
  · simp [freshArena, sampleArena, mkRec] at ha
    subst ha
    simp
  · simp [freshArena, sampleArena, mkRec] at ha
    subst ha
    simp
  · simp [freshArena, sampleArena, mkRec] at ha
    subst ha
    simp
  · simp [freshArena, sampleArena, mkRec] at ha
    subst ha
    simp
  · simp [freshArena, sampleArena, mkRec] at ha
    subst ha
    simp
  · simp [freshArena, sampleArena] at ha

/-- Witness for C29 (amended): constructing the fresh record from a tree node of time 4
whose parent has time 3 keeps the invariant, and re-parenting the record of time 3 to the
record of time 1 leaves the chain-time equation true for it. -/
theorem chain_time_inv_preserved_witness :
    (∃ arena1, Construct freshArena sampleTree 4 childNode = some arena1 ∧
      ChainTimeInv arena1) ∧
    (∃ arena1, ReplaceParent freshArena 3 1 = some arena1 ∧ TimeOKAt arena1 3) :=
  have hc : (Construct freshArena sampleTree 4 childNode).isSome = true := by decide
  have hr : (ReplaceParent freshArena 3 1).isSome = true := by decide
  match h1 : Construct freshArena sampleTree 4 childNode, hc,
      h2 : ReplaceParent freshArena 3 1, hr with
  | some a1, _, some a2, _ =>
    ⟨⟨a1, rfl, (chain_time_inv_preserved freshArena freshArena_chainTimeInv).1
        sampleTree 4 childNode a1 h1 freshArena_fresh
        (fun q parent p hq hpar hh => by
          simp only [childNode, Option.some.injEq] at hq
          subst hq
          simp only [sampleTree, List.getElem?_cons_zero, Option.some.injEq] at hpar
          subst hpar
          simp only [mkNode, Option.some.injEq] at hh
          subst hh
          exact ⟨by decide, by decide, _, rfl, rfl⟩)⟩,
      ⟨a2, rfl, ((chain_time_inv_preserved freshArena freshArena_chainTimeInv).2
        3 1 2 _ _ _ a2 rfl rfl rfl rfl (by decide) h2).2.1⟩⟩

/-! ## The static-lower-bound shortcut -/

/-- With shift 0 and edge-consistent static bounds, the successor loop passes for an
instruction issued in a cycle not above its static lower bound. -/
theorem DoesDominate_scsrLoop_of_not_late (enumrtr : Enumerator) (nxt othr : List Int)
    (cyc : Int) (i : Nat) (hcons : EdgeConsistent enumrtr)
    (hcyc : cyc ≤ (enumrtr.dataDepGraph_.insts i).frwrdLwrBound) :
    ∀ l : List (Nat × Int × DependenceType),
      (∀ e ∈ l, e ∈ (enumrtr.dataDepGraph_.insts i).scsrs ∧
        (enumrtr.dataDepGraph_.insts e.1).issuType < nxt.length) →
      DoesDominate_scsrLoop enumrtr.dataDepGraph_ nxt othr cyc 0 l = some true := by
  intro l
  induction l with
  | nil => intro _; rfl
  | cons e rest ih =>
    intro h
    obtain ⟨s, ltncy, d⟩ := e
    have hrest := ih (fun e he => h e (List.mem_cons_of_mem _ he))
    obtain ⟨hmem, hlt⟩ := h (s, ltncy, d) (List.mem_cons_self _ _)
    simp only [DoesDominate_scsrLoop]
    by_cases hs : (enumrtr.dataDepGraph_.insts s).isSchduld = false
    · rw [if_pos hs]
      obtain ⟨n, hn⟩ : ∃ n, nxt[(enumrtr.dataDepGraph_.insts s).issuType]? = some n :=
        ⟨_, List.getElem?_eq_getElem hlt⟩
      rw [hn]
      simp only
      have hedge := hcons i (s, ltncy, d) hmem
      simp only at hedge
      have hle : max (cyc + ltncy) n ≤ max (enumrtr.dataDepGraph_.insts s).frwrdLwrBound n :=
        max_le_max (by omega) (le_refl _)
      rw [if_neg (by
        rintro (h1 | h1)
        · exact absurd h1 (not_lt.mpr hle)
        · exact absurd h1 (by decide))]
      exact hrest
    · rw [if_neg hs]
      exact hrest

/-- With shift 0, edge-consistent static bounds and a next-available-cycle array that
covers the issue types of the successors, the entry loop of `DoesDominate_` gives the
result of the loop without the shortcut. -/
theorem DoesDominate_loop_eq_noSkip (enumrtr : Enumerator) (nxt othr : List Int)
    (hcons : EdgeConsistent enumrtr)
    (hr : ∀ (i : Nat) (e : Nat × Int × DependenceType),
      e ∈ (enumrtr.dataDepGraph_.insts i).scsrs →
        (enumrtr.dataDepGraph_.insts e.1).issuType < nxt.length) :
    ∀ (L : List (Option Nat)) (time : Int),
      DoesDominate_loop enumrtr nxt othr 0 time L =
        DoesDominate_loop_noSkip enumrtr nxt othr time L := by
  intro L
  induction L with
  | nil => intro time; rfl
  | cons inst rest ih =>
    intro time
    cases inst with
    | none =>
      simp only [DoesDominate_loop, DoesDominate_loop_noSkip]
      exact ih (time - 1)
    | some i =>
      simp only [DoesDominate_loop, DoesDominate_loop_noSkip]
      by_cases hg : enumrtr.GetCycleNumFrmTime_ time >
          (enumrtr.dataDepGraph_.insts i).frwrdLwrBound ∨ (0 : Int) > 0
      · rw [if_pos hg, ih (time - 1)]
      · rw [if_neg hg]
        have hcyc : enumrtr.GetCycleNumFrmTime_ time ≤
            (enumrtr.dataDepGraph_.insts i).frwrdLwrBound := by
          by_contra hc
          exact hg (Or.inl (not_le.mp hc))
        rw [DoesDominate_scsrLoop_of_not_late enumrtr nxt othr _ i hcons hcyc _
          (fun e he => ⟨he, hr i e he⟩)]
        exact ih (time - 1)

/-- Claim C30: with shift 0, on a DDG whose static forward lower bounds are edge-consistent
and whose successors have issue types of the machine model, `DoesDominate_` (which skips
every examined instruction issued in a cycle not above its static forward lower bound)
gives the same result as the test that applies rule 4 to every instruction of the examined
window. -/
theorem DoesDominate__skip_is_exact (arena : HistArena) (this : Nat)
    (node : Option EnumTreeNode) (othrHstry : Option Nat) (mode : ENUMTREE_NODEMODE)
    (enumrtr : Enumerator) (hcons : EdgeConsistent enumrtr)
    (hr : ScsrIssuTypesInRange enumrtr) :
    DoesDominate_ arena this node othrHstry mode enumrtr 0 =
      DoesDominate__noSkip arena this node othrHstry mode enumrtr := by
  have hlw : ∀ thisTime othrTime,
      DoesDominate_lwrBounds arena this node othrHstry enumrtr 0 thisTime othrTime =
        DoesDominate_lwrBounds_noSkip arena this node othrHstry enumrtr thisTime
          othrTime := by
    intro thisTime othrTime
    simp only [DoesDominate_lwrBounds, DoesDominate_lwrBounds_noSkip]
    cases SetLastInsts_ arena this thisTime (GetMinTimeToExmn_ thisTime enumrtr) with
    | none => rfl
    | some lastInsts =>
      simp only
      split
      · rfl
      · rename_i othrLwrBounds _
        cases hn : CmputNxtAvlblCycles_ arena this enumrtr with
        | none => rfl
        | some r =>
          obtain ⟨ipt, nxt⟩ := r
          simp only
          have hlen := CmputNxtAvlblCycles__length arena this enumrtr ipt nxt hn
          exact DoesDominate_loop_eq_noSkip enumrtr nxt othrLwrBounds hcons
            (fun i e he => by rw [hlen]; exact hr i e he) lastInsts thisTime
  simp only [DoesDominate_, DoesDominate__noSkip, hlw]

/-- The sample DDG is edge-consistent when the static lower bound of instruction 2 is at
least that of instruction 0 plus the latency 2 of the edge. -/
theorem sampleEnum_edgeConsistent (R lb0 lb2 maxL : Int) (cycle : Int → Int)
    (scf : SPILL_COST_FUNCTION) (h : lb0 + 2 ≤ lb2) :
    EdgeConsistent (sampleEnum R lb0 lb2 maxL cycle scf) := by
  intro i e he
  rcases i with _ | _ | _ | i
  · simp [sampleEnum, sampleInsts, mkInst] at he
    subst he
    simpa [sampleEnum, sampleInsts, mkInst] using h
  · simp [sampleEnum, sampleInsts, mkInst] at he
  · simp [sampleEnum, sampleInsts, mkInst] at he
  · simp [sampleEnum, sampleInsts, mkInst] at he

/-- Witness for C30 on the sample arena: the record of time 2 against an active node of
time 2, issue rate 1, static lower bounds 2 and 4 (instruction 0, issued in cycle 2, is
skipped by the code). -/
theorem DoesDominate__skip_is_exact_witness :
    DoesDominate_ sampleArena 2
        (some (mkNode 2 [0, 0, 3] 0 0 none none (sampleEnum 1 2 4 2 (cycleOfTime 1) .SCF_PERP)))
        none .ETN_ACTIVE (sampleEnum 1 2 4 2 (cycleOfTime 1) .SCF_PERP) 0 =
      DoesDominate__noSkip sampleArena 2
        (some (mkNode 2 [0, 0, 3] 0 0 none none (sampleEnum 1 2 4 2 (cycleOfTime 1) .SCF_PERP)))
        none .ETN_ACTIVE (sampleEnum 1 2 4 2 (cycleOfTime 1) .SCF_PERP) :=
  DoesDominate__skip_is_exact sampleArena 2 _ none .ETN_ACTIVE _
    (sampleEnum_edgeConsistent 1 2 4 2 (cycleOfTime 1) .SCF_PERP (by decide))
    (fun i e he => ((sampleEnum_scsrsInRange 1 2 4 2 (cycleOfTime 1) .SCF_PERP) i e he).1)

/-! ## The register types of `LLVMMachineModel` -/

/-- The loop over the register classes appends the kept classes to the register types and
records each of them in the two maps under its index; other keys keep their values. -/
theorem regClassLoop_spec (targetName : String) :
    ∀ (classes : List TargetRegisterClass) (mm0 : LLVMMachineModel),
      (classes.map fun c => c.id).Nodup →
      (LLVMMachineModel.regClassLoop targetName classes mm0).registerTypes_ =
          mm0.registerTypes_ ++ (storedClasses targetName classes).map (fun c =>
            { name := c.getName, count := storedCount targetName c }) ∧
      (∀ (k : Nat) (c : TargetRegisterClass), (storedClasses targetName classes)[k]? = some c →
        (LLVMMachineModel.regClassLoop targetName classes mm0).regClassToType_ c.id =
            some (mm0.registerTypes_.length + k) ∧
        (LLVMMachineModel.regClassLoop targetName classes mm0).regTypeToClass_
            (mm0.registerTypes_.length + k) = some c.id) ∧
      (∀ id : Nat, (∀ c ∈ storedClasses targetName classes, c.id ≠ id) →
        (LLVMMachineModel.regClassLoop targetName classes mm0).regClassToType_ id =
          mm0.regClassToType_ id) ∧
      (∀ t : Nat, (t < mm0.registerTypes_.length ∨
          mm0.registerTypes_.length + (storedClasses targetName classes).length ≤ t) →
        (LLVMMachineModel.regClassLoop targetName classes mm0).regTypeToClass_ t =
          mm0.regTypeToClass_ t) ∧
      (LLVMMachineModel.regClassLoop targetName classes mm0).instTypes_ = mm0.instTypes_ ∧
      (LLVMMachineModel.regClassLoop targetName classes mm0).mdlName_ = mm0.mdlName_ := by
  intro classes
  induction classes with
  | nil =>
    intro mm0 _
    simp [LLVMMachineModel.regClassLoop, storedClasses]
  | cons cls rest ih =>
    intro mm0 hnd
    have hnd2 : (rest.map fun c => c.id).Nodup := (List.nodup_cons.mp hnd).2
    have hnotin : ∀ c ∈ rest, c.id ≠ cls.id := by
      intro c hc heq
      exact (List.nodup_cons.mp hnd).1 (List.mem_map.mpr ⟨c, hc, heq⟩)
    by_cases hk : storedCount targetName cls > 0
    · have hkept : storedClasses targetName (cls :: rest) =
          cls :: storedClasses targetName rest := by
        simp [storedClasses, List.filter_cons, hk]
      have hstep : LLVMMachineModel.regClassLoop targetName (cls :: rest) mm0 =
          LLVMMachineModel.regClassLoop targetName rest
            { mm0 with
              regClassToType_ := fun k =>
                if k = cls.id then some mm0.registerTypes_.length else mm0.regClassToType_ k
              regTypeToClass_ := fun t =>
                if t = mm0.registerTypes_.length then some cls.id else mm0.regTypeToClass_ t
              registerTypes_ := mm0.registerTypes_ ++
                [{ name := cls.getName, count := storedCount targetName cls }] } := by
        simp only [LLVMMachineModel.regClassLoop]
        rw [if_pos (by simpa [storedCount] using hk)]
        rfl
      rw [hstep, hkept]
      generalize hmm1 : ({ mm0 with
          regClassToType_ := fun k =>
            if k = cls.id then some mm0.registerTypes_.length else mm0.regClassToType_ k
          regTypeToClass_ := fun t =>
            if t = mm0.registerTypes_.length then some cls.id else mm0.regTypeToClass_ t
          registerTypes_ := mm0.registerTypes_ ++
            [{ name := cls.getName, count := storedCount targetName cls }] } :
          LLVMMachineModel) = mm1
      have e1 : mm1.registerTypes_ = mm0.registerTypes_ ++
          [{ name := cls.getName, count := storedCount targetName cls }] := by
        rw [← hmm1]
      have e2 : mm1.regClassToType_ = fun k =>
          if k = cls.id then some mm0.registerTypes_.length else mm0.regClassToType_ k := by
        rw [← hmm1]
      have e3 : mm1.regTypeToClass_ = fun t =>
          if t = mm0.registerTypes_.length then some cls.id else mm0.regTypeToClass_ t := by
        rw [← hmm1]
      have e4 : mm1.instTypes_ = mm0.instTypes_ := by rw [← hmm1]
      have e5 : mm1.mdlName_ = mm0.mdlName_ := by rw [← hmm1]
      have elen : mm1.registerTypes_.length = mm0.registerTypes_.length + 1 := by
        rw [e1]
        simp
      obtain ⟨h1, h2, h3, h4, h5, h6⟩ := ih mm1 hnd2
      rw [elen] at h2 h4
      refine ⟨?_, ?_, ?_, ?_, h5.trans e4, h6.trans e5⟩
      · rw [h1, e1]
        simp
      · intro k c hc
        rcases k with _ | k
        · simp only [List.getElem?_cons_zero, Option.some.injEq] at hc
          subst hc
          constructor
          · rw [h3 cls.id (fun c2 hc2 => hnotin c2 (List.mem_of_mem_filter hc2)), e2]
            simp
          · rw [Nat.add_zero, h4 _ (Or.inl (Nat.lt_succ_self _)), e3]
            simp
        · simp only [List.getElem?_cons_succ] at hc
          obtain ⟨a, b⟩ := h2 k c hc
          have hidx : mm0.registerTypes_.length + (k + 1) =
              mm0.registerTypes_.length + 1 + k := by omega
          rw [hidx]
          exact ⟨a, b⟩
      · intro id hid
        rw [h3 id (fun c hc => hid c (List.mem_cons_of_mem _ hc)), e2]
        have : id ≠ cls.id := fun h => hid cls (List.mem_cons_self _ _) h.symm
        simp [this]
      · intro t ht
        simp only [List.length_cons] at ht
        rw [h4 t (by omega), e3]
        have : t ≠ mm0.registerTypes_.length := by omega
        simp [this]
    · have hkept : storedClasses targetName (cls :: rest) = storedClasses targetName rest := by
        simp [storedClasses, List.filter_cons, hk]
      have hstep : LLVMMachineModel.regClassLoop targetName (cls :: rest) mm0 =
          LLVMMachineModel.regClassLoop targetName rest mm0 := by
        simp only [LLVMMachineModel.regClassLoop]
        rw [if_neg (by simpa [storedCount] using hk)]
      rw [hstep, hkept]
      exact ih mm0 hnd2

/-- For every target whose register classes are distinct objects, the register types of the
constructed `LLVMMachineModel` are exactly the register classes whose count, as the `int`
field holds it after the x86 flags special case, is greater than 0, in class order, each
with that count; no register type has a count of 0 or less; `regClassToType_` maps each
such class to its index in `registerTypes_` and `regTypeToClass_` maps that index back to
the class, the two maps being inverse to each other; and for such a class outside the x86
`RFP` special case `GetRegType` returns that index and `GetRegClass` returns the class. -/
theorem LLVMMachineModel_registerTypes (targetName : String)
    (classes : List TargetRegisterClass) (cfgInstTypes : List InstTypeInfo)
    (GetRegTypeByName : String → Int)
    (hnodup : (classes.map fun c => c.id).Nodup) :
    (LLVMMachineModel.ctor targetName classes cfgInstTypes).registerTypes_ =
        (storedClasses targetName classes).map (fun c =>
          { name := c.getName, count := storedCount targetName c }) ∧
    (∀ rt ∈ (LLVMMachineModel.ctor targetName classes cfgInstTypes).registerTypes_,
      rt.count > 0) ∧
    (∀ (k : Nat) (c : TargetRegisterClass), (storedClasses targetName classes)[k]? = some c →
      (LLVMMachineModel.ctor targetName classes cfgInstTypes).regClassToType_ c.id = some k ∧
      (LLVMMachineModel.ctor targetName classes cfgInstTypes).regTypeToClass_ k = some c.id ∧
      (LLVMMachineModel.ctor targetName classes cfgInstTypes).GetRegClass k = some c.id ∧
      (¬ (LLVMMachineModel.isX86 targetName ∧ c.getName.toList.take 3 = "RFP".toList) →
        (LLVMMachineModel.ctor targetName classes cfgInstTypes).GetRegType GetRegTypeByName c =
          some (k : Int))) ∧
    (∀ id k : Nat,
      (LLVMMachineModel.ctor targetName classes cfgInstTypes).regClassToType_ id = some k ↔
        (LLVMMachineModel.ctor targetName classes cfgInstTypes).regTypeToClass_ k =
          some id) := by
  obtain ⟨h1, h2, h3, h4, _, h6⟩ := regClassLoop_spec targetName classes
    { mdlName_ := targetName, registerTypes_ := [], instTypes_ := cfgInstTypes,
      regClassToType_ := fun _ => none, regTypeToClass_ := fun _ => none } hnodup
  simp only [List.length_nil, Nat.zero_add, List.nil_append, Nat.not_lt_zero, false_or]
    at h1 h2 h3 h4 h6
  have hreg : (LLVMMachineModel.ctor targetName classes cfgInstTypes).registerTypes_ =
      (storedClasses targetName classes).map (fun c =>
        { name := c.getName, count := storedCount targetName c }) := h1
  have hmaps : ∀ (k : Nat) (c : TargetRegisterClass),
      (storedClasses targetName classes)[k]? = some c →
      (LLVMMachineModel.ctor targetName classes cfgInstTypes).regClassToType_ c.id = some k ∧
      (LLVMMachineModel.ctor targetName classes cfgInstTypes).regTypeToClass_ k =
        some c.id := h2
  have hc2t : ∀ id : Nat, (∀ c ∈ storedClasses targetName classes, c.id ≠ id) →
      (LLVMMachineModel.ctor targetName classes cfgInstTypes).regClassToType_ id = none := h3
  have ht2c : ∀ t : Nat, (storedClasses targetName classes).length ≤ t →
      (LLVMMachineModel.ctor targetName classes cfgInstTypes).regTypeToClass_ t = none := h4
  have hname : (LLVMMachineModel.ctor targetName classes cfgInstTypes).mdlName_ =
      targetName := h6
  refine ⟨hreg, ?_, ?_, ?_⟩
  · intro rt hrt
    rw [hreg] at hrt
    obtain ⟨c, hc, rfl⟩ := List.mem_map.mp hrt
    simpa [storedClasses] using (List.mem_filter.mp hc).2
  · intro k c hc
    obtain ⟨a, b⟩ := hmaps k c hc
    refine ⟨a, b, ?_, ?_⟩
    · simp only [LLVMMachineModel.GetRegClass]
      rw [if_neg (by omega)]
      simpa using b
    · intro hrfp
      simp only [LLVMMachineModel.GetRegType, hname]
      rw [if_neg hrfp, a]
      rfl
  · intro id k
    constructor
    · intro h
      by_cases hex : ∃ c ∈ storedClasses targetName classes, c.id = id
      · obtain ⟨c, hc, rfl⟩ := hex
        obtain ⟨k2, hk2⟩ := List.getElem?_of_mem hc
        obtain ⟨a, b⟩ := hmaps k2 c hk2
        rw [a] at h
        simp only [Option.some.injEq] at h
        subst h
        exact b
      · rw [hc2t id (fun c hc heq => hex ⟨c, hc, heq⟩)] at h
        cases h
    · intro h
      by_cases hk : k < (storedClasses targetName classes).length
      · obtain ⟨a, b⟩ := hmaps k _ (List.getElem?_eq_getElem hk)
        rw [b] at h
        simp only [Option.some.injEq] at h
        subst h
        exact a
      · rw [ht2c k (not_lt.mp hk)] at h
        cases h

/-- A pressure limit below `2^31` is stored as it is. -/
theorem unsignedToInt_of_lt (u : Nat) (h : u < 2 ^ 31) : unsignedToInt u = (u : Int) := by
  have h1 : u % 2 ^ 32 = u := Nat.mod_eq_of_lt (by omega)
  simp only [unsignedToInt, h1, if_pos h]

/-- For a target whose pressure limits are below `2^31` the classes with a stored count
greater than 0 are the classes whose pressure limit after the x86 flags special case is
greater than 0, and the stored count is that limit. -/
theorem storedClasses_eq_keptClasses (targetName : String)
    (classes : List TargetRegisterClass)
    (hsmall : ∀ c ∈ classes, c.getRegPressureLimit < 2 ^ 31) :
    storedClasses targetName classes = keptClasses targetName classes ∧
    ∀ c ∈ classes, storedCount targetName c = effectiveLimit targetName c := by
  have hcount : ∀ c ∈ classes, storedCount targetName c = effectiveLimit targetName c := by
    intro c hc
    simp only [storedCount, effectiveLimit, unsignedToInt_of_lt _ (hsmall c hc)]
  refine ⟨?_, hcount⟩
  simp only [storedClasses, keptClasses]
  apply List.filter_congr
  intro c hc
  rw [hcount c hc]

/-- Claim C26, failing input: a region of one instruction that uses and defines a register
unit with no earlier definition, under `ADD_USED_AND_NOT_DEFINED_REGS`.  `CountDefs` sets
the count of the register file to 1; `AddDefsAndUses` on a file of 1 register calls
`GetReg` with index 1 and has no defined result; on a file of 2 registers it ends with
`regIndices_[0] = 2`.  With the option off the count is 1 and one register is taken. -/
theorem AddDefsAndUses_takes_more_than_counted :
    CountDefs (useDefRegion true) = some [1] ∧
    (AddDefsAndUses (useDefRegion true) [1]).isNone = true ∧
    (AddDefsAndUses (useDefRegion true) [2]).map (fun st => st.regIndices_) = some [2] ∧
    CountDefs (useDefRegion false) = some [1] ∧
    (AddDefsAndUses (useDefRegion false) [1]).map (fun st => st.regIndices_) = some [1] := by
  decide

/-! ## `ConvertLLVMNodes_`: nodes and edges -/

/-- The successor list given by the log after one more edge. -/
theorem succsOf_append_singleton (edges : List (Nat × Nat × Int × DependenceType))
    (f t : Nat) (l : Int) (d : DependenceType) (k : Nat) :
    succsOf (edges ++ [(f, t, l, d)]) k =
      succsOf edges k ++ (if f = k then [(t, l, d)] else []) := by
  simp only [succsOf, List.filter_append, List.map_append]
  by_cases h : f = k <;> simp [List.filter, h]

/-- The predecessor list given by the log after one more edge. -/
theorem predsOf_append_singleton (edges : List (Nat × Nat × Int × DependenceType))
    (f t : Nat) (l : Int) (d : DependenceType) (k : Nat) :
    predsOf (edges ++ [(f, t, l, d)]) k =
      predsOf edges k ++ (if t = k then [(f, l, d)] else []) := by
  simp only [predsOf, List.filter_append, List.map_append]
  by_cases h : t = k <;> simp [List.filter, h]

/-- The call `CreateEdge_` between two existing instructions returns; it logs its edge,
keeps the instructions in step with the log, and leaves the array length, the set of
existing instructions, their names and types, and `root_` as they are. -/
theorem CreateEdge__spec (st : DagState) (f t : Nat) (l : Int) (d : DependenceType)
    (hm : NodesMatchEdges st) (hf : Allocated st f) (ht : Allocated st t) :
    ∃ st1, CreateEdge_ st f t l d = some st1 ∧
      st1.edges = st.edges ++ [(f, t, l, d)] ∧ NodesMatchEdges st1 ∧
      st1.insts_.length = st.insts_.length ∧ st1.root_ = st.root_ ∧
      (∀ k : Nat, st.insts_[k]? = some none → st1.insts_[k]? = some none) ∧
      ∀ (k : Nat) (node : DagNode), st.insts_[k]? = some (some node) →
        ∃ node1, st1.insts_[k]? = some (some node1) ∧ node1.instName = node.instName ∧
          node1.instType = node.instType ∧ node1.opCode = node.opCode := by
  obtain ⟨fn, hfn⟩ := hf
  obtain ⟨tn, htn⟩ := ht
  have hflt := lt_length_of_getElem? _ _ _ hfn
  have htlt := lt_length_of_getElem? _ _ _ htn
  have hget1 : ∀ k, (st.insts_.set f
      (some { fn with scsrs := fn.scsrs ++ [(t, l, d)] }))[k]? =
      if f = k then some (some { fn with scsrs := fn.scsrs ++ [(t, l, d)] })
      else st.insts_[k]? := by
    intro k
    rw [List.getElem?_set]
    by_cases h : f = k
    · rw [if_pos h, if_pos h, if_pos hflt]
    · rw [if_neg h, if_neg h]
  obtain ⟨tn1, htn1, htn1s, htn1p, htn1n⟩ : ∃ tn1 : DagNode,
      (st.insts_.set f (some { fn with scsrs := fn.scsrs ++ [(t, l, d)] }))[t]? =
        some (some tn1) ∧
      tn1.scsrs = tn.scsrs ++ (if f = t then [(t, l, d)] else []) ∧
      tn1.prdcsrs = tn.prdcsrs ∧
      (tn1.num = tn.num ∧ tn1.instName = tn.instName ∧ tn1.instType = tn.instType ∧
        tn1.opCode = tn.opCode) := by
    by_cases h : f = t
    · subst h
      rw [hfn] at htn
      simp only [Option.some.injEq] at htn
      subst htn
      exact ⟨{ fn with scsrs := fn.scsrs ++ [(f, l, d)] }, (by rw [hget1, if_pos rfl]),
        (by simp), rfl, rfl, rfl, rfl, rfl⟩
    · exact ⟨tn, (by rw [hget1, if_neg h]; exact htn), (by simp [h]), rfl, rfl, rfl, rfl,
        rfl⟩
  have hlen1 : (st.insts_.set f
      (some { fn with scsrs := fn.scsrs ++ [(t, l, d)] })).length = st.insts_.length :=
    List.length_set _ _ _
  have hrun : CreateEdge_ st f t l d = some
      { st with
        insts_ := (st.insts_.set f (some { fn with scsrs := fn.scsrs ++ [(t, l, d)] })).set t
          (some { tn1 with prdcsrs := tn1.prdcsrs ++ [(f, l, d)] })
        edges := st.edges ++ [(f, t, l, d)] } := by
    simp only [CreateEdge_, hfn, htn1]
  have hget2 : ∀ k, ((st.insts_.set f
      (some { fn with scsrs := fn.scsrs ++ [(t, l, d)] })).set t
        (some { tn1 with prdcsrs := tn1.prdcsrs ++ [(f, l, d)] }))[k]? =
      if t = k then some (some { tn1 with prdcsrs := tn1.prdcsrs ++ [(f, l, d)] })
      else if f = k then some (some { fn with scsrs := fn.scsrs ++ [(t, l, d)] })
      else st.insts_[k]? := by
    intro k
    rw [List.getElem?_set, hlen1, hget1]
    by_cases h : t = k
    · rw [if_pos h, if_pos h, if_pos htlt]
    · rw [if_neg h, if_neg h]
  refine ⟨_, hrun, rfl, ?_, ?_, rfl, ?_, ?_⟩
  · intro k node hk
    simp only at hk
    rw [hget2] at hk
    rw [succsOf_append_singleton, predsOf_append_singleton]
    by_cases hkt : t = k
    · rw [if_pos hkt] at hk
      simp only [Option.some.injEq] at hk
      subst hk
      obtain ⟨a, b, c⟩ := hm t tn htn
      subst hkt
      simp only [if_true]
      refine ⟨?_, ?_, ?_⟩
      · rw [htn1n.1]
        exact a
      · rw [htn1s, b]
      · rw [htn1p, c]
    · rw [if_neg hkt] at hk
      by_cases hkf : f = k
      · rw [if_pos hkf] at hk
        simp only [Option.some.injEq] at hk
        subst hk
        obtain ⟨a, b, c⟩ := hm f fn hfn
        subst hkf
        simp only [if_true, if_neg hkt, List.append_nil]
        exact ⟨a, by rw [b], c⟩
      · rw [if_neg hkf] at hk
        obtain ⟨a, b, c⟩ := hm k node hk
        simp only [if_neg hkf, if_neg hkt, List.append_nil]
        exact ⟨a, b, c⟩
  · simp only [List.length_set]
  · intro k hk
    simp only
    rw [hget2]
    have h1 : t ≠ k := by
      rintro rfl
      rw [htn] at hk
      cases hk
    have h2 : f ≠ k := by
      rintro rfl
      rw [hfn] at hk
      cases hk
    rw [if_neg h1, if_neg h2]
    exact hk
  · intro k node hk
    simp only
    rw [hget2]
    by_cases hkt : t = k
    · rw [if_pos hkt]
      subst hkt
      rw [htn] at hk
      simp only [Option.some.injEq] at hk
      subst hk
      exact ⟨_, rfl, htn1n.2.1, htn1n.2.2.1, htn1n.2.2.2⟩
    · rw [if_neg hkt]
      by_cases hkf : f = k
      · rw [if_pos hkf]
        subst hkf
        rw [hfn] at hk
        simp only [Option.some.injEq] at hk
        subst hk
        exact ⟨_, rfl, rfl, rfl, rfl⟩
      · rw [if_neg hkf]
        exact ⟨node, hk, rfl, rfl, rfl⟩

/-- The call `CreateNode_` on an index inside the array that no logged edge mentions
returns; the new instruction exists with the given name and type, the other entries of the
array and the log are as before, and the instructions stay in step with the log. -/
theorem CreateNode__spec (st : DagState) (k : Nat) (instName : String) (instType : Int)
    (opCode : String) (hm : NodesMatchEdges st) (hk : k < st.insts_.length)
    (hfresh : ∀ e ∈ st.edges, e.1 ≠ k ∧ e.2.1 ≠ k) :
    ∃ st1, CreateNode_ st k instName instType opCode = some st1 ∧
      st1.edges = st.edges ∧ NodesMatchEdges st1 ∧
      st1.insts_.length = st.insts_.length ∧ st1.root_ = st.root_ ∧
      st1.includesCall_ = st.includesCall_ ∧ st1.roots = st.roots ∧ st1.leaves = st.leaves ∧
      st1.insts_[k]? = some (some
        { num := k, instName := instName, instType := instType, opCode := opCode,
          prdcsrs := [], scsrs := [] }) ∧
      ∀ j : Nat, j ≠ k → st1.insts_[j]? = st.insts_[j]? := by
  refine ⟨{ st with insts_ := st.insts_.set k (some
      { num := k, instName := instName, instType := instType, opCode := opCode,
        prdcsrs := [], scsrs := [] }) },
    (by simp only [CreateNode_, if_pos hk]), rfl, ?_, (by simp), rfl, rfl, rfl, rfl,
    (by rw [List.getElem?_set, if_pos rfl, if_pos hk]),
    (fun j hj => by rw [List.getElem?_set, if_neg (Ne.symm hj)])⟩
  intro j node hj
  simp only at hj
  rw [List.getElem?_set] at hj
  by_cases hjk : k = j
  · rw [if_pos hjk, if_pos hk] at hj
    simp only [Option.some.injEq] at hj
    subst hj
    subst hjk
    refine ⟨rfl, ?_, ?_⟩
    · simp only [succsOf]
      rw [List.filter_eq_nil_iff.mpr (fun e he => by simpa using (hfresh e he).1)]
      rfl
    · simp only [predsOf]
      rw [List.filter_eq_nil_iff.mpr (fun e he => by simpa using (hfresh e he).2)]
      rfl
  · rw [if_neg hjk] at hj
    exact hm j node hj

/-- One round of the loop "Create nodes" on a real instruction: after `CreateNode_` the
loop goes on from a state with the same instructions, log and `root_`. -/
theorem nodeLoop_cons (this : LLVMDataDepGraph) (unit : SUnit) (rest : List SUnit)
    (st st1 : DagState) (hb : unit.isBoundaryNode = false) (hi : unit.isInstr = true)
    (hc : CreateNode_ st unit.NodeNum (nodeNameSpec this unit) (nodeTypeSpec this unit)
      unit.opcodeName = some st1) :
    ∃ st4, ConvertLLVMNodes_.nodeLoop this (unit :: rest) st =
        ConvertLLVMNodes_.nodeLoop this rest st4 ∧
      st4.insts_ = st1.insts_ ∧ st4.edges = st1.edges ∧ st4.root_ = st1.root_ := by
  simp only [nodeNameSpec, nodeTypeSpec] at hc
  simp only [ConvertLLVMNodes_.nodeLoop, hb, hi, hc, Bool.not_true, Bool.or_self,
    Bool.false_eq_true, if_false]
  refine ⟨_, rfl, ?_, ?_, ?_⟩ <;> (split <;> split <;> split <;> rfl)

/-- The loop "Create nodes" on real instructions numbered `j`, `j + 1`, ... inside the
array, before any edge is logged: it returns, and every unit has its instruction, with the
name and type of the "Default" fallback when the model does not know the opcode. -/
theorem nodeLoop_spec (this : LLVMDataDepGraph) :
    ∀ (units : List SUnit) (j : Nat) (st : DagState),
      (∀ (i : Nat) (unit : SUnit), units[i]? = some unit →
        unit.NodeNum = j + i ∧ unit.isInstr = true ∧ unit.isBoundaryNode = false) →
      j + units.length ≤ st.insts_.length → st.edges = [] → NodesMatchEdges st →
      ∃ st1, ConvertLLVMNodes_.nodeLoop this units st = some st1 ∧ st1.edges = [] ∧
        st1.insts_.length = st.insts_.length ∧ st1.root_ = st.root_ ∧
        NodesMatchEdges st1 ∧
        (∀ (i : Nat) (unit : SUnit), units[i]? = some unit →
          ∃ node, st1.insts_[j + i]? = some (some node) ∧
            node.instName = nodeNameSpec this unit ∧
            node.instType = nodeTypeSpec this unit ∧ node.opCode = unit.opcodeName) ∧
        ∀ k : Nat, k < j ∨ j + units.length ≤ k → st1.insts_[k]? = st.insts_[k]? := by
  intro units
  induction units with
  | nil =>
    intro j st _ _ he hm
    exact ⟨st, rfl, he, rfl, rfl, hm, (fun i unit h => by simp at h), fun _ _ => rfl⟩
  | cons unit rest ih =>
    intro j st hu hlen he hm
    obtain ⟨hnum, hinstr, hbnd⟩ := hu 0 unit (List.getElem?_cons_zero ..)
    simp only [Nat.add_zero] at hnum
    simp only [List.length_cons] at hlen
    obtain ⟨st1, hc, e1, m1, l1, r1, _, _, _, g1, o1⟩ :=
      CreateNode__spec st j (nodeNameSpec this unit) (nodeTypeSpec this unit)
        unit.opcodeName hm (by omega) (by rw [he]; intro e h; cases h)
    rw [← hnum] at hc
    obtain ⟨st4, hrun, i4, e4, r4⟩ := nodeLoop_cons this unit rest st st1 hbnd hinstr hc
    have m4 : NodesMatchEdges st4 := by
      intro k node hk
      rw [i4] at hk
      rw [e4]
      exact m1 k node hk
    obtain ⟨st5, hrun5, e5, l5, r5, m5, g5, o5⟩ := ih (j + 1) st4
      (fun i u h => by
        obtain ⟨a, b, c⟩ := hu (i + 1) u (by rw [List.getElem?_cons_succ]; exact h)
        exact ⟨by omega, b, c⟩)
      (by rw [i4, l1]; omega) (by rw [e4, e1, he]) m4
    refine ⟨st5, by rw [hrun, hrun5], e5, by rw [l5, i4, l1], by rw [r5, r4, r1], m5, ?_, ?_⟩
    · intro i u h
      cases i with
      | zero =>
        simp only [List.getElem?_cons_zero, Option.some.injEq] at h
        subst h
        rw [o5 (j + 0) (Or.inl (by omega)), i4, Nat.add_zero, g1]
        exact ⟨_, rfl, rfl, rfl, rfl⟩
      | succ i =>
        rw [List.getElem?_cons_succ] at h
        obtain ⟨node, hn, x⟩ := g5 i u h
        refine ⟨node, ?_, x⟩
        rw [← hn]
        congr 1
        omega
    · intro k hk
      simp only [List.length_cons] at hk
      rw [o5 k (by omega), i4]
      exact o1 k (by omega)

/-- Every state has its own instructions. -/
theorem SameNodes.refl (st : DagState) : SameNodes st st :=
  ⟨rfl, rfl, fun _ h => h, fun _ node h => ⟨node, h, rfl, rfl, rfl⟩⟩

/-- Having the instructions of an earlier state is transitive. -/
theorem SameNodes.trans {st st1 st2 : DagState} (h1 : SameNodes st st1)
    (h2 : SameNodes st1 st2) : SameNodes st st2 := by
  obtain ⟨a1, b1, c1, d1⟩ := h1
  obtain ⟨a2, b2, c2, d2⟩ := h2
  refine ⟨by rw [a2, a1], by rw [b2, b1], fun k h => c2 k (c1 k h), ?_⟩
  intro k node h
  obtain ⟨n1, hn1, x1, y1, z1⟩ := d1 k node h
  obtain ⟨n2, hn2, x2, y2, z2⟩ := d2 k n1 hn1
  exact ⟨n2, hn2, by rw [x2, x1], by rw [y2, y1], by rw [z2, z1]⟩

/-- An instruction that exists stays in every state with the same instructions. -/
theorem SameNodes.keepsAllocated {st st1 : DagState} (h : SameNodes st st1) (k : Nat)
    (hk : Allocated st k) : Allocated st1 k := by
  obtain ⟨node, hn⟩ := hk
  obtain ⟨n1, hn1, _⟩ := h.2.2.2 k node hn
  exact ⟨n1, hn1⟩

/-- One round of the loop over the successors of an instruction, for a successor that is
not a boundary node: the edge is created with the latency that the specification asks. -/
theorem succLoop_cons (this : LLVMDataDepGraph) (unit : SUnit) (it : SDep)
    (rest : List SDep) (st : DagState) (hi : unit.isInstr = true)
    (hb : it.getSUnit.isBoundaryNode = false) :
    ConvertLLVMNodes_.succLoop this unit (it :: rest) st =
      match CreateEdge_ st unit.NodeNum it.getSUnit.NodeNum (edgeLatencySpec this unit it)
          (ConvertLLVMNodes_.depTypeOf this it.getKind) with
      | none => none
      | some st1 => ConvertLLVMNodes_.succLoop this unit rest st1 := by
  simp only [ConvertLLVMNodes_.succLoop, hb, Bool.false_eq_true, if_false, edgeLatencySpec,
    hi, if_true]
  generalize ConvertLLVMNodes_.prcsnOf this = p
  cases p <;> rfl

/-- The loop over the successors of a unit whose instruction and successor instructions
exist returns, and logs exactly the edges that the specification asks for the unit. -/
theorem succLoop_spec (this : LLVMDataDepGraph) (unit : SUnit)
    (hi : unit.isInstr = true) :
    ∀ (succs : List SDep) (st : DagState), NodesMatchEdges st →
      Allocated st unit.NodeNum →
      (∀ it ∈ succs, it.getSUnit.isBoundaryNode = false →
        Allocated st it.getSUnit.NodeNum) →
      ∃ st1, ConvertLLVMNodes_.succLoop this unit succs st = some st1 ∧
        st1.edges = st.edges ++
          (succs.filter fun it => !it.getSUnit.isBoundaryNode).map (fun it =>
            (unit.NodeNum, it.getSUnit.NodeNum, edgeLatencySpec this unit it,
              ConvertLLVMNodes_.depTypeOf this it.getKind)) ∧
        NodesMatchEdges st1 ∧ SameNodes st st1 := by
  intro succs
  induction succs with
  | nil =>
    intro st hm _ _
    exact ⟨st, rfl, by simp, hm, SameNodes.refl st⟩
  | cons it rest ih =>
    intro st hm hu hs
    by_cases hb : it.getSUnit.isBoundaryNode = true
    · obtain ⟨st1, hrun, he, hm1, hs1⟩ := ih st hm hu
        (fun x hx => hs x (List.mem_cons_of_mem _ hx))
      refine ⟨st1, ?_, ?_, hm1, hs1⟩
      · simp only [ConvertLLVMNodes_.succLoop, hb, if_true]
        exact hrun
      · rw [he]
        simp [List.filter, hb]
    · have hb2 : it.getSUnit.isBoundaryNode = false := by
        cases h : it.getSUnit.isBoundaryNode
        · rfl
        · exact absurd h hb
      obtain ⟨st1, hc, e1, m1, s1⟩ := CreateEdge__spec st unit.NodeNum it.getSUnit.NodeNum
        (edgeLatencySpec this unit it) (ConvertLLVMNodes_.depTypeOf this it.getKind) hm hu
        (hs it (List.mem_cons_self _ _) hb2)
      have s1 : SameNodes st st1 := s1
      obtain ⟨st2, hrun, e2, m2, s2⟩ := ih st1 m1 (s1.keepsAllocated _ hu)
        (fun x hx hxb => s1.keepsAllocated _ (hs x (List.mem_cons_of_mem _ hx) hxb))
      refine ⟨st2, ?_, ?_, m2, s1.trans s2⟩
      · rw [succLoop_cons this unit it rest st hi hb2, hc]
        exact hrun
      · rw [e2, e1]
        simp [List.filter, hb2]

/-- The loop "Create edges" over units whose instructions and successor instructions exist
returns, and logs exactly the edges that the specification asks for the units. -/
theorem edgeLoop_spec (this : LLVMDataDepGraph) :
    ∀ (units : List SUnit) (st : DagState), NodesMatchEdges st →
      (∀ unit ∈ units, unit.isInstr = true ∧ Allocated st unit.NodeNum ∧
        ∀ it ∈ unit.Succs, it.getSUnit.isBoundaryNode = false →
          Allocated st it.getSUnit.NodeNum) →
      ∃ st1, ConvertLLVMNodes_.edgeLoop this units st = some st1 ∧
        st1.edges = st.edges ++ units.flatMap (hostEdgesOf this) ∧
        NodesMatchEdges st1 ∧ SameNodes st st1 := by
  intro units
  induction units with
  | nil =>
    intro st hm _
    exact ⟨st, rfl, by simp, hm, SameNodes.refl st⟩
  | cons unit rest ih =>
    intro st hm hu
    obtain ⟨hi, ha, hs⟩ := hu unit (List.mem_cons_self _ _)
    obtain ⟨st1, hrun1, e1, m1, s1⟩ := succLoop_spec this unit hi unit.Succs st hm ha hs
    obtain ⟨st2, hrun2, e2, m2, s2⟩ := ih st1 m1 (fun u hu2 => by
      obtain ⟨a, b, c⟩ := hu u (List.mem_cons_of_mem _ hu2)
      exact ⟨a, s1.keepsAllocated _ b, fun it hit hb => s1.keepsAllocated _ (c it hit hb)⟩)
    refine ⟨st2, ?_, ?_, m2, s1.trans s2⟩
    · simp only [ConvertLLVMNodes_.edgeLoop, hrun1]
      exact hrun2
    · rw [e2, e1]
      simp [hostEdgesOf, List.flatMap_cons]

/-- The predecessors of `j` among `edges` do not change with an edge to another
instruction, so the root edges asked for `idxs` do not change with an edge to an
instruction outside `idxs`. -/
theorem rootEdgesSpec_append_singleton (edges : List (Nat × Nat × Int × DependenceType))
    (rootNum f i : Nat) (l : Int) (d : DependenceType) (idxs : List Nat) (hi : i ∉ idxs) :
    rootEdgesSpec (edges ++ [(f, i, l, d)]) rootNum idxs = rootEdgesSpec edges rootNum idxs := by
  simp only [rootEdgesSpec]
  congr 1
  apply List.filter_congr
  intro j hj
  rw [predsOf_append_singleton, if_neg (fun h : i = j => hi (h ▸ hj)), List.append_nil]

/-- The successors of `j` among `edges` do not change with an edge from another
instruction, so the leaf edges asked for `idxs` do not change with an edge from an
instruction outside `idxs`. -/
theorem leafEdgesSpec_append_singleton (edges : List (Nat × Nat × Int × DependenceType))
    (leafNum i t : Nat) (l : Int) (d : DependenceType) (idxs : List Nat) (hi : i ∉ idxs) :
    leafEdgesSpec (edges ++ [(i, t, l, d)]) leafNum idxs = leafEdgesSpec edges leafNum idxs := by
  simp only [leafEdgesSpec]
  congr 1
  apply List.filter_congr
  intro j hj
  rw [succsOf_append_singleton, if_neg (fun h : i = j => hi (h ▸ hj)), List.append_nil]

/-- The root loop over distinct existing instructions returns, and logs exactly the root
edges that the specification asks for. -/
theorem rootLoop_spec (rootNum : Nat) :
    ∀ (idxs : List Nat) (st : DagState), NodesMatchEdges st →
      (∀ i ∈ idxs, Allocated st i) → Allocated st rootNum → idxs.Nodup →
      ∃ st1, ConvertLLVMNodes_.rootLoop rootNum idxs st = some st1 ∧
        st1.edges = st.edges ++ rootEdgesSpec st.edges rootNum idxs ∧
        NodesMatchEdges st1 ∧ SameNodes st st1 := by
  intro idxs
  induction idxs with
  | nil =>
    intro st hm _ _ _
    exact ⟨st, rfl, by simp [rootEdgesSpec], hm, SameNodes.refl st⟩
  | cons i rest ih =>
    intro st hm ha hr hnd
    obtain ⟨hirest, hnd2⟩ := List.nodup_cons.mp hnd
    obtain ⟨inst, hinst⟩ := ha i (List.mem_cons_self _ _)
    obtain ⟨_, _, hp⟩ := hm i inst hinst
    by_cases he : (predsOf st.edges i).isEmpty = true
    · have hlen : inst.prdcsrs.length = 0 := by
        rw [hp]
        exact List.length_eq_zero.mpr (List.isEmpty_iff.mp he)
      obtain ⟨st1, hc, e1, m1, s1⟩ :=
        CreateEdge__spec st rootNum i 0 .DEP_OTHER hm hr ⟨inst, hinst⟩
      have s1 : SameNodes st st1 := s1
      obtain ⟨st2, hrun, e2, m2, s2⟩ := ih st1 m1
        (fun j hj => s1.keepsAllocated _ (ha j (List.mem_cons_of_mem _ hj)))
        (s1.keepsAllocated _ hr) hnd2
      refine ⟨st2, ?_, ?_, m2, s1.trans s2⟩
      · simp only [ConvertLLVMNodes_.rootLoop, hinst, hlen, if_true, hc]
        exact hrun
      · rw [e2, e1, rootEdgesSpec_append_singleton _ _ _ _ _ _ _ hirest]
        simp [rootEdgesSpec, List.filter, he]
    · have hlen : ¬ inst.prdcsrs.length = 0 := by
        rw [hp]
        intro h
        exact he (List.isEmpty_iff.mpr (List.length_eq_zero.mp h))
      obtain ⟨st2, hrun, e2, m2, s2⟩ := ih st hm
        (fun j hj => ha j (List.mem_cons_of_mem _ hj)) hr hnd2
      refine ⟨st2, ?_, ?_, m2, s2⟩
      · simp only [ConvertLLVMNodes_.rootLoop, hinst, hlen, if_false]
        exact hrun
      · rw [e2]
        simp [rootEdgesSpec, List.filter, he]

/-- The leaf loop over distinct existing instructions returns, and logs exactly the leaf
edges that the specification asks for. -/
theorem leafLoop_spec (leafNum : Nat) :
    ∀ (idxs : List Nat) (st : DagState), NodesMatchEdges st →
      (∀ i ∈ idxs, Allocated st i) → Allocated st leafNum → idxs.Nodup →
      ∃ st1, ConvertLLVMNodes_.leafLoop leafNum idxs st = some st1 ∧
        st1.edges = st.edges ++ leafEdgesSpec st.edges leafNum idxs ∧
        NodesMatchEdges st1 ∧ SameNodes st st1 := by
  intro idxs
  induction idxs with
  | nil =>
    intro st hm _ _ _
    exact ⟨st, rfl, by simp [leafEdgesSpec], hm, SameNodes.refl st⟩
  | cons i rest ih =>
    intro st hm ha hr hnd
    obtain ⟨hirest, hnd2⟩ := List.nodup_cons.mp hnd
    obtain ⟨inst, hinst⟩ := ha i (List.mem_cons_self _ _)
    obtain ⟨_, hp, _⟩ := hm i inst hinst
    by_cases he : (succsOf st.edges i).isEmpty = true
    · have hlen : inst.scsrs.length = 0 := by
        rw [hp]
        exact List.length_eq_zero.mpr (List.isEmpty_iff.mp he)
      obtain ⟨st1, hc, e1, m1, s1⟩ :=
        CreateEdge__spec st i leafNum 0 .DEP_OTHER hm ⟨inst, hinst⟩ hr
      have s1 : SameNodes st st1 := s1
      obtain ⟨st2, hrun, e2, m2, s2⟩ := ih st1 m1
        (fun j hj => s1.keepsAllocated _ (ha j (List.mem_cons_of_mem _ hj)))
        (s1.keepsAllocated _ hr) hnd2
      refine ⟨st2, ?_, ?_, m2, s1.trans s2⟩
      · simp only [ConvertLLVMNodes_.leafLoop, hinst, hlen, if_true, hc]
        exact hrun
      · rw [e2, e1, leafEdgesSpec_append_singleton _ _ _ _ _ _ _ hirest]
        simp [leafEdgesSpec, List.filter, he]
    · have hlen : ¬ inst.scsrs.length = 0 := by
        rw [hp]
        intro h
        exact he (List.isEmpty_iff.mpr (List.length_eq_zero.mp h))
      obtain ⟨st2, hrun, e2, m2, s2⟩ := ih st hm
        (fun j hj => ha j (List.mem_cons_of_mem _ hj)) hr hnd2
      refine ⟨st2, ?_, ?_, m2, s2⟩
      · simp only [ConvertLLVMNodes_.leafLoop, hinst, hlen, if_false]
        exact hrun
      · rw [e2]
        simp [leafEdgesSpec, List.filter, he]

/-- An instruction with its name, type and opcode stays in every state with the same
instructions. -/
theorem SameNodes.hasNode {st st1 : DagState} (h : SameNodes st st1) {k : Nat}
    {instName : String} {instType : Int} {opCode : String}
    (hk : HasNode st k instName instType opCode) :
    HasNode st1 k instName instType opCode := by
  obtain ⟨node, hn, a, b, c⟩ := hk
  obtain ⟨n1, hn1, a1, b1, c1⟩ := h.2.2.2 k node hn
  exact ⟨n1, hn1, by rw [a1, a], by rw [b1, b], by rw [c1, c]⟩

/-- An instruction with a name, type and opcode exists. -/
theorem HasNode.isAllocated {st : DagState} {k : Nat} {instName : String} {instType : Int}
    {opCode : String} (hk : HasNode st k instName instType opCode) : Allocated st k := by
  obtain ⟨node, hn, _⟩ := hk
  exact ⟨node, hn⟩

/-- The edges asked for the host dependences are the host dependences that do not end in a
boundary node. -/
theorem mem_hostEdges (this : LLVMDataDepGraph) (e : Nat × Nat × Int × DependenceType) :
    e ∈ hostEdges this ↔ ∃ unit ∈ this.llvmNodes_, ∃ it ∈ unit.Succs,
      it.getSUnit.isBoundaryNode = false ∧
      e = (unit.NodeNum, it.getSUnit.NodeNum, edgeLatencySpec this unit it,
        ConvertLLVMNodes_.depTypeOf this it.getKind) := by
  simp only [hostEdges, hostEdgesOf, List.mem_flatMap, List.mem_map, List.mem_filter,
    Bool.not_eq_true']
  constructor
  · rintro ⟨unit, hu, it, ⟨hit, hb⟩, rfl⟩
    exact ⟨unit, hu, it, hit, hb, rfl⟩
  · rintro ⟨unit, hu, it, hit, hb, rfl⟩
    exact ⟨unit, hu, it, ⟨hit, hb⟩, rfl⟩

/-- In a well-formed region the edges asked for the host dependences join units of the
region. -/
theorem hostEdges_lt (this : LLVMDataDepGraph) (hwf : HostWF this)
    (e : Nat × Nat × Int × DependenceType) (he : e ∈ hostEdges this) :
    e.1 < this.llvmNodes_.length ∧ e.2.1 < this.llvmNodes_.length := by
  obtain ⟨unit, hu, it, hit, hb, rfl⟩ := (mem_hostEdges this e).mp he
  obtain ⟨i, hi⟩ := List.mem_iff_getElem?.mp hu
  obtain ⟨hnum, _, _⟩ := hwf.1 i unit hi
  refine ⟨?_, hwf.2 unit hu it hit hb⟩
  show unit.NodeNum < _
  rw [hnum]
  exact lt_length_of_getElem? _ _ _ hi

/-- The root edges asked for are edges from the root to instructions of the list. -/
theorem mem_rootEdgesSpec (edges : List (Nat × Nat × Int × DependenceType))
    (rootNum : Nat) (idxs : List Nat) (e : Nat × Nat × Int × DependenceType) :
    e ∈ rootEdgesSpec edges rootNum idxs ↔
      ∃ i ∈ idxs, predsOf edges i = [] ∧ e = (rootNum, i, 0, DependenceType.DEP_OTHER) := by
  simp only [rootEdgesSpec, List.mem_map, List.mem_filter, List.isEmpty_iff]
  constructor
  · rintro ⟨i, ⟨hi, hp⟩, rfl⟩
    exact ⟨i, hi, hp, rfl⟩
  · rintro ⟨i, hi, hp, rfl⟩
    exact ⟨i, ⟨hi, hp⟩, rfl⟩

/-- The leaf edges asked for are edges from instructions of the list to the leaf. -/
theorem mem_leafEdgesSpec (edges : List (Nat × Nat × Int × DependenceType))
    (leafNum : Nat) (idxs : List Nat) (e : Nat × Nat × Int × DependenceType) :
    e ∈ leafEdgesSpec edges leafNum idxs ↔
      ∃ i ∈ idxs, succsOf edges i = [] ∧ e = (i, leafNum, 0, DependenceType.DEP_OTHER) := by
  simp only [leafEdgesSpec, List.mem_map, List.mem_filter, List.isEmpty_iff]
  constructor
  · rintro ⟨i, ⟨hi, hp⟩, rfl⟩
    exact ⟨i, hi, hp, rfl⟩
  · rintro ⟨i, hi, hp, rfl⟩
    exact ⟨i, ⟨hi, hp⟩, rfl⟩

/-- Edges from other instructions do not change the successors of `k`. -/
theorem succsOf_append_of_ne (edges extra : List (Nat × Nat × Int × DependenceType))
    (k : Nat) (h : ∀ e ∈ extra, e.1 ≠ k) : succsOf (edges ++ extra) k = succsOf edges k := by
  have hx : extra.filter (fun e => decide (e.1 = k)) = [] :=
    List.filter_eq_nil_iff.mpr (fun e he => by simpa using h e he)
  simp only [succsOf, List.filter_append, List.map_append, hx, List.map_nil, List.append_nil]

/-- Edges to other instructions do not change the predecessors of `k`. -/
theorem predsOf_append_of_ne (edges extra : List (Nat × Nat × Int × DependenceType))
    (k : Nat) (h : ∀ e ∈ extra, e.2.1 ≠ k) :
    predsOf (edges ++ extra) k = predsOf edges k := by
  have hx : extra.filter (fun e => decide (e.2.1 = k)) = [] :=
    List.filter_eq_nil_iff.mpr (fun e he => by simpa using h e he)
  simp only [predsOf, List.filter_append, List.map_append, hx, List.map_nil, List.append_nil]

/-- On a well-formed host region `ConvertLLVMNodes_` returns.  The edges it creates are the
edges asked for the host dependences, then the root edges, then the leaf edges; the
instructions are in step with the edges; the array holds the instruction of every unit,
with the name and type of the "Default" fallback when the model does not know the opcode,
then the artificial root and the artificial leaf. -/
theorem ConvertLLVMNodes__spec (this : LLVMDataDepGraph) (hwf : HostWF this) :
    ∃ st, ConvertLLVMNodes_ this = some st ∧
      st.edges = hostEdges this ++
        rootEdgesSpec (hostEdges this) this.llvmNodes_.length
          (List.range this.llvmNodes_.length) ++
        leafEdgesSpec (hostEdges this) (this.llvmNodes_.length + 1)
          (List.range this.llvmNodes_.length) ∧
      NodesMatchEdges st ∧ st.insts_.length = this.llvmNodes_.length + 2 ∧
      st.root_ = some this.llvmNodes_.length ∧
      (∀ (i : Nat) (unit : SUnit), this.llvmNodes_[i]? = some unit →
        HasNode st i (nodeNameSpec this unit) (nodeTypeSpec this unit) unit.opcodeName) ∧
      HasNode st this.llvmNodes_.length "artificial" (this.GetInstTypeByName "artificial")
        "__optsched_entry" ∧
      HasNode st (this.llvmNodes_.length + 1) "artificial"
        (this.GetInstTypeByName "artificial") "__optsched_exit" := by
  generalize hn : this.llvmNodes_.length = n
  have hm0 : NodesMatchEdges
      { insts_ := List.replicate (n + 2) none, includesCall_ := false, roots := [],
        leaves := [], root_ := none, edges := [] } := by
    intro k node hk
    simp only [List.getElem?_replicate] at hk
    split at hk <;> cases hk
  obtain ⟨st1, run1, e1, l1, r1, m1, g1, _⟩ := nodeLoop_spec this this.llvmNodes_ 0
    { insts_ := List.replicate (n + 2) none, includesCall_ := false, roots := [],
      leaves := [], root_ := none, edges := [] }
    (fun i unit h => by
      obtain ⟨a, b, c⟩ := hwf.1 i unit h
      exact ⟨by omega, b, c⟩)
    (by simp only [List.length_replicate]; omega) rfl hm0
  simp only [List.length_replicate] at l1
  have g1 : ∀ (i : Nat) (unit : SUnit), this.llvmNodes_[i]? = some unit →
      HasNode st1 i (nodeNameSpec this unit) (nodeTypeSpec this unit) unit.opcodeName := by
    intro i unit h
    have := g1 i unit h
    rw [Nat.zero_add] at this
    exact this
  have a1 : ∀ i, i < n → Allocated st1 i := by
    intro i hi
    have hlt : i < this.llvmNodes_.length := by omega
    exact (g1 i _ (List.getElem?_eq_getElem hlt)).isAllocated
  obtain ⟨st2, run2, e2, m2, s2⟩ := edgeLoop_spec this this.llvmNodes_ st1 m1
    (fun unit hu => by
      obtain ⟨i, hi⟩ := List.mem_iff_getElem?.mp hu
      obtain ⟨hnum, hinstr, _⟩ := hwf.1 i unit hi
      refine ⟨hinstr, ?_, ?_⟩
      · rw [hnum]
        exact (g1 i unit hi).isAllocated
      · intro it hit hb
        exact a1 _ (by have := hwf.2 unit hu it hit hb; omega))
  rw [e1, List.nil_append] at e2
  have e2 : st2.edges = hostEdges this := e2
  have hlt : ∀ e ∈ hostEdges this, e.1 < n ∧ e.2.1 < n := by
    intro e he
    have := hostEdges_lt this hwf e he
    omega
  obtain ⟨st3, run3, e3, m3, l3, r3, _, _, _, g3, o3⟩ := CreateNode__spec st2 n "artificial"
    (this.GetInstTypeByName "artificial") "__optsched_entry" m2
    (by rw [s2.1, l1]; omega)
    (by
      rw [e2]
      intro e he
      have := hlt e he
      omega)
  have m3r : NodesMatchEdges { st3 with root_ := some n } := m3
  have a3 : ∀ i, i < n → Allocated { st3 with root_ := some n } i := by
    intro i hi
    obtain ⟨node, hnode⟩ := s2.keepsAllocated i (a1 i hi)
    exact ⟨node, by rw [← hnode]; exact o3 i (by omega)⟩
  obtain ⟨st4, run4, e4, m4, s4⟩ :=
    rootLoop_spec n (List.range n) { st3 with root_ := some n } m3r
      (fun i hi => a3 i (List.mem_range.mp hi)) ⟨_, g3⟩ (List.nodup_range n)
  have e4 : st4.edges = hostEdges this ++ rootEdgesSpec (hostEdges this) n (List.range n) := by
    rw [e4]
    show st3.edges ++ rootEdgesSpec st3.edges n (List.range n) = _
    rw [e3, e2]
  obtain ⟨st5, run5, e5, m5, l5, r5, _, _, _, g5, o5⟩ := CreateNode__spec st4 (n + 1)
    "artificial" (this.GetInstTypeByName "artificial") "__optsched_exit" m4
    (by
      rw [s4.1]
      show n + 1 < st3.insts_.length
      rw [l3, s2.1, l1]
      omega)
    (by
      rw [e4]
      intro e he
      rcases List.mem_append.mp he with he | he
      · have := hlt e he
        omega
      · obtain ⟨i, hi, _, rfl⟩ := (mem_rootEdgesSpec _ _ _ _).mp he
        have := List.mem_range.mp hi
        simp only
        omega)
  have a5 : ∀ i, i < n → Allocated st5 i := by
    intro i hi
    obtain ⟨node, hnode⟩ := s4.keepsAllocated i (a3 i hi)
    exact ⟨node, by rw [← hnode]; exact o5 i (by omega)⟩
  obtain ⟨st6, run6, e6, m6, s6⟩ := leafLoop_spec (n + 1) (List.range n) st5 m5
    (fun i hi => a5 i (List.mem_range.mp hi)) ⟨_, g5⟩ (List.nodup_range n)
  refine ⟨st6, ?_, ?_, m6, ?_, ?_, ?_, ?_, ?_⟩
  · simp only [ConvertLLVMNodes_, hn, run1, run2, run3, run4, run5]
    exact run6
  · rw [e6, e5, e4]
    congr 1
    simp only [leafEdgesSpec]
    congr 1
    apply List.filter_congr
    intro i hi
    rw [succsOf_append_of_ne]
    intro e he
    obtain ⟨j, hj, _, rfl⟩ := (mem_rootEdgesSpec _ _ _ _).mp he
    have := List.mem_range.mp hi
    simp only
    omega
  · rw [s6.1, l5, s4.1]
    show st3.insts_.length = _
    rw [l3, s2.1, l1]
  · rw [s6.2.1, r5, s4.2.1]
  · intro i unit h
    have hi : i < n := by
      rw [← hn]
      exact lt_length_of_getElem? _ _ _ h
    obtain ⟨node, hnode, x⟩ := s2.hasNode (g1 i unit h)
    have h3 : HasNode { st3 with root_ := some n } i (nodeNameSpec this unit)
        (nodeTypeSpec this unit) unit.opcodeName :=
      ⟨node, by rw [← hnode]; exact o3 i (by omega), x⟩
    obtain ⟨node4, hnode4, x4⟩ := s4.hasNode h3
    exact s6.hasNode ⟨node4, by rw [← hnode4]; exact o5 i (by omega), x4⟩
  · have h3 : HasNode { st3 with root_ := some n } n "artificial"
        (this.GetInstTypeByName "artificial") "__optsched_entry" := ⟨_, g3, rfl, rfl, rfl⟩
    obtain ⟨node4, hnode4, x4⟩ := s4.hasNode h3
    exact s6.hasNode ⟨node4, by rw [← hnode4]; exact o5 n (by omega), x4⟩
  · exact s6.hasNode ⟨_, g5, rfl, rfl, rfl⟩

/-- A region that passes the check is well formed. -/
theorem HostWF_of_check (this : LLVMDataDepGraph) (h : HostWFCheck this = true) :
    HostWF this := by
  simp only [HostWFCheck, Bool.and_eq_true, List.all_eq_true, Bool.or_eq_true,
    decide_eq_true_eq, Bool.not_eq_true'] at h
  refine ⟨?_, ?_⟩
  · intro i unit hi
    obtain ⟨⟨a, b⟩, c⟩ := h.1 (i, unit) (List.mk_mem_enum_iff_getElem?.mpr hi)
    exact ⟨a, b, c⟩
  · intro unit hu it hit hb
    rcases h.2 unit hu it hit with h1 | h1
    · rw [hb] at h1
      cases h1
    · exact h1

/-- Host dependences that ascend in the unit numbers have no cycle. -/
theorem HostAcyclic_of_ascending (this : LLVMDataDepGraph) (h : HostAscending this) :
    HostAcyclic this := by
  have key : ∀ a b, Relation.TransGen (HostEdge this) a b → a < b := by
    intro a b hab
    induction hab with
    | single hs =>
      obtain ⟨unit, hu, it, hit, hb, rfl, rfl⟩ := hs
      exact h unit hu it hit hb
    | tail _ hs ih =>
      obtain ⟨unit, hu, it, hit, hb, rfl, rfl⟩ := hs
      exact lt_trans ih (h unit hu it hit hb)
  intro a ha
  exact lt_irrefl a (key a a ha)

/-- The latency by the precision in effect is the latency by the configured precision. -/
theorem edgeLatencySpec_eq_byConfig (this : LLVMDataDepGraph) (unit : SUnit) (it : SDep) :
    edgeLatencySpec this unit it = edgeLatencyByConfig this unit it := by
  simp only [edgeLatencySpec, edgeLatencyByConfig, ConvertLLVMNodes_.prcsnOf]
  cases hp : this.ltncyPrcsn_ with
  | LTP_PRECISE =>
    by_cases hc : 0 < this.maxDagSizeForPrcisLtncy_ ∧
        this.maxDagSizeForPrcisLtncy_ < (this.llvmNodes_.length : Int)
    · simp [hc]
    · have hc2 : ¬ (this.maxDagSizeForPrcisLtncy_ > 0 ∧
          (this.llvmNodes_.length : Int) > this.maxDagSizeForPrcisLtncy_) := hc
      simp [hc, hc2]
  | LTP_ROUGH => simp
  | other v => simp

/-- A host dependence between two units is an edge asked for the host dependences. -/
theorem hostEdge_iff (this : LLVMDataDepGraph) (a b : Nat) :
    HostEdge this a b ↔ ∃ e ∈ hostEdges this, e.1 = a ∧ e.2.1 = b := by
  constructor
  · rintro ⟨unit, hu, it, hit, hb, rfl, rfl⟩
    exact ⟨_, (mem_hostEdges this _).mpr ⟨unit, hu, it, hit, hb, rfl⟩, rfl, rfl⟩
  · rintro ⟨e, he, rfl, rfl⟩
    obtain ⟨unit, hu, it, hit, hb, rfl⟩ := (mem_hostEdges this e).mp he
    exact ⟨unit, hu, it, hit, hb, rfl, rfl⟩

/-- The predecessor list of `k` is empty when no edge ends in `k`. -/
theorem predsOf_eq_nil_iff (edges : List (Nat × Nat × Int × DependenceType)) (k : Nat) :
    predsOf edges k = [] ↔ ∀ e ∈ edges, e.2.1 ≠ k := by
  simp only [predsOf, List.map_eq_nil_iff, List.filter_eq_nil_iff, decide_eq_true_eq]

/-- The successor list of `k` is empty when no edge starts in `k`. -/
theorem succsOf_eq_nil_iff (edges : List (Nat × Nat × Int × DependenceType)) (k : Nat) :
    succsOf edges k = [] ↔ ∀ e ∈ edges, e.1 ≠ k := by
  simp only [succsOf, List.map_eq_nil_iff, List.filter_eq_nil_iff, decide_eq_true_eq]

/-- A unit without host predecessor has no predecessor among the host edges. -/
theorem predsOf_hostEdges_eq_nil_iff (this : LLVMDataDepGraph) (i : Nat) :
    predsOf (hostEdges this) i = [] ↔ ¬ ∃ a, HostEdge this a i := by
  rw [predsOf_eq_nil_iff]
  constructor
  · rintro h ⟨a, ha⟩
    obtain ⟨e, he, _, h2⟩ := (hostEdge_iff this a i).mp ha
    exact h e he h2
  · intro h e he h2
    exact h ⟨e.1, (hostEdge_iff this e.1 i).mpr ⟨e, he, rfl, h2⟩⟩

/-- A unit without host successor has no successor among the host edges. -/
theorem succsOf_hostEdges_eq_nil_iff (this : LLVMDataDepGraph) (i : Nat) :
    succsOf (hostEdges this) i = [] ↔ ¬ ∃ b, HostEdge this i b := by
  rw [succsOf_eq_nil_iff]
  constructor
  · rintro h ⟨b, hb⟩
    obtain ⟨e, he, h1, _⟩ := (hostEdge_iff this i b).mp hb
    exact h e he h1
  · intro h e he h1
    exact h ⟨e.2.1, (hostEdge_iff this i e.2.1).mpr ⟨e, he, h1, rfl⟩⟩

/-- A non-empty well-formed host region without cycle has a unit without host
predecessor. -/
theorem exists_host_source (this : LLVMDataDepGraph) (hwf : HostWF this)
    (hne : this.llvmNodes_ ≠ []) (hacyc : HostAcyclic this) :
    ∃ i, i < this.llvmNodes_.length ∧ ¬ ∃ a, HostEdge this a i := by
  have hpos : 0 < this.llvmNodes_.length := List.length_pos.mpr hne
  let r : Fin this.llvmNodes_.length → Fin this.llvmNodes_.length → Prop :=
    fun a b => Relation.TransGen (HostEdge this) a.val b.val
  haveI ht : IsTrans _ r := ⟨fun _ _ _ h1 h2 => Relation.TransGen.trans h1 h2⟩
  haveI hirr : IsIrrefl _ r := ⟨fun a h => hacyc a.val h⟩
  have wf : WellFounded r := Finite.wellFounded_of_trans_of_irrefl r
  obtain ⟨m, _, hm⟩ := wf.has_min Set.univ ⟨⟨0, hpos⟩, trivial⟩
  refine ⟨m.val, m.isLt, ?_⟩
  rintro ⟨a, ha⟩
  obtain ⟨e, he, h1, _⟩ := (hostEdge_iff this a m.val).mp ha
  have hlt := (hostEdges_lt this hwf e he).1
  rw [h1] at hlt
  exact hm ⟨a, hlt⟩ trivial (Relation.TransGen.single ha)

/-- A non-empty well-formed host region without cycle has a unit without host
successor. -/
theorem exists_host_sink (this : LLVMDataDepGraph) (hwf : HostWF this)
    (hne : this.llvmNodes_ ≠ []) (hacyc : HostAcyclic this) :
    ∃ i, i < this.llvmNodes_.length ∧ ¬ ∃ b, HostEdge this i b := by
  have hpos : 0 < this.llvmNodes_.length := List.length_pos.mpr hne
  let r : Fin this.llvmNodes_.length → Fin this.llvmNodes_.length → Prop :=
    fun a b => Relation.TransGen (HostEdge this) b.val a.val
  haveI ht : IsTrans _ r := ⟨fun _ _ _ h1 h2 => Relation.TransGen.trans h2 h1⟩
  haveI hirr : IsIrrefl _ r := ⟨fun a h => hacyc a.val h⟩
  have wf : WellFounded r := Finite.wellFounded_of_trans_of_irrefl r
  obtain ⟨m, _, hm⟩ := wf.has_min Set.univ ⟨⟨0, hpos⟩, trivial⟩
  refine ⟨m.val, m.isLt, ?_⟩
  rintro ⟨b, hb⟩
  obtain ⟨e, he, _, h2⟩ := (hostEdge_iff this m.val b).mp hb
  have hlt := (hostEdges_lt this hwf e he).2
  rw [h2] at hlt
  exact hm ⟨b, hlt⟩ trivial (Relation.TransGen.single hb)

/-! ## `ConvertLLVMNodes_`: instruction types, latencies, root and leaf -/

/-- Claim C21, failing input: a region under `PRECISE` whose first instruction has the
opcode name `FOO`, which is no instruction type of the machine model, and a data dependence
to the second instruction.  The look-up for `FOO` gives `INVALID_INST_TYPE` (-1).  The node
of the instruction gets the name "Default" and its type 0, but the edge gets the latency
`GetLatency(INVALID_INST_TYPE, DEP_DATA)`, whatever the latency function of the model
is. -/
theorem ConvertLLVMNodes__invalid_type_reaches_GetLatency
    (GetLatency : Int → DependenceType → Int) :
    (modelRegion "FOO" .LTP_PRECISE 0 GetLatency).GetInstTypeByName "FOO" =
      (modelRegion "FOO" .LTP_PRECISE 0 GetLatency).INVALID_INST_TYPE ∧
    (ConvertLLVMNodes_ (modelRegion "FOO" .LTP_PRECISE 0 GetLatency)).map
        (fun st => (st.insts_[0]?, st.edges)) =
      some (some (some
        { num := 0, instName := "Default", instType := 0, opCode := "FOO",
          prdcsrs := [(2, 0, .DEP_OTHER)],
          scsrs := [(1, GetLatency (-1) .DEP_DATA, .DEP_DATA)] }),
        [(0, 1, GetLatency (-1) .DEP_DATA, .DEP_DATA), (2, 0, 0, .DEP_OTHER),
          (1, 3, 0, .DEP_OTHER)]) :=
  ⟨rfl, rfl⟩

/-- On a well-formed host region whose opcode names the machine model all knows
`ConvertLLVMNodes_` returns, and for every host dependence that does not end in a boundary
node it has created an edge between the two instructions whose latency is the one that the
specification asks for the type of the source instruction and the kind of the edge
(`latencyByNodeType`).  The edges between real instructions are only these. -/
theorem ConvertLLVMNodes__edge_latency_of_known (this : LLVMDataDepGraph)
    (hwf : HostWF this)
    (hknown : ∀ unit ∈ this.llvmNodes_,
      this.GetInstTypeByName unit.opcodeName ≠ this.INVALID_INST_TYPE) :
    ∃ st, ConvertLLVMNodes_ this = some st ∧
      (∀ unit ∈ this.llvmNodes_, ∀ it ∈ unit.Succs, it.getSUnit.isBoundaryNode = false →
        ∃ (node : DagNode) (d : DependenceType),
          st.insts_[unit.NodeNum]? = some (some node) ∧
          (unit.NodeNum, it.getSUnit.NodeNum, latencyByNodeType this node.instType it d,
            d) ∈ st.edges) ∧
      ∀ e ∈ st.edges, e.1 < this.llvmNodes_.length → e.2.1 < this.llvmNodes_.length →
        ∃ unit ∈ this.llvmNodes_, ∃ it ∈ unit.Succs, ∃ node : DagNode,
          it.getSUnit.isBoundaryNode = false ∧
          st.insts_[unit.NodeNum]? = some (some node) ∧
          e = (unit.NodeNum, it.getSUnit.NodeNum,
            latencyByNodeType this node.instType it e.2.2.2, e.2.2.2) := by
  obtain ⟨st, hrun, he, _, _, _, hnodes, _, _⟩ := ConvertLLVMNodes__spec this hwf
  have hnode : ∀ unit ∈ this.llvmNodes_, ∃ node : DagNode,
      st.insts_[unit.NodeNum]? = some (some node) ∧
      node.instType = this.GetInstTypeByName unit.opcodeName := by
    intro unit hu
    obtain ⟨i, hi⟩ := List.mem_iff_getElem?.mp hu
    obtain ⟨node, hn, _, ht, _⟩ := hnodes i unit hi
    simp only [nodeTypeSpec, if_neg (hknown unit hu)] at ht
    rw [(hwf.1 i unit hi).1]
    exact ⟨node, hn, ht⟩
  have hlat : ∀ (unit : SUnit) (it : SDep) (node : DagNode),
      node.instType = this.GetInstTypeByName unit.opcodeName →
      edgeLatencySpec this unit it = latencyByNodeType this node.instType it
        (ConvertLLVMNodes_.depTypeOf this it.getKind) := by
    intro unit it node ht
    rw [edgeLatencySpec_eq_byConfig, ht]
    rfl
  refine ⟨st, hrun, ?_, ?_⟩
  · intro unit hu it hit hb
    obtain ⟨node, hn, ht⟩ := hnode unit hu
    refine ⟨node, ConvertLLVMNodes_.depTypeOf this it.getKind, hn, ?_⟩
    rw [he, ← hlat unit it node ht]
    exact List.mem_append_left _ (List.mem_append_left _
      ((mem_hostEdges this _).mpr ⟨unit, hu, it, hit, hb, rfl⟩))
  · intro e hmem h1 h2
    rw [he] at hmem
    rcases List.mem_append.mp hmem with hmem | hmem
    · rcases List.mem_append.mp hmem with hmem | hmem
      · obtain ⟨unit, hu, it, hit, hb, rfl⟩ := (mem_hostEdges this e).mp hmem
        obtain ⟨node, hn, ht⟩ := hnode unit hu
        exact ⟨unit, hu, it, hit, node, hb, hn, by rw [hlat unit it node ht]⟩
      · obtain ⟨i, _, _, rfl⟩ := (mem_rootEdgesSpec _ _ _ _).mp hmem
        exact absurd h1 (lt_irrefl _)
    · obtain ⟨i, _, _, rfl⟩ := (mem_leafEdgesSpec _ _ _ _).mp hmem
      simp only at h2
      omega

/-- Claim C23, counterexample: a region of two instructions under `PRECISE` with the
configured maximum 0.  The node count 2 exceeds the maximum, yet the edge for the data
dependence `0 → 1` gets the machine-model latency 7 of `PRECISE`, not the host latency 3 of
`ROUGH`. -/
theorem PRECISE_kept_when_maximum_not_positive :
    (modelRegion "LOAD" .LTP_PRECISE 0 sampleLatency).ltncyPrcsn_ = .LTP_PRECISE ∧
    (modelRegion "LOAD" .LTP_PRECISE 0 sampleLatency).maxDagSizeForPrcisLtncy_ <
      ((modelRegion "LOAD" .LTP_PRECISE 0 sampleLatency).llvmNodes_.length : Int) ∧
    ConvertLLVMNodes_.prcsnOf (modelRegion "LOAD" .LTP_PRECISE 0 sampleLatency) =
      .LTP_PRECISE ∧
    (ConvertLLVMNodes_ (modelRegion "LOAD" .LTP_PRECISE 0 sampleLatency)).map
        (fun st => st.edges) =
      some [(0, 1, 7, .DEP_DATA), (2, 0, 0, .DEP_OTHER), (1, 3, 0, .DEP_OTHER)] ∧
    (ConvertLLVMNodes_ (modelRegion "LOAD" .LTP_ROUGH 0 sampleLatency)).map
        (fun st => st.edges) =
      some [(0, 1, 3, .DEP_DATA), (2, 0, 0, .DEP_OTHER), (1, 3, 0, .DEP_OTHER)] := by
  decide

/-- Claim C23, amended: on a well-formed host region `ConvertLLVMNodes_` returns, and the
edges between real instructions are the edges for the host dependences that do not end in a
boundary node, with the latency `edgeLatencyByConfig`: a `PRECISE` setting is treated as
`ROUGH` for every edge when the configured maximum is positive and the node count exceeds
it, `PRECISE` stays `PRECISE` otherwise, and `ROUGH` and the other settings are never
changed. -/
theorem ConvertLLVMNodes__latency_by_config (this : LLVMDataDepGraph) (hwf : HostWF this) :
    ∃ st, ConvertLLVMNodes_ this = some st ∧
      (∀ unit ∈ this.llvmNodes_, ∀ it ∈ unit.Succs, it.getSUnit.isBoundaryNode = false →
        (unit.NodeNum, it.getSUnit.NodeNum, edgeLatencyByConfig this unit it,
          ConvertLLVMNodes_.depTypeOf this it.getKind) ∈ st.edges) ∧
      ∀ e ∈ st.edges, e.1 < this.llvmNodes_.length → e.2.1 < this.llvmNodes_.length →
        ∃ unit ∈ this.llvmNodes_, ∃ it ∈ unit.Succs, it.getSUnit.isBoundaryNode = false ∧
          e = (unit.NodeNum, it.getSUnit.NodeNum, edgeLatencyByConfig this unit it,
            ConvertLLVMNodes_.depTypeOf this it.getKind) := by
  obtain ⟨st, hrun, he, _⟩ := ConvertLLVMNodes__spec this hwf
  refine ⟨st, hrun, ?_, ?_⟩
  · intro unit hu it hit hb
    rw [he, ← edgeLatencySpec_eq_byConfig]
    exact List.mem_append_left _ (List.mem_append_left _
      ((mem_hostEdges this _).mpr ⟨unit, hu, it, hit, hb, rfl⟩))
  · intro e hmem h1 h2
    rw [he] at hmem
    rcases List.mem_append.mp hmem with hmem | hmem
    · rcases List.mem_append.mp hmem with hmem | hmem
      · obtain ⟨unit, hu, it, hit, hb, rfl⟩ := (mem_hostEdges this e).mp hmem
        exact ⟨unit, hu, it, hit, hb, by rw [edgeLatencySpec_eq_byConfig]⟩
      · obtain ⟨i, _, _, rfl⟩ := (mem_rootEdgesSpec _ _ _ _).mp hmem
        exact absurd h1 (lt_irrefl _)
    · obtain ⟨i, _, _, rfl⟩ := (mem_leafEdgesSpec _ _ _ _).mp hmem
      simp only at h2
      omega

/-- Witness for C23 on a region of two instructions under `PRECISE` with the configured
maximum 1: the edge for the data dependence `0 → 1` has the host latency 3. -/
theorem ConvertLLVMNodes__latency_by_config_witness :
    HostWF (modelRegion "LOAD" .LTP_PRECISE 1 sampleLatency) ∧
    ∃ st, ConvertLLVMNodes_ (modelRegion "LOAD" .LTP_PRECISE 1 sampleLatency) = some st ∧
      (0, 1, 3, DependenceType.DEP_DATA) ∈ st.edges :=
  have hwf := HostWF_of_check (modelRegion "LOAD" .LTP_PRECISE 1 sampleLatency) (by decide)
  match ConvertLLVMNodes__latency_by_config
    (modelRegion "LOAD" .LTP_PRECISE 1 sampleLatency) hwf with
  | ⟨st, hrun, h1, _⟩ =>
    ⟨hwf, st, hrun, h1 _ (List.mem_cons_self _ _) _ (List.mem_cons_self _ _) rfl⟩

/-- Claim C24: on a non-empty well-formed host region of `n` real instructions without
cycle `ConvertLLVMNodes_` returns; the graph has `n + 2` instructions, numbered by their
index; the artificial root (number `n`, stored in `root_`) has a 0-latency `OTHER` edge to
exactly the real instructions without host predecessor and no other edge; the artificial
leaf (number `n + 1`) has a 0-latency `OTHER` edge from exactly the real instructions
without host successor and no other edge; the root is the only instruction without
predecessors and the leaf the only instruction without successors.  Host predecessors and
successors are those of the host dependences between units of the region (`HostEdge`); a
dependence that ends in a boundary node of the host is none. -/
theorem ConvertLLVMNodes__root_and_leaf (this : LLVMDataDepGraph) (hwf : HostWF this)
    (hne : this.llvmNodes_ ≠ []) (hacyc : HostAcyclic this) :
    ∃ st, ConvertLLVMNodes_ this = some st ∧
      st.insts_.length = this.llvmNodes_.length + 2 ∧
      (∀ k, k < this.llvmNodes_.length + 2 →
        ∃ node, st.insts_[k]? = some (some node) ∧ node.num = k) ∧
      st.root_ = some this.llvmNodes_.length ∧
      (∀ i, i < this.llvmNodes_.length →
        ((this.llvmNodes_.length, i, 0, DependenceType.DEP_OTHER) ∈ st.edges ↔
          ¬ ∃ a, HostEdge this a i)) ∧
      (∀ e ∈ st.edges, e.1 = this.llvmNodes_.length ∨ e.2.1 = this.llvmNodes_.length →
        ∃ i, i < this.llvmNodes_.length ∧
          e = (this.llvmNodes_.length, i, 0, DependenceType.DEP_OTHER)) ∧
      (∀ i, i < this.llvmNodes_.length →
        ((i, this.llvmNodes_.length + 1, 0, DependenceType.DEP_OTHER) ∈ st.edges ↔
          ¬ ∃ b, HostEdge this i b)) ∧
      (∀ e ∈ st.edges,
        e.1 = this.llvmNodes_.length + 1 ∨ e.2.1 = this.llvmNodes_.length + 1 →
        ∃ i, i < this.llvmNodes_.length ∧
          e = (i, this.llvmNodes_.length + 1, 0, DependenceType.DEP_OTHER)) ∧
      ∀ (k : Nat) (node : DagNode), st.insts_[k]? = some (some node) →
        (node.prdcsrs = [] ↔ k = this.llvmNodes_.length) ∧
        (node.scsrs = [] ↔ k = this.llvmNodes_.length + 1) := by
  obtain ⟨st, hrun, he, hm, hlen, hroot, hnodes, hrn, hln⟩ := ConvertLLVMNodes__spec this hwf
  obtain ⟨src, hsrc, hsrc2⟩ := exists_host_source this hwf hne hacyc
  obtain ⟨snk, hsnk, hsnk2⟩ := exists_host_sink this hwf hne hacyc
  generalize hn : this.llvmNodes_.length = n at *
  have hhost : ∀ e ∈ hostEdges this, e.1 < n ∧ e.2.1 < n := by
    intro e h
    have := hostEdges_lt this hwf e h
    omega
  have hcases : ∀ e ∈ st.edges, (e ∈ hostEdges this) ∨
      (∃ i, i < n ∧ predsOf (hostEdges this) i = [] ∧
        e = (n, i, 0, DependenceType.DEP_OTHER)) ∨
      (∃ i, i < n ∧ succsOf (hostEdges this) i = [] ∧
        e = (i, n + 1, 0, DependenceType.DEP_OTHER)) := by
    intro e hmem
    rw [he] at hmem
    rcases List.mem_append.mp hmem with hmem | hmem
    · rcases List.mem_append.mp hmem with hmem | hmem
      · exact Or.inl hmem
      · obtain ⟨i, hi, hp, rfl⟩ := (mem_rootEdgesSpec _ _ _ _).mp hmem
        exact Or.inr (Or.inl ⟨i, List.mem_range.mp hi, hp, rfl⟩)
    · obtain ⟨i, hi, hp, rfl⟩ := (mem_leafEdgesSpec _ _ _ _).mp hmem
      exact Or.inr (Or.inr ⟨i, List.mem_range.mp hi, hp, rfl⟩)
  have hrootmem : ∀ i, i < n → predsOf (hostEdges this) i = [] →
      (n, i, 0, DependenceType.DEP_OTHER) ∈ st.edges := by
    intro i hi hp
    rw [he]
    exact List.mem_append_left _ (List.mem_append_right _
      ((mem_rootEdgesSpec _ _ _ _).mpr ⟨i, List.mem_range.mpr hi, hp, rfl⟩))
  have hleafmem : ∀ i, i < n → succsOf (hostEdges this) i = [] →
      (i, n + 1, 0, DependenceType.DEP_OTHER) ∈ st.edges := by
    intro i hi hp
    rw [he]
    exact List.mem_append_right _
      ((mem_leafEdgesSpec _ _ _ _).mpr ⟨i, List.mem_range.mpr hi, hp, rfl⟩)
  have hhostmem : ∀ e ∈ hostEdges this, e ∈ st.edges := by
    intro e h
    rw [he]
    exact List.mem_append_left _ (List.mem_append_left _ h)
  refine ⟨st, hrun, hlen, ?_, hroot, ?_, ?_, ?_, ?_, ?_⟩
  · intro k hk
    have hk2 : k < st.insts_.length := by omega
    by_cases h1 : k < n
    · have hget : this.llvmNodes_[k]? = some (this.llvmNodes_[k]) :=
        List.getElem?_eq_getElem (by omega)
      obtain ⟨node, hnode, _⟩ := hnodes k _ hget
      exact ⟨node, hnode, (hm k node hnode).1⟩
    · by_cases h2 : k = n
      · subst h2
        obtain ⟨node, hnode, _⟩ := hrn
        exact ⟨node, hnode, (hm _ node hnode).1⟩
      · have h3 : k = n + 1 := by omega
        subst h3
        obtain ⟨node, hnode, _⟩ := hln
        exact ⟨node, hnode, (hm _ node hnode).1⟩
  · intro i hi
    rw [← predsOf_hostEdges_eq_nil_iff]
    constructor
    · intro hmem
      rcases hcases _ hmem with h | ⟨j, _, hp, h⟩ | ⟨j, _, _, h⟩
      · have := (hhost _ h).1
        simp only at this
        omega
      · simp only [Prod.mk.injEq] at h
        rw [h.2.1]
        exact hp
      · simp only [Prod.mk.injEq] at h
        omega
    · exact hrootmem i hi
  · intro e hmem h
    rcases hcases e hmem with h1 | ⟨j, hj, _, h1⟩ | ⟨j, hj, _, h1⟩
    · have := hhost e h1
      omega
    · exact ⟨j, hj, h1⟩
    · subst h1
      simp only at h
      omega
  · intro i hi
    rw [← succsOf_hostEdges_eq_nil_iff]
    constructor
    · intro hmem
      rcases hcases _ hmem with h | ⟨j, _, _, h⟩ | ⟨j, _, hp, h⟩
      · have := (hhost _ h).2
        simp only at this
        omega
      · simp only [Prod.mk.injEq] at h
        omega
      · simp only [Prod.mk.injEq] at h
        rw [h.1]
        exact hp
    · exact hleafmem i hi
  · intro e hmem h
    rcases hcases e hmem with h1 | ⟨j, hj, _, h1⟩ | ⟨j, hj, _, h1⟩
    · have := hhost e h1
      omega
    · subst h1
      simp only at h
      omega
    · exact ⟨j, hj, h1⟩
  · intro k node hnode
    obtain ⟨_, hs, hp⟩ := hm k node hnode
    have hk : k < n + 2 := by
      rw [← hlen]
      exact lt_length_of_getElem? _ _ _ hnode
    rw [hs, hp, predsOf_eq_nil_iff, succsOf_eq_nil_iff]
    refine ⟨⟨?_, ?_⟩, ⟨?_, ?_⟩⟩
    · intro hall
      by_contra hkn
      by_cases h1 : k < n
      · by_cases hp1 : predsOf (hostEdges this) k = []
        · exact hall _ (hrootmem k h1 hp1) rfl
        · obtain ⟨e, he1, he2⟩ : ∃ e ∈ hostEdges this, e.2.1 = k := by
            by_contra hcon
            exact hp1 ((predsOf_eq_nil_iff _ _).mpr
              (fun e he1 he2 => hcon ⟨e, he1, he2⟩))
          exact hall e (hhostmem e he1) he2
      · have h3 : k = n + 1 := by omega
        subst h3
        exact hall _ (hleafmem snk hsnk
          ((succsOf_hostEdges_eq_nil_iff this snk).mpr hsnk2)) rfl
    · rintro rfl e hmem h
      rcases hcases e hmem with h1 | ⟨j, hj, _, h1⟩ | ⟨j, hj, _, h1⟩
      · have := hhost e h1
        omega
      · subst h1
        simp only at h
        omega
      · subst h1
        simp only at h
        omega
    · intro hall
      by_contra hkn
      by_cases h1 : k < n
      · by_cases hp1 : succsOf (hostEdges this) k = []
        · exact hall _ (hleafmem k h1 hp1) rfl
        · obtain ⟨e, he1, he2⟩ : ∃ e ∈ hostEdges this, e.1 = k := by
            by_contra hcon
            exact hp1 ((succsOf_eq_nil_iff _ _).mpr
              (fun e he1 he2 => hcon ⟨e, he1, he2⟩))
          exact hall e (hhostmem e he1) he2
      · have h3 : k = n := by omega
        subst h3
        exact hall _ (hrootmem src hsrc
          ((predsOf_hostEdges_eq_nil_iff this src).mpr hsrc2)) rfl
    · rintro rfl e hmem h
      rcases hcases e hmem with h1 | ⟨j, hj, _, h1⟩ | ⟨j, hj, _, h1⟩
      · have := hhost e h1
        omega
      · subst h1
        simp only at h
        omega
      · subst h1
        simp only at h
        omega

/-- Witness for C24 on the host region of two instructions with the dependence `0 → 1`:
the graph has 4 instructions, the root edge goes to instruction 0 and the leaf edge comes
from instruction 1. -/
theorem ConvertLLVMNodes__root_and_leaf_witness :
    HostWF twoUnitRegion ∧ twoUnitRegion.llvmNodes_ ≠ [] ∧ HostAcyclic twoUnitRegion ∧
    ∃ st, ConvertLLVMNodes_ twoUnitRegion = some st ∧ st.insts_.length = 4 ∧
      st.root_ = some 2 ∧ (2, 0, 0, DependenceType.DEP_OTHER) ∈ st.edges ∧
      (1, 3, 0, DependenceType.DEP_OTHER) ∈ st.edges :=
  have hwf := HostWF_of_check twoUnitRegion (by decide)
  have hne : twoUnitRegion.llvmNodes_ ≠ [] := by decide
  have hacyc := HostAcyclic_of_ascending twoUnitRegion (by unfold HostAscending; decide)
  match ConvertLLVMNodes__root_and_leaf twoUnitRegion hwf hne hacyc with
  | ⟨st, hrun, hlen, _, hroot, hr, _, hl, _, _⟩ =>
    ⟨hwf, hne, hacyc, st, hrun, hlen, hroot,
      (hr 0 (by decide)).mpr (fun ⟨a, unit, hu, it, hit, _, _, h0⟩ => by
        simp only [twoUnitRegion, List.mem_cons, List.mem_singleton,
          List.not_mem_nil, or_false] at hu
        rcases hu with rfl | rfl
        · simp only [List.mem_singleton] at hit
          subst hit
          cases h0
        · cases hit),
      (hl 1 (by decide)).mpr (fun ⟨b, unit, hu, it, hit, _, h1, _⟩ => by
        simp only [twoUnitRegion, List.mem_cons, List.mem_singleton,
          List.not_mem_nil, or_false] at hu
        rcases hu with rfl | rfl
        · cases h1
        · cases hit)⟩

end OptSched
